import Mathlib

/-!
# go-keeper: a verification development

A shallow embedding of the secret vault of `go-keeper` (envelope cipher,
payload registry, vault service, repository, session tokens, request gate)
and theorems about it.

Conventions of the embedding

* A Go `string` and a Go `[]byte` are lists of bytes (`Bytes`); a Go string
  is not required to be valid UTF-8, exactly as in Go.
* A Go `error` result is an `Option Error` (`none` is `nil`); a function
  returning `(T, error)` returns the pair, so that the value handed back
  next to an error is part of the model.
* A function that can panic returns `Run α`.
* Calls into the Go standard library and into third-party packages are
  modelled by the definitions of the sections named after the package.
-/

namespace GoKeeper

/-! ## Bytes, errors, outcomes -/

/-- One byte. -/
abbrev Byte := Fin 256

/-- A byte string: the model of both `[]byte` and `string`. -/
abbrev Bytes := List Byte

/-- The byte with the given value (reduced modulo 256). -/
def byte (n : Nat) : Byte := ⟨n % 256, Nat.mod_lt _ (by decide)⟩

/-- The bytes of an ASCII string literal of the source. -/
def ascii (s : String) : Bytes := s.toList.map (fun c => byte c.toNat)

/-- Go error values. Sentinel errors of the repository are constructors of
their own; errors made by libraries carry the package and a kind; `wrap` is
`fmt.Errorf("...: %w", inner)`. -/
inductive Error where
  | ErrDataNotFound
  | ErrUserNotFound
  | ErrLoginAlreadyExist
  | ErrTypeNotFound
  /-- Modelled from the spec: the variable `ErrInvalidDataBody` of package
  `handlers`, whose declaration is not among the sources. It is an error value
  of its own. -/
  | ErrInvalidDataBody
  | base64Corrupt
  | aesKeySize (n : Nat)
  | gcmOpen
  | randRead
  | jsonSyntax
  | jsonUnmarshalType
  | jsonMarshal (msg : String)
  | jwtMalformed
  | jwtUnverifiable
  | jwtSignatureInvalid
  | jwtExpired
  | jwtNotValidYet
  | jwtInvalidClaims
  | httpNoCookie
  | other (msg : String)
  | wrap (msg : String) (inner : Error)
  deriving DecidableEq, Repr

/-- The outcome of running Go code that may panic. -/
inductive Run (α : Type) where
  | done (a : α)
  | panic (msg : String)
  deriving DecidableEq, Repr

/-- Sequencing of code that may panic. -/
def Run.bind {α β : Type} (r : Run α) (f : α → Run β) : Run β :=
  match r with
  | .done a => f a
  | .panic m => .panic m

/-! ## encoding/base64 -/

/-- The two encodings the program uses: `StdEncoding` (standard alphabet,
padded) and `RawURLEncoding` (URL alphabet, unpadded). Neither is strict. -/
inductive B64 where
  | std
  | rawURL
  deriving DecidableEq, Repr

/-- Whether the encoding pads the last quantum with `=`. -/
def B64.padded : B64 → Bool
  | .std => true
  | .rawURL => false

/-- The character of a six-bit value. -/
def B64.encChar (e : B64) (i : Nat) : Byte :=
  if i < 26 then byte (65 + i)
  else if i < 52 then byte (97 + (i - 26))
  else if i < 62 then byte (48 + (i - 52))
  else if i = 62 then (match e with | .std => 43 | .rawURL => 45)
  else (match e with | .std => 47 | .rawURL => 95)

/-- The six-bit value of a character of the alphabet. -/
def B64.decChar (e : B64) (c : Byte) : Option Nat :=
  if 65 ≤ c.val ∧ c.val ≤ 90 then some (c.val - 65)
  else if 97 ≤ c.val ∧ c.val ≤ 122 then some (c.val - 71)
  else if 48 ≤ c.val ∧ c.val ≤ 57 then some (c.val + 4)
  else match e with
    | .std => if c.val = 43 then some 62 else if c.val = 47 then some 63 else none
    | .rawURL => if c.val = 45 then some 62 else if c.val = 95 then some 63 else none

/-- `Encoding.EncodeToString`. -/
def B64.encode (e : B64) : Bytes → Bytes
  | [] => []
  | [a] =>
    [e.encChar (a.val / 4), e.encChar (a.val % 4 * 16)] ++
      (if e.padded then [61, 61] else [])
  | [a, b] =>
    [e.encChar (a.val / 4), e.encChar (a.val % 4 * 16 + b.val / 16),
      e.encChar (b.val % 16 * 4)] ++ (if e.padded then [61] else [])
  | a :: b :: c :: rest =>
    e.encChar (a.val / 4) :: e.encChar (a.val % 4 * 16 + b.val / 16) ::
      e.encChar (b.val % 16 * 4 + c.val / 64) :: e.encChar (c.val % 64) :: e.encode rest

/-- Whether the byte is `\r` or `\n`, which the decoder skips. -/
def isNewline (c : Byte) : Bool := c.val = 10 || c.val = 13

/-- The input after its leading `\r` and `\n`. -/
def skipNewlines : Bytes → Bytes
  | [] => []
  | c :: rest => if isNewline c then skipNewlines rest else c :: rest

/-- The bytes of one quantum of 2, 3 or 4 six-bit values. The unused low bits
of a short quantum are dropped without a check (the encodings are not
strict). -/
def quantumBytes : List Nat → Bytes
  | [s0, s1] => [byte (s0 * 4 + s1 / 16)]
  | [s0, s1, s2] => [byte (s0 * 4 + s1 / 16), byte (s1 % 16 * 16 + s2 / 4)]
  | [s0, s1, s2, s3] =>
    [byte (s0 * 4 + s1 / 16), byte (s1 % 16 * 16 + s2 / 4), byte (s2 % 4 * 64 + s3)]
  | _ => []

/-- The decoding loop: `acc` holds the six-bit values read so far in the
current quantum. Returns the bytes decoded so far and the error, if any. -/
def B64.decodeLoop (e : B64) (acc : List Nat) : Bytes → Bytes × Option Error
  | [] =>
    if acc.length = 0 then ([], none)
    else if acc.length = 1 ∨ e.padded then ([], some .base64Corrupt)
    else (quantumBytes acc, none)
  | c :: rest =>
    if isNewline c then e.decodeLoop acc rest
    else match e.decChar c with
      | some v =>
        if acc.length = 3 then
          let r := e.decodeLoop [] rest
          (quantumBytes (acc ++ [v]) ++ r.1, r.2)
        else e.decodeLoop (acc ++ [v]) rest
      | none =>
        if c.val = 61 ∧ e.padded then
          if acc.length < 2 then ([], some .base64Corrupt)
          else if acc.length = 2 then
            match skipNewlines rest with
            | [] => ([], some .base64Corrupt)
            | c2 :: rest2 =>
              if c2.val ≠ 61 then ([], some .base64Corrupt)
              else if skipNewlines rest2 = [] then (quantumBytes acc, none)
              else ([], some .base64Corrupt)
          else if skipNewlines rest = [] then (quantumBytes acc, none)
          else ([], some .base64Corrupt)
        else ([], some .base64Corrupt)

/-- `Encoding.DecodeString`: the decoded bytes and the error. The offset a
`CorruptInputError` carries is not modelled. -/
def B64.decode (e : B64) (s : Bytes) : Bytes × Option Error := e.decodeLoop [] s

/-! ## crypto/aes -/

/-- The AES substitution box. -/
def sboxTable : List Nat :=
  [ 0x63, 0x7c, 0x77, 0x7b, 0xf2, 0x6b, 0x6f, 0xc5, 0x30, 0x01, 0x67, 0x2b, 0xfe, 0xd7, 0xab, 0x76,
    0xca, 0x82, 0xc9, 0x7d, 0xfa, 0x59, 0x47, 0xf0, 0xad, 0xd4, 0xa2, 0xaf, 0x9c, 0xa4, 0x72, 0xc0,
    0xb7, 0xfd, 0x93, 0x26, 0x36, 0x3f, 0xf7, 0xcc, 0x34, 0xa5, 0xe5, 0xf1, 0x71, 0xd8, 0x31, 0x15,
    0x04, 0xc7, 0x23, 0xc3, 0x18, 0x96, 0x05, 0x9a, 0x07, 0x12, 0x80, 0xe2, 0xeb, 0x27, 0xb2, 0x75,
    0x09, 0x83, 0x2c, 0x1a, 0x1b, 0x6e, 0x5a, 0xa0, 0x52, 0x3b, 0xd6, 0xb3, 0x29, 0xe3, 0x2f, 0x84,
    0x53, 0xd1, 0x00, 0xed, 0x20, 0xfc, 0xb1, 0x5b, 0x6a, 0xcb, 0xbe, 0x39, 0x4a, 0x4c, 0x58, 0xcf,
    0xd0, 0xef, 0xaa, 0xfb, 0x43, 0x4d, 0x33, 0x85, 0x45, 0xf9, 0x02, 0x7f, 0x50, 0x3c, 0x9f, 0xa8,
    0x51, 0xa3, 0x40, 0x8f, 0x92, 0x9d, 0x38, 0xf5, 0xbc, 0xb6, 0xda, 0x21, 0x10, 0xff, 0xf3, 0xd2,
    0xcd, 0x0c, 0x13, 0xec, 0x5f, 0x97, 0x44, 0x17, 0xc4, 0xa7, 0x7e, 0x3d, 0x64, 0x5d, 0x19, 0x73,
    0x60, 0x81, 0x4f, 0xdc, 0x22, 0x2a, 0x90, 0x88, 0x46, 0xee, 0xb8, 0x14, 0xde, 0x5e, 0x0b, 0xdb,
    0xe0, 0x32, 0x3a, 0x0a, 0x49, 0x06, 0x24, 0x5c, 0xc2, 0xd3, 0xac, 0x62, 0x91, 0x95, 0xe4, 0x79,
    0xe7, 0xc8, 0x37, 0x6d, 0x8d, 0xd5, 0x4e, 0xa9, 0x6c, 0x56, 0xf4, 0xea, 0x65, 0x7a, 0xae, 0x08,
    0xba, 0x78, 0x25, 0x2e, 0x1c, 0xa6, 0xb4, 0xc6, 0xe8, 0xdd, 0x74, 0x1f, 0x4b, 0xbd, 0x8b, 0x8a,
    0x70, 0x3e, 0xb5, 0x66, 0x48, 0x03, 0xf6, 0x0e, 0x61, 0x35, 0x57, 0xb9, 0x86, 0xc1, 0x1d, 0x9e,
    0xe1, 0xf8, 0x98, 0x11, 0x69, 0xd9, 0x8e, 0x94, 0x9b, 0x1e, 0x87, 0xe9, 0xce, 0x55, 0x28, 0xdf,
    0x8c, 0xa1, 0x89, 0x0d, 0xbf, 0xe6, 0x42, 0x68, 0x41, 0x99, 0x2d, 0x0f, 0xb0, 0x54, 0xbb, 0x16 ]

/-- SubBytes on one byte. -/
def subByte (b : Nat) : Nat := sboxTable.getD b 0

/-- Multiplication by x in GF(2^8) modulo x^8 + x^4 + x^3 + x + 1. -/
def xtime (b : Nat) : Nat := if b < 128 then 2 * b else (2 * b) % 256 ^^^ 0x1b

/-- Bytewise exclusive or of two words or states. -/
def xorNats (a b : List Nat) : List Nat := List.zipWith (fun x y => x ^^^ y) a b

/-- MixColumns on one column. -/
def mixColumn : List Nat → List Nat
  | [a0, a1, a2, a3] =>
    [ xtime a0 ^^^ (xtime a1 ^^^ a1) ^^^ a2 ^^^ a3,
      a0 ^^^ xtime a1 ^^^ (xtime a2 ^^^ a2) ^^^ a3,
      a0 ^^^ a1 ^^^ xtime a2 ^^^ (xtime a3 ^^^ a3),
      (xtime a0 ^^^ a0) ^^^ a1 ^^^ a2 ^^^ xtime a3 ]
  | c => c

/-- MixColumns on the state (sixteen bytes, column after column). -/
def mixColumns (s : List Nat) : List Nat :=
  mixColumn (s.take 4) ++ mixColumn ((s.drop 4).take 4) ++
    mixColumn ((s.drop 8).take 4) ++ mixColumn ((s.drop 12).take 4)

/-- ShiftRows: row r of the state is rotated left by r columns. -/
def shiftRows (s : List Nat) : List Nat :=
  (List.range 16).map (fun i => s.getD ((i + 4 * (i % 4)) % 16) 0)

/-- The round constants. -/
def rconTable : List Nat := [1, 2, 4, 8, 16, 32, 64, 128, 27, 54]

/-- The next word of the key schedule: `i` is its index, `prev` the word
before it and `back` the word `nk` places before it. -/
def nextWord (nk i : Nat) (prev back : List Nat) : List Nat :=
  let t :=
    if i % nk = 0 then
      xorNats ((prev.rotateLeft 1).map subByte) [rconTable.getD (i / nk - 1) 0, 0, 0, 0]
    else if 6 < nk ∧ i % nk = 4 then prev.map subByte
    else prev
  xorNats back t

/-- Extends the key schedule by `n` words. -/
def expandLoop (nk : Nat) : Nat → List (List Nat) → List (List Nat)
  | 0, ws => ws
  | n + 1, ws =>
    expandLoop nk n
      (ws ++ [nextWord nk ws.length (ws.getD (ws.length - 1) []) (ws.getD (ws.length - nk) [])])

/-- The words of the key schedule of a key of 16, 24 or 32 bytes. -/
def expandKey (key : List Nat) : List (List Nat) :=
  let nk := key.length / 4
  let w0 := (List.range nk).map (fun i => (key.drop (4 * i)).take 4)
  expandLoop nk (4 * (nk + 7) - nk) w0

/-- The round key of round `r`: sixteen bytes. -/
def roundKey (ws : List (List Nat)) (r : Nat) : List Nat :=
  ((ws.drop (4 * r)).take 4).flatten

/-- The middle rounds of the cipher, from round `r` on, `n` of them. -/
def aesRounds (ws : List (List Nat)) : Nat → Nat → List Nat → List Nat
  | 0, _, s => s
  | n + 1, r, s =>
    aesRounds ws n (r + 1) (xorNats (mixColumns (shiftRows (s.map subByte))) (roundKey ws r))

/-- The AES encryption of one sixteen-byte block under the key. -/
def aesEncryptBlock (key : Bytes) (block : Bytes) : Bytes :=
  let ws := expandKey (key.map Fin.val)
  let nr := key.length / 4 + 6
  let s0 := xorNats (block.map Fin.val) (roundKey ws 0)
  let s1 := aesRounds ws (nr - 1) 1 s0
  (xorNats (shiftRows (s1.map subByte)) (roundKey ws nr)).map byte

/-- The interface `cipher.Block`, as far as the program uses it. -/
structure Block where
  /-- The size of a block in bytes. -/
  blockSize : Nat
  /-- The encryption of one block. -/
  encrypt : Bytes → Bytes

/-- `aes.NewCipher`: a key of 16, 24 or 32 bytes selects AES-128, AES-192 or
AES-256; any other length is a `KeySizeError`. -/
def aesNewCipher (key : Bytes) : Except Error Block :=
  if key.length = 16 ∨ key.length = 24 ∨ key.length = 32 then
    .ok { blockSize := 16, encrypt := aesEncryptBlock key }
  else .error (.aesKeySize key.length)

/-! ## crypto/cipher: GCM -/

/-- The value of a byte string read as a big-endian number. -/
def beNat (bs : Bytes) : Nat := bs.foldl (fun acc b => acc * 256 + b.val) 0

/-- The `n` bytes of the big-endian representation of a number. -/
def natBE (n : Nat) (x : Nat) : Bytes :=
  (List.range n).map (fun i => byte (x / 2 ^ (8 * (n - 1 - i))))

/-- Multiplication in GF(2^128) in the bit order of GCM, on blocks read as
big-endian numbers. -/
def gfMul (x y : Nat) : Nat :=
  ((List.range 128).foldl
    (fun (zv : Nat × Nat) i =>
      let z := if x.testBit (127 - i) then zv.1 ^^^ zv.2 else zv.1
      let v := if zv.2.testBit 0 then (zv.2 >>> 1) ^^^ (0xe1 <<< 120) else zv.2 >>> 1
      (z, v))
    (0, y)).1

/-- The blocks of a byte string, the last one padded with zero bytes, as
big-endian numbers. -/
def ghashBlocks (data : Bytes) : List Nat :=
  (List.range ((data.length + 15) / 16)).map (fun i =>
    let blk := (data.drop (16 * i)).take 16
    beNat (blk ++ List.replicate (16 - blk.length) 0))

/-- GHASH of the additional data and the ciphertext under the hash key. -/
def ghash (h : Nat) (aad ct : Bytes) : Nat :=
  (ghashBlocks aad ++ ghashBlocks ct ++
      [(aad.length * 8 % 2 ^ 64) * 2 ^ 64 + ct.length * 8 % 2 ^ 64]).foldl
    (fun y x => gfMul (y ^^^ x) h) 0

/-- Exclusive or of the data with a key stream; the result has the length of
the data. -/
def xorBytes : Bytes → Bytes → Bytes
  | [], _ => []
  | a :: rest, ks => byte (a.val ^^^ (ks.headD 0).val) :: xorBytes rest ks.tail

/-- The counter block `k` steps after `j0`: the last four bytes count modulo
2^32. -/
def ctrBlock (j0 : Bytes) (k : Nat) : Bytes :=
  j0.take 12 ++ natBE 4 ((beNat (j0.drop 12) + k) % 2 ^ 32)

/-- The key stream for `n` bytes of data: the encryptions of the counter
blocks after `j0`. -/
def keystream (b : Block) (j0 : Bytes) (n : Nat) : Bytes :=
  ((List.range ((n + 15) / 16)).map (fun i => b.encrypt (ctrBlock j0 (i + 1)))).flatten

/-- An AEAD made by `cipher.NewGCM`. -/
structure GCM where
  /-- The block cipher. -/
  block : Block
  /-- The size of a nonce in bytes. -/
  nonceSize : Nat
  /-- The size of the authentication tag in bytes. -/
  tagSize : Nat

/-- `cipher.NewGCM`: requires a cipher with blocks of sixteen bytes; nonces
have twelve bytes and tags sixteen. -/
def cipherNewGCM (b : Block) : Except Error GCM :=
  if b.blockSize = 16 then .ok { block := b, nonceSize := 12, tagSize := 16 }
  else .error (.other "cipher: NewGCM requires 128-bit block cipher")

/-- The largest plaintext GCM accepts: 2^32 - 2 blocks. -/
def gcmMaxPlaintext : Nat := (2 ^ 32 - 2) * 16

/-- The authentication tag of a ciphertext under a nonce (no additional
data: the program passes `nil`). -/
def GCM.tag (g : GCM) (nonce ct : Bytes) : Bytes :=
  let h := beNat (g.block.encrypt (List.replicate 16 0))
  let j0 := nonce ++ [0, 0, 0, 1]
  xorBytes (natBE 16 (ghash h [] ct)) (g.block.encrypt j0)

/-- `AEAD.Seal(dst, nonce, plaintext, nil)`: appends the ciphertext and the
tag to `dst`. Panics on a nonce of the wrong length and on a plaintext over
the limit. -/
def GCM.Seal (g : GCM) (dst nonce plaintext : Bytes) : Run Bytes :=
  if nonce.length ≠ g.nonceSize then
    .panic "crypto/cipher: incorrect nonce length given to GCM"
  else if gcmMaxPlaintext < plaintext.length then
    .panic "crypto/cipher: message too large for GCM"
  else
    let j0 := nonce ++ [0, 0, 0, 1]
    let ct := xorBytes plaintext (keystream g.block j0 plaintext.length)
    .done (dst ++ ct ++ g.tag nonce ct)

/-- `AEAD.Open(nil, nonce, ciphertext, nil)`: checks the tag, which is the
last `tagSize` bytes, and decrypts. Panics on a nonce of the wrong
length. -/
def GCM.Open (g : GCM) (nonce ciphertext : Bytes) : Run (Bytes × Option Error) :=
  if nonce.length ≠ g.nonceSize then
    .panic "crypto/cipher: incorrect nonce length given to GCM"
  else if ciphertext.length < g.tagSize then .done ([], some .gcmOpen)
  else if gcmMaxPlaintext + g.tagSize < ciphertext.length then .done ([], some .gcmOpen)
  else
    let ct := ciphertext.take (ciphertext.length - g.tagSize)
    let tag := ciphertext.drop (ciphertext.length - g.tagSize)
    if g.tag nonce ct ≠ tag then .done ([], some .gcmOpen)
    else
      let j0 := nonce ++ [0, 0, 0, 1]
      .done (xorBytes ct (keystream g.block j0 ct.length), none)

/-! ## crypto/rand -/

/-- The entropy source: `none` when reading fails, otherwise the stream of
random bytes. `rand.Read` fills the whole buffer it is given. -/
abbrev Entropy := Option (Nat → Byte)

/-- `rand.Read(buf)` on a buffer of `n` bytes. -/
def randRead (rnd : Entropy) (n : Nat) : Bytes × Option Error :=
  match rnd with
  | none => (List.replicate n 0, some .randRead)
  | some f => ((List.range n).map f, none)

/-! ## pkg/hashing: Crypt -/

/-- The cipher of the vault: `hashing.Crypt`. -/
structure Crypt where
  /-- The secret key. -/
  SecretKey : Bytes

/-- `NewCrypter`. -/
def NewCrypter (secretKey : Bytes) : Crypt := { SecretKey := secretKey }

/-- `Crypt.Encrypt`: AES-GCM under a fresh nonce, the nonce put in front,
the whole in base64. -/
def Crypt.Encrypt (c : Crypt) (rnd : Entropy) (plaintext : Bytes) : Run (Bytes × Option Error) :=
  match aesNewCipher c.SecretKey with
  | .error err => .done ([], some err)
  | .ok block =>
    match cipherNewGCM block with
    | .error err => .done ([], some err)
    | .ok gcm =>
      match randRead rnd gcm.nonceSize with
      | (_, some err) => .done ([], some err)
      | (nonce, none) =>
        (gcm.Seal nonce nonce plaintext).bind fun ciphertext =>
          let b64 := B64.std.encode ciphertext
          .done (b64, none)

/-- `Crypt.Decrypt`. The slice expressions `ciphertext[:nonceSize]` and
`ciphertext[nonceSize:]` panic together exactly when fewer than `nonceSize`
bytes were decoded (the second is checked against the length). -/
def Crypt.Decrypt (c : Crypt) (ciphertext : Bytes) : Run (Bytes × Option Error) :=
  match B64.std.decode ciphertext with
  | (_, some err) => .done ([], some err)
  | (decoded, none) =>
    match aesNewCipher c.SecretKey with
    | .error err => .done ([], some err)
    | .ok block =>
      match cipherNewGCM block with
      | .error err => .done ([], some err)
      | .ok gcm =>
        let nonceSize := gcm.nonceSize
        if decoded.length < nonceSize then
          .panic "runtime error: slice bounds out of range"
        else
          let nonce := decoded.take nonceSize
          let ciphertext := decoded.drop nonceSize
          (gcm.Open nonce ciphertext).bind fun r =>
            match r with
            | (_, some err) => .done ([], some err)
            | (plaintext, none) => .done (plaintext, none)

/-! ## unicode/utf8 and unicode/utf16 -/

/-- The replacement character U+FFFD, `utf8.RuneError`. -/
def runeError : Nat := 0xFFFD

/-- `utf8.DecodeRune`: the first rune of the bytes and its width. An invalid
or short encoding gives `(RuneError, 1)`, no bytes give `(RuneError, 0)`. -/
def decodeRune : Bytes → Nat × Nat
  | [] => (runeError, 0)
  | b0 :: rest =>
    if b0.val < 0x80 then (b0.val, 1)
    else if b0.val < 0xC2 ∨ 0xF4 < b0.val then (runeError, 1)
    else
      let lo := if b0.val = 0xE0 then 0xA0 else if b0.val = 0xF0 then 0x90 else 0x80
      let hi := if b0.val = 0xED then 0x9F else if b0.val = 0xF4 then 0x8F else 0xBF
      match rest with
      | [] => (runeError, 1)
      | b1 :: r1 =>
        if b1.val < lo ∨ hi < b1.val then (runeError, 1)
        else if b0.val < 0xE0 then (b0.val % 32 * 64 + b1.val % 64, 2)
        else
          match r1 with
          | [] => (runeError, 1)
          | b2 :: r2 =>
            if b2.val < 0x80 ∨ 0xBF < b2.val then (runeError, 1)
            else if b0.val < 0xF0 then
              (b0.val % 16 * 4096 + b1.val % 64 * 64 + b2.val % 64, 3)
            else
              match r2 with
              | [] => (runeError, 1)
              | b3 :: _ =>
                if b3.val < 0x80 ∨ 0xBF < b3.val then (runeError, 1)
                else
                  (b0.val % 8 * 262144 + b1.val % 64 * 4096 + b2.val % 64 * 64 + b3.val % 64, 4)

/-- `utf8.EncodeRune` (`utf8.AppendRune`): surrogates and values over
U+10FFFF are written as U+FFFD. -/
def encodeRune (r : Nat) : Bytes :=
  if r < 0x80 then [byte r]
  else if r < 0x800 then [byte (0xC0 + r / 64), byte (0x80 + r % 64)]
  else if 0x10FFFF < r ∨ (0xD800 ≤ r ∧ r ≤ 0xDFFF) then [0xEF, 0xBF, 0xBD]
  else if r < 0x10000 then
    [byte (0xE0 + r / 4096), byte (0x80 + r / 64 % 64), byte (0x80 + r % 64)]
  else
    [byte (0xF0 + r / 262144), byte (0x80 + r / 4096 % 64), byte (0x80 + r / 64 % 64),
      byte (0x80 + r % 64)]

/-- The runes of a byte string with the bytes each one was read from, in the
order of the loop `for i < len(s) { c, size := DecodeRune(s[i:]); i += size }`.
The first argument bounds the number of runes; the length of the string is
enough. -/
def runesLoop : Nat → Bytes → List (Nat × Bytes)
  | 0, _ => []
  | _ + 1, [] => []
  | n + 1, b :: rest =>
    let d := decodeRune (b :: rest)
    (d.1, (b :: rest).take d.2) :: runesLoop n (rest.drop (d.2 - 1))

/-- The runes of a byte string with their bytes. -/
def runes (s : Bytes) : List (Nat × Bytes) := runesLoop s.length s

/-- Whether a rune read from the given bytes marks an invalid byte:
`c == utf8.RuneError && size == 1`. -/
def isInvalidRune (c : Nat × Bytes) : Bool := c.1 = runeError && c.2.length = 1

/-- `utf8.Valid`. -/
def validUTF8 (s : Bytes) : Bool := (runes s).all (fun c => !isInvalidRune c)

/-- The string with each invalid byte replaced by U+FFFD: what a string
becomes when it is written to JSON and read back. -/
def toValidUTF8 (s : Bytes) : Bytes :=
  (runes s).flatMap (fun c => if isInvalidRune c then [0xEF, 0xBF, 0xBD] else c.2)

/-- `utf16.IsSurrogate`. -/
def isSurrogate (r : Nat) : Bool := 0xD800 ≤ r && r < 0xE000

/-- `utf16.DecodeRune`: the rune of a surrogate pair, U+FFFD when the pair is
not valid. -/
def utf16DecodeRune (r1 r2 : Nat) : Nat :=
  if 0xD800 ≤ r1 ∧ r1 < 0xDC00 ∧ 0xDC00 ≤ r2 ∧ r2 < 0xE000 then
    (r1 - 0xD800) * 1024 + (r2 - 0xDC00) + 0x10000
  else runeError

/-! ## encoding/json: strings -/

/-- The lower-case hexadecimal digit of a value below sixteen. -/
def hexDigit (n : Nat) : Byte := if n < 10 then byte (48 + n) else byte (87 + n)

/-- The value of a hexadecimal digit of either case. -/
def hexVal (c : Byte) : Option Nat :=
  if 48 ≤ c.val ∧ c.val ≤ 57 then some (c.val - 48)
  else if 97 ≤ c.val ∧ c.val ≤ 102 then some (c.val - 87)
  else if 65 ≤ c.val ∧ c.val ≤ 70 then some (c.val - 55)
  else none

/-- Whether `htmlSafeSet` holds for an ASCII byte: printable, and none of
the double quote, the backslash, `<`, `>` and `&`. -/
def htmlSafe (b : Byte) : Bool :=
  0x20 ≤ b.val && b.val < 0x80 && b.val ≠ 0x22 && b.val ≠ 0x5C && b.val ≠ 0x3C &&
    b.val ≠ 0x3E && b.val ≠ 0x26

/-- What `appendString` writes for one ASCII byte (HTML escaping is on). -/
def quoteASCII (b : Byte) : Bytes :=
  if htmlSafe b then [b]
  else if b.val = 0x5C ∨ b.val = 0x22 then [0x5C, b]
  else if b.val = 0x08 then [0x5C, 0x62]
  else if b.val = 0x0C then [0x5C, 0x66]
  else if b.val = 0x0A then [0x5C, 0x6E]
  else if b.val = 0x0D then [0x5C, 0x72]
  else if b.val = 0x09 then [0x5C, 0x74]
  else [0x5C, 0x75, 0x30, 0x30, hexDigit (b.val / 16), hexDigit (b.val % 16)]

/-- What `appendString` writes for one rune of the string. -/
def quoteRune (c : Nat × Bytes) : Bytes :=
  if (c.2.headD 0).val < 0x80 then quoteASCII (c.2.headD 0)
  else if isInvalidRune c then [0x5C, 0x75, 0x66, 0x66, 0x66, 0x64]
  else if c.1 = 0x2028 ∨ c.1 = 0x2029 then [0x5C, 0x75, 0x32, 0x30, 0x32, hexDigit (c.1 % 16)]
  else c.2

/-- `appendString(dst, s, true)`: the JSON string literal of a Go string. -/
def quote (s : Bytes) : Bytes := [0x22] ++ (runes s).flatMap quoteRune ++ [0x22]

/-- `getu4` on the four bytes after `\u`: their value as a hexadecimal
number. -/
def getu4 : Bytes → Option Nat
  | a :: b :: c :: d :: _ =>
    match hexVal a, hexVal b, hexVal c, hexVal d with
    | some x, some y, some z, some w => some (x * 4096 + y * 256 + z * 16 + w)
    | _, _, _, _ => none
  | _ => none

/-- The byte a one-letter escape stands for. -/
def simpleEscape (e : Byte) : Option Byte :=
  if e.val = 0x22 ∨ e.val = 0x5C ∨ e.val = 0x2F then some e
  else if e.val = 0x62 then some 0x08
  else if e.val = 0x66 then some 0x0C
  else if e.val = 0x6E then some 0x0A
  else if e.val = 0x72 then some 0x0D
  else if e.val = 0x74 then some 0x09
  else none

/-- The value of `\uXXXX` at the head of the input, for the second half of a
surrogate pair. -/
def getu4Escaped : Bytes → Option Nat
  | a :: b :: rest => if a.val = 0x5C ∧ b.val = 0x75 then getu4 rest else none
  | _ => none

/-- Reads a string literal after its opening quote: the scanner's check of
the literal and `unquote` in one pass. Returns the Go string and the input
after the closing quote, `none` when the literal is not valid. The first
argument bounds the number of steps; the length of the input is enough. -/
def unquoteLoop : Nat → Bytes → Option (Bytes × Bytes)
  | 0, _ => none
  | _ + 1, [] => none
  | n + 1, c :: rest =>
    if c.val = 0x22 then some ([], rest)
    else if c.val = 0x5C then
      match rest with
      | [] => none
      | e :: rest1 =>
        if e.val = 0x75 then
          match getu4 rest1 with
          | none => none
          | some rr =>
            if isSurrogate rr then
              match getu4Escaped (rest1.drop 4) with
              | some rr1 =>
                if utf16DecodeRune rr rr1 ≠ runeError then
                  (unquoteLoop n (rest1.drop 10)).map
                    (fun r => (encodeRune (utf16DecodeRune rr rr1) ++ r.1, r.2))
                else
                  (unquoteLoop n (rest1.drop 4)).map (fun r => (encodeRune runeError ++ r.1, r.2))
              | none =>
                (unquoteLoop n (rest1.drop 4)).map (fun r => (encodeRune runeError ++ r.1, r.2))
            else (unquoteLoop n (rest1.drop 4)).map (fun r => (encodeRune rr ++ r.1, r.2))
        else
          match simpleEscape e with
          | none => none
          | some b => (unquoteLoop n rest1).map (fun r => (b :: r.1, r.2))
    else if c.val < 0x20 then none
    else if c.val < 0x80 then (unquoteLoop n rest).map (fun r => (c :: r.1, r.2))
    else
      let d := decodeRune (c :: rest)
      (unquoteLoop n (rest.drop (d.2 - 1))).map (fun r => (encodeRune d.1 ++ r.1, r.2))

/-- Reads a string literal after its opening quote. -/
def unquote (input : Bytes) : Option (Bytes × Bytes) := unquoteLoop input.length input

/-! ## encoding/json: values -/

/-- A JSON value as the decoder sees it: strings are unquoted, numbers keep
their literal. -/
inductive JSON where
  | null
  | bool (b : Bool)
  | num (lit : Bytes)
  | str (s : Bytes)
  | arr (elems : List JSON)
  | obj (members : List (Bytes × JSON))

/-- Whether the byte is JSON white space. -/
def isSpace (c : Byte) : Bool := c.val = 0x20 || c.val = 0x09 || c.val = 0x0D || c.val = 0x0A

/-- The input after its leading white space. -/
def skipWS : Bytes → Bytes
  | [] => []
  | c :: rest => if isSpace c then skipWS rest else c :: rest

/-- Whether the byte is a decimal digit. -/
def isDigit (c : Byte) : Bool := 48 ≤ c.val && c.val ≤ 57

/-- The leading decimal digits of the input and what follows them. -/
def spanDigits : Bytes → Bytes × Bytes
  | [] => ([], [])
  | c :: rest =>
    if isDigit c then ((spanDigits rest).1.cons c, (spanDigits rest).2) else ([], c :: rest)

/-- The exponent of a number literal, if one follows. -/
def parseExp (input : Bytes) : Option (Bytes × Bytes) :=
  match input with
  | e :: rest =>
    if e.val = 0x65 ∨ e.val = 0x45 then
      match rest with
      | sgn :: rest1 =>
        if sgn.val = 0x2B ∨ sgn.val = 0x2D then
          if (spanDigits rest1).1 = [] then none
          else some (e :: sgn :: (spanDigits rest1).1, (spanDigits rest1).2)
        else if (spanDigits rest).1 = [] then none
        else some (e :: (spanDigits rest).1, (spanDigits rest).2)
      | [] => none
    else some ([], input)
  | [] => some ([], input)

/-- The fraction of a number literal, if one follows. -/
def parseFrac (input : Bytes) : Option (Bytes × Bytes) :=
  match input with
  | dot :: rest =>
    if dot.val = 0x2E then
      if (spanDigits rest).1 = [] then none
      else some (dot :: (spanDigits rest).1, (spanDigits rest).2)
    else some ([], input)
  | [] => some ([], input)

/-- The integer part of a number literal: `0`, or a digit from 1 to 9 and
more digits. -/
def parseInt (input : Bytes) : Option (Bytes × Bytes) :=
  match input with
  | d :: rest =>
    if d.val = 0x30 then some ([d], rest)
    else if isDigit d then some (d :: (spanDigits rest).1, (spanDigits rest).2)
    else none
  | [] => none

/-- A number literal at the head of the input: the literal and what
follows. -/
def parseNumber (input : Bytes) : Option (Bytes × Bytes) :=
  let sign : Bytes × Bytes :=
    match input with
    | c :: rest => if c.val = 0x2D then ([c], rest) else ([], input)
    | [] => ([], input)
  match parseInt sign.2 with
  | none => none
  | some (i, r1) =>
    match parseFrac r1 with
    | none => none
    | some (f, r2) =>
      match parseExp r2 with
      | none => none
      | some (e, r3) => some (sign.1 ++ i ++ f ++ e, r3)

/-- The deepest nesting of arrays and objects the scanner accepts. -/
def maxNestingDepth : Nat := 10000

/-- The elements of a non-empty array after the opening bracket, read with
the given parser of values. -/
def parseElems (pv : Bytes → Option (JSON × Bytes)) : Nat → Bytes → Option (List JSON × Bytes)
  | 0, _ => none
  | n + 1, input =>
    match pv input with
    | none => none
    | some (v, r) =>
      match skipWS r with
      | c :: r1 =>
        if c.val = 0x2C then (parseElems pv n r1).map (fun x => (v :: x.1, x.2))
        else if c.val = 0x5D then some ([v], r1)
        else none
      | [] => none

/-- The members of a non-empty object after the opening brace, read with the
given parser of values. -/
def parseMembers (pv : Bytes → Option (JSON × Bytes)) :
    Nat → Bytes → Option (List (Bytes × JSON) × Bytes)
  | 0, _ => none
  | n + 1, input =>
    match skipWS input with
    | q :: r1 =>
      if q.val ≠ 0x22 then none
      else
        match unquote r1 with
        | none => none
        | some (key, r2) =>
          match skipWS r2 with
          | colon :: r3 =>
            if colon.val ≠ 0x3A then none
            else
              match pv r3 with
              | none => none
              | some (v, r4) =>
                match skipWS r4 with
                | c :: r5 =>
                  if c.val = 0x2C then
                    (parseMembers pv n r5).map (fun x => ((key, v) :: x.1, x.2))
                  else if c.val = 0x7D then some ([(key, v)], r5)
                  else none
                | [] => none
          | [] => none
    | [] => none

/-- One JSON value at the head of the input, after white space, and what
follows it. The first argument bounds the recursion (the length of the input
and one is enough), the second is the number of arrays and objects that are
open. -/
def parseValue : Nat → Nat → Bytes → Option (JSON × Bytes)
  | 0, _, _ => none
  | n + 1, depth, input =>
    match skipWS input with
    | [] => none
    | c :: rest =>
      if c.val = 0x7B then
        if maxNestingDepth < depth + 1 then none
        else
          match skipWS rest with
          | c1 :: r1 =>
            if c1.val = 0x7D then some (.obj [], r1)
            else (parseMembers (parseValue n (depth + 1)) n rest).map (fun x => (.obj x.1, x.2))
          | [] => none
      else if c.val = 0x5B then
        if maxNestingDepth < depth + 1 then none
        else
          match skipWS rest with
          | c1 :: r1 =>
            if c1.val = 0x5D then some (.arr [], r1)
            else (parseElems (parseValue n (depth + 1)) n rest).map (fun x => (.arr x.1, x.2))
          | [] => none
      else if c.val = 0x22 then (unquote rest).map (fun x => (.str x.1, x.2))
      else if (c :: rest).take 4 = [0x74, 0x72, 0x75, 0x65] then some (.bool true, rest.drop 3)
      else if (c :: rest).take 5 = [0x66, 0x61, 0x6C, 0x73, 0x65] then
        some (.bool false, rest.drop 4)
      else if (c :: rest).take 4 = [0x6E, 0x75, 0x6C, 0x6C] then some (.null, rest.drop 3)
      else (parseNumber (c :: rest)).map (fun x => (.num x.1, x.2))

/-- The value of a JSON text: `checkValid` and the reading of the value. The
text is one value between optional white space; `none` is a
`SyntaxError`. -/
def jsonParse (data : Bytes) : Option JSON :=
  match parseValue (data.length + 1) 0 data with
  | none => none
  | some (v, rest) => if skipWS rest = [] then some v else none

/-! ## encoding/json: decoding into Go values -/

/-- `foldName`: the key folded for the case-insensitive match of field
names. ASCII letters go to upper case; U+017F and U+212A, the two runes
outside ASCII that fold to ASCII letters, go to `S` and `K`. The folding of
other runes, which stay outside ASCII, is not modelled: every field name of
the program is ASCII. -/
def foldName (key : Bytes) : Bytes :=
  (runes key).flatMap (fun c =>
    if (c.2.headD 0).val < 0x80 then
      [if 0x61 ≤ (c.2.headD 0).val ∧ (c.2.headD 0).val ≤ 0x7A then byte ((c.2.headD 0).val - 32)
        else c.2.headD 0]
    else if c.1 = 0x17F then [0x53]
    else if c.1 = 0x212A then [0x4B]
    else c.2)

/-- The field a key of an object selects: the one with exactly this name,
otherwise the one whose name matches when folded. -/
def findField (names : List Bytes) (key : Bytes) : Option Nat :=
  match names.findIdx? (fun n => n = key) with
  | some i => some i
  | none => names.findIdx? (fun n => foldName n = foldName key)

/-- `saveError`: the decoder keeps the first error and goes on. -/
def saveError (saved new : Option Error) : Option Error :=
  match saved with
  | some e => some e
  | none => new

/-- Decoding a JSON value into a Go `string`: `null` leaves it unchanged, a
value of another type is an `UnmarshalTypeError`. -/
def decodeString (cur : Bytes) : JSON → Bytes × Option Error
  | .str s => (s, none)
  | .null => (cur, none)
  | _ => (cur, some .jsonUnmarshalType)

/-- `strconv.ParseUint(lit, 10, 64)` followed by the overflow check for
`uint8`, on a number literal of JSON: its value when the literal is made of
digits only and is at most 255. -/
def parseUint8 (lit : Bytes) : Option Byte :=
  if lit.all isDigit ∧ lit ≠ [] ∧ lit.foldl (fun acc d => acc * 10 + (d.val - 48)) 0 ≤ 255 then
    some (byte (lit.foldl (fun acc d => acc * 10 + (d.val - 48)) 0))
  else none

/-- Decoding an element of a JSON array into a `uint8`. -/
def decodeUint8 : JSON → Byte × Option Error
  | .num lit =>
    match parseUint8 lit with
    | some b => (b, none)
    | none => (0, some .jsonUnmarshalType)
  | .null => (0, none)
  | _ => (0, some .jsonUnmarshalType)

/-- Decoding a JSON value into a Go `[]byte` (`none` is the nil slice): a
string is read as standard base64, `null` gives nil, an array gives its
elements read as `uint8`. -/
def decodeBytes (cur : Option Bytes) : JSON → Option Bytes × Option Error
  | .str s =>
    match B64.std.decode s with
    | (_, some err) => (cur, some err)
    | (b, none) => (some b, none)
  | .null => (none, none)
  | .arr elems =>
    (some (elems.map (fun e => (decodeUint8 e).1)),
      elems.foldl (fun acc e => saveError acc (decodeUint8 e).2) none)
  | _ => (cur, some .jsonUnmarshalType)

/-- Decoding a JSON value into a struct whose fields have the given names:
the members of an object are stored in order into the fields they select,
members that select no field are skipped; `null` leaves the struct unchanged;
a value of another type is an `UnmarshalTypeError`. -/
def decodeStruct {α : Type} (names : List Bytes)
    (setField : α → Nat → JSON → α × Option Error) (cur : α) : JSON → α × Option Error
  | .obj ms =>
    ms.foldl
      (fun acc kv =>
        match findField names kv.1 with
        | some i => ((setField acc.1 i kv.2).1, saveError acc.2 (setField acc.1 i kv.2).2)
        | none => acc)
      (cur, none)
  | .null => (cur, none)
  | _ => (cur, some .jsonUnmarshalType)

/-- `json.Unmarshal(data, &target)` for a target decoded by `decode`. -/
def jsonUnmarshal {α : Type} (decode : α → JSON → α × Option Error) (data : Bytes)
    (target : α) : α × Option Error :=
  match jsonParse data with
  | none => (target, some .jsonSyntax)
  | some j => decode target j

/-! ## internal/models -/

set_option linter.dupNamespace false in
/-- `models.Data`: a stored record as the repository returns it. The field
`Type` of the source is `Typ` here. -/
structure Data where
  /-- The ciphertext. -/
  Data : Bytes
  /-- The annotation. -/
  Meta : Bytes
  /-- The type tag. -/
  Typ : Bytes
  /-- The record id. -/
  ID : Bytes
  deriving DecidableEq, Repr

/-- `models.LogPassData`. -/
structure LogPassData where
  /-- Field `login`. -/
  Login : Bytes
  /-- Field `password`. -/
  Password : Bytes
  deriving DecidableEq, Repr

/-- `models.CardData`. -/
structure CardData where
  /-- Field `number`. -/
  Number : Bytes
  /-- Field `expired_at`. -/
  ExpiredAt : Bytes
  /-- Field `cvv`. -/
  CVV : Bytes
  deriving DecidableEq, Repr

/-- `models.TextData`. -/
structure TextData where
  /-- Field `text`. -/
  Text : Bytes
  deriving DecidableEq, Repr

/-- `models.FileData`; `Content` is `none` for the nil slice. -/
structure FileData where
  /-- Field `content`. -/
  Content : Option Bytes
  /-- Field `name`. -/
  Name : Bytes
  deriving DecidableEq, Repr

/-- Storing a JSON value into field `i` of a `LogPassData`. -/
def LogPassData.setField (d : LogPassData) (i : Nat) (v : JSON) : LogPassData × Option Error :=
  match i with
  | 0 => ({ d with Login := (decodeString d.Login v).1 }, (decodeString d.Login v).2)
  | 1 => ({ d with Password := (decodeString d.Password v).1 }, (decodeString d.Password v).2)
  | _ => (d, none)

/-- Decoding a JSON value into a `LogPassData`. -/
def LogPassData.decode : LogPassData → JSON → LogPassData × Option Error :=
  decodeStruct [ascii "login", ascii "password"] LogPassData.setField

/-- Storing a JSON value into field `i` of a `CardData`. -/
def CardData.setField (d : CardData) (i : Nat) (v : JSON) : CardData × Option Error :=
  match i with
  | 0 => ({ d with Number := (decodeString d.Number v).1 }, (decodeString d.Number v).2)
  | 1 => ({ d with ExpiredAt := (decodeString d.ExpiredAt v).1 }, (decodeString d.ExpiredAt v).2)
  | 2 => ({ d with CVV := (decodeString d.CVV v).1 }, (decodeString d.CVV v).2)
  | _ => (d, none)

/-- Decoding a JSON value into a `CardData`. -/
def CardData.decode : CardData → JSON → CardData × Option Error :=
  decodeStruct [ascii "number", ascii "expired_at", ascii "cvv"] CardData.setField

/-- Storing a JSON value into field `i` of a `TextData`. -/
def TextData.setField (d : TextData) (i : Nat) (v : JSON) : TextData × Option Error :=
  match i with
  | 0 => ({ d with Text := (decodeString d.Text v).1 }, (decodeString d.Text v).2)
  | _ => (d, none)

/-- Decoding a JSON value into a `TextData`. -/
def TextData.decode : TextData → JSON → TextData × Option Error :=
  decodeStruct [ascii "text"] TextData.setField

/-- Storing a JSON value into field `i` of a `FileData`. -/
def FileData.setField (d : FileData) (i : Nat) (v : JSON) : FileData × Option Error :=
  match i with
  | 0 => ({ d with Content := (decodeBytes d.Content v).1 }, (decodeBytes d.Content v).2)
  | 1 => ({ d with Name := (decodeString d.Name v).1 }, (decodeString d.Name v).2)
  | _ => (d, none)

/-- Decoding a JSON value into a `FileData`. -/
def FileData.decode : FileData → JSON → FileData × Option Error :=
  decodeStruct [ascii "content", ascii "name"] FileData.setField

/-- `json.Marshal` of a `LogPassData`. -/
def LogPassData.marshal (d : LogPassData) : Bytes :=
  ascii "\x7b\"login\":" ++ quote d.Login ++ ascii ",\"password\":" ++ quote d.Password ++ ascii "\x7d"

/-- `json.Marshal` of a `CardData`. -/
def CardData.marshal (d : CardData) : Bytes :=
  ascii "\x7b\"number\":" ++ quote d.Number ++ ascii ",\"expired_at\":" ++ quote d.ExpiredAt ++
    ascii ",\"cvv\":" ++ quote d.CVV ++ ascii "\x7d"

/-- `json.Marshal` of a `TextData`. -/
def TextData.marshal (d : TextData) : Bytes :=
  ascii "\x7b\"text\":" ++ quote d.Text ++ ascii "\x7d"

/-- `json.Marshal` of a `[]byte`: `null` for the nil slice, otherwise the
standard base64 of the bytes between quotes. -/
def marshalBytes : Option Bytes → Bytes
  | none => ascii "null"
  | some b => [0x22] ++ B64.std.encode b ++ [0x22]

/-- `json.Marshal` of a `FileData`. -/
def FileData.marshal (d : FileData) : Bytes :=
  ascii "\x7b\"content\":" ++ marshalBytes d.Content ++ ascii ",\"name\":" ++ quote d.Name ++
    ascii "\x7d"

/-- A value of type `interface{}` as the vault handles it: nil, one of the
four payloads, or a value of any other type, which is given by what
`json.Marshal` returns for it. -/
inductive Any where
  | nil
  | logpass (d : LogPassData)
  | card (d : CardData)
  | text (d : TextData)
  | file (d : FileData)
  | other (marshalled : Bytes × Option Error)
  deriving DecidableEq, Repr

/-- `json.Marshal`. -/
def jsonMarshal : Any → Bytes × Option Error
  | .nil => (ascii "null", none)
  | .logpass d => (d.marshal, none)
  | .card d => (d.marshal, none)
  | .text d => (d.marshal, none)
  | .file d => (d.marshal, none)
  | .other r => r

/-! ## internal/keeper/data: the payload registry -/

/-- The type tag `"logpass"`. -/
def LogPassDataType : Bytes := ascii "logpass"

/-- The type tag `"card"`. -/
def CardDataType : Bytes := ascii "card"

/-- The type tag `"text"`. -/
def TextDataType : Bytes := ascii "text"

/-- The type tag `"file"`. -/
def FileDataType : Bytes := ascii "file"

/-- `ParseJsonData`: the payload of the given type read from JSON. -/
def ParseJsonData (data : Bytes) (dataType : Bytes) : Any × Option Error :=
  if dataType = LogPassDataType then
    match jsonUnmarshal LogPassData.decode data { Login := [], Password := [] } with
    | (_, some err) => (.nil, some err)
    | (parsedData, none) => (.logpass parsedData, none)
  else if dataType = CardDataType then
    match jsonUnmarshal CardData.decode data { Number := [], ExpiredAt := [], CVV := [] } with
    | (_, some err) => (.nil, some err)
    | (parsedData, none) => (.card parsedData, none)
  else if dataType = TextDataType then
    match jsonUnmarshal TextData.decode data { Text := [] } with
    | (_, some err) => (.nil, some err)
    | (parsedData, none) => (.text parsedData, none)
  else if dataType = FileDataType then
    match jsonUnmarshal FileData.decode data { Content := none, Name := [] } with
    | (_, some err) => (.nil, some err)
    | (parsedData, none) => (.file parsedData, none)
  else (.nil, some .ErrTypeNotFound)

/-! ## internal/http/rest/schemas -/

/-- `schemas.LogPassSchema`. -/
structure LogPassSchema where
  /-- Field `data`. -/
  Data : LogPassData
  /-- Field `meta`. -/
  Meta : Bytes
  deriving DecidableEq, Repr

/-- `LogPassSchema.Valid`. -/
def LogPassSchema.Valid (l : LogPassSchema) : Bool :=
  if l.Data.Login = [] ∨ l.Data.Password = [] then false else true

/-- `LogPassSchema.GetData`. -/
def LogPassSchema.GetData (l : LogPassSchema) : Any := .logpass l.Data

/-- `LogPassSchema.GetMeta`. -/
def LogPassSchema.GetMeta (l : LogPassSchema) : Bytes := l.Meta

/-- `schemas.CardSchema`. -/
structure CardSchema where
  /-- Field `data`. -/
  Data : CardData
  /-- Field `meta`. -/
  Meta : Bytes
  deriving DecidableEq, Repr

/-- `CardSchema.Valid`. -/
def CardSchema.Valid (c : CardSchema) : Bool :=
  if c.Data.Number = [] ∨ c.Data.ExpiredAt = [] ∨ c.Data.CVV = [] then false else true

/-- `CardSchema.GetMeta`. -/
def CardSchema.GetMeta (c : CardSchema) : Bytes := c.Meta

/-- `CardSchema.GetData`. -/
def CardSchema.GetData (c : CardSchema) : Any := .card c.Data

/-- `schemas.TextSchema`. -/
structure TextSchema where
  /-- Field `data`. -/
  Data : TextData
  /-- Field `meta`. -/
  Meta : Bytes
  deriving DecidableEq, Repr

/-- `TextSchema.Valid`. -/
def TextSchema.Valid (t : TextSchema) : Bool :=
  if t.Data.Text = [] then false else true

/-- `TextSchema.GetMeta`. -/
def TextSchema.GetMeta (t : TextSchema) : Bytes := t.Meta

/-- `TextSchema.GetData`. -/
def TextSchema.GetData (t : TextSchema) : Any := .text t.Data

/-- `schemas.FileSchema`. -/
structure FileSchema where
  /-- Field `data`. -/
  Data : FileData
  /-- Field `meta`. -/
  Meta : Bytes
  deriving DecidableEq, Repr

/-- `len` of a slice that may be nil. -/
def sliceLen : Option Bytes → Nat
  | none => 0
  | some b => b.length

/-- `FileSchema.Valid`. -/
def FileSchema.Valid (f : FileSchema) : Bool :=
  if sliceLen f.Data.Content = 0 ∨ f.Data.Name = [] then false else true

/-- `FileSchema.GetMeta`. -/
def FileSchema.GetMeta (f : FileSchema) : Bytes := f.Meta

/-- `FileSchema.GetData`. -/
def FileSchema.GetData (f : FileSchema) : Any := .file f.Data

/-- `schemas.DataResponse`. The field `Type` of the source is `Typ` here. -/
structure DataResponse where
  /-- Field `data`. -/
  Data : Any
  /-- Field `meta`. -/
  Meta : Bytes
  /-- Field `type`. -/
  Typ : Bytes
  /-- Field `ID`. -/
  ID : Bytes
  deriving DecidableEq, Repr

/-- Storing a JSON value into field `i` of a `LogPassSchema`. -/
def LogPassSchema.setField (s : LogPassSchema) (i : Nat) (v : JSON) :
    LogPassSchema × Option Error :=
  match i with
  | 0 => ({ s with Data := (LogPassData.decode s.Data v).1 }, (LogPassData.decode s.Data v).2)
  | 1 => ({ s with Meta := (decodeString s.Meta v).1 }, (decodeString s.Meta v).2)
  | _ => (s, none)

/-- Decoding a JSON value into a `LogPassSchema`. -/
def LogPassSchema.decode : LogPassSchema → JSON → LogPassSchema × Option Error :=
  decodeStruct [ascii "data", ascii "meta"] LogPassSchema.setField

/-- Storing a JSON value into field `i` of a `CardSchema`. -/
def CardSchema.setField (s : CardSchema) (i : Nat) (v : JSON) : CardSchema × Option Error :=
  match i with
  | 0 => ({ s with Data := (CardData.decode s.Data v).1 }, (CardData.decode s.Data v).2)
  | 1 => ({ s with Meta := (decodeString s.Meta v).1 }, (decodeString s.Meta v).2)
  | _ => (s, none)

/-- Decoding a JSON value into a `CardSchema`. -/
def CardSchema.decode : CardSchema → JSON → CardSchema × Option Error :=
  decodeStruct [ascii "data", ascii "meta"] CardSchema.setField

/-- Storing a JSON value into field `i` of a `TextSchema`. -/
def TextSchema.setField (s : TextSchema) (i : Nat) (v : JSON) : TextSchema × Option Error :=
  match i with
  | 0 => ({ s with Data := (TextData.decode s.Data v).1 }, (TextData.decode s.Data v).2)
  | 1 => ({ s with Meta := (decodeString s.Meta v).1 }, (decodeString s.Meta v).2)
  | _ => (s, none)

/-- Decoding a JSON value into a `TextSchema`. -/
def TextSchema.decode : TextSchema → JSON → TextSchema × Option Error :=
  decodeStruct [ascii "data", ascii "meta"] TextSchema.setField

/-- Storing a JSON value into field `i` of a `FileSchema`. -/
def FileSchema.setField (s : FileSchema) (i : Nat) (v : JSON) : FileSchema × Option Error :=
  match i with
  | 0 => ({ s with Data := (FileData.decode s.Data v).1 }, (FileData.decode s.Data v).2)
  | 1 => ({ s with Meta := (decodeString s.Meta v).1 }, (decodeString s.Meta v).2)
  | _ => (s, none)

/-- Decoding a JSON value into a `FileSchema`. -/
def FileSchema.decode : FileSchema → JSON → FileSchema × Option Error :=
  decodeStruct [ascii "data", ascii "meta"] FileSchema.setField

/-! ## internal/db/repository/postgres: the table `user_data`

The schema of `user_data` is not among the sources. The model takes from the
statements of the repository the columns `id`, `user_id`, `data_type`,
`data`, `meta` and `is_deleted`, compares column values as byte strings, and
returns selected rows in the order of the table. -/

/-- A row of `user_data`. -/
structure Row where
  /-- Column `id`. -/
  id : Bytes
  /-- Column `user_id`. -/
  user_id : Bytes
  /-- Column `data_type`. -/
  data_type : Bytes
  /-- Column `data`. -/
  data : Bytes
  /-- Column `meta`. -/
  meta : Bytes
  /-- Column `is_deleted`. -/
  is_deleted : Bool
  deriving DecidableEq, Repr

/-- The contents of `user_data`. -/
abbrev Table := List Row

/-- The record a `SELECT id, data_type, data, meta` scans from a row. -/
def Row.scan (r : Row) : Data := { ID := r.id, Typ := r.data_type, Data := r.data, Meta := r.meta }

/-- The condition `user_id = $1 and data_type = $2 and is_deleted = false`. -/
def Row.ofUserType (userID dataType : Bytes) (r : Row) : Bool :=
  r.user_id = userID && r.data_type = dataType && r.is_deleted = false

/-- The condition
`user_id = $1 and id = $2 and data_type = $3 and is_deleted = false`. -/
def Row.matchesKey (userID dataID dataType : Bytes) (r : Row) : Bool :=
  r.user_id = userID && r.id = dataID && r.data_type = dataType && r.is_deleted = false

/-- Modelled from the spec: the schema of `user_data` is missing, and the spec
says that the id of a record is assigned by storage on creation. The insert
gets the id the database generates as `newID`; `id` is the key of the table,
so an id that a row already has makes the insert fail. `drv` is the error of
the driver, if the statement could not be executed. -/
def postgres.DataRepository.AddData (db : Table) (newID : Bytes) (drv : Option Error)
    (userID dataType data meta : Bytes) : (Bytes × Option Error) × Table :=
  match drv with
  | some err => (([], some err), db)
  | none =>
    if db.any (fun r => r.id = newID) then
      (([], some (.other "pq: duplicate key value violates unique constraint")), db)
    else
      ((newID, none),
        db ++ [{ id := newID, user_id := userID, data_type := dataType, data := data,
                 meta := meta, is_deleted := false }])

/-- What happens while the rows of a query are read: every row is read; or
`rows.Next` ends the loop after `k` rows because of an error of the
connection; or `rows.Scan` fails at the row with index `k`. -/
inductive RowsFault where
  | complete
  | cut (k : Nat)
  | scanFailed (k : Nat) (err : Error)
  deriving DecidableEq, Repr

/-- `DataRepository.GetAllDataByUserID`. `drv` is the error of
`QueryContext`, if any. The function does not call `rows.Err`: when
`rows.Next` ends the loop early, the rows read so far are returned without an
error. An error of `rows.Scan` is returned with a nil list. -/
def postgres.DataRepository.GetAllDataByUserID (db : Table) (drv : Option Error)
    (rows : RowsFault) (userID dataType : Bytes) : List Data × Option Error :=
  match drv with
  | some err => ([], some err)
  | none =>
    match rows with
    | .complete => ((db.filter (Row.ofUserType userID dataType)).map Row.scan, none)
    | .cut k => (((db.filter (Row.ofUserType userID dataType)).map Row.scan).take k, none)
    | .scanFailed k err =>
      if k < (db.filter (Row.ofUserType userID dataType)).length then ([], some err)
      else ((db.filter (Row.ofUserType userID dataType)).map Row.scan, none)

/-- `DataRepository.GetByUserID`: the first row the query selects;
`sql.ErrNoRows` becomes `ErrDataNotFound`. -/
def postgres.DataRepository.GetByUserID (db : Table) (drv : Option Error)
    (userID dataID dataType : Bytes) : Option Data × Option Error :=
  match drv with
  | some err => (none, some err)
  | none =>
    match db.find? (Row.matchesKey userID dataID dataType) with
    | none => (none, some .ErrDataNotFound)
    | some r => (some r.scan, none)

/-- `DataRepository.DeleteByID`: sets `is_deleted` on the rows the condition
selects; no row affected is `ErrDataNotFound`. -/
def postgres.DataRepository.DeleteByID (db : Table) (drv : Option Error)
    (userID dataID dataType : Bytes) : Option Error × Table :=
  match drv with
  | some err => (some (.wrap "unable to set deleted data" err), db)
  | none =>
    if (db.filter (Row.matchesKey userID dataID dataType)).length = 0 then
      (some .ErrDataNotFound, db)
    else
      (none, db.map (fun r =>
        if Row.matchesKey userID dataID dataType r then { r with is_deleted := true } else r))

/-- `DataRepository.UpdateData`: replaces `data` and `meta` of the rows the
condition selects; no row affected is `ErrDataNotFound`. -/
def postgres.DataRepository.UpdateData (db : Table) (drv : Option Error)
    (userID dataID dataType encryptedData meta : Bytes) : Option Error × Table :=
  match drv with
  | some err => (some (.wrap "unable to update data" err), db)
  | none =>
    if (db.filter (Row.matchesKey userID dataID dataType)).length = 0 then
      (some .ErrDataNotFound, db)
    else
      (none, db.map (fun r =>
        if Row.matchesKey userID dataID dataType r then
          { r with data := encryptedData, meta := meta }
        else r))

/-! ## internal/keeper/data: the vault service -/

/-- The interface `hashing.CryptInterface` over a state `σ` of the world the
implementation may read and change. -/
structure CryptInterface (σ : Type) where
  /-- Method `Encrypt`. -/
  Encrypt : Bytes → σ → Run ((Bytes × Option Error) × σ)
  /-- Method `Decrypt`. -/
  Decrypt : Bytes → σ → Run ((Bytes × Option Error) × σ)

/-- The interface `repository.DataRepository` over a state `σ`. A record
pointer may be nil. -/
structure repository.DataRepository (σ : Type) where
  /-- Method `AddData`. -/
  AddData : Bytes → Bytes → Bytes → Bytes → σ → Run ((Bytes × Option Error) × σ)
  /-- Method `GetAllDataByUserID`; the elements are pointers. -/
  GetAllDataByUserID : Bytes → Bytes → σ → Run ((List (Option Data) × Option Error) × σ)
  /-- Method `GetByUserID`. -/
  GetByUserID : Bytes → Bytes → Bytes → σ → Run ((Option Data × Option Error) × σ)
  /-- Method `DeleteByID`. -/
  DeleteByID : Bytes → Bytes → Bytes → σ → Run (Option Error × σ)
  /-- Method `UpdateData`. -/
  UpdateData : Bytes → Bytes → Bytes → Bytes → Bytes → σ → Run (Option Error × σ)

/-- `data.Service`. -/
structure Service (σ : Type) where
  /-- Field `dataRepo`. -/
  dataRepo : repository.DataRepository σ
  /-- Field `crypt`. -/
  crypt : CryptInterface σ

/-- `NewService`. -/
def NewService {σ : Type} (dataRepo : repository.DataRepository σ) (crypt : CryptInterface σ) : Service σ :=
  { dataRepo := dataRepo, crypt := crypt }

/-- `Service.Add`. -/
def Service.Add {σ : Type} (s : Service σ) (userID dataType : Bytes) (body : Any) (meta : Bytes)
    (w : σ) : Run ((Bytes × Option Error) × σ) :=
  match jsonMarshal body with
  | (_, some err) => .done (([], some err), w)
  | (jsonData, none) =>
    (s.crypt.Encrypt jsonData w).bind fun r1 =>
      match r1 with
      | ((_, some err), w1) => .done (([], some err), w1)
      | ((encrypted, none), w1) =>
        (s.dataRepo.AddData userID dataType encrypted meta w1).bind fun r2 =>
          match r2 with
          | ((_, some err), w2) => .done (([], some err), w2)
          | ((id, none), w2) => .done ((id, none), w2)

/-- The response `GetAllData` and `GetByID` build from a record: decrypt,
parse, wrap. A nil record panics when its field is read. -/
def Service.toResponse {σ : Type} (s : Service σ) (data : Option Data) (w : σ) :
    Run ((Option DataResponse × Option Error) × σ) :=
  match data with
  | none => .panic "runtime error: invalid memory address or nil pointer dereference"
  | some data =>
    (s.crypt.Decrypt data.Data w).bind fun r1 =>
      match r1 with
      | ((_, some err), w1) => .done ((none, some err), w1)
      | ((decrypted, none), w1) =>
        match ParseJsonData decrypted data.Typ with
        | (_, some err) => .done ((none, some err), w1)
        | (parsedData, none) =>
          .done ((some { Data := parsedData, Meta := data.Meta, Typ := data.Typ, ID := data.ID },
            none), w1)

/-- The loop of `GetAllData` over the records, `acc` being `dataResponses`. -/
def Service.getAllLoop {σ : Type} (s : Service σ) :
    List (Option Data) → List DataResponse → σ → Run ((List DataResponse × Option Error) × σ)
  | [], acc, w => .done ((acc, none), w)
  | data :: rest, acc, w =>
    (s.toResponse data w).bind fun r =>
      match r with
      | ((some resp, none), w1) => s.getAllLoop rest (acc ++ [resp]) w1
      | ((_, some err), w1) => .done (([], some err), w1)
      | ((none, none), w1) => .done (([], none), w1)

/-- `Service.GetAllData`. -/
def Service.GetAllData {σ : Type} (s : Service σ) (userID dataType : Bytes) (w : σ) :
    Run ((List DataResponse × Option Error) × σ) :=
  (s.dataRepo.GetAllDataByUserID userID dataType w).bind fun r =>
    match r with
    | ((_, some err), w1) => .done (([], some err), w1)
    | ((dataSet, none), w1) => s.getAllLoop dataSet [] w1

/-- `Service.GetByID`. -/
def Service.GetByID {σ : Type} (s : Service σ) (userID dataID dataType : Bytes) (w : σ) :
    Run ((Option DataResponse × Option Error) × σ) :=
  (s.dataRepo.GetByUserID userID dataID dataType w).bind fun r =>
    match r with
    | ((_, some err), w1) => .done ((none, some err), w1)
    | ((data, none), w1) => s.toResponse data w1

/-- `Service.DeleteByID`. -/
def Service.DeleteByID {σ : Type} (s : Service σ) (userID dataID dataType : Bytes) (w : σ) :
    Run (Option Error × σ) :=
  s.dataRepo.DeleteByID userID dataID dataType w

/-- `Service.Update`. -/
def Service.Update {σ : Type} (s : Service σ) (userID dataID dataType : Bytes) (data : Any)
    (meta : Bytes) (w : σ) : Run (Option Error × σ) :=
  match jsonMarshal data with
  | (_, some err) => .done (some err, w)
  | (jsonData, none) =>
    (s.crypt.Encrypt jsonData w).bind fun r1 =>
      match r1 with
      | ((_, some err), w1) => .done (some err, w1)
      | ((encrypted, none), w1) =>
        (s.dataRepo.UpdateData userID dataID dataType encrypted meta w1).bind fun r2 =>
          match r2 with
          | (some err, w2) => .done (some err, w2)
          | (none, w2) => .done (none, w2)

/-! ## net/http, chi, internal/context: requests and responses -/

/-- A key of a `context.Context`. `UserID` is the key type of
`internal/context`, a struct with one string field; the keys of other
packages are numbered. -/
inductive CtxKey where
  | UserID (value : Bytes)
  | otherKey (n : Nat)
  deriving DecidableEq, Repr

/-- A value of a `context.Context`: a string, or a value of another type. -/
inductive CtxValue where
  | str (s : Bytes)
  | otherValue (n : Nat)
  deriving DecidableEq, Repr

/-- A `context.Context`: the values set so far, the latest first. -/
abbrev Context := List (CtxKey × CtxValue)

/-- `context.SetUserID`: `context.WithValue(ctx, UserID\x7b\x7d, userID)`. -/
def context.SetUserID (ctx : Context) (userID : Bytes) : Context :=
  (CtxKey.UserID [], CtxValue.str userID) :: ctx

/-- `context.GetUserID`: the value under `UserID\x7b\x7d` when it is a string,
the empty string otherwise. -/
def context.GetUserID (ctx : Context) : Bytes :=
  match ctx.lookup (CtxKey.UserID []) with
  | some (.str userID) => userID
  | _ => []

/-- `http.Cookie`, its name and value. -/
structure Cookie where
  /-- Field `Name`. -/
  Name : Bytes
  /-- Field `Value`. -/
  Value : Bytes
  deriving DecidableEq, Repr

/-- `http.Request`, what the handlers read of it: the context, the parameters
the router took from the URL, the outcome of reading the body to its end, and
the cookies as `net/http` reads them from the `Cookie` header lines, in the
order of the lines. -/
structure Request where
  /-- What `r.Context()` returns. -/
  ctx : Context
  /-- The URL parameters of the route, in the order the router added them. -/
  URLParams : List (Bytes × Bytes)
  /-- What `io.ReadAll(r.Body)` returns. -/
  Body : Bytes × Option Error
  /-- The cookies of the request. -/
  Cookies : List Cookie
  deriving DecidableEq, Repr

/-- `chi.URLParam`: the value of the last parameter of that name, the empty
string when there is none. -/
def Request.URLParam (r : Request) (key : Bytes) : Bytes :=
  match r.URLParams.reverse.find? (fun kv => kv.1 = key) with
  | some kv => kv.2
  | none => []

/-- `Request.Cookie`: the first cookie of that name, `ErrNoCookie` when there
is none. -/
def Request.Cookie (r : Request) (name : Bytes) : Option Cookie × Option Error :=
  if name = [] then (none, some .httpNoCookie)
  else
    match r.Cookies.find? (fun c => c.Name = name) with
    | some c => (some c, none)
    | none => (none, some .httpNoCookie)

/-- `Request.WithContext`. -/
def Request.WithContext (r : Request) (ctx : Context) : Request := { r with ctx := ctx }

/-- What a handler wrote to its `http.ResponseWriter`: the status code, the
header fields it set, and the body. -/
structure Response where
  /-- The status code. -/
  Code : Nat
  /-- The header fields the handler set. -/
  Header : List (Bytes × Bytes)
  /-- The body. -/
  Body : Bytes
  deriving DecidableEq, Repr

/-- A response of a status code alone: `w.WriteHeader(code)`. -/
def Response.status (code : Nat) : Response := { Code := code, Header := [], Body := [] }

/-- An `http.Handler` over a state `σ` of the world. -/
abbrev Handler (σ : Type) := Request → σ → Run (Response × σ)

/-! ## internal/http/rest/handlers: the vault endpoints -/

/-- The values of the interface `handlers.Data`: pointers to the four
schemas. -/
inductive handlers.Data where
  | logpass (s : LogPassSchema)
  | card (s : CardSchema)
  | text (s : TextSchema)
  | file (s : FileSchema)
  deriving DecidableEq, Repr

/-- Method `Valid` of `handlers.Data`. -/
def handlers.Data.Valid : handlers.Data → Bool
  | .logpass s => s.Valid
  | .card s => s.Valid
  | .text s => s.Valid
  | .file s => s.Valid

/-- Method `GetData` of `handlers.Data`. -/
def handlers.Data.GetData : handlers.Data → Any
  | .logpass s => s.GetData
  | .card s => s.GetData
  | .text s => s.GetData
  | .file s => s.GetData

/-- Method `GetMeta` of `handlers.Data`. -/
def handlers.Data.GetMeta : handlers.Data → Bytes
  | .logpass s => s.GetMeta
  | .card s => s.GetMeta
  | .text s => s.GetMeta
  | .file s => s.GetMeta

/-- `DataHandler`. -/
structure DataHandler (σ : Type) where
  /-- Field `dataService`. -/
  dataService : Service σ

/-- `NewDataHandler`. -/
def NewDataHandler {σ : Type} (dataService : Service σ) : DataHandler σ :=
  { dataService := dataService }

/-- `DataHandler.parseDataRequest`. It does not read the handler. -/
def parseDataRequest (body dataType : Bytes) : Option handlers.Data × Option Error :=
  if dataType = LogPassDataType then
    match jsonUnmarshal LogPassSchema.decode body { Data := { Login := [], Password := [] }, Meta := [] } with
    | (_, some err) => (none, some err)
    | (logpass, none) => (some (.logpass logpass), none)
  else if dataType = CardDataType then
    match jsonUnmarshal CardSchema.decode body
        { Data := { Number := [], ExpiredAt := [], CVV := [] }, Meta := [] } with
    | (_, some err) => (none, some err)
    | (card, none) => (some (.card card), none)
  else if dataType = TextDataType then
    match jsonUnmarshal TextSchema.decode body { Data := { Text := [] }, Meta := [] } with
    | (_, some err) => (none, some err)
    | (text, none) => (some (.text text), none)
  else if dataType = FileDataType then
    match jsonUnmarshal FileSchema.decode body { Data := { Name := [], Content := none }, Meta := [] } with
    | (_, some err) => (none, some err)
    | (file, none) => (some (.file file), none)
  else (none, some .ErrInvalidDataBody)

/-- `json.Marshal` of a `schemas.DataResponse`. -/
def DataResponse.marshal (d : DataResponse) : Bytes × Option Error :=
  match jsonMarshal d.Data with
  | (_, some err) => ([], some err)
  | (data, none) =>
    (ascii "\x7b\"data\":" ++ data ++ ascii ",\"meta\":" ++ quote d.Meta ++ ascii ",\"type\":" ++
      quote d.Typ ++ ascii ",\"ID\":" ++ quote d.ID ++ ascii "\x7d", none)

/-- `DataHandler.Add`. A nil `dataBody`, which `parseDataRequest` does not
return without an error, panics at the call of `Valid`. -/
def DataHandler.Add {σ : Type} (h : DataHandler σ) : Handler σ := fun r w =>
  let userID := context.GetUserID r.ctx
  let dataType := r.URLParam (ascii "type")
  match r.Body with
  | (_, some _) => .done (Response.status 500, w)
  | (body, none) =>
    match parseDataRequest body dataType with
    | (_, some _) => .done (Response.status 400, w)
    | (none, none) => .panic "invalid memory address or nil pointer dereference"
    | (some dataBody, none) =>
      if !dataBody.Valid then .done (Response.status 400, w)
      else
        (h.dataService.Add userID dataType dataBody.GetData dataBody.GetMeta w).bind fun res =>
          match res with
          | ((_, some _), w1) => .done (Response.status 500, w1)
          | ((id, none), w1) =>
            let dataResponse : DataResponse :=
              { Data := dataBody.GetData, Meta := dataBody.GetMeta, ID := id, Typ := dataType }
            let header := [(ascii "Content-Type", ascii "application/json")]
            match dataResponse.marshal with
            | (_, some _) => .done ({ Code := 201, Header := header, Body := [] }, w1)
            | (out, none) => .done ({ Code := 201, Header := header, Body := out ++ [0x0A] }, w1)

/-! ## crypto/sha256, crypto/sha512, crypto/hmac

The three hash functions of the HMAC signing methods, after FIPS 180-4. Words
are natural numbers below `2 ^ 32` or `2 ^ 64`. -/

/-- The first eighty primes. -/
def sha2Primes : List Nat :=
  [2, 3, 5, 7, 11, 13, 17, 19, 23, 29, 31, 37, 41, 43, 47, 53, 59, 61, 67, 71,
   73, 79, 83, 89, 97, 101, 103, 107, 109, 113, 127, 131, 137, 139, 149, 151, 157, 163, 167, 173,
   179, 181, 191, 193, 197, 199, 211, 223, 227, 229, 233, 239, 241, 251, 257, 263, 269, 271, 277,
   281, 283, 293, 307, 311, 313, 317, 331, 337, 347, 349, 353, 359, 367, 373, 379, 383, 389, 397,
   401, 409]

/-- The largest number of at most `bits` bits whose `k`-th power is at most
`n`, found bit by bit. -/
def iroot (k bits n : Nat) : Nat :=
  (List.range bits).foldl
    (fun r i => if (r + 2 ^ (bits - 1 - i)) ^ k ≤ n then r + 2 ^ (bits - 1 - i) else r) 0

/-- The first `wordBits` bits of the fractional part of the `k`-th root of
`p`. -/
def rootFraction (k wordBits p : Nat) : Nat :=
  iroot k (wordBits + 8) (p * 2 ^ (k * wordBits)) % 2 ^ wordBits

/-- The round constants of SHA-256: from the cube roots of the first 64
primes. -/
def sha256K : List Nat := (sha2Primes.take 64).map (rootFraction 3 32)

/-- The initial hash value of SHA-256: from the square roots of the first
eight primes. -/
def sha256Init : List Nat := (sha2Primes.take 8).map (rootFraction 2 32)

/-- The round constants of SHA-384 and SHA-512: from the cube roots of the
first eighty primes. -/
def sha512K : List Nat := sha2Primes.map (rootFraction 3 64)

/-- The initial hash value of SHA-512: from the square roots of the first
eight primes. -/
def sha512Init : List Nat := (sha2Primes.take 8).map (rootFraction 2 64)

/-- The initial hash value of SHA-384: from the square roots of the ninth to
the sixteenth prime. -/
def sha384Init : List Nat := ((sha2Primes.drop 8).take 8).map (rootFraction 2 64)

/-- A hash function of the SHA-2 family: the width of its words, the number
of rounds, the round constants, the initial hash value, the rotation and shift
amounts of its four sigma functions, and the length of the digest in bytes. -/
structure Sha2 where
  /-- The width of a word in bits: 32 or 64. -/
  wordBits : Nat
  /-- The number of rounds: 64 or 80. -/
  rounds : Nat
  /-- The round constants. -/
  K : List Nat
  /-- The initial hash value. -/
  init : List Nat
  /-- The rotations of the upper-case sigma 0. -/
  bigSigma0 : Nat × Nat × Nat
  /-- The rotations of the upper-case sigma 1. -/
  bigSigma1 : Nat × Nat × Nat
  /-- The two rotations and the shift of the lower-case sigma 0. -/
  smallSigma0 : Nat × Nat × Nat
  /-- The two rotations and the shift of the lower-case sigma 1. -/
  smallSigma1 : Nat × Nat × Nat
  /-- The length of the digest in bytes. -/
  size : Nat

/-- SHA-256. -/
def sha256 : Sha2 :=
  { wordBits := 32, rounds := 64, K := sha256K, init := sha256Init,
    bigSigma0 := (2, 13, 22), bigSigma1 := (6, 11, 25),
    smallSigma0 := (7, 18, 3), smallSigma1 := (17, 19, 10), size := 32 }

/-- SHA-512. -/
def sha512 : Sha2 :=
  { wordBits := 64, rounds := 80, K := sha512K, init := sha512Init,
    bigSigma0 := (28, 34, 39), bigSigma1 := (14, 18, 41),
    smallSigma0 := (1, 8, 7), smallSigma1 := (19, 61, 6), size := 64 }

/-- SHA-384: SHA-512 from another initial value, cut to 48 bytes. -/
def sha384 : Sha2 := { sha512 with init := sha384Init, size := 48 }

/-- The word rotated right by `n` bits. -/
def rotr (wordBits x n : Nat) : Nat := ((x >>> n) ||| (x <<< (wordBits - n))) % 2 ^ wordBits

/-- The length of a block in bytes. -/
def Sha2.blockSize (p : Sha2) : Nat := p.wordBits * 2

/-- An upper-case sigma: the exclusive or of three rotations. -/
def Sha2.bigSigma (p : Sha2) (r : Nat × Nat × Nat) (x : Nat) : Nat :=
  rotr p.wordBits x r.1 ^^^ rotr p.wordBits x r.2.1 ^^^ rotr p.wordBits x r.2.2

/-- A lower-case sigma: the exclusive or of two rotations and a shift. -/
def Sha2.smallSigma (p : Sha2) (r : Nat × Nat × Nat) (x : Nat) : Nat :=
  rotr p.wordBits x r.1 ^^^ rotr p.wordBits x r.2.1 ^^^ (x >>> r.2.2)

/-- The message schedule, extended by `n` words. -/
def Sha2.schedule (p : Sha2) : Nat → List Nat → List Nat
  | 0, w => w
  | n + 1, w =>
    let i := w.length
    p.schedule n (w ++ [(p.smallSigma p.smallSigma1 (w.getD (i - 2) 0) + w.getD (i - 7) 0 +
      p.smallSigma p.smallSigma0 (w.getD (i - 15) 0) + w.getD (i - 16) 0) % 2 ^ p.wordBits])

/-- One round on the eight working variables, with the round constant `k`
and the schedule word `wi`. -/
def Sha2.round (p : Sha2) (s : List Nat) (k wi : Nat) : List Nat :=
  match s with
  | [a, b, c, d, e, f, g, h] =>
    let m := 2 ^ p.wordBits
    let ch := (e &&& f) ^^^ (((m - 1) ^^^ e) &&& g)
    let maj := (a &&& b) ^^^ (a &&& c) ^^^ (b &&& c)
    let t1 := h + p.bigSigma p.bigSigma1 e + ch + k + wi
    let t2 := p.bigSigma p.bigSigma0 a + maj
    [(t1 + t2) % m, a, b, c, (d + t1) % m, e, f, g]
  | _ => s

/-- The hash value after one more block. -/
def Sha2.compress (p : Sha2) (h : List Nat) (block : Bytes) : List Nat :=
  let n := p.wordBits / 8
  let w := p.schedule (p.rounds - 16)
    ((List.range 16).map (fun i => beNat ((block.drop (i * n)).take n)))
  let out := (List.range p.rounds).foldl (fun s i => p.round s (p.K.getD i 0) (w.getD i 0)) h
  List.zipWith (fun x y => (x + y) % 2 ^ p.wordBits) h out

/-- The message with its padding: a one bit, zero bits, and the length of the
message in bits, up to a whole number of blocks. -/
def Sha2.pad (p : Sha2) (msg : Bytes) : Bytes :=
  let lenBytes := p.wordBits / 4
  let zeros := (p.blockSize - (msg.length + 1 + lenBytes) % p.blockSize) % p.blockSize
  msg ++ [0x80] ++ List.replicate zeros 0 ++ natBE lenBytes (msg.length * 8)

/-- The digest of a message: `sha256.Sum256`, `sha512.Sum384`,
`sha512.Sum512`. -/
def Sha2.sum (p : Sha2) (msg : Bytes) : Bytes :=
  let padded := p.pad msg
  let h := (List.range (padded.length / p.blockSize)).foldl
    (fun h i => p.compress h ((padded.drop (i * p.blockSize)).take p.blockSize)) p.init
  (h.flatMap (natBE (p.wordBits / 8))).take p.size

/-- The HMAC of a message under a key: `hmac.New(h, key)`, `Write(msg)`,
`Sum(nil)`. A key longer than a block is hashed first. -/
def hmacSum (p : Sha2) (key msg : Bytes) : Bytes :=
  let k0 := if p.blockSize < key.length then p.sum key else key
  let k := k0 ++ List.replicate (p.blockSize - k0.length) 0
  p.sum (k.map (fun b => byte (b.val ^^^ 0x5c)) ++
    p.sum (k.map (fun b => byte (b.val ^^^ 0x36)) ++ msg))

/-! ## strings, strconv -/

/-- `strings.Split(s, sep)` for a separator of one byte. -/
def stringsSplit (sep : Byte) : Bytes → List Bytes
  | [] => [[]]
  | c :: rest =>
    if c = sep then [] :: stringsSplit sep rest
    else
      match stringsSplit sep rest with
      | p :: ps => (c :: p) :: ps
      | [] => [[c]]

/-- The decimal digits of `n` in front of `acc`; the first argument bounds
the recursion (`n + 1` is enough). -/
def decimalDigits : Nat → Nat → Bytes → Bytes
  | 0, _, acc => acc
  | fuel + 1, n, acc =>
    if n < 10 then byte (48 + n) :: acc
    else decimalDigits fuel (n / 10) (byte (48 + n % 10) :: acc)

/-- `strconv.FormatInt(i, 10)`. -/
def FormatInt (i : Int) : Bytes :=
  if i < 0 then 0x2D :: decimalDigits (i.natAbs + 1) i.natAbs []
  else decimalDigits (i.natAbs + 1) i.natAbs []

/-- The value of a literal made of decimal digits only. -/
def decimalValue (lit : Bytes) : Option Nat :=
  if lit ≠ [] ∧ lit.all isDigit then some (lit.foldl (fun acc d => acc * 10 + (d.val - 48)) 0)
  else none

/-- What the token parser needs of `float64`, whose arithmetic is not
modelled. For a number literal of JSON the function gives `none` when
`strconv.ParseFloat(lit, 64)` reports an error (the literal is out of range),
and otherwise the Unix second of the `NumericDate` the library makes from the
float. The model asks it only about literals that are not plain integers
below `2 ^ 53`. -/
abbrev Float64 := Bytes → Option Int

/-- The Unix second of the `NumericDate` made from a number literal, `none`
when `strconv.ParseFloat` reports an error: an integer below `2 ^ 53` is a
`float64` and is its own second. -/
def numericSeconds (F : Float64) (lit : Bytes) : Option Int :=
  match decimalValue lit with
  | some n => if n < 2 ^ 53 then some (n : Int) else F lit
  | none => F lit

mutual
/-- The number literals of a JSON value, at any depth. -/
def JSON.numbers : JSON → List Bytes
  | .num lit => [lit]
  | .arr elems => numbersOfElems elems
  | .obj members => numbersOfMembers members
  | _ => []
/-- The number literals of the elements of an array. -/
def numbersOfElems : List JSON → List Bytes
  | [] => []
  | j :: js => j.numbers ++ numbersOfElems js
/-- The number literals of the members of an object. -/
def numbersOfMembers : List (Bytes × JSON) → List Bytes
  | [] => []
  | kv :: ms => kv.2.numbers ++ numbersOfMembers ms
end

/-! ## github.com/golang-jwt/jwt/v5: claims -/

/-- The Unix second of the zero `time.Time`. -/
def zeroTimeUnix : Int := -62135596800

/-- `jwt.RegisteredClaims`. A `*NumericDate` is the Unix second it holds (the
library keeps whole seconds), `none` when the pointer is nil. -/
structure RegisteredClaims where
  /-- Claim `iss`. -/
  Issuer : Bytes
  /-- Claim `sub`. -/
  Subject : Bytes
  /-- Claim `aud`. -/
  Audience : List Bytes
  /-- Claim `exp`. -/
  ExpiresAt : Option Int
  /-- Claim `nbf`. -/
  NotBefore : Option Int
  /-- Claim `iat`. -/
  IssuedAt : Option Int
  /-- Claim `jti`. -/
  ID : Bytes
  deriving DecidableEq, Repr

/-- `jwt.NewNumericDate` of a time in nanoseconds since the Unix epoch: the
time truncated to the second. -/
def NewNumericDate (t : Nat) : Int := ((t / 10 ^ 9 : Nat) : Int)

/-- `NumericDate.UnmarshalJSON` on a value that is not `null`: a number, or a
string that holds a number, is read into a `json.Number` and converted through
`float64`. On an error a pointer that was nil points to the zero time. -/
def decodeNumericDate (F : Float64) (cur : Option Int) : JSON → Option Int × Option Error
  | .num lit =>
    match numericSeconds F lit with
    | some s => (some s, none)
    | none => (some (cur.getD zeroTimeUnix), some (.other "could not convert json number value to float"))
  | .str s =>
    match parseNumber s with
    | some (_, []) =>
      match numericSeconds F s with
      | some t => (some t, none)
      | none => (some (cur.getD zeroTimeUnix), some (.other "could not convert json number value to float"))
    | _ => (some (cur.getD zeroTimeUnix), some (.other "could not parse NumericData"))
  | _ => (some (cur.getD zeroTimeUnix), some (.other "could not parse NumericData"))

/-- Decoding a JSON value into a field of type `*NumericDate`: `null` sets
the pointer to nil. The flag tells that the decoder stops at the error. -/
def decodeNumericDateField (F : Float64) (cur : Option Int) (v : JSON) :
    Option Int × Option Error × Bool :=
  match v with
  | .null => (none, none, false)
  | _ => ((decodeNumericDate F cur v).1, (decodeNumericDate F cur v).2,
      (decodeNumericDate F cur v).2.isSome)

/-- The string of a JSON string. -/
def JSON.str? : JSON → Option Bytes
  | .str s => some s
  | _ => none

/-- `ClaimStrings.UnmarshalJSON`: a string, or an array of strings. -/
def decodeClaimStrings (cur : List Bytes) : JSON → List Bytes × Option Error
  | .str s => ([s], none)
  | .arr elems =>
    if elems.all (fun j => j.str?.isSome) then (elems.filterMap JSON.str?, none)
    else (cur, some (.other "invalid type for claim"))
  | .null => (cur, none)
  | _ => (cur, some (.other "invalid type for claim"))

/-! ## internal/utils/jwt: the claims of the program -/

/-- `jwt.Claims`: the registered claims and the owner id. -/
structure jwt.Claims where
  /-- The embedded `jwt.RegisteredClaims`. -/
  RegisteredClaims : GoKeeper.RegisteredClaims
  /-- Field `UserID`. -/
  UserID : Bytes
  deriving DecidableEq, Repr

/-- The zero value of `jwt.Claims`. -/
def jwt.Claims.zero : jwt.Claims :=
  { RegisteredClaims := { Issuer := [], Subject := [], Audience := [], ExpiresAt := none,
                          NotBefore := none, IssuedAt := none, ID := [] },
    UserID := [] }

/-- The JSON names of the fields of `jwt.Claims`, those of the embedded
struct first. -/
def jwt.Claims.fieldNames : List Bytes :=
  [ascii "iss", ascii "sub", ascii "aud", ascii "exp", ascii "nbf", ascii "iat", ascii "jti",
    ascii "UserID"]

/-- `json.Marshal` of a `ClaimStrings`: an array of strings. -/
def marshalClaimStrings (xs : List Bytes) : Bytes :=
  [0x5B] ++ ((xs.map quote).intersperse [0x2C]).flatten ++ [0x5D]

/-- `json.Marshal` of a `jwt.Claims`: the registered claims that are not
empty, a `NumericDate` as its Unix second, then `UserID`. -/
def jwt.Claims.marshal (c : jwt.Claims) : Bytes :=
  let rc := c.RegisteredClaims
  let members : List Bytes :=
    (if rc.Issuer = [] then [] else [ascii "\"iss\":" ++ quote rc.Issuer]) ++
    (if rc.Subject = [] then [] else [ascii "\"sub\":" ++ quote rc.Subject]) ++
    (if rc.Audience = [] then [] else [ascii "\"aud\":" ++ marshalClaimStrings rc.Audience]) ++
    (match rc.ExpiresAt with
      | none => []
      | some t => [ascii "\"exp\":" ++ FormatInt t]) ++
    (match rc.NotBefore with
      | none => []
      | some t => [ascii "\"nbf\":" ++ FormatInt t]) ++
    (match rc.IssuedAt with
      | none => []
      | some t => [ascii "\"iat\":" ++ FormatInt t]) ++
    (if rc.ID = [] then [] else [ascii "\"jti\":" ++ quote rc.ID]) ++
    [ascii "\"UserID\":" ++ quote c.UserID]
  [0x7B] ++ (members.intersperse [0x2C]).flatten ++ [0x7D]

/-- Storing a JSON value into field `i` of a `jwt.Claims`. The flag tells
that the decoder stops at the error, as it does at the error of an
`UnmarshalJSON` method; the other errors it keeps and goes on. -/
def jwt.Claims.setField (F : Float64) (c : jwt.Claims) (i : Nat) (v : JSON) :
    jwt.Claims × Option Error × Bool :=
  let rc := c.RegisteredClaims
  match i with
  | 0 => ({ c with RegisteredClaims := { rc with Issuer := (decodeString rc.Issuer v).1 } },
      (decodeString rc.Issuer v).2, false)
  | 1 => ({ c with RegisteredClaims := { rc with Subject := (decodeString rc.Subject v).1 } },
      (decodeString rc.Subject v).2, false)
  | 2 => ({ c with RegisteredClaims := { rc with Audience := (decodeClaimStrings rc.Audience v).1 } },
      (decodeClaimStrings rc.Audience v).2, (decodeClaimStrings rc.Audience v).2.isSome)
  | 3 => ({ c with RegisteredClaims :=
        { rc with ExpiresAt := (decodeNumericDateField F rc.ExpiresAt v).1 } },
      (decodeNumericDateField F rc.ExpiresAt v).2.1, (decodeNumericDateField F rc.ExpiresAt v).2.2)
  | 4 => ({ c with RegisteredClaims :=
        { rc with NotBefore := (decodeNumericDateField F rc.NotBefore v).1 } },
      (decodeNumericDateField F rc.NotBefore v).2.1, (decodeNumericDateField F rc.NotBefore v).2.2)
  | 5 => ({ c with RegisteredClaims :=
        { rc with IssuedAt := (decodeNumericDateField F rc.IssuedAt v).1 } },
      (decodeNumericDateField F rc.IssuedAt v).2.1, (decodeNumericDateField F rc.IssuedAt v).2.2)
  | 6 => ({ c with RegisteredClaims := { rc with ID := (decodeString rc.ID v).1 } },
      (decodeString rc.ID v).2, false)
  | 7 => ({ c with UserID := (decodeString c.UserID v).1 }, (decodeString c.UserID v).2, false)
  | _ => (c, none, false)

/-- Decoding the members of an object into a `jwt.Claims`, with the error
kept so far. -/
def jwt.Claims.decodeMembers (F : Float64) (c : jwt.Claims) (saved : Option Error) :
    List (Bytes × JSON) → jwt.Claims × Option Error
  | [] => (c, saved)
  | kv :: ms =>
    match findField jwt.Claims.fieldNames kv.1 with
    | none => jwt.Claims.decodeMembers F c saved ms
    | some i =>
      if (jwt.Claims.setField F c i kv.2).2.2 then
        ((jwt.Claims.setField F c i kv.2).1, (jwt.Claims.setField F c i kv.2).2.1)
      else
        jwt.Claims.decodeMembers F (jwt.Claims.setField F c i kv.2).1
          (saveError saved (jwt.Claims.setField F c i kv.2).2.1) ms

/-- Decoding a JSON value into a `jwt.Claims`. -/
def jwt.Claims.decode (F : Float64) (c : jwt.Claims) : JSON → jwt.Claims × Option Error
  | .obj ms => jwt.Claims.decodeMembers F c none ms
  | .null => (c, none)
  | _ => (c, some .jsonUnmarshalType)

/-! ## github.com/golang-jwt/jwt/v5: signing and parsing

The errors of the library are kept by their kind (`ErrTokenMalformed`,
`ErrTokenUnverifiable`, `ErrTokenSignatureInvalid`, `ErrTokenExpired`,
`ErrTokenNotValidYet`), without the errors they wrap. -/

/-- The signing methods the library registers: the three HMAC methods, and
the methods whose keys are not byte strings (RSA, RSA-PSS, ECDSA, EdDSA and
`none`). -/
inductive SigningMethod where
  | HS256
  | HS384
  | HS512
  | otherMethod (alg : Bytes)
  deriving DecidableEq, Repr

/-- `jwt.GetSigningMethod`. -/
def GetSigningMethod (alg : Bytes) : Option SigningMethod :=
  if alg = ascii "HS256" then some .HS256
  else if alg = ascii "HS384" then some .HS384
  else if alg = ascii "HS512" then some .HS512
  else if alg ∈ [ascii "RS256", ascii "RS384", ascii "RS512", ascii "PS256", ascii "PS384",
      ascii "PS512", ascii "ES256", ascii "ES384", ascii "ES512", ascii "EdDSA", ascii "none"] then
    some (.otherMethod alg)
  else none

/-- Method `Alg`. -/
def SigningMethod.Alg : SigningMethod → Bytes
  | .HS256 => ascii "HS256"
  | .HS384 => ascii "HS384"
  | .HS512 => ascii "HS512"
  | .otherMethod alg => alg

/-- The hash function of an HMAC method. -/
def SigningMethod.hash : SigningMethod → Option Sha2
  | .HS256 => some sha256
  | .HS384 => some sha384
  | .HS512 => some sha512
  | .otherMethod _ => none

/-- Method `Sign` with a key that is a byte string: the methods that are not
HMAC refuse the key. -/
def SigningMethod.Sign (m : SigningMethod) (signingString key : Bytes) : Bytes × Option Error :=
  match m.hash with
  | some p => (hmacSum p key signingString, none)
  | none => ([], some (.other "key is of invalid type"))

/-- Method `Verify` with a key that is a byte string. -/
def SigningMethod.Verify (m : SigningMethod) (signingString sig key : Bytes) : Option Error :=
  match m.hash with
  | some p => if sig = hmacSum p key signingString then none else some .jwtSignatureInvalid
  | none => some (.other "key is of invalid type")

/-- `Token.SignedString` of a token made by `jwt.NewWithClaims(method,
claims)`: header and claims in base64, a dot between them, and the signature
of that text in base64 after another dot. -/
def SignedString (method : SigningMethod) (claims : jwt.Claims) (key : Bytes) :
    Bytes × Option Error :=
  let header := ascii "\x7b\"alg\":" ++ quote method.Alg ++ ascii ",\"typ\":\"JWT\"\x7d"
  let sstr := B64.rawURL.encode header ++ [0x2E] ++ B64.rawURL.encode claims.marshal
  match method.Sign sstr key with
  | (_, some err) => ([], some err)
  | (sig, none) => (sstr ++ [0x2E] ++ B64.rawURL.encode sig, none)

/-- `json.Unmarshal(headerBytes, &token.Header)` into a nil
`map[string]interface\x7b\x7d`: the members of the object, `none` while the map is
nil. A number is stored as a `float64`, so a number literal that
`strconv.ParseFloat` refuses is an error. -/
def decodeHeader (F : Float64) (data : Bytes) : Option (List (Bytes × JSON)) × Option Error :=
  match jsonParse data with
  | none => (none, some .jsonSyntax)
  | some .null => (none, none)
  | some (.obj ms) =>
    if (numbersOfMembers ms).all (fun lit => (numericSeconds F lit).isSome) then (some ms, none)
    else (some ms, some .jsonUnmarshalType)
  | some _ => (none, some .jsonUnmarshalType)

/-- The value `token.Header["alg"].(string)`: the string under the last key
`alg`. -/
def headerAlg (header : Option (List (Bytes × JSON))) : Option Bytes :=
  match header with
  | none => none
  | some ms =>
    match ms.reverse.find? (fun kv => kv.1 = ascii "alg") with
    | some kv => kv.2.str?
    | none => none

/-- `Validator.Validate` with the default options, at the time `now` in
nanoseconds since the Unix epoch: `exp`, when present, must be after `now`,
and `nbf`, when present, not after `now`. -/
def Validate (now : Nat) (c : jwt.Claims) : Option Error :=
  let expErr : Option Error :=
    match c.RegisteredClaims.ExpiresAt with
    | none => none
    | some exp => if (now : Int) < exp * 10 ^ 9 then none else some .jwtExpired
  let nbfErr : Option Error :=
    match c.RegisteredClaims.NotBefore with
    | none => none
    | some nbf => if (now : Int) < nbf * 10 ^ 9 then some .jwtNotValidYet else none
  match expErr, nbfErr with
  | none, none => none
  | some e, none => some e
  | none, some e => some e
  | some _, some _ => some .jwtInvalidClaims

/-- `jwt.ParseWithClaims(tokenString, claims, keyFunc)` for a `keyFunc` that
returns the byte string `key`, at the time `now`: the claims as the parser
left them, `token.Valid`, and the error. -/
def ParseWithClaims (F : Float64) (now : Nat) (tokenString : Bytes) (claims : jwt.Claims)
    (key : Bytes) : jwt.Claims × Bool × Option Error :=
  match stringsSplit 0x2E tokenString with
  | [p0, p1, p2] =>
    match B64.rawURL.decode p0 with
    | (_, some _) => (claims, false, some .jwtMalformed)
    | (headerBytes, none) =>
      match decodeHeader F headerBytes with
      | (_, some _) => (claims, false, some .jwtMalformed)
      | (header, none) =>
        match B64.rawURL.decode p1 with
        | (_, some _) => (claims, false, some .jwtMalformed)
        | (claimBytes, none) =>
          match jsonUnmarshal (jwt.Claims.decode F) claimBytes claims with
          | (c1, some _) => (c1, false, some .jwtMalformed)
          | (c1, none) =>
            match (headerAlg header).bind GetSigningMethod with
            | none => (c1, false, some .jwtUnverifiable)
            | some method =>
              match B64.rawURL.decode p2 with
              | (_, some _) => (c1, false, some .jwtMalformed)
              | (sig, none) =>
                match method.Verify (p0 ++ [0x2E] ++ p1) sig key with
                | some _ => (c1, false, some .jwtSignatureInvalid)
                | none =>
                  match Validate now c1 with
                  | some err => (c1, false, some err)
                  | none => (c1, true, none)
  | _ => (claims, false, some .jwtMalformed)

/-! ## internal/utils/jwt -/

/-- `TokenExp`: three hours, in nanoseconds. -/
def jwt.TokenExp : Nat := 3 * 3600 * 10 ^ 9

/-- `BuildJWTString`, with the secret of the process and the time
`time.Now()` returns, in nanoseconds since the Unix epoch. -/
def jwt.BuildJWTString (SecretKey : Bytes) (now : Nat) (userID : Bytes) : Bytes × Option Error :=
  match SignedString .HS256
      { jwt.Claims.zero with
        RegisteredClaims :=
          { jwt.Claims.zero.RegisteredClaims with
            ExpiresAt := some (NewNumericDate (now + jwt.TokenExp)) },
        UserID := userID }
      SecretKey with
  | (_, some err) => ([], some err)
  | (tokenString, none) => (tokenString, none)

/-- `GetUserID`, with the secret of the process and the time at which the
library reads the clock. -/
def jwt.GetUserID (F : Float64) (SecretKey : Bytes) (now : Nat) (tokenString : Bytes) :
    Bytes × Option Error :=
  match ParseWithClaims F now tokenString jwt.Claims.zero SecretKey with
  | (_, _, some err) => ([], some err)
  | (claims, valid, none) =>
    if !valid then ([], some (.other "not valid token")) else (claims.UserID, none)

/-! ## pkg/middleware -/

/-- `CookieName`. -/
def CookieName : Bytes := ascii "jwt"

/-- `Auth`, with the secret of the process and the time at which the token
is checked. A nil cookie, which `Request.Cookie` does not return without an
error, panics when its value is read. -/
def Auth {σ : Type} (F : Float64) (SecretKey : Bytes) (now : Nat) (next : Handler σ) :
    Handler σ := fun r w =>
  match r.Cookie CookieName with
  | (_, some _) => .done (Response.status 401, w)
  | (none, none) => .panic "invalid memory address or nil pointer dereference"
  | (some cookie, none) =>
    match jwt.GetUserID F SecretKey now cookie.Value with
    | (_, some _) => .done (Response.status 401, w)
    | (userID, none) => next (r.WithContext (context.SetUserID r.ctx userID)) w

/-! ## errors -/

/-- `errors.Is(err, target)` for an error that is not nil: the error or one
it wraps is the target. -/
def Error.Is : Error → Error → Bool
  | .wrap msg inner, target => (Error.wrap msg inner == target) || inner.Is target
  | e, target => e == target

/-- `err != nil && !errors.Is(err, target)`. -/
def isOtherError (err : Option Error) (target : Error) : Bool :=
  match err with
  | none => false
  | some e => !e.Is target

/-! ## internal/models: users -/

/-- Modelled from the spec: the struct `models.User`, whose declaration is not
among the sources. It has the three string fields the code reads and writes:
`ID`, `Login` and `Password`. -/
structure User where
  /-- Field `ID`. -/
  ID : Bytes
  /-- Field `Login`. -/
  Login : Bytes
  /-- Field `Password`. -/
  Password : Bytes
  deriving DecidableEq, Repr

/-- Modelled from the spec: the JSON names of the fields of `models.User`,
which its missing declaration fixes; `none` for a field that JSON does not
reach. They are a parameter of the handlers that read a user from a body. -/
structure UserJSON where
  /-- The JSON name of `ID`. -/
  ID : Option Bytes
  /-- The JSON name of `Login`. -/
  Login : Option Bytes
  /-- The JSON name of `Password`. -/
  Password : Option Bytes
  deriving DecidableEq, Repr

/-- The names of the fields JSON reaches, each with the index of its field. -/
def UserJSON.fields (n : UserJSON) : List (Bytes × Nat) :=
  (match n.ID with
    | some k => [(k, 0)]
    | none => []) ++
  (match n.Login with
    | some k => [(k, 1)]
    | none => []) ++
  (match n.Password with
    | some k => [(k, 2)]
    | none => [])

/-- The field of a user a key of an object selects: the one with exactly this
name, otherwise the one whose name matches when folded. -/
def UserJSON.findField (n : UserJSON) (key : Bytes) : Option Nat :=
  match n.fields.find? (fun f => f.1 = key) with
  | some f => some f.2
  | none => (n.fields.find? (fun f => foldName f.1 = foldName key)).map (fun f => f.2)

/-- Storing a JSON value into field `i` of a user. -/
def User.setField (u : User) (i : Nat) (v : JSON) : User × Option Error :=
  match i with
  | 0 => ({ u with ID := (decodeString u.ID v).1 }, (decodeString u.ID v).2)
  | 1 => ({ u with Login := (decodeString u.Login v).1 }, (decodeString u.Login v).2)
  | 2 => ({ u with Password := (decodeString u.Password v).1 }, (decodeString u.Password v).2)
  | _ => (u, none)

/-- Decoding a JSON value into a `*models.User` that is nil: `null` leaves it
nil; any other value makes it point to a new user, into which the members of
an object are stored. -/
def User.decodePtr (n : UserJSON) : JSON → Option User × Option Error
  | .null => (none, none)
  | .obj ms =>
    let r := ms.foldl
      (fun (acc : User × Option Error) kv =>
        match n.findField kv.1 with
        | some i => ((acc.1.setField i kv.2).1, saveError acc.2 (acc.1.setField i kv.2).2)
        | none => acc)
      ({ ID := [], Login := [], Password := [] }, none)
    (some r.1, r.2)
  | _ => (some { ID := [], Login := [], Password := [] }, some .jsonUnmarshalType)

/-- The first JSON value of a stream, as `Decoder.Decode` reads it from a
body: the bytes the body delivers and the error that ends them, if any. The
value of an object or array ends with its closing bracket. Another value
ends before the first byte that does not continue it, whatever that byte is:
the scanner keeps its complaint about a byte that is not white space for the
next call of `Decode`, which the handlers do not make; at the end of the body
the decoder takes a space for that byte. Of the errors only the presence is
modelled, a read error standing also for a syntax error before it. -/
def decodeFirstValue (body : Bytes × Option Error) : Option JSON × Option Error :=
  match parseValue (body.1.length + 1) 0 body.1 with
  | some (.obj ms, _) => (some (.obj ms), none)
  | some (.arr es, _) => (some (.arr es), none)
  | some (v, _ :: _) => (some v, none)
  | some (v, []) =>
    match body.2 with
    | none => (some v, none)
    | some err => (none, some err)
  | none =>
    match body.2 with
    | none => (none, some .jsonSyntax)
    | some err => (none, some err)

/-- `json.NewDecoder(r.Body).Decode(&user)` for a nil `user *models.User`. -/
def decodeUser (n : UserJSON) (body : Bytes × Option Error) : Option User × Option Error :=
  match decodeFirstValue body with
  | (_, some err) => (none, some err)
  | (none, none) => (none, some .jsonSyntax)
  | (some j, none) => User.decodePtr n j

/-! ## pkg/hashing: passwords -/

/-- Modelled from the spec: the functions `HashPassword` and `VerifyPassword`
of package `hashing`, whose source file is not among the sources. The spec
says of them that the hash is salted and one-way and that a hash can only be
verified. They are parameters here: `HashPassword` may read the world (the
salt) and fail, `VerifyPassword` is a function of a password and a hash. -/
structure PasswordHashing (σ : Type) where
  /-- Function `HashPassword`. -/
  HashPassword : Bytes → σ → Run ((Bytes × Option Error) × σ)
  /-- Function `VerifyPassword`. -/
  VerifyPassword : Bytes → Bytes → Bool

/-! ## internal/db/repository/postgres: the table `users` -/

/-- Modelled from the spec: a row of the table `users`, whose schema is not
among the sources. The statements of the repository name its columns `id`,
`login` and `password`; by the spec `login` is unique, enforced when a row is
inserted, and the database generates `id`. -/
structure UserRow where
  /-- Column `id`. -/
  id : Bytes
  /-- Column `login`. -/
  login : Bytes
  /-- Column `password`. -/
  password : Bytes
  deriving DecidableEq, Repr

/-- The error of the driver when an insert violates the uniqueness of
`login`. It is an error of the driver, not one of package `errs`. -/
def pgUniqueViolation : Error :=
  .other "duplicate key value violates unique constraint (SQLSTATE 23505)"

/-- `postgres.UserRepository.Create` on the table `db`, with the id the
database generates and the error of the driver, if any: the id of the new
row, or the error of the insert as the driver reports it. The insert fails
when a row has the login, and when a row has the id, the key of the table. -/
def postgres.UserRepository.Create (db : List UserRow) (newID : Bytes) (drv : Option Error)
    (user : User) : (Option Bytes × Option Error) × List UserRow :=
  match drv with
  | some err => ((none, some err), db)
  | none =>
    if db.any (fun r => r.login = user.Login) then ((none, some pgUniqueViolation), db)
    else if db.any (fun r => r.id = newID) then
      ((none, some (.other "pq: duplicate key value violates unique constraint")), db)
    else ((some newID, none), db ++ [{ id := newID, login := user.Login,
                                       password := user.Password }])

/-- `postgres.UserRepository.GetUserByLogin`: the row with the login, or
`ErrUserNotFound` when the query has no rows. -/
def postgres.UserRepository.GetUserByLogin (db : List UserRow) (drv : Option Error)
    (login : Bytes) : Option User × Option Error :=
  match drv with
  | some err => (none, some err)
  | none =>
    match db.find? (fun r => r.login = login) with
    | some r => (some { ID := r.id, Login := r.login, Password := r.password }, none)
    | none => (none, some .ErrUserNotFound)

/-! ## internal/keeper/user -/

/-- The interface `repository.UserRepository` over a state `σ`. `Create`
receives the user its pointer argument points to. -/
structure repository.UserRepository (σ : Type) where
  /-- Method `Create`. -/
  Create : User → σ → Run ((Option Bytes × Option Error) × σ)
  /-- Method `GetUserByLogin`. -/
  GetUserByLogin : Bytes → σ → Run ((Option User × Option Error) × σ)

/-- `user.Service`. -/
structure user.Service (σ : Type) where
  /-- Field `userRepo`. -/
  userRepo : repository.UserRepository σ

/-- `user.NewService`. -/
def user.NewService {σ : Type} (userRepo : repository.UserRepository σ) : user.Service σ :=
  { userRepo := userRepo }

/-- `Service.CreateUser`. The result holds, next to the id and the error, the
user the pointer argument points to after the call: the function writes the
hash, or what `HashPassword` returned with its error, into `Password`. A nil
pointer panics when `Login` is read. -/
def user.Service.CreateUser {σ : Type} (H : PasswordHashing σ) (s : user.Service σ)
    (usr : Option User) (w : σ) : Run (((Option Bytes × Option Error) × User) × σ) :=
  match usr with
  | none => .panic "invalid memory address or nil pointer dereference"
  | some u =>
    (s.userRepo.GetUserByLogin u.Login w).bind fun r1 =>
      if isOtherError r1.1.2 .ErrUserNotFound then .done (((none, r1.1.2), u), r1.2)
      else if r1.1.1.isSome then .done (((none, some .ErrLoginAlreadyExist), u), r1.2)
      else
        (H.HashPassword u.Password r1.2).bind fun r2 =>
          match r2.1.2 with
          | some err => .done (((none, some err), { u with Password := r2.1.1 }), r2.2)
          | none =>
            (s.userRepo.Create { u with Password := r2.1.1 } r2.2).bind fun r3 =>
              .done ((r3.1, { u with Password := r2.1.1 }), r3.2)

/-- `Service.GetUser`. -/
def user.Service.GetUser {σ : Type} (s : user.Service σ) (usr : Option User) (w : σ) :
    Run ((Option User × Option Error) × σ) :=
  match usr with
  | none => .panic "invalid memory address or nil pointer dereference"
  | some u => s.userRepo.GetUserByLogin u.Login w

/-- `Service.CorrectCredentials`. It does not read the service. -/
def user.Service.CorrectCredentials {σ : Type} (H : PasswordHashing σ)
    (usr existedUser : Option User) : Run Bool :=
  match usr, existedUser with
  | some u, some e => .done (H.VerifyPassword u.Password e.Password)
  | _, _ => .panic "invalid memory address or nil pointer dereference"

/-! ## net/http: the cookies of a response -/

/-- `validCookieValueByte`. -/
def validCookieValueByte (b : Byte) : Bool :=
  0x20 ≤ b.val && b.val < 0x7F && b.val != 0x22 && b.val != 0x3B && b.val != 0x5C

/-- `sanitizeCookieValue` of a value that is not marked as quoted: the bytes
a cookie value may not hold are dropped, and a value with a space or a comma
is put between double quotes. -/
def sanitizeCookieValue (v : Bytes) : Bytes :=
  if v.filter validCookieValueByte = [] then []
  else if (v.filter validCookieValueByte).any (fun b => b.val = 0x20 || b.val = 0x2C) then
    [0x22] ++ v.filter validCookieValueByte ++ [0x22]
  else v.filter validCookieValueByte

/-- Whether the byte may stand in a token of HTTP. -/
def isTokenByte (b : Byte) : Bool :=
  0x21 ≤ b.val && b.val < 0x7F &&
    !(ascii "\"(),/:;<=>?@[\\]\x7b\x7d").contains b

/-- `isCookieNameValid`. -/
def isCookieNameValid (name : Bytes) : Bool := name != [] && name.all isTokenByte

/-- `http.SetCookie` of a cookie with a name and a value only: a header line
`Set-Cookie` is added when the name is valid. -/
def SetCookie (resp : Response) (c : Cookie) : Response :=
  if isCookieNameValid c.Name then
    { resp with
      Header := resp.Header ++ [(ascii "Set-Cookie", c.Name ++ [0x3D] ++ sanitizeCookieValue c.Value)] }
  else resp

/-! ## internal/http/rest/handlers: the user endpoints -/

/-- `UserHandler`. -/
structure UserHandler (σ : Type) where
  /-- Field `userService`. -/
  userService : user.Service σ

/-- `NewUserHandler`. -/
def NewUserHandler {σ : Type} (userService : user.Service σ) : UserHandler σ :=
  { userService := userService }

/-- `UserHandler.Register`, with the JSON names of a user, the hashing
functions, the secret of the process and the time at which the token is
built. A nil id without an error panics when it is read. -/
def UserHandler.Register {σ : Type} (names : UserJSON) (H : PasswordHashing σ)
    (SecretKey : Bytes) (now : Nat) (h : UserHandler σ) : Handler σ := fun r w =>
  match decodeUser names r.Body with
  | (_, some _) => .done (Response.status 400, w)
  | (usr, none) =>
    (h.userService.CreateUser H usr w).bind fun res =>
      match res.1.1.2 with
      | some err =>
        if err.Is .ErrLoginAlreadyExist then .done (Response.status 409, res.2)
        else .done (Response.status 500, res.2)
      | none =>
        match res.1.1.1 with
        | none => .panic "invalid memory address or nil pointer dereference"
        | some userID =>
          match jwt.BuildJWTString SecretKey now userID with
          | (_, some _) => .done (Response.status 400, res.2)
          | (tokenString, none) =>
            .done ({ SetCookie (Response.status 201)
                       { Name := CookieName, Value := tokenString } with
                     Body := ascii "ok" }, res.2)

/-- `UserHandler.Authorize`, with the same parameters. -/
def UserHandler.Authorize {σ : Type} (names : UserJSON) (H : PasswordHashing σ)
    (SecretKey : Bytes) (now : Nat) (h : UserHandler σ) : Handler σ := fun r w =>
  match decodeUser names r.Body with
  | (_, some _) => .done (Response.status 400, w)
  | (usr, none) =>
    (h.userService.GetUser usr w).bind fun res =>
      if isOtherError res.1.2 .ErrUserNotFound then .done (Response.status 500, res.2)
      else
        match res.1.1 with
        | none => .done (Response.status 404, res.2)
        | some existedUser =>
          match user.Service.CorrectCredentials H usr (some existedUser) with
          | .panic m => .panic m
          | .done false => .done (Response.status 401, res.2)
          | .done true =>
            match jwt.BuildJWTString SecretKey now existedUser.ID with
            | (_, some _) => .done (Response.status 400, res.2)
            | (tokenString, none) =>
              .done ({ SetCookie (Response.status 200)
                         { Name := CookieName, Value := tokenString } with
                       Body := ascii "ok" }, res.2)

/-! ## internal/keeper/data: the mocks of the tests -/

/-- A call that a mock of `data_test.go` records, with its arguments. -/
inductive MockCall where
  | Encrypt (data : Bytes)
  | Decrypt (data : Bytes)
  | AddData (userID dataType body meta : Bytes)
  | GetAllDataByUserID (userID dataType : Bytes)
  | GetByUserID (userID dataID dataType : Bytes)
  | DeleteByID (userID dataID dataType : Bytes)
  | UpdateData (userID dataID dataType encryptedData meta : Bytes)
  deriving DecidableEq, Repr

/-- What a test tells the mocks to return, one value for each method. -/
structure MockReturns where
  /-- The return of `Encrypt`. -/
  Encrypt : Bytes × Option Error
  /-- The return of `Decrypt`. -/
  Decrypt : Bytes × Option Error
  /-- The return of `AddData`. -/
  AddData : Bytes × Option Error
  /-- The return of `GetAllDataByUserID`. -/
  GetAllDataByUserID : List (Option Data) × Option Error
  /-- The return of `GetByUserID`. -/
  GetByUserID : Option Data × Option Error
  /-- The return of `DeleteByID`. -/
  DeleteByID : Option Error
  /-- The return of `UpdateData`. -/
  UpdateData : Option Error

/-- `MockCrypt`: each method records its call and returns what the test told
it to. The state is the list of the calls recorded so far. -/
def MockCrypt (ret : MockReturns) : CryptInterface (List MockCall) :=
  { Encrypt := fun data calls => .done (ret.Encrypt, calls ++ [.Encrypt data])
    Decrypt := fun data calls => .done (ret.Decrypt, calls ++ [.Decrypt data]) }

/-- `MockDataRepository`: each method records its call and returns what the
test told it to. -/
def MockDataRepository (ret : MockReturns) : repository.DataRepository (List MockCall) :=
  { AddData := fun userID dataType body meta calls =>
      .done (ret.AddData, calls ++ [.AddData userID dataType body meta])
    GetAllDataByUserID := fun userID dataType calls =>
      .done (ret.GetAllDataByUserID, calls ++ [.GetAllDataByUserID userID dataType])
    GetByUserID := fun userID dataID dataType calls =>
      .done (ret.GetByUserID, calls ++ [.GetByUserID userID dataID dataType])
    DeleteByID := fun userID dataID dataType calls =>
      .done (ret.DeleteByID, calls ++ [.DeleteByID userID dataID dataType])
    UpdateData := fun userID dataID dataType encryptedData meta calls =>
      .done (ret.UpdateData, calls ++ [.UpdateData userID dataID dataType encryptedData meta]) }

/-! ## The vault over the Postgres repository and the AES-GCM cipher -/

/-- The world the vault runs in: the table, and what the surroundings will
deliver next, the entropy of each read of `crypto/rand`, the id the database
generates at each insert, and the error of the driver at each statement (none
when the database executes it). -/
structure World where
  /-- The contents of `user_data`. -/
  table : Table
  /-- The entropy of the reads of `crypto/rand` to come. -/
  entropy : Nat → Entropy
  /-- The number of reads of `crypto/rand` so far. -/
  reads : Nat
  /-- The ids the database generates at the inserts to come. -/
  ids : Nat → Bytes
  /-- The number of inserts so far. -/
  inserts : Nat
  /-- The errors of the driver at the statements to come. -/
  faults : Nat → Option Error
  /-- What happens while the rows of the statements to come are read. -/
  rowFaults : Nat → RowsFault
  /-- The number of statements so far. -/
  statements : Nat

/-- `hashing.Crypt` as a `CryptInterface` of the world. -/
def Crypt.iface (c : Crypt) : CryptInterface World :=
  { Encrypt := fun plaintext w =>
      (c.Encrypt (w.entropy w.reads) plaintext).bind fun r =>
        .done (r, { w with reads := w.reads + 1 })
    Decrypt := fun ciphertext w => (c.Decrypt ciphertext).bind fun r => .done (r, w) }

/-- `postgres.DataRepository` as a `DataRepository` of the world. -/
def pgRepository : repository.DataRepository World :=
  { AddData := fun userID dataType body meta w =>
      let r := postgres.DataRepository.AddData w.table (w.ids w.inserts) (w.faults w.statements)
        userID dataType body meta
      .done (r.1, { w with table := r.2, inserts := w.inserts + 1,
                           statements := w.statements + 1 })
    GetAllDataByUserID := fun userID dataType w =>
      let r := postgres.DataRepository.GetAllDataByUserID w.table (w.faults w.statements)
        (w.rowFaults w.statements) userID dataType
      .done ((r.1.map some, r.2), { w with statements := w.statements + 1 })
    GetByUserID := fun userID dataID dataType w =>
      .done (postgres.DataRepository.GetByUserID w.table (w.faults w.statements) userID dataID dataType,
        { w with statements := w.statements + 1 })
    DeleteByID := fun userID dataID dataType w =>
      let r := postgres.DataRepository.DeleteByID w.table (w.faults w.statements) userID dataID dataType
      .done (r.1, { w with table := r.2, statements := w.statements + 1 })
    UpdateData := fun userID dataID dataType encryptedData meta w =>
      let r := postgres.DataRepository.UpdateData w.table (w.faults w.statements) userID dataID dataType
        encryptedData meta
      .done (r.1, { w with table := r.2, statements := w.statements + 1 }) }

/-- The service `NewApp` builds: the Postgres repository and the cipher under
the configured secret. -/
def appService (secretHash : Bytes) : Service World :=
  NewService pgRepository (NewCrypter secretHash).iface

/-- Whether the database executes every statement to come. -/
def World.reliable (w : World) : Prop := ∀ k, w.faults k = none

/-- The world at the start: an empty table, an entropy source that always
delivers the stream `f`, a database that generates the ids `ids`, executes
every statement and delivers every row. -/
def World.initial (f : Nat → Byte) (ids : Nat → Bytes) : World :=
  { table := [], entropy := fun _ => some f, reads := 0, ids := ids, inserts := 0,
    faults := fun _ => none, rowFaults := fun _ => .complete, statements := 0 }

/-- What a call returned, without the world it left; `none` after a
panic. -/
def Run.value {α σ : Type} : Run (α × σ) → Option α
  | .done r => some r.1
  | .panic _ => none

/-- The world a call left; the given world after a panic. -/
def Run.world {α σ : Type} (r : Run (α × σ)) (w : σ) : σ :=
  match r with
  | .done x => x.2
  | .panic _ => w

/-! ## Vocabulary of the statements about the repository -/

/-- A call of a method of the Postgres repository with its arguments, the id
the database generates for an insert, and the error of the driver, if
any. -/
inductive RepoOp where
  | add (newID : Bytes) (drv : Option Error) (userID dataType data meta : Bytes)
  | getAll (drv : Option Error) (userID dataType : Bytes)
  | get (drv : Option Error) (userID dataID dataType : Bytes)
  | delete (drv : Option Error) (userID dataID dataType : Bytes)
  | update (drv : Option Error) (userID dataID dataType encryptedData meta : Bytes)
  deriving DecidableEq, Repr

/-- The table after a call. -/
def RepoOp.apply (db : Table) : RepoOp → Table
  | .add newID drv userID dataType data meta =>
    (postgres.DataRepository.AddData db newID drv userID dataType data meta).2
  | .getAll _ _ _ => db
  | .get _ _ _ _ => db
  | .delete drv userID dataID dataType =>
    (postgres.DataRepository.DeleteByID db drv userID dataID dataType).2
  | .update drv userID dataID dataType encryptedData meta =>
    (postgres.DataRepository.UpdateData db drv userID dataID dataType encryptedData meta).2

/-- The table after a sequence of calls. -/
def runOps (db : Table) (ops : List RepoOp) : Table := ops.foldl RepoOp.apply db

/-! ## Vocabulary of the statements about payloads -/

/-- The type tag of the variant a value belongs to, if it is a payload. -/
def Any.variantTag : Any → Option Bytes
  | .logpass _ => some LogPassDataType
  | .card _ => some CardDataType
  | .text _ => some TextDataType
  | .file _ => some FileDataType
  | _ => none

/-- Whether every string field of a payload is valid UTF-8. -/
def Any.stringsValidUTF8 : Any → Bool
  | .logpass d => validUTF8 d.Login && validUTF8 d.Password
  | .card d => validUTF8 d.Number && validUTF8 d.ExpiredAt && validUTF8 d.CVV
  | .text d => validUTF8 d.Text
  | .file d => validUTF8 d.Name
  | _ => true

/-- The validity predicate of a payload: `Valid` of the schema of its
variant (which does not look at `Meta`). -/
def Any.Valid : Any → Bool
  | .logpass d => LogPassSchema.Valid { Data := d, Meta := [] }
  | .card d => CardSchema.Valid { Data := d, Meta := [] }
  | .text d => TextSchema.Valid { Data := d, Meta := [] }
  | .file d => FileSchema.Valid { Data := d, Meta := [] }
  | _ => false

/-! ## Vocabulary of the statements about the cipher -/

/-- The text with bit `i % 8` of its byte `i / 8` flipped. -/
def flipBit (s : Bytes) (i : Nat) : Bytes :=
  s.set (i / 8) (byte ((s.getD (i / 8) 0).val ^^^ 2 ^ (i % 8)))

/-- Whether a secret key has one of the lengths AES accepts. -/
def validKeyLength (key : Bytes) : Prop :=
  key.length = 16 ∨ key.length = 24 ∨ key.length = 32

instance (key : Bytes) : Decidable (validKeyLength key) := by
  unfold validKeyLength; infer_instance

/-- The AEAD that `Encrypt` and `Decrypt` build from a key of valid length. -/
def aesGCM (key : Bytes) : GCM :=
  { block := { blockSize := 16, encrypt := aesEncryptBlock key }, nonceSize := 12, tagSize := 16 }

/-- The nonce `Encrypt` draws from an entropy stream. -/
def drawnNonce (f : Nat → Byte) : Bytes := (List.range 12).map f

/-- The bytes `Encrypt` puts into base64: nonce, ciphertext, tag. -/
def sealedBytes (key : Bytes) (f : Nat → Byte) (p : Bytes) : Bytes :=
  let nonce := drawnNonce f
  let ct := xorBytes p (keystream (aesGCM key).block (nonce ++ [0, 0, 0, 1]) p.length)
  nonce ++ ct ++ (aesGCM key).tag nonce ct

/-! ## Vocabulary of the statements about tokens and the middleware -/

/-- The three segments of a token string, when the dots cut it into exactly
three. -/
def jwt.segments (tokenString : Bytes) : Option (Bytes × Bytes × Bytes) :=
  match stringsSplit 0x2E tokenString with
  | [p0, p1, p2] => some (p0, p1, p2)
  | _ => none

/-- Whether a JSON value is an object or `null`, the values a struct or a map
is decoded from. -/
def JSON.isObjectOrNull : JSON → Bool
  | .obj _ => true
  | .null => true
  | _ => false

/-- Whether the text is a JSON text whose value is an object or `null`. -/
def jsonObjectText (data : Bytes) : Bool :=
  match jsonParse data with
  | some j => j.isObjectOrNull
  | none => false

/-- Whether a token string is well formed: three segments, each of them
base64url, the first two of JSON texts that hold an object or `null`. -/
def jwt.wellFormed (tokenString : Bytes) : Bool :=
  match jwt.segments tokenString with
  | some (p0, p1, p2) =>
    (B64.rawURL.decode p0).2.isNone && jsonObjectText (B64.rawURL.decode p0).1 &&
    (B64.rawURL.decode p1).2.isNone && jsonObjectText (B64.rawURL.decode p1).1 &&
    (B64.rawURL.decode p2).2.isNone
  | none => false

/-- Whether the signature of a token string verifies under a secret: the
third segment holds the HMAC of the first two segments and the dot between
them under the secret, with SHA-256, SHA-384 or SHA-512. -/
def jwt.signatureVerifies (key tokenString : Bytes) : Bool :=
  match jwt.segments tokenString with
  | some (p0, p1, p2) =>
    ((B64.rawURL.decode p2).1 == hmacSum sha256 key (p0 ++ [0x2E] ++ p1) ||
     (B64.rawURL.decode p2).1 == hmacSum sha384 key (p0 ++ [0x2E] ++ p1) ||
     (B64.rawURL.decode p2).1 == hmacSum sha512 key (p0 ++ [0x2E] ++ p1))
  | none => false

/-- The cookie `Auth` reads: the first cookie of the request named `jwt`. -/
def Request.firstJwtCookie (r : Request) : Option GoKeeper.Cookie :=
  r.Cookies.find? (fun c => c.Name = CookieName)

/-- Whether `Auth` calls the next handler on a request, observed with a next
handler that records its call in the world. -/
def Auth.callsNext (F : Float64) (SecretKey : Bytes) (now : Nat) (r : Request) : Bool :=
  match Auth F SecretKey now (fun _ _ => .done (Response.status 200, true)) r false with
  | .done (_, called) => called
  | .panic _ => false

/-! ## Vocabulary of the statements about users -/

/-- The Postgres user repository over the table `users` as the state, with a
database that executes every statement and generates the id `ids n` for the
row it inserts into a table of `n` rows. -/
def pgUserRepository (ids : Nat → Bytes) : repository.UserRepository (List UserRow) :=
  { Create := fun u db => .done (postgres.UserRepository.Create db (ids db.length) none u)
    GetUserByLogin := fun login db =>
      .done (postgres.UserRepository.GetUserByLogin db none login, db) }

/-- That repository while another registration, of the user `other`, is in
flight: the insert of the other registration reaches the table right after a
lookup. -/
def pgUserRepositoryRaced (ids : Nat → Bytes) (other : User) :
    repository.UserRepository (List UserRow) :=
  { Create := (pgUserRepository ids).Create
    GetUserByLogin := fun login db =>
      .done (postgres.UserRepository.GetUserByLogin db none login,
        (postgres.UserRepository.Create db (ids db.length) none other).2) }

/-- Modelled from the spec: the file `pkg/hashing/password.go` is missing,
and the spec says of the hash of a password that it is "a salted one-way
hash, never the original password". This is the part of that sentence that
can be said of a function: a hash that `HashPassword` returns without an
error is not the password it was given. -/
def PasswordHashing.neverPlain {σ : Type} (H : PasswordHashing σ) : Prop :=
  ∀ (p h : Bytes) (w w1 : σ), H.HashPassword p w = .done ((h, none), w1) → h ≠ p

/-- A stand-in for the hashing functions in examples: the hash of a password
is the password after the text `hash:`, and a password verifies against
exactly that hash. -/
def exampleHashing (σ : Type) : PasswordHashing σ :=
  { HashPassword := fun p w => .done ((ascii "hash:" ++ p, none), w)
    VerifyPassword := fun q h => h == ascii "hash:" ++ q }

/-! ## Vocabulary of the statements about payload texts -/

/-- The four registered type tags. -/
def registeredTags : List Bytes := [LogPassDataType, CardDataType, TextDataType, FileDataType]

/-- Whether a JSON value is of a type a Go string is not read from: a
number, a boolean, an array or an object. -/
def JSON.wrongForString : JSON → Bool
  | .str _ => false
  | .null => false
  | _ => true

/-- Whether a JSON value is of a type a Go byte slice is not read from: a
number, a boolean or an object. -/
def JSON.wrongForBytes : JSON → Bool
  | .num _ => true
  | .bool _ => true
  | .obj _ => true
  | _ => false

/-- The JSON names of the fields of the variant of a type tag, each with
whether the field is a byte slice (the other fields are strings). -/
def payloadFields (t : Bytes) : List (Bytes × Bool) :=
  if t = LogPassDataType then [(ascii "login", false), (ascii "password", false)]
  else if t = CardDataType then
    [(ascii "number", false), (ascii "expired_at", false), (ascii "cvv", false)]
  else if t = TextDataType then [(ascii "text", false)]
  else if t = FileDataType then [(ascii "content", true), (ascii "name", false)]
  else []

/-- Whether a member of an object gives a field of the variant of the tag a
value of the wrong type. -/
def wrongTypeMember (t : Bytes) (kv : Bytes × JSON) : Bool :=
  match findField ((payloadFields t).map (fun f => f.1)) kv.1 with
  | some i =>
    match (payloadFields t).get? i with
    | some f => if f.2 then kv.2.wrongForBytes else kv.2.wrongForString
    | none => false
  | none => false

/-- Whether the text is a JSON object that gives a field of the variant of
the tag a value of the wrong type. -/
def givesWrongType (d t : Bytes) : Bool :=
  match jsonParse d with
  | some (.obj ms) => ms.any (wrongTypeMember t)
  | _ => false

/-! ## errors: nil arguments -/

/-- `errors.Is(err, target)` for arguments that may be nil: when one of them
is nil, the result is whether both are. -/
def errorsIs (err target : Option Error) : Bool :=
  match err, target with
  | some e, some t => e.Is t
  | none, none => true
  | _, _ => false

/-! ## github.com/google/uuid

`uuid.Parse` as the library has it: of the form in
braces only the length and the opening position are consumed, the closing
brace is not looked at. -/

/-- `xtob`: the byte two hexadecimal digits spell. -/
def xtob (x1 x2 : Byte) : Option Nat :=
  match hexVal x1, hexVal x2 with
  | some a, some b => some (a * 16 + b)
  | _, _ => none

/-- The bytes the pairs of digits at the given offsets spell; `none` when a
pair is not hexadecimal. -/
def uuid.bytesAt (s : Bytes) : List Nat → Option (List Nat)
  | [] => some []
  | x :: xs =>
    match xtob (s.getD x 0) (s.getD (x + 1) 0), uuid.bytesAt s xs with
    | some v, some vs => some (v :: vs)
    | _, _ => none

/-- The lower-case form of an ASCII letter. -/
def asciiLower (c : Byte) : Byte := if 65 ≤ c.val ∧ c.val ≤ 90 then byte (c.val + 32) else c

/-- `uuid.Parse`: the sixteen bytes, `none` for an error. The forms are the
36 characters with hyphens, the same after `urn:uuid:` (in any case) or
after one character (the form in braces), and 32 hexadecimal digits. -/
def uuid.Parse (s : Bytes) : Option (List Nat) :=
  if s.length = 32 then uuid.bytesAt s ((List.range 16).map (fun k => k * 2))
  else
    let body : Option Bytes :=
      if s.length = 36 then some s
      else if s.length = 36 + 9 then
        if (s.take 9).map asciiLower = ascii "urn:uuid:" then some (s.drop 9) else none
      else if s.length = 36 + 2 then some (s.drop 1)
      else none
    match body with
    | none => none
    | some b =>
      if b.getD 8 0 ≠ 45 ∨ b.getD 13 0 ≠ 45 ∨ b.getD 18 0 ≠ 45 ∨ b.getD 23 0 ≠ 45 then none
      else uuid.bytesAt b [0, 2, 4, 6, 9, 11, 14, 16, 19, 21, 24, 26, 28, 30, 32, 34]

/-- `utils.IsValidUUID`. -/
def IsValidUUID (u : Bytes) : Bool := (uuid.Parse u).isSome

/-! ## internal/http/rest/handlers: reading, deleting and updating a record -/

/-- `DataHandler.GeByID`. The encoder writes `null` for a nil response; a
status written after the first one changes nothing. -/
def DataHandler.GeByID {σ : Type} (h : DataHandler σ) : Handler σ := fun r w =>
  let userID := context.GetUserID r.ctx
  let dataID := r.URLParam (ascii "dataID")
  if !IsValidUUID dataID then .done (Response.status 400, w)
  else
    let dataType := r.URLParam (ascii "type")
    (h.dataService.GetByID userID dataID dataType w).bind fun res =>
      if errorsIs res.1.2 (some .ErrDataNotFound) then .done (Response.status 404, res.2)
      else if res.1.2.isSome then .done (Response.status 500, res.2)
      else
        let header := [(ascii "Content-Type", ascii "application/json")]
        match res.1.1 with
        | none => .done ({ Code := 200, Header := header, Body := ascii "null\n" }, res.2)
        | some userData =>
          match userData.marshal with
          | (_, some _) => .done ({ Code := 200, Header := header, Body := [] }, res.2)
          | (out, none) => .done ({ Code := 200, Header := header, Body := out ++ [0x0A] }, res.2)

/-- `DataHandler.DeleteByID`. -/
def DataHandler.DeleteByID {σ : Type} (h : DataHandler σ) : Handler σ := fun r w =>
  let userID := context.GetUserID r.ctx
  let dataID := r.URLParam (ascii "dataID")
  if !IsValidUUID dataID then .done (Response.status 400, w)
  else
    let dataType := r.URLParam (ascii "type")
    (h.dataService.DeleteByID userID dataID dataType w).bind fun res =>
      if errorsIs res.1 (some .ErrDataNotFound) then .done (Response.status 404, res.2)
      else if res.1.isSome then .done (Response.status 500, res.2)
      else
        .done ({ Code := 204, Header := [(ascii "Content-Type", ascii "application/json")],
                 Body := [] }, res.2)

/-- `DataHandler.Update`. The test for the missing record is
`errors.Is(errs.ErrDataNotFound, err)`, with the sentinel as the first
argument. -/
def DataHandler.Update {σ : Type} (h : DataHandler σ) : Handler σ := fun r w =>
  let userID := context.GetUserID r.ctx
  let dataID := r.URLParam (ascii "dataID")
  if !IsValidUUID dataID then .done (Response.status 400, w)
  else
    let dataType := r.URLParam (ascii "type")
    match r.Body with
    | (_, some _) => .done (Response.status 500, w)
    | (body, none) =>
      match parseDataRequest body dataType with
      | (_, some _) => .done (Response.status 400, w)
      | (none, none) => .panic "invalid memory address or nil pointer dereference"
      | (some dataBody, none) =>
        if !dataBody.Valid then .done (Response.status 400, w)
        else
          (h.dataService.Update userID dataID dataType dataBody.GetData dataBody.GetMeta w).bind
            fun res =>
              if errorsIs (some .ErrDataNotFound) res.1 then .done (Response.status 404, res.2)
              else if res.1.isSome then .done (Response.status 500, res.2)
              else
                let dataResponse : DataResponse :=
                  { Data := dataBody.GetData, Meta := dataBody.GetMeta, ID := dataID,
                    Typ := dataType }
                let header := [(ascii "Content-Type", ascii "application/json")]
                match dataResponse.marshal with
                | (_, some _) => .done ({ Code := 200, Header := header, Body := [] }, res.2)
                | (out, none) =>
                  .done ({ Code := 200, Header := header, Body := out ++ [0x0A] }, res.2)

/-! ## internal/http/rest: the application -/

/-- `server.Config`, the fields `NewApp` reads. -/
structure Config where
  /-- Field `DatabaseDSN`. -/
  DatabaseDSN : Bytes
  /-- Field `SecretHash`. -/
  SecretHash : Bytes

/-- `rest.App`, of which the vault service is modelled; it is nil in the app
that `NewApp` returns without a database. -/
structure App where
  /-- Field `dataService`. -/
  dataService : Option (Service World)

/-- `NewApp`. `pool` is the error of `connection.NewDBPool`, if any;
`NewPostgresRepositories` returns no error. -/
def NewApp (cfg : Config) (pool : Option Error) : Option App × Option Error :=
  if cfg.DatabaseDSN = [] then (some { dataService := none }, none)
  else
    match pool with
    | some _ => (none, some (.other "error creating db pool"))
    | none =>
      (some { dataService := some (NewService pgRepository (NewCrypter cfg.SecretHash).iface) },
        none)

/-! ## internal/keeper/data: mocks with an expectation for each argument -/

/-- `MockCrypt` with the expectations `On("Encrypt", data).Return(...)` and
`On("Decrypt", data).Return(...)` of a test, one for each argument; a call
without an expectation panics. Each call is recorded. -/
def MockCryptOn (encrypt decrypt : Bytes → Option (Bytes × Option Error)) :
    CryptInterface (List MockCall) :=
  { Encrypt := fun data calls =>
      match encrypt data with
      | some r => .done (r, calls ++ [.Encrypt data])
      | none => .panic "mock: the method call was unexpected"
    Decrypt := fun data calls =>
      match decrypt data with
      | some r => .done (r, calls ++ [.Decrypt data])
      | none => .panic "mock: the method call was unexpected" }

/-! ## Vocabulary of the statements about records -/

/-- Whether a row is a live record under the key (owner, id, type). -/
def Row.isLive (userID dataID dataType : Bytes) (r : Row) : Prop :=
  r.user_id = userID ∧ r.id = dataID ∧ r.data_type = dataType ∧ r.is_deleted = false

instance (userID dataID dataType : Bytes) (r : Row) : Decidable (r.isLive userID dataID dataType) := by
  unfold Row.isLive; infer_instance

/-- The response built from a record and the text it decrypts to. -/
def Data.response (d : GoKeeper.Data) (plain : Bytes) : DataResponse :=
  { Data := (ParseJsonData plain d.Typ).1, Meta := d.Meta, Typ := d.Typ, ID := d.ID }

end GoKeeper


/-! # Theorems -/

namespace GoKeeper

/-! ## encoding/base64: decoding inverts encoding -/

theorem decChar_encChar (e : B64) (i : Nat) (h : i < 64) :
    e.decChar (e.encChar i) = some i := by
  have key : ∀ j : Fin 64, e.decChar (e.encChar j.val) = some j.val := by
    cases e <;> decide
  exact key ⟨i, h⟩

theorem isNewline_encChar (e : B64) (i : Nat) (h : i < 64) :
    isNewline (e.encChar i) = false := by
  have key : ∀ j : Fin 64, isNewline (e.encChar j.val) = false := by
    cases e <;> decide
  exact key ⟨i, h⟩

theorem decodeLoop_enc_lt (e : B64) (acc : List Nat) (i : Nat) (h : i < 64) (rest : Bytes)
    (hl : acc.length ≠ 3) :
    e.decodeLoop acc (e.encChar i :: rest) = e.decodeLoop (acc ++ [i]) rest := by
  rw [B64.decodeLoop]
  simp [isNewline_encChar e i h, decChar_encChar e i h, hl]

theorem decodeLoop_enc_eq (e : B64) (acc : List Nat) (i : Nat) (h : i < 64) (rest : Bytes)
    (hl : acc.length = 3) :
    e.decodeLoop acc (e.encChar i :: rest) =
      (quantumBytes (acc ++ [i]) ++ (e.decodeLoop [] rest).1, (e.decodeLoop [] rest).2) := by
  rw [B64.decodeLoop]
  simp [isNewline_encChar e i h, decChar_encChar e i h, hl]

theorem decodeLoop_pad2 (s0 s1 : Nat) :
    B64.std.decodeLoop [s0, s1] [61, 61] = (quantumBytes [s0, s1], none) := by
  have h1 : isNewline (61 : Byte) = false := by decide
  have h2 : B64.std.decChar (61 : Byte) = none := by decide
  have h3 : ((61 : Byte).val = 61) := by decide
  rw [B64.decodeLoop]
  simp [h1, h2, h3, B64.padded, skipNewlines]

theorem decodeLoop_pad1 (s0 s1 s2 : Nat) :
    B64.std.decodeLoop [s0, s1, s2] [61] = (quantumBytes [s0, s1, s2], none) := by
  have h1 : isNewline (61 : Byte) = false := by decide
  have h2 : B64.std.decChar (61 : Byte) = none := by decide
  have h3 : ((61 : Byte).val = 61) := by decide
  rw [B64.decodeLoop]
  simp [h1, h2, h3, B64.padded, skipNewlines]

theorem byte_val (b : Byte) : byte b.val = b := by
  apply Fin.ext; simp [byte]

theorem quantum4 (a b c : Byte) :
    quantumBytes [a.val / 4, a.val % 4 * 16 + b.val / 16, b.val % 16 * 4 + c.val / 64, c.val % 64]
      = [a, b, c] := by
  simp only [quantumBytes]
  have ha := a.isLt; have hb := b.isLt; have hc := c.isLt
  congr 1
  · apply Fin.ext; simp [byte]; omega
  congr 1
  · apply Fin.ext; simp [byte]; omega
  congr 1
  · apply Fin.ext; simp [byte]; omega

theorem quantum3 (a b : Byte) :
    quantumBytes [a.val / 4, a.val % 4 * 16 + b.val / 16, b.val % 16 * 4] = [a, b] := by
  simp only [quantumBytes]
  have ha := a.isLt; have hb := b.isLt
  congr 1
  · apply Fin.ext; simp [byte]; omega
  congr 1
  · apply Fin.ext; simp [byte]; omega

theorem quantum2 (a : Byte) :
    quantumBytes [a.val / 4, a.val % 4 * 16] = [a] := by
  simp only [quantumBytes]
  have ha := a.isLt
  congr 1
  · apply Fin.ext; simp [byte]; omega

/-- Decoding inverts encoding, for both encodings. -/
theorem b64_decode_encode (e : B64) (bs : Bytes) : e.decode (e.encode bs) = (bs, none) := by
  unfold B64.decode
  induction bs using B64.encode.induct e with
  | case1 => simp [B64.encode, B64.decodeLoop]
  | case2 a =>
    have ha := a.isLt
    cases e
    · simp only [B64.encode, B64.padded, if_true, List.cons_append, List.nil_append]
      rw [decodeLoop_enc_lt _ _ _ (by omega) _ (by simp),
        decodeLoop_enc_lt _ _ _ (by omega) _ (by simp)]
      simp [decodeLoop_pad2, quantum2]
    · simp only [B64.encode, B64.padded, List.cons_append, List.nil_append]
      rw [decodeLoop_enc_lt _ _ _ (by omega) _ (by simp),
        decodeLoop_enc_lt _ _ _ (by omega) _ (by simp)]
      simp [B64.decodeLoop, B64.padded, quantum2]
  | case3 a b =>
    have ha := a.isLt; have hb := b.isLt
    cases e
    · simp only [B64.encode, B64.padded, if_true, List.cons_append, List.nil_append]
      rw [decodeLoop_enc_lt _ _ _ (by omega) _ (by simp),
        decodeLoop_enc_lt _ _ _ (by omega) _ (by simp),
        decodeLoop_enc_lt _ _ _ (by omega) _ (by simp)]
      simp [decodeLoop_pad1, quantum3]
    · simp only [B64.encode, B64.padded, List.cons_append, List.nil_append]
      rw [decodeLoop_enc_lt _ _ _ (by omega) _ (by simp),
        decodeLoop_enc_lt _ _ _ (by omega) _ (by simp),
        decodeLoop_enc_lt _ _ _ (by omega) _ (by simp)]
      simp [B64.decodeLoop, B64.padded, quantum3]
  | case4 a b c rest ih =>
    have ha := a.isLt; have hb := b.isLt; have hc := c.isLt
    simp only [B64.encode]
    rw [decodeLoop_enc_lt _ _ _ (by omega) _ (by simp),
      decodeLoop_enc_lt _ _ _ (by omega) _ (by simp),
      decodeLoop_enc_lt _ _ _ (by omega) _ (by simp),
      decodeLoop_enc_eq _ _ _ (by omega) _ (by simp)]
    simp [ih, quantum4]

/-! ## The envelope cipher -/

theorem xorBytes_length (a ks : Bytes) : (xorBytes a ks).length = a.length := by
  induction a generalizing ks with
  | nil => simp [xorBytes]
  | cons x rest ih => simp [xorBytes, ih]

theorem xorBytes_xorBytes (a ks : Bytes) : xorBytes (xorBytes a ks) ks = a := by
  induction a generalizing ks with
  | nil => simp [xorBytes]
  | cons x rest ih =>
    simp only [xorBytes, ih, List.cons.injEq, and_true]
    apply Fin.ext
    have hx := x.isLt
    have hk := (ks.headD 0).isLt
    have hlt : x.val ^^^ (ks.headD 0).val < 256 := Nat.xor_lt_two_pow (n := 8) hx hk
    simp only [byte, Nat.mod_eq_of_lt hlt]
    rw [Nat.xor_assoc, Nat.xor_self, Nat.xor_zero]
    exact Nat.mod_eq_of_lt hx

theorem natBE_length (n x : Nat) : (natBE n x).length = n := by
  simp [natBE]

theorem tag_length (g : GCM) (nonce ct : Bytes) : (g.tag nonce ct).length = 16 := by
  simp [GCM.tag, xorBytes_length, natBE_length]

theorem drawnNonce_length (f : Nat → Byte) : (drawnNonce f).length = 12 := by
  simp [drawnNonce]

theorem aesNewCipher_valid (key : Bytes) (hk : validKeyLength key) :
    aesNewCipher key = .ok (aesGCM key).block := by
  unfold validKeyLength at hk
  simp [aesNewCipher, hk, aesGCM]

theorem cipherNewGCM_aes (key : Bytes) : cipherNewGCM (aesGCM key).block = .ok (aesGCM key) := by
  simp [cipherNewGCM, aesGCM]

/-- What `Encrypt` returns for a key of valid length, a working entropy
source and a plaintext within the limit of GCM. -/
theorem Encrypt_eq (key : Bytes) (f : Nat → Byte) (p : Bytes)
    (hk : validKeyLength key) (hp : p.length ≤ gcmMaxPlaintext) :
    (NewCrypter key).Encrypt (some f) p =
      .done (B64.std.encode (sealedBytes key f p), none) := by
  have hn : (drawnNonce f).length = 12 := drawnNonce_length f
  have hp' : ¬ gcmMaxPlaintext < p.length := by omega
  simp only [Crypt.Encrypt, NewCrypter, aesNewCipher_valid key hk, cipherNewGCM_aes, randRead]
  have h12 : (aesGCM key).nonceSize = 12 := rfl
  simp [h12, GCM.Seal, Run.bind, hp', sealedBytes, drawnNonce]

/-- What `Decrypt` returns for text that decodes to at least twelve bytes
which `Open` accepts. -/
theorem Decrypt_of_open_ok (key : Bytes) (text d pt : Bytes) (hk : validKeyLength key)
    (hd : B64.std.decode text = (d, none)) (hl : 12 ≤ d.length)
    (ho : (aesGCM key).Open (d.take 12) (d.drop 12) = .done (pt, none)) :
    (NewCrypter key).Decrypt text = .done (pt, none) := by
  have h12 : (aesGCM key).nonceSize = 12 := rfl
  have hl' : ¬ d.length < 12 := by omega
  simp [Crypt.Decrypt, NewCrypter, hd, aesNewCipher_valid key hk, cipherNewGCM_aes, h12, hl',
    ho, Run.bind]

/-- What `Decrypt` returns for text that decodes to at least twelve bytes
which `Open` rejects. -/
theorem Decrypt_of_open_err (key : Bytes) (text d x : Bytes) (err : Error)
    (hk : validKeyLength key)
    (hd : B64.std.decode text = (d, none)) (hl : 12 ≤ d.length)
    (ho : (aesGCM key).Open (d.take 12) (d.drop 12) = .done (x, some err)) :
    (NewCrypter key).Decrypt text = .done ([], some err) := by
  have h12 : (aesGCM key).nonceSize = 12 := rfl
  have hl' : ¬ d.length < 12 := by omega
  simp [Crypt.Decrypt, NewCrypter, hd, aesNewCipher_valid key hk, cipherNewGCM_aes, h12, hl',
    ho, Run.bind]

/-- What `Decrypt` returns for text that is not base64. -/
theorem Decrypt_of_decode_err (key : Bytes) (text d : Bytes) (err : Error)
    (hd : B64.std.decode text = (d, some err)) :
    (NewCrypter key).Decrypt text = .done ([], some err) := by
  simp [Crypt.Decrypt, hd]

/-- `Open` accepts what `Seal` made and returns the plaintext. -/
theorem Open_sealed (key : Bytes) (f : Nat → Byte) (p : Bytes)
    (hp : p.length ≤ gcmMaxPlaintext) :
    (aesGCM key).Open ((sealedBytes key f p).take 12) ((sealedBytes key f p).drop 12) =
      .done (p, none) := by
  have hn : (drawnNonce f).length = 12 := drawnNonce_length f
  have h12 : (aesGCM key).nonceSize = 12 := rfl
  have h16 : (aesGCM key).tagSize = 16 := rfl
  simp only [sealedBytes, List.append_assoc]
  rw [List.take_left' hn, List.drop_left' hn]
  set ct := xorBytes p (keystream (aesGCM key).block (drawnNonce f ++ [0, 0, 0, 1]) p.length)
    with hct
  have hctl : ct.length = p.length := xorBytes_length _ _
  have htl : ((aesGCM key).tag (drawnNonce f) ct).length = 16 := tag_length _ _ _
  have hlen : (ct ++ (aesGCM key).tag (drawnNonce f) ct).length - 16 = ct.length := by
    simp [htl]
  simp only [GCM.Open, h12, h16, hn, hlen]
  rw [List.take_left' rfl, List.drop_left' rfl]
  have h1 : ¬ (ct ++ (aesGCM key).tag (drawnNonce f) ct).length < 16 := by
    simp [htl]
  have h2 : ¬ gcmMaxPlaintext + 16 < (ct ++ (aesGCM key).tag (drawnNonce f) ct).length := by
    simp [htl, hctl]; omega
  simp only [h1, h2, if_false, ne_eq, not_true_eq_false, hctl]
  rw [hct, xorBytes_xorBytes]

/-- What `Decrypt` returns for text whose decoded bytes differ from sealed
bytes only inside the tag. -/
theorem Decrypt_tag_changed (key : Bytes) (f : Nat → Byte) (p text d : Bytes)
    (hk : validKeyLength key) (hp : p.length ≤ gcmMaxPlaintext)
    (hd : B64.std.decode text = (d, none))
    (hlen : d.length = (sealedBytes key f p).length)
    (hpre : d.take (d.length - 16) = (sealedBytes key f p).take (d.length - 16))
    (hne : d ≠ sealedBytes key f p) :
    (NewCrypter key).Decrypt text = .done ([], some .gcmOpen) := by
  have hn : (drawnNonce f).length = 12 := drawnNonce_length f
  have h12 : (aesGCM key).nonceSize = 12 := rfl
  have h16 : (aesGCM key).tagSize = 16 := rfl
  set ct := xorBytes p (keystream (aesGCM key).block (drawnNonce f ++ [0, 0, 0, 1]) p.length)
    with hct
  have hctl : ct.length = p.length := xorBytes_length _ _
  have htl : ((aesGCM key).tag (drawnNonce f) ct).length = 16 := tag_length _ _ _
  have hs : sealedBytes key f p = drawnNonce f ++ ct ++ (aesGCM key).tag (drawnNonce f) ct := rfl
  have hsl : (sealedBytes key f p).length = 12 + p.length + 16 := by
    rw [hs]; simp [hn, hctl, htl]; omega
  have hdl : d.length = 12 + p.length + 16 := by omega
  -- the part of `d` before the tag is the nonce and the ciphertext
  have hfront : d.take (12 + p.length) = drawnNonce f ++ ct := by
    have h1 : d.length - 16 = 12 + p.length := by omega
    rw [h1] at hpre
    rw [hpre, hs]
    exact List.take_left' (by simp [hn, hctl])
  have hnonce : d.take 12 = drawnNonce f := by
    have := congrArg (List.take 12) hfront
    rw [List.take_take] at this
    rw [show min 12 (12 + p.length) = 12 by omega] at this
    rw [this]
    exact List.take_left' hn
  have hbody : (d.drop 12).take p.length = ct := by
    have := congrArg (List.drop 12) hfront
    rw [List.drop_take] at this
    rw [show 12 + p.length - 12 = p.length by omega] at this
    rw [this]
    exact List.drop_left' hn
  have htag : (d.drop 12).drop p.length ≠ (aesGCM key).tag (drawnNonce f) ct := by
    intro h
    apply hne
    rw [hs, ← List.take_append_drop 12 d, ← List.take_append_drop p.length (d.drop 12),
      hnonce, hbody, h, List.append_assoc]
  have hopen : (aesGCM key).Open (d.take 12) (d.drop 12) = .done ([], some .gcmOpen) := by
    have hl1 : (d.drop 12).length = p.length + 16 := by simp [hdl]; omega
    have c1 : ¬ (d.drop 12).length < 16 := by omega
    have c2 : ¬ gcmMaxPlaintext + 16 < (d.drop 12).length := by omega
    have c3 : (d.drop 12).length - 16 = p.length := by omega
    simp only [GCM.Open, h12, h16, hnonce, hn, c1, c2, c3, hbody, ne_eq, not_true_eq_false,
      if_false]
    rw [if_pos (fun h => htag h.symm)]
  exact Decrypt_of_open_err key text d [] .gcmOpen hk hd (by omega) hopen

/-- `Decrypt` returns the plaintext of what `Encrypt` stores. -/
theorem Decrypt_sealed (key : Bytes) (f : Nat → Byte) (p : Bytes)
    (hk : validKeyLength key) (hp : p.length ≤ gcmMaxPlaintext) :
    (NewCrypter key).Decrypt (B64.std.encode (sealedBytes key f p)) = .done (p, none) := by
  have hlen : 12 ≤ (sealedBytes key f p).length := by
    simp [sealedBytes, drawnNonce_length]
  exact Decrypt_of_open_ok key _ _ p hk (b64_decode_encode _ _) hlen (Open_sealed key f p hp)

/-- C1, as amended: for every key of 16, 24 or 32 bytes, every nonce the
entropy source delivers and every plaintext of at most (2^32 - 2) * 16
bytes, `Encrypt` succeeds and `Decrypt` of its output succeeds and returns
exactly the plaintext. -/
theorem C1_decrypt_encrypt (key : Bytes) (f : Nat → Byte) (p : Bytes)
    (hk : validKeyLength key) (hp : p.length ≤ gcmMaxPlaintext) :
    ∃ ct, (NewCrypter key).Encrypt (some f) p = .done (ct, none) ∧
      (NewCrypter key).Decrypt ct = .done (p, none) :=
  ⟨B64.std.encode (sealedBytes key f p), Encrypt_eq key f p hk hp, Decrypt_sealed key f p hk hp⟩

/-- C1 at the key and plaintext of `TestEncryptDecrypt`. -/
theorem C1_decrypt_encrypt_witness :
    validKeyLength (ascii "a16byteslongkey!") ∧
    (ascii "This is a secret message.").length ≤ gcmMaxPlaintext ∧
    ∃ ct, (NewCrypter (ascii "a16byteslongkey!")).Encrypt (some fun i => byte (7 * i))
        (ascii "This is a secret message.") = .done (ct, none) ∧
      (NewCrypter (ascii "a16byteslongkey!")).Decrypt ct
        = .done (ascii "This is a secret message.", none) :=
  ⟨by decide, by decide,
    C1_decrypt_encrypt (ascii "a16byteslongkey!") (fun i => byte (7 * i))
      (ascii "This is a secret message.") (by decide) (by decide)⟩

/-- `Encrypt` panics on a plaintext over the limit of GCM. -/
theorem Encrypt_too_large (key : Bytes) (f : Nat → Byte) (p : Bytes)
    (hk : validKeyLength key) (hp : gcmMaxPlaintext < p.length) :
    (NewCrypter key).Encrypt (some f) p = .panic "crypto/cipher: message too large for GCM" := by
  simp only [Crypt.Encrypt, NewCrypter, aesNewCipher_valid _ hk, cipherNewGCM_aes, randRead,
    GCM.Seal, Run.bind]
  simp [aesGCM, hp]

/-- C1 as stated fails for a plaintext one byte over the limit of GCM:
`Seal` panics, so `Encrypt` does not succeed. -/
theorem C1_plaintext_over_gcm_limit :
    (NewCrypter (ascii "a16byteslongkey!")).Encrypt (some fun _ => 0)
        (List.replicate 68719476705 0)
      = .panic "crypto/cipher: message too large for GCM" :=
  Encrypt_too_large _ _ _ (by decide) (by rw [List.length_replicate]; decide)

/-- What is proved of a single-bit flip of the stored text: `Decrypt` returns
an error when the text is no longer base64 and when it decodes to bytes that
differ from the sealed bytes only inside the 16-byte tag; when the text still
decodes to the sealed bytes (a flip in the unused low bits of the last
character before the padding) `Decrypt` succeeds and returns the plaintext.
A flip that changes bytes of the nonce or of the ciphertext is not covered:
that the tag then differs is a property of AES and of GHASH under the key. -/
theorem Decrypt_flipped_text (key : Bytes) (f : Nat → Byte) (p : Bytes) (i : Nat)
    (hk : validKeyLength key) (hp : p.length ≤ gcmMaxPlaintext) :
    (NewCrypter key).Encrypt (some f) p = .done (B64.std.encode (sealedBytes key f p), none) ∧
    (∀ d err, B64.std.decode (flipBit (B64.std.encode (sealedBytes key f p)) i) = (d, some err) →
      (NewCrypter key).Decrypt (flipBit (B64.std.encode (sealedBytes key f p)) i)
        = .done ([], some err)) ∧
    (∀ d, B64.std.decode (flipBit (B64.std.encode (sealedBytes key f p)) i) = (d, none) →
      d.length = (sealedBytes key f p).length →
      d.take (d.length - 16) = (sealedBytes key f p).take (d.length - 16) →
      d ≠ sealedBytes key f p →
      (NewCrypter key).Decrypt (flipBit (B64.std.encode (sealedBytes key f p)) i)
        = .done ([], some .gcmOpen)) ∧
    (B64.std.decode (flipBit (B64.std.encode (sealedBytes key f p)) i)
        = (sealedBytes key f p, none) →
      (NewCrypter key).Decrypt (flipBit (B64.std.encode (sealedBytes key f p)) i)
        = .done (p, none)) := by
  refine ⟨Encrypt_eq key f p hk hp, ?_, ?_, ?_⟩
  · intro d err hd
    exact Decrypt_of_decode_err key _ d err hd
  · intro d hd hlen hpre hne
    exact Decrypt_tag_changed key f p _ d hk hp hd hlen hpre hne
  · intro hd
    have hlen : 12 ≤ (sealedBytes key f p).length := by
      simp [sealedBytes, drawnNonce_length]
    exact Decrypt_of_open_ok key _ _ p hk hd hlen (Open_sealed key f p hp)

/-- The flipped text at the all-zero key and nonce and the empty plaintext,
bit 3 of character 37. -/
theorem Decrypt_flipped_text_zero_key :
    validKeyLength (List.replicate 16 0) ∧
    ([] : Bytes).length ≤ gcmMaxPlaintext ∧
    (NewCrypter (List.replicate 16 0)).Encrypt (some fun _ => 0) []
      = .done (B64.std.encode (sealedBytes (List.replicate 16 0) (fun _ => 0) []), none) :=
  ⟨by decide, by decide,
    (Decrypt_flipped_text (List.replicate 16 0) (fun _ => 0) [] 299 (by decide) (by decide)).1⟩

/-- A single-bit flip that `Decrypt` accepts: under the all-zero key and nonce
the empty plaintext is stored as a text ending in `Wg==`; flipping bit 3 of
the `g` gives `o`, which differs from `g` only in bits the decoder drops, and
`Decrypt` accepts the mutated text. -/
theorem Decrypt_flip_in_padding_bits_accepted :
    (NewCrypter (List.replicate 16 0)).Encrypt (some fun _ => 0) []
      = .done (ascii "AAAAAAAAAAAAAAAAWOL8zvp+MGE2fx1XpOdFWg==", none) ∧
    flipBit (ascii "AAAAAAAAAAAAAAAAWOL8zvp+MGE2fx1XpOdFWg==") 299
      = ascii "AAAAAAAAAAAAAAAAWOL8zvp+MGE2fx1XpOdFWo==" ∧
    (NewCrypter (List.replicate 16 0)).Decrypt (ascii "AAAAAAAAAAAAAAAAWOL8zvp+MGE2fx1XpOdFWo==")
      = .done ([], none) := by
  refine ⟨by decide!, by decide!, by decide!⟩

end GoKeeper


namespace GoKeeper

/-! ## unicode/utf8 -/

theorem byte_eq (n : Nat) (b : Byte) (h : n = b.val) : byte n = b := by
  subst h; exact byte_val b

theorem decodeRune_ascii (b : Byte) (rest : Bytes) (h : b.val < 0x80) :
    decodeRune (b :: rest) = (b.val, 1) := by
  simp [decodeRune, h]

/-- A rune of two to four bytes that `DecodeRune` accepts: its width is
within the input, `EncodeRune` gives back its bytes, and it is read the same
whatever follows those bytes. -/
theorem decodeRune_valid (b : Byte) (rest : Bytes) (h : 0x80 ≤ b.val)
    (hv : decodeRune (b :: rest) ≠ (runeError, 1)) :
    2 ≤ (decodeRune (b :: rest)).2 ∧ (decodeRune (b :: rest)).2 ≤ (b :: rest).length ∧
    0x80 ≤ (decodeRune (b :: rest)).1 ∧
    encodeRune (decodeRune (b :: rest)).1 = (b :: rest).take (decodeRune (b :: rest)).2 ∧
    ∀ X, decodeRune ((b :: rest).take (decodeRune (b :: rest)).2 ++ X) = decodeRune (b :: rest) := by
  have hb := b.isLt
  have h0 : ¬ b.val < 0x80 := by omega
  by_cases h1 : b.val < 0xC2 ∨ 0xF4 < b.val
  · exact absurd (by simp [decodeRune, h0, h1]) hv
  rcases rest with _ | ⟨b1, r1⟩
  · exact absurd (by simp [decodeRune, h0, h1]) hv
  have hb1 := b1.isLt
  by_cases h2 : b1.val < (if b.val = 0xE0 then 0xA0 else if b.val = 0xF0 then 0x90 else 0x80) ∨
      (if b.val = 0xED then 0x9F else if b.val = 0xF4 then 0x8F else 0xBF) < b1.val
  · exact absurd (by simp [decodeRune, h0, h1, h2]) hv
  have hb1r : 0x80 ≤ b1.val ∧ b1.val ≤ 0xBF := by
    split_ifs at h2 <;> omega
  by_cases h3 : b.val < 0xE0
  · have hd : decodeRune (b :: b1 :: r1) = (b.val % 32 * 64 + b1.val % 64, 2) := by
      simp [decodeRune, h0, h1, h2, h3]
    rw [hd]
    have e1 : ¬ (b.val = 0xE0) := by omega
    have e2 : ¬ (b.val = 0xF0) := by omega
    have e3 : ¬ (b.val = 0xED) := by omega
    have e4 : ¬ (b.val = 0xF4) := by omega
    simp only [e1, e2, e3, e4, if_false] at h2
    refine ⟨by simp, by simp, by simp; omega, ?_, ?_⟩
    · have c1 : ¬ (b.val % 32 * 64 + b1.val % 64 < 0x80) := by omega
      have c2 : b.val % 32 * 64 + b1.val % 64 < 0x800 := by omega
      simp only [encodeRune, c1, c2, if_false, if_true, List.take]
      congr 1
      · apply byte_eq; omega
      congr 1
      · apply byte_eq; omega
    · intro X
      simp [decodeRune, h0, h1, h2, h3, e1, e2, e3, e4]
  rcases r1 with _ | ⟨b2, r2⟩
  · exact absurd (by simp [decodeRune, h0, h1, h2, h3]) hv
  have hb2 := b2.isLt
  by_cases h4 : b2.val < 0x80 ∨ 0xBF < b2.val
  · exact absurd (by simp [decodeRune, h0, h1, h2, h3, h4]) hv
  by_cases h5 : b.val < 0xF0
  · have hd : decodeRune (b :: b1 :: b2 :: r2)
        = (b.val % 16 * 4096 + b1.val % 64 * 64 + b2.val % 64, 3) := by
      simp [decodeRune, h0, h1, h2, h3, h4, h5]
    rw [hd]
    have hX : ∀ X, decodeRune (List.take 3 (b :: b1 :: b2 :: r2) ++ X)
        = (b.val % 16 * 4096 + b1.val % 64 * 64 + b2.val % 64, 3) := by
      intro X
      simp [decodeRune, h0, h1, h2, h3, h4, h5]
    refine ⟨by simp, by simp, ?_, ?_, hX⟩
    · split_ifs at h2 <;> simp only [] <;> omega
    · have c1 : ¬ (b.val % 16 * 4096 + b1.val % 64 * 64 + b2.val % 64 < 0x80) := by
        split_ifs at h2 <;> omega
      have c2 : ¬ (b.val % 16 * 4096 + b1.val % 64 * 64 + b2.val % 64 < 0x800) := by
        split_ifs at h2 <;> omega
      have c3 : ¬ (0x10FFFF < b.val % 16 * 4096 + b1.val % 64 * 64 + b2.val % 64 ∨
          (0xD800 ≤ b.val % 16 * 4096 + b1.val % 64 * 64 + b2.val % 64 ∧
            b.val % 16 * 4096 + b1.val % 64 * 64 + b2.val % 64 ≤ 0xDFFF)) := by
        split_ifs at h2 <;> omega
      have c4 : b.val % 16 * 4096 + b1.val % 64 * 64 + b2.val % 64 < 0x10000 := by omega
      simp only [encodeRune, c1, c2, c3, c4, if_false, if_true, List.take]
      congr 1
      · apply byte_eq; omega
      congr 1
      · apply byte_eq; omega
      congr 1
      · apply byte_eq; omega
  rcases r2 with _ | ⟨b3, r3⟩
  · exact absurd (by simp [decodeRune, h0, h1, h2, h3, h4, h5]) hv
  have hb3 := b3.isLt
  by_cases h6 : b3.val < 0x80 ∨ 0xBF < b3.val
  · exact absurd (by simp [decodeRune, h0, h1, h2, h3, h4, h5, h6]) hv
  have hd : decodeRune (b :: b1 :: b2 :: b3 :: r3)
      = (b.val % 8 * 262144 + b1.val % 64 * 4096 + b2.val % 64 * 64 + b3.val % 64, 4) := by
    simp [decodeRune, h0, h1, h2, h3, h4, h5, h6]
  rw [hd]
  have hX : ∀ X, decodeRune (List.take 4 (b :: b1 :: b2 :: b3 :: r3) ++ X)
      = (b.val % 8 * 262144 + b1.val % 64 * 4096 + b2.val % 64 * 64 + b3.val % 64, 4) := by
    intro X
    simp [decodeRune, h0, h1, h2, h3, h4, h5, h6]
  refine ⟨by simp, by simp, ?_, ?_, hX⟩
  · split_ifs at h2 <;> simp only [] <;> omega
  · have c1 : ¬ (b.val % 8 * 262144 + b1.val % 64 * 4096 + b2.val % 64 * 64 + b3.val % 64
        < 0x80) := by
      split_ifs at h2 <;> omega
    have c2 : ¬ (b.val % 8 * 262144 + b1.val % 64 * 4096 + b2.val % 64 * 64 + b3.val % 64
        < 0x800) := by
      split_ifs at h2 <;> omega
    have c3 : ¬ (0x10FFFF < b.val % 8 * 262144 + b1.val % 64 * 4096 + b2.val % 64 * 64
          + b3.val % 64 ∨
        (0xD800 ≤ b.val % 8 * 262144 + b1.val % 64 * 4096 + b2.val % 64 * 64 + b3.val % 64 ∧
          b.val % 8 * 262144 + b1.val % 64 * 4096 + b2.val % 64 * 64 + b3.val % 64
            ≤ 0xDFFF)) := by
      split_ifs at h2 <;> omega
    have c4 : ¬ (b.val % 8 * 262144 + b1.val % 64 * 4096 + b2.val % 64 * 64 + b3.val % 64
        < 0x10000) := by
      split_ifs at h2 <;> omega
    simp only [encodeRune, c1, c2, c3, c4, if_false, List.take]
    congr 1
    · apply byte_eq; omega
    congr 1
    · apply byte_eq; omega
    congr 1
    · apply byte_eq; omega
    congr 1
    · apply byte_eq; omega

/-! ## encoding/json: reading back a string literal -/

theorem runesLoop_fuel : ∀ (n m : Nat) (s : Bytes), s.length ≤ n → s.length ≤ m →
    runesLoop n s = runesLoop m s := by
  intro n
  induction n with
  | zero =>
    intro m s h1 _
    have : s = [] := List.length_eq_zero.mp (by omega)
    subst this
    cases m <;> simp [runesLoop]
  | succ n ih =>
    intro m s h1 h2
    cases s with
    | nil => cases m <;> simp [runesLoop]
    | cons b rest =>
      cases m with
      | zero => simp at h2
      | succ m =>
        simp only [runesLoop]
        congr 1
        apply ih
        · simp at h1 ⊢; omega
        · simp at h2 ⊢; omega

theorem runes_nil : runes [] = [] := by simp [runes, runesLoop]

theorem runes_cons (b : Byte) (rest : Bytes) :
    runes (b :: rest) =
      ((decodeRune (b :: rest)).1, (b :: rest).take (decodeRune (b :: rest)).2) ::
        runes (rest.drop ((decodeRune (b :: rest)).2 - 1)) := by
  simp only [runes, List.length_cons, runesLoop]
  congr 1
  apply runesLoop_fuel
  · simp
  · simp

theorem hexVal_hexDigit (k : Nat) (h : k < 16) : hexVal (hexDigit k) = some k := by
  have key : ∀ j : Fin 16, hexVal (hexDigit j.val) = some j.val := by decide
  exact key ⟨k, h⟩

theorem getu4_ascii (b : Byte) (Y : Bytes) (h : b.val < 0x80) :
    getu4 (0x30 :: 0x30 :: hexDigit (b.val / 16) :: hexDigit (b.val % 16) :: Y) = some b.val := by
  have h0 : hexVal (0x30 : Byte) = some 0 := by decide
  simp only [getu4, h0, hexVal_hexDigit _ (show b.val / 16 < 16 by omega),
    hexVal_hexDigit _ (show b.val % 16 < 16 by omega)]
  congr 1
  omega

/-- Reading back what `appendString` wrote for one ASCII byte. -/
theorem unquoteLoop_quoteASCII (b : Byte) (n : Nat) (Y : Bytes) (h : b.val < 0x80) :
    unquoteLoop (n + 1) (quoteASCII b ++ Y) = (unquoteLoop n Y).map (fun r => (b :: r.1, r.2)) := by
  have hb := b.isLt
  unfold quoteASCII
  by_cases hs : htmlSafe b = true
  · simp only [hs, if_true, List.cons_append, List.nil_append]
    simp only [htmlSafe, Bool.and_eq_true, decide_eq_true_eq, ne_eq] at hs
    have a1 : ¬ b.val = 0x22 := by omega
    have a2 : ¬ b.val = 0x5C := by omega
    have a3 : ¬ b.val < 0x20 := by omega
    simp [unquoteLoop, a1, a2, a3, h]
  simp only [hs, Bool.false_eq_true, if_false]
  by_cases c1 : b.val = 0x5C ∨ b.val = 0x22
  · have e1 : ¬ b.val = 0x75 := by omega
    have e2 : simpleEscape b = some b := by
      rcases c1 with c1 | c1 <;> simp [simpleEscape, c1]
    have q0 : ¬ ((92 : Nat) = 34) := by decide
    have q1 : ¬ ((0x5C : Byte).val = 0x22) := by decide
    have q2 : (0x5C : Byte).val = 0x5C := by decide
    simp only [c1, if_true, List.cons_append, List.nil_append, unquoteLoop, q0, q1, q2, e1, e2,
      if_false]
  simp only [c1, if_false]
  have q0 : ¬ ((92 : Nat) = 34) := by decide
  have q1 : ¬ ((0x5C : Byte).val = 0x22) := by decide
  have q2 : (0x5C : Byte).val = 0x5C := by decide
  have q3 : ∀ x : Byte, ¬ (x.val = 0x75) → ∀ y, simpleEscape x = some y →
      unquoteLoop (n + 1) (0x5C :: x :: Y) = (unquoteLoop n Y).map (fun r => (y :: r.1, r.2)) := by
    intro x hx y hy
    simp only [unquoteLoop, q0, q1, q2, hx, hy, if_false, if_true]
  by_cases c2 : b.val = 0x08
  · have : b = 0x08 := Fin.ext c2
    subst this
    simp only [c2, if_true, List.cons_append, List.nil_append]
    exact q3 0x62 (by decide) 0x08 (by decide)
  by_cases c3 : b.val = 0x0C
  · have : b = 0x0C := Fin.ext c3
    subst this
    simp only [c2, c3, if_true, if_false, List.cons_append, List.nil_append]
    exact q3 0x66 (by decide) 0x0C (by decide)
  by_cases c4 : b.val = 0x0A
  · have : b = 0x0A := Fin.ext c4
    subst this
    simp only [c2, c3, c4, if_true, if_false, List.cons_append, List.nil_append]
    exact q3 0x6E (by decide) 0x0A (by decide)
  by_cases c5 : b.val = 0x0D
  · have : b = 0x0D := Fin.ext c5
    subst this
    simp only [c2, c3, c4, c5, if_true, if_false, List.cons_append, List.nil_append]
    exact q3 0x72 (by decide) 0x0D (by decide)
  by_cases c6 : b.val = 0x09
  · have : b = 0x09 := Fin.ext c6
    subst this
    simp only [c2, c3, c4, c5, c6, if_true, if_false, List.cons_append, List.nil_append]
    exact q3 0x74 (by decide) 0x09 (by decide)
  simp only [c2, c3, c4, c5, c6, if_false, List.cons_append, List.nil_append]
  have q4 : (0x75 : Byte).val = 0x75 := by decide
  have q5 : isSurrogate b.val = false := by
    simp [isSurrogate]; omega
  have q6 : encodeRune b.val = [b] := by
    simp [encodeRune, h, byte_val]
  simp only [unquoteLoop, q0, q1, q2, q4, if_false, if_true, getu4_ascii b Y h, q5,
    Bool.false_eq_true, q6, List.drop, List.cons_append, List.nil_append]

theorem toValidUTF8_nil : toValidUTF8 [] = [] := by simp [toValidUTF8, runes_nil]

theorem toValidUTF8_cons (b : Byte) (rest : Bytes) :
    toValidUTF8 (b :: rest) =
      (if isInvalidRune ((decodeRune (b :: rest)).1, (b :: rest).take (decodeRune (b :: rest)).2)
        then [0xEF, 0xBF, 0xBD] else (b :: rest).take (decodeRune (b :: rest)).2) ++
      toValidUTF8 (rest.drop ((decodeRune (b :: rest)).2 - 1)) := by
  simp only [toValidUTF8, runes_cons, List.flatMap_cons]

theorem unquoteLoop_close (m : Nat) (tail : Bytes) :
    unquoteLoop (m + 1) (0x22 :: tail) = some ([], tail) := by
  have q : (0x22 : Byte).val = 0x22 := by decide
  simp only [unquoteLoop, q, if_true]

theorem unquoteLoop_u (m : Nat) (a b c d : Byte) (Y : Bytes) (rr : Nat)
    (hg : getu4 (a :: b :: c :: d :: Y) = some rr) (hs : isSurrogate rr = false) :
    unquoteLoop (m + 1) (0x5C :: 0x75 :: a :: b :: c :: d :: Y) =
      (unquoteLoop m Y).map (fun r => (encodeRune rr ++ r.1, r.2)) := by
  have q0 : ¬ ((92 : Nat) = 34) := by decide
  have q1 : ¬ ((0x5C : Byte).val = 0x22) := by decide
  have q2 : (0x5C : Byte).val = 0x5C := by decide
  have q4 : (0x75 : Byte).val = 0x75 := by decide
  simp only [unquoteLoop, q0, q1, q2, q4, if_false, if_true, hg, hs, Bool.false_eq_true,
    List.drop]

theorem getu4_cons (a b c d : Byte) (Y : Bytes) :
    getu4 (a :: b :: c :: d :: Y) = getu4 [a, b, c, d] := by
  simp [getu4]

theorem unquoteLoop_raw (m : Nat) (c : Byte) (rest : Bytes) (h : 0x80 ≤ c.val) :
    unquoteLoop (m + 1) (c :: rest) =
      (unquoteLoop m (rest.drop ((decodeRune (c :: rest)).2 - 1))).map
        (fun r => (encodeRune (decodeRune (c :: rest)).1 ++ r.1, r.2)) := by
  have q1 : ¬ (c.val = 0x22) := by omega
  have q2 : ¬ (c.val = 0x5C) := by omega
  have q3 : ¬ (c.val < 0x20) := by omega
  have q4 : ¬ (c.val < 0x80) := by omega
  simp only [unquoteLoop, q1, q2, q3, q4, if_false]

theorem unquoteLoop_quote_aux : ∀ (k : Nat) (s : Bytes), s.length ≤ k →
    ∀ (n : Nat) (tail : Bytes), (runes s).length + 1 ≤ n →
      unquoteLoop n ((runes s).flatMap quoteRune ++ 0x22 :: tail) = some (toValidUTF8 s, tail) := by
  intro k
  induction k with
  | zero =>
    intro s hs n tail hn
    have : s = [] := List.length_eq_zero.mp (by omega)
    subst this
    obtain ⟨m, rfl⟩ : ∃ m, n = m + 1 := ⟨n - 1, by omega⟩
    simp [runes_nil, toValidUTF8_nil, unquoteLoop_close]
  | succ k ih =>
    intro s hs n tail hn
    cases s with
    | nil =>
      obtain ⟨m, rfl⟩ : ∃ m, n = m + 1 := ⟨n - 1, by omega⟩
      simp [runes_nil, toValidUTF8_nil, unquoteLoop_close]
    | cons b rest =>
      have hb := b.isLt
      rw [runes_cons] at hn ⊢
      rw [toValidUTF8_cons]
      simp only [List.length_cons] at hn hs
      obtain ⟨m, rfl⟩ : ∃ m, n = m + 1 := ⟨n - 1, by omega⟩
      have hm : (runes (rest.drop ((decodeRune (b :: rest)).2 - 1))).length + 1 ≤ m := by omega
      have hlen : (rest.drop ((decodeRune (b :: rest)).2 - 1)).length ≤ k := by
        simp; omega
      have IH := ih _ hlen m tail hm
      simp only [List.flatMap_cons, List.append_assoc]
      have ht : List.take 1 (b :: rest) = [b] := rfl
      by_cases h1 : b.val < 0x80
      · -- an ASCII byte
        have hd := decodeRune_ascii b rest h1
        simp only [hd, ht] at IH ⊢
        have hq : quoteRune (b.val, [b]) = quoteASCII b := by
          simp [quoteRune, h1]
        have hi : isInvalidRune (b.val, [b]) = false := by
          simp [isInvalidRune, runeError]; omega
        rw [hq, unquoteLoop_quoteASCII b m _ h1]
        simp at IH
        simp [IH, hi]
      · by_cases h2 : decodeRune (b :: rest) = (runeError, 1)
        · -- an invalid byte
          simp only [h2, ht] at IH ⊢
          have hi : isInvalidRune (runeError, [b]) = true := by
            simp [isInvalidRune]
          have hq : quoteRune (runeError, [b]) = [0x5C, 0x75, 0x66, 0x66, 0x66, 0x64] := by
            simp [quoteRune, h1, hi]
          rw [hq]
          simp at IH
          have e : encodeRune 0xFFFD = [0xEF, 0xBF, 0xBD] := by decide
          simp only [List.cons_append, List.nil_append]
          rw [unquoteLoop_u m _ _ _ _ _ 0xFFFD (by rw [getu4_cons]; decide) (by decide)]
          simp [IH, hi, e]
        · -- a rune of two to four bytes
          obtain ⟨v1, v2, v3, v4, v5⟩ := decodeRune_valid b rest (by omega) h2
          generalize hd : decodeRune (b :: rest) = d at *
          obtain ⟨j, hj⟩ : ∃ j, d.2 = j + 1 := ⟨d.2 - 1, by omega⟩
          have hraw : (b :: rest).take d.2 = b :: rest.take j := by rw [hj]; simp
          have hrl : (rest.take j).length = j := by
            simp only [List.length_cons] at v2
            simp; omega
          have hj' : d.2 - 1 = j := by omega
          rw [hraw] at v4 v5 ⊢
          rw [hj'] at IH ⊢
          have hi : isInvalidRune (d.1, b :: rest.take j) = false := by
            simp [isInvalidRune, hrl]; omega
          simp only [hi, Bool.false_eq_true, if_false]
          have hgoal : ∀ Z, unquoteLoop (m + 1) (quoteRune (d.1, b :: rest.take j) ++ Z) =
              (unquoteLoop m Z).map (fun r => ((b :: rest.take j) ++ r.1, r.2)) := by
            intro Z
            by_cases h3 : d.1 = 0x2028 ∨ d.1 = 0x2029
            · have hq : quoteRune (d.1, b :: rest.take j)
                  = [0x5C, 0x75, 0x32, 0x30, 0x32, hexDigit (d.1 % 16)] := by
                simp [quoteRune, h1, hi, h3]
              rw [hq]
              simp only [List.cons_append, List.nil_append]
              rw [unquoteLoop_u m _ _ _ _ _ d.1
                (by rw [getu4_cons]; rcases h3 with h3 | h3 <;> rw [h3] <;> decide)
                (by rcases h3 with h3 | h3 <;> rw [h3] <;> decide), v4]
              simp
            · have hq : quoteRune (d.1, b :: rest.take j) = b :: rest.take j := by
                simp [quoteRune, h1, hi, h3]
              rw [hq]
              simp only [List.cons_append]
              rw [unquoteLoop_raw m b _ (by omega)]
              have := v5 Z
              simp only [List.cons_append] at this
              rw [this, v4, hj', List.drop_left' hrl]
              simp
          rw [hgoal, IH]
          simp

theorem decodeRune_size_pos (b : Byte) (rest : Bytes) : 1 ≤ (decodeRune (b :: rest)).2 := by
  by_cases h1 : b.val < 0x80
  · simp [decodeRune_ascii b rest h1]
  · by_cases h2 : decodeRune (b :: rest) = (runeError, 1)
    · simp [h2]
    · have := (decodeRune_valid b rest (by omega) h2).1
      omega

theorem decodeRune_size_le (b : Byte) (rest : Bytes) :
    (decodeRune (b :: rest)).2 ≤ (b :: rest).length := by
  by_cases h1 : b.val < 0x80
  · simp [decodeRune_ascii b rest h1]
  · by_cases h2 : decodeRune (b :: rest) = (runeError, 1)
    · simp [h2]
    · exact (decodeRune_valid b rest (by omega) h2).2.1

theorem quoteASCII_length_pos (b : Byte) : 1 ≤ (quoteASCII b).length := by
  unfold quoteASCII
  split_ifs <;> simp

theorem quoteRune_length_pos (b : Byte) (rest : Bytes) :
    1 ≤ (quoteRune ((decodeRune (b :: rest)).1,
      (b :: rest).take (decodeRune (b :: rest)).2)).length := by
  have h1 := decodeRune_size_pos b rest
  unfold quoteRune
  split_ifs
  · exact quoteASCII_length_pos _
  · simp
  · simp
  · simp; omega

theorem runes_length_le : ∀ (k : Nat) (s : Bytes), s.length ≤ k →
    (runes s).length ≤ ((runes s).flatMap quoteRune).length := by
  intro k
  induction k with
  | zero =>
    intro s hs
    have : s = [] := List.length_eq_zero.mp (by omega)
    subst this
    simp [runes_nil]
  | succ k ih =>
    intro s hs
    cases s with
    | nil => simp [runes_nil]
    | cons b rest =>
      rw [runes_cons]
      simp only [List.flatMap_cons, List.length_cons, List.length_append]
      have h1 := quoteRune_length_pos b rest
      have h2 := ih (rest.drop ((decodeRune (b :: rest)).2 - 1)) (by
        simp only [List.length_cons] at hs
        simp; omega)
      omega

/-- Reading back a string literal that `appendString` wrote gives the
string with its invalid bytes replaced. -/
theorem unquote_quote (s tail : Bytes) :
    unquote ((runes s).flatMap quoteRune ++ 0x22 :: tail) = some (toValidUTF8 s, tail) := by
  unfold unquote
  apply unquoteLoop_quote_aux s.length s (le_refl _)
  have := runes_length_le s.length s (le_refl _)
  rw [List.length_append, List.length_cons]; omega

theorem toValidUTF8_of_valid : ∀ (k : Nat) (s : Bytes), s.length ≤ k → validUTF8 s = true →
    toValidUTF8 s = s := by
  intro k
  induction k with
  | zero =>
    intro s hs _
    have : s = [] := List.length_eq_zero.mp (by omega)
    subst this
    exact toValidUTF8_nil
  | succ k ih =>
    intro s hs hv
    cases s with
    | nil => exact toValidUTF8_nil
    | cons b rest =>
      have hp := decodeRune_size_pos b rest
      rw [toValidUTF8_cons]
      simp only [validUTF8, runes_cons, List.all_cons, Bool.and_eq_true, Bool.not_eq_true'] at hv
      have hrest : validUTF8 (rest.drop ((decodeRune (b :: rest)).2 - 1)) = true := by
        simp only [validUTF8]; exact hv.2
      rw [ih _ (by simp only [List.length_cons] at hs; simp; omega) hrest]
      simp only [hv.1, Bool.false_eq_true, if_false]
      obtain ⟨j, hj⟩ : ∃ j, (decodeRune (b :: rest)).2 = j + 1 :=
        ⟨(decodeRune (b :: rest)).2 - 1, by omega⟩
      rw [hj]
      simp

/-- A valid UTF-8 string is unchanged by the replacement of invalid
bytes. -/
theorem toValidUTF8_eq (s : Bytes) (h : validUTF8 s = true) : toValidUTF8 s = s :=
  toValidUTF8_of_valid s.length s (le_refl _) h

theorem quote_eq (s : Bytes) : quote s = 0x22 :: ((runes s).flatMap quoteRune ++ [0x22]) := by
  simp [quote]

/-! ## encoding/json: reading back an object of strings -/

theorem skipWS_cons (c : Byte) (rest : Bytes) (h : isSpace c = false) :
    skipWS (c :: rest) = c :: rest := by
  simp [skipWS, h]

theorem skipWS_quote (s X : Bytes) : skipWS (quote s ++ X) = quote s ++ X := by
  rw [quote_eq]
  exact skipWS_cons _ _ (by decide)

theorem parseValue_quote (n d : Nat) (s X : Bytes) :
    parseValue (n + 1) d (quote s ++ X) = some (.str (toValidUTF8 s), X) := by
  have h : quote s ++ X = 0x22 :: ((runes s).flatMap quoteRune ++ 0x22 :: X) := by
    simp [quote_eq]
  rw [h]
  have q1 : ¬ ((0x22 : Byte).val = 0x7B) := by decide
  have q2 : ¬ ((0x22 : Byte).val = 0x5B) := by decide
  have q3 : (0x22 : Byte).val = 0x22 := by decide
  simp only [parseValue, skipWS_cons _ _ (by decide : isSpace (0x22 : Byte) = false), q1, q2, q3,
    if_false, if_true, unquote_quote, Option.map]
  simp

theorem parseValue_null (n d : Nat) (X : Bytes) :
    parseValue (n + 1) d (0x6E :: 0x75 :: 0x6C :: 0x6C :: X) = some (.null, X) := by
  have q1 : ¬ ((0x6E : Byte).val = 0x7B) := by decide
  have q2 : ¬ ((0x6E : Byte).val = 0x5B) := by decide
  have q3 : ¬ ((0x6E : Byte).val = 0x22) := by decide
  simp [parseValue, skipWS_cons _ _ (by decide : isSpace (0x6E : Byte) = false), q1, q2, q3]

theorem parseValue_obj (n d : Nat) (k Y : Bytes) (hd : d + 1 ≤ maxNestingDepth) :
    parseValue (n + 1) d (0x7B :: (quote k ++ Y)) =
      (parseMembers (parseValue n (d + 1)) n (quote k ++ Y)).map (fun x => (.obj x.1, x.2)) := by
  have q1 : (0x7B : Byte).val = 0x7B := by decide
  have hd' : ¬ maxNestingDepth < d + 1 := by omega
  have h : quote k ++ Y = 0x22 :: ((runes k).flatMap quoteRune ++ 0x22 :: Y) := by
    simp [quote_eq]
  have q2 : ¬ ((0x22 : Byte).val = 0x7D) := by decide
  simp only [parseValue, skipWS_cons _ _ (by decide : isSpace (0x7B : Byte) = false), q1, if_true,
    hd', if_false]
  rw [h, skipWS_cons _ _ (by decide : isSpace (0x22 : Byte) = false)]
  simp only [q2, if_false]

theorem parseMembers_more (pv : Bytes → Option (JSON × Bytes)) (n : Nat) (k rv more : Bytes)
    (v : JSON) (hpv : pv (rv ++ 0x2C :: more) = some (v, 0x2C :: more)) :
    parseMembers pv (n + 1) (quote k ++ 0x3A :: (rv ++ 0x2C :: more)) =
      (parseMembers pv n more).map (fun x => ((toValidUTF8 k, v) :: x.1, x.2)) := by
  have h : quote k ++ 0x3A :: (rv ++ 0x2C :: more)
      = 0x22 :: ((runes k).flatMap quoteRune ++ 0x22 :: 0x3A :: (rv ++ 0x2C :: more)) := by
    simp [quote_eq]
  rw [h]
  have q1 : ¬ ((0x22 : Byte).val ≠ 0x22) := by decide
  have q2 : ¬ ((0x3A : Byte).val ≠ 0x3A) := by decide
  have q3 : (0x2C : Byte).val = 0x2C := by decide
  simp only [parseMembers, skipWS_cons _ _ (by decide : isSpace (0x22 : Byte) = false), q1,
    if_false, unquote_quote, skipWS_cons _ _ (by decide : isSpace (0x3A : Byte) = false), q2,
    hpv, skipWS_cons _ _ (by decide : isSpace (0x2C : Byte) = false), q3, if_true]

theorem parseMembers_last (pv : Bytes → Option (JSON × Bytes)) (n : Nat) (k rv tail : Bytes)
    (v : JSON) (hpv : pv (rv ++ 0x7D :: tail) = some (v, 0x7D :: tail)) :
    parseMembers pv (n + 1) (quote k ++ 0x3A :: (rv ++ 0x7D :: tail)) =
      some ([(toValidUTF8 k, v)], tail) := by
  have h : quote k ++ 0x3A :: (rv ++ 0x7D :: tail)
      = 0x22 :: ((runes k).flatMap quoteRune ++ 0x22 :: 0x3A :: (rv ++ 0x7D :: tail)) := by
    simp [quote_eq]
  rw [h]
  have q1 : ¬ ((0x22 : Byte).val ≠ 0x22) := by decide
  have q2 : ¬ ((0x3A : Byte).val ≠ 0x3A) := by decide
  have q3 : ¬ ((0x7D : Byte).val = 0x2C) := by decide
  have q4 : (0x7D : Byte).val = 0x7D := by decide
  simp only [parseMembers, skipWS_cons _ _ (by decide : isSpace (0x22 : Byte) = false), q1,
    if_false, unquote_quote, skipWS_cons _ _ (by decide : isSpace (0x3A : Byte) = false), q2,
    hpv, skipWS_cons _ _ (by decide : isSpace (0x7D : Byte) = false), q3, q4, if_true]
  simp

/-! ## The payload registry: reading back what `json.Marshal` wrote -/

theorem jsonParse_of_parseValue (data : Bytes) (m : Nat) (v : JSON)
    (hl : data.length = m) (h : parseValue (m + 1) 0 data = some (v, [])) :
    jsonParse data = some v := by
  simp [jsonParse, hl, h, skipWS]

theorem quote_length (s : Bytes) : 2 ≤ (quote s).length := by
  simp [quote_eq]

theorem marshal_eq_logpass (d : LogPassData) :
    d.marshal = 0x7B :: (quote (ascii "login") ++ 0x3A :: (quote d.Login ++ 0x2C ::
      (quote (ascii "password") ++ 0x3A :: (quote d.Password ++ 0x7D :: [])))) := by
  have a1 : ascii "\x7b\"login\":" = 0x7B :: (quote (ascii "login") ++ [0x3A]) := by decide
  have a2 : ascii ",\"password\":" = 0x2C :: (quote (ascii "password") ++ [0x3A]) := by decide
  have a3 : ascii "\x7d" = [0x7D] := by decide
  simp only [LogPassData.marshal, a1, a2, a3, List.append_assoc, List.cons_append,
    List.nil_append]

theorem jsonParse_marshal_logpass (d : LogPassData) :
    jsonParse d.marshal = some (.obj [(ascii "login", .str (toValidUTF8 d.Login)),
      (ascii "password", .str (toValidUTF8 d.Password))]) := by
  have k1 : toValidUTF8 (ascii "login") = ascii "login" := by decide
  have k2 : toValidUTF8 (ascii "password") = ascii "password" := by decide
  obtain ⟨m, hm⟩ : ∃ m, d.marshal.length = m + 3 := by
    refine ⟨d.marshal.length - 3, ?_⟩
    rw [marshal_eq_logpass]
    simp only [List.length_cons, List.length_append]
    have := quote_length (ascii "login")
    omega
  apply jsonParse_of_parseValue _ _ _ hm
  rw [marshal_eq_logpass, parseValue_obj _ _ _ _ (by decide),
    parseMembers_more _ _ _ _ _ _ (parseValue_quote _ _ _ _),
    parseMembers_last _ _ _ _ _ _ (parseValue_quote _ _ _ _), k1, k2]
  rfl

theorem ParseJsonData_marshal_logpass (d : LogPassData) :
    ParseJsonData d.marshal LogPassDataType =
      (.logpass { Login := toValidUTF8 d.Login, Password := toValidUTF8 d.Password }, none) := by
  have f1 : findField [ascii "login", ascii "password"] (ascii "login") = some 0 := by decide
  have f2 : findField [ascii "login", ascii "password"] (ascii "password") = some 1 := by decide
  simp [ParseJsonData, jsonUnmarshal, jsonParse_marshal_logpass, LogPassData.decode,
    decodeStruct, f1, f2, LogPassData.setField, decodeString, saveError]

theorem marshal_eq_card (d : CardData) :
    d.marshal = 0x7B :: (quote (ascii "number") ++ 0x3A :: (quote d.Number ++ 0x2C ::
      (quote (ascii "expired_at") ++ 0x3A :: (quote d.ExpiredAt ++ 0x2C ::
      (quote (ascii "cvv") ++ 0x3A :: (quote d.CVV ++ 0x7D :: [])))))) := by
  have a1 : ascii "\x7b\"number\":" = 0x7B :: (quote (ascii "number") ++ [0x3A]) := by decide
  have a2 : ascii ",\"expired_at\":" = 0x2C :: (quote (ascii "expired_at") ++ [0x3A]) := by
    decide
  have a3 : ascii ",\"cvv\":" = 0x2C :: (quote (ascii "cvv") ++ [0x3A]) := by decide
  have a4 : ascii "\x7d" = [0x7D] := by decide
  simp only [CardData.marshal, a1, a2, a3, a4, List.append_assoc, List.cons_append,
    List.nil_append]

theorem jsonParse_marshal_card (d : CardData) :
    jsonParse d.marshal = some (.obj [(ascii "number", .str (toValidUTF8 d.Number)),
      (ascii "expired_at", .str (toValidUTF8 d.ExpiredAt)),
      (ascii "cvv", .str (toValidUTF8 d.CVV))]) := by
  have k1 : toValidUTF8 (ascii "number") = ascii "number" := by decide
  have k2 : toValidUTF8 (ascii "expired_at") = ascii "expired_at" := by decide
  have k3 : toValidUTF8 (ascii "cvv") = ascii "cvv" := by decide
  obtain ⟨m, hm⟩ : ∃ m, d.marshal.length = m + 4 := by
    refine ⟨d.marshal.length - 4, ?_⟩
    rw [marshal_eq_card]
    simp only [List.length_cons, List.length_append]
    have := quote_length (ascii "number")
    omega
  apply jsonParse_of_parseValue _ _ _ hm
  rw [marshal_eq_card, parseValue_obj _ _ _ _ (by decide),
    parseMembers_more _ _ _ _ _ _ (parseValue_quote _ _ _ _),
    parseMembers_more _ _ _ _ _ _ (parseValue_quote _ _ _ _),
    parseMembers_last _ _ _ _ _ _ (parseValue_quote _ _ _ _), k1, k2, k3]
  rfl

theorem ParseJsonData_marshal_card (d : CardData) :
    ParseJsonData d.marshal CardDataType =
      (.card ⟨toValidUTF8 d.Number, toValidUTF8 d.ExpiredAt, toValidUTF8 d.CVV⟩, none) := by
  have f1 : findField [ascii "number", ascii "expired_at", ascii "cvv"] (ascii "number")
      = some 0 := by decide
  have f2 : findField [ascii "number", ascii "expired_at", ascii "cvv"] (ascii "expired_at")
      = some 1 := by decide
  have f3 : findField [ascii "number", ascii "expired_at", ascii "cvv"] (ascii "cvv")
      = some 2 := by decide
  have t1 : ¬ (CardDataType = LogPassDataType) := by decide
  simp [ParseJsonData, t1, jsonUnmarshal, jsonParse_marshal_card, CardData.decode,
    decodeStruct, f1, f2, f3, CardData.setField, decodeString, saveError]

theorem marshal_eq_text (d : TextData) :
    d.marshal = 0x7B :: (quote (ascii "text") ++ 0x3A :: (quote d.Text ++ 0x7D :: [])) := by
  have a1 : ascii "\x7b\"text\":" = 0x7B :: (quote (ascii "text") ++ [0x3A]) := by decide
  have a4 : ascii "\x7d" = [0x7D] := by decide
  simp only [TextData.marshal, a1, a4, List.append_assoc, List.cons_append, List.nil_append]

theorem jsonParse_marshal_text (d : TextData) :
    jsonParse d.marshal = some (.obj [(ascii "text", .str (toValidUTF8 d.Text))]) := by
  have k1 : toValidUTF8 (ascii "text") = ascii "text" := by decide
  obtain ⟨m, hm⟩ : ∃ m, d.marshal.length = m + 2 := by
    refine ⟨d.marshal.length - 2, ?_⟩
    rw [marshal_eq_text]
    simp only [List.length_cons, List.length_append]
    have := quote_length (ascii "text")
    omega
  apply jsonParse_of_parseValue _ _ _ hm
  rw [marshal_eq_text, parseValue_obj _ _ _ _ (by decide),
    parseMembers_last _ _ _ _ _ _ (parseValue_quote _ _ _ _), k1]
  rfl

theorem ParseJsonData_marshal_text (d : TextData) :
    ParseJsonData d.marshal TextDataType = (.text { Text := toValidUTF8 d.Text }, none) := by
  have f1 : findField [ascii "text"] (ascii "text") = some 0 := by decide
  have t1 : ¬ (TextDataType = LogPassDataType) := by decide
  have t2 : ¬ (TextDataType = CardDataType) := by decide
  simp [ParseJsonData, t1, t2, jsonUnmarshal, jsonParse_marshal_text, TextData.decode,
    decodeStruct, f1, TextData.setField, decodeString, saveError]

/-! ### File contents: base64 text needs no escaping -/

theorem quote_plain (s : Bytes) (h : ∀ c ∈ s, htmlSafe c = true) :
    (runes s).flatMap quoteRune = s ∧ toValidUTF8 s = s := by
  induction s with
  | nil => simp [runes_nil, toValidUTF8_nil]
  | cons b rest ih =>
    have hb : htmlSafe b = true := h b (by simp)
    have hlt : b.val < 0x80 := by
      simp only [htmlSafe, Bool.and_eq_true, decide_eq_true_eq] at hb
      omega
    have ih' := ih (fun c hc => h c (by simp [hc]))
    have hd := decodeRune_ascii b rest hlt
    have hi : isInvalidRune (b.val, [b]) = false := by
      simp [isInvalidRune, runeError]; omega
    constructor
    · rw [runes_cons, hd]
      simp [quoteRune, hlt, quoteASCII, hb, ih'.1]
    · rw [toValidUTF8_cons, hd]
      simp [hi, ih'.2]

theorem htmlSafe_encode (b : Bytes) : ∀ c ∈ B64.std.encode b, htmlSafe c = true := by
  have key : ∀ j : Fin 64, htmlSafe (B64.std.encChar j.val) = true := by decide
  have key' : ∀ i, i < 64 → htmlSafe (B64.std.encChar i) = true := fun i hi => key ⟨i, hi⟩
  have h61 : htmlSafe (61 : Byte) = true := by decide
  induction b using B64.encode.induct B64.std with
  | case1 => simp [B64.encode]
  | case2 a =>
    have ha := a.isLt
    intro c hc
    simp only [B64.encode, B64.padded, if_true, List.cons_append, List.nil_append,
      List.mem_cons, List.mem_singleton] at hc
    rcases hc with rfl | rfl | rfl | rfl | hc
    · exact key' _ (by omega)
    · exact key' _ (by omega)
    · exact h61
    · exact h61
    · simp at hc
  | case3 a b =>
    have ha := a.isLt; have hb := b.isLt
    intro c hc
    simp only [B64.encode, B64.padded, if_true, List.cons_append, List.nil_append,
      List.mem_cons, List.mem_singleton] at hc
    rcases hc with rfl | rfl | rfl | rfl | hc
    · exact key' _ (by omega)
    · exact key' _ (by omega)
    · exact key' _ (by omega)
    · exact h61
    · simp at hc
  | case4 a b c rest ih =>
    have ha := a.isLt; have hb := b.isLt; have hc := c.isLt
    intro x hx
    simp only [B64.encode, List.mem_cons] at hx
    rcases hx with rfl | rfl | rfl | rfl | hx
    · exact key' _ (by omega)
    · exact key' _ (by omega)
    · exact key' _ (by omega)
    · exact key' _ (by omega)
    · exact ih x hx

theorem quote_encode (b : Bytes) :
    quote (B64.std.encode b) = [0x22] ++ B64.std.encode b ++ [0x22] := by
  simp [quote, (quote_plain _ (htmlSafe_encode b)).1]

theorem toValidUTF8_encode (b : Bytes) : toValidUTF8 (B64.std.encode b) = B64.std.encode b :=
  (quote_plain _ (htmlSafe_encode b)).2

theorem parseValue_null_lit (n d : Nat) (X : Bytes) :
    parseValue (n + 1) d (ascii "null" ++ X) = some (.null, X) := by
  have a : ascii "null" = [0x6E, 0x75, 0x6C, 0x6C] := by decide
  rw [a]
  exact parseValue_null n d X

theorem marshal_eq_file (d : FileData) :
    d.marshal = 0x7B :: (quote (ascii "content") ++ 0x3A :: (marshalBytes d.Content ++ 0x2C ::
      (quote (ascii "name") ++ 0x3A :: (quote d.Name ++ 0x7D :: [])))) := by
  have a1 : ascii "\x7b\"content\":" = 0x7B :: (quote (ascii "content") ++ [0x3A]) := by decide
  have a2 : ascii ",\"name\":" = 0x2C :: (quote (ascii "name") ++ [0x3A]) := by decide
  have a4 : ascii "\x7d" = [0x7D] := by decide
  simp only [FileData.marshal, a1, a2, a4, List.append_assoc, List.cons_append,
    List.nil_append]

theorem jsonParse_marshal_file (d : FileData) :
    jsonParse d.marshal = some (.obj [(ascii "content",
        match d.Content with
        | none => .null
        | some b => .str (B64.std.encode b)),
      (ascii "name", .str (toValidUTF8 d.Name))]) := by
  have k1 : toValidUTF8 (ascii "content") = ascii "content" := by decide
  have k2 : toValidUTF8 (ascii "name") = ascii "name" := by decide
  obtain ⟨m, hm⟩ : ∃ m, d.marshal.length = m + 3 := by
    refine ⟨d.marshal.length - 3, ?_⟩
    rw [marshal_eq_file]
    simp only [List.length_cons, List.length_append]
    have := quote_length (ascii "content")
    omega
  apply jsonParse_of_parseValue _ _ _ hm
  rw [marshal_eq_file, parseValue_obj _ _ _ _ (by decide)]
  cases hc : d.Content with
  | none =>
    simp only [marshalBytes]
    rw [parseMembers_more _ _ _ _ _ _ (parseValue_null_lit _ _ _),
      parseMembers_last _ _ _ _ _ _ (parseValue_quote _ _ _ _), k1, k2]
    rfl
  | some b =>
    simp only [marshalBytes]
    rw [← quote_encode,
      parseMembers_more _ _ _ _ _ _ (parseValue_quote _ _ _ _),
      parseMembers_last _ _ _ _ _ _ (parseValue_quote _ _ _ _), k1, k2, toValidUTF8_encode]
    rfl

theorem ParseJsonData_marshal_file (d : FileData) :
    ParseJsonData d.marshal FileDataType = (.file ⟨d.Content, toValidUTF8 d.Name⟩, none) := by
  have f1 : findField [ascii "content", ascii "name"] (ascii "content") = some 0 := by decide
  have f2 : findField [ascii "content", ascii "name"] (ascii "name") = some 1 := by decide
  have t1 : ¬ (FileDataType = LogPassDataType) := by decide
  have t2 : ¬ (FileDataType = CardDataType) := by decide
  have t3 : ¬ (FileDataType = TextDataType) := by decide
  have hb : ∀ b, B64.std.decode (B64.std.encode b) = (b, none) := b64_decode_encode B64.std
  cases hc : d.Content with
  | none =>
    simp [ParseJsonData, t1, t2, t3, jsonUnmarshal, jsonParse_marshal_file, FileData.decode,
      decodeStruct, f1, f2, FileData.setField, decodeString, decodeBytes, saveError, hc]
  | some b =>
    simp [ParseJsonData, t1, t2, t3, jsonUnmarshal, jsonParse_marshal_file, FileData.decode,
      decodeStruct, f1, f2, FileData.setField, decodeString, decodeBytes, saveError, hc, hb]

/-! ## C3 -/

/-- What `ParseJsonData` returns for the JSON of a payload, whatever its
bytes: the payload with the invalid bytes of its strings replaced. -/
theorem ParseJsonData_jsonMarshal (p : Any) (tag : Bytes) (ht : p.variantTag = some tag) :
    (jsonMarshal p).2 = none ∧
    ParseJsonData (jsonMarshal p).1 tag =
      (match p with
        | .logpass d => .logpass ⟨toValidUTF8 d.Login, toValidUTF8 d.Password⟩
        | .card d => .card ⟨toValidUTF8 d.Number, toValidUTF8 d.ExpiredAt, toValidUTF8 d.CVV⟩
        | .text d => .text ⟨toValidUTF8 d.Text⟩
        | .file d => .file ⟨d.Content, toValidUTF8 d.Name⟩
        | q => q, none) := by
  cases p with
  | nil => simp [Any.variantTag] at ht
  | other r => simp [Any.variantTag] at ht
  | logpass d =>
    simp only [Any.variantTag, Option.some.injEq] at ht
    subst ht
    exact ⟨rfl, ParseJsonData_marshal_logpass d⟩
  | card d =>
    simp only [Any.variantTag, Option.some.injEq] at ht
    subst ht
    exact ⟨rfl, ParseJsonData_marshal_card d⟩
  | text d =>
    simp only [Any.variantTag, Option.some.injEq] at ht
    subst ht
    exact ⟨rfl, ParseJsonData_marshal_text d⟩
  | file d =>
    simp only [Any.variantTag, Option.some.injEq] at ht
    subst ht
    exact ⟨rfl, ParseJsonData_marshal_file d⟩

/-- `ParseJsonData` returns the payload whose JSON it is given, when the
strings of the payload are valid UTF-8. -/
theorem ParseJsonData_jsonMarshal_valid (p : Any) (tag : Bytes)
    (ht : p.variantTag = some tag) (hu : p.stringsValidUTF8 = true) :
    (jsonMarshal p).2 = none ∧ ParseJsonData (jsonMarshal p).1 tag = (p, none) := by
  obtain ⟨h1, h2⟩ := ParseJsonData_jsonMarshal p tag ht
  refine ⟨h1, ?_⟩
  rw [h2]
  cases p with
  | nil => rfl
  | other r => rfl
  | logpass d =>
    simp only [Any.stringsValidUTF8, Bool.and_eq_true] at hu
    simp [toValidUTF8_eq _ hu.1, toValidUTF8_eq _ hu.2]
  | card d =>
    simp only [Any.stringsValidUTF8, Bool.and_eq_true] at hu
    simp [toValidUTF8_eq _ hu.1.1, toValidUTF8_eq _ hu.1.2, toValidUTF8_eq _ hu.2]
  | text d =>
    simp only [Any.stringsValidUTF8] at hu
    simp [toValidUTF8_eq _ hu]
  | file d =>
    simp only [Any.stringsValidUTF8] at hu
    simp [toValidUTF8_eq _ hu]

/-- C3, as amended: for each of the four type tags and every payload of
that tag's variant whose string fields are valid UTF-8 (whether or not it
satisfies the validity predicate), `json.Marshal` succeeds and
`ParseJsonData` of its output under the tag succeeds and returns the payload;
for a file the content bytes and the name are both preserved. -/
theorem C3_parse_marshal_roundtrip (p : Any) (tag : Bytes) (ht : p.variantTag = some tag)
    (hu : p.stringsValidUTF8 = true) :
    (jsonMarshal p).2 = none ∧ ParseJsonData (jsonMarshal p).1 tag = (p, none) :=
  ParseJsonData_jsonMarshal_valid p tag ht hu

/-- C3 at the card of `TestParseJsonData`. -/
theorem C3_parse_marshal_roundtrip_witness :
    Any.variantTag (.card ⟨ascii "1234567812345678", ascii "12/24", ascii "123"⟩)
      = some CardDataType ∧
    Any.stringsValidUTF8 (.card ⟨ascii "1234567812345678", ascii "12/24", ascii "123"⟩) = true ∧
    ParseJsonData (jsonMarshal (.card ⟨ascii "1234567812345678", ascii "12/24", ascii "123"⟩)).1
        CardDataType
      = (.card ⟨ascii "1234567812345678", ascii "12/24", ascii "123"⟩, none) :=
  ⟨rfl, by decide,
    (C3_parse_marshal_roundtrip (.card ⟨ascii "1234567812345678", ascii "12/24", ascii "123"⟩)
      CardDataType rfl (by decide)).2⟩

/-- C3 as stated fails for a payload that satisfies its validity predicate
but holds a byte that is not UTF-8: the login `\xff` is written to JSON as
`\ufffd` and read back as the three bytes of U+FFFD. -/
theorem C3_invalid_utf8_not_preserved :
    Any.Valid (.logpass ⟨[0xFF], ascii "x"⟩) = true ∧
    Any.variantTag (.logpass ⟨[0xFF], ascii "x"⟩) = some LogPassDataType ∧
    jsonMarshal (.logpass ⟨[0xFF], ascii "x"⟩)
      = (ascii "\x7b\"login\":\"\\ufffd\",\"password\":\"x\"\x7d", none) ∧
    ParseJsonData (ascii "\x7b\"login\":\"\\ufffd\",\"password\":\"x\"\x7d") LogPassDataType
      = (.logpass ⟨[0xEF, 0xBF, 0xBD], ascii "x"⟩, none) := by
  refine ⟨by decide, by decide, by decide, by decide⟩

end GoKeeper


namespace GoKeeper

/-! ## C4 -/

/-- What `Encrypt` of the cipher interface returns when it returns a
ciphertext. -/
theorem iface_Encrypt_ok (key plaintext ct : Bytes) (w w1 : World) (hk : validKeyLength key)
    (h : (NewCrypter key).iface.Encrypt plaintext w = .done ((ct, none), w1)) :
    (NewCrypter key).Decrypt ct = .done (plaintext, none) ∧
    w1 = { w with reads := w.reads + 1 } := by
  simp only [Crypt.iface] at h
  cases he : w.entropy w.reads with
  | none =>
    rw [he] at h
    simp [Crypt.Encrypt, NewCrypter, aesNewCipher_valid key hk, cipherNewGCM_aes, randRead,
      Run.bind] at h
  | some f =>
    rw [he] at h
    by_cases hp : plaintext.length ≤ gcmMaxPlaintext
    · rw [Encrypt_eq key f plaintext hk hp] at h
      simp only [Run.bind] at h
      injection h with h
      injection h with h1 h2
      injection h1 with h1 _
      subst h1
      exact ⟨Decrypt_sealed key f plaintext hk hp, h2.symm⟩
    · rw [Encrypt_too_large key f plaintext hk (by omega)] at h
      simp [Run.bind] at h

/-- The row `AddData` inserts. -/
theorem AddData_ok (db : Table) (newID : Bytes) (drv : Option Error)
    (u t d m X : Bytes) (db1 : Table)
    (h : postgres.DataRepository.AddData db newID drv u t d m = ((X, none), db1)) :
    X = newID ∧ (∀ r ∈ db, r.id ≠ newID) ∧
    db1 = db ++ [{ id := newID, user_id := u, data_type := t, data := d, meta := m,
                   is_deleted := false }] := by
  unfold postgres.DataRepository.AddData at h
  cases drv with
  | some e => simp at h
  | none =>
    by_cases hany : db.any (fun r => r.id = newID) = true
    · simp [hany] at h
    · simp only [hany, Bool.false_eq_true, if_false, Prod.mk.injEq, and_true] at h
      refine ⟨h.1.symm, ?_, h.2.symm⟩
      intro r hr hid
      apply hany
      simp only [List.any_eq_true, decide_eq_true_eq]
      exact ⟨r, hr, hid⟩

/-- The record `GetByUserID` finds after a row with a fresh id was
inserted. -/
theorem GetByUserID_inserted (db : Table) (u t d m X : Bytes) (hfresh : ∀ r ∈ db, r.id ≠ X) :
    postgres.DataRepository.GetByUserID
        (db ++ [{ id := X, user_id := u, data_type := t, data := d, meta := m,
                  is_deleted := false }]) none u X t
      = (some { Data := d, Meta := m, Typ := t, ID := X }, none) := by
  have h1 : db.find? (Row.matchesKey u X t) = none := by
    rw [List.find?_eq_none]
    intro r hr
    simp [Row.matchesKey, hfresh r hr]
  simp [postgres.DataRepository.GetByUserID, List.find?_append, h1, Row.matchesKey, Row.scan]

/-- What `Add` of the application's service returns when it returns an id:
the world it leaves holds a new row with that id, the owner, the type, the
meta and a ciphertext that decrypts to the JSON of the payload. -/
theorem appService_Add_ok (key : Bytes) (w w1 : World) (u t m X : Bytes) (p : Any)
    (hk : validKeyLength key)
    (hadd : (appService key).Add u t p m w = .done ((X, none), w1)) :
    ∃ ct, (jsonMarshal p).2 = none ∧
      (NewCrypter key).Decrypt ct = .done ((jsonMarshal p).1, none) ∧
      (∀ r ∈ w.table, r.id ≠ X) ∧
      w1.table = w.table ++ [{ id := X, user_id := u, data_type := t, data := ct, meta := m,
                               is_deleted := false }] ∧
      w1.faults = w.faults ∧ w1.statements = w.statements + 1 := by
  unfold Service.Add at hadd
  rcases hm : jsonMarshal p with ⟨json, _ | e⟩
  swap
  · rw [hm] at hadd; simp at hadd
  rw [hm] at hadd
  simp only [appService, NewService] at hadd
  rcases he : (NewCrypter key).iface.Encrypt json w with ⟨⟨⟨ct, _ | e⟩, w2⟩⟩ | msg
  · rw [he] at hadd
    simp only [Run.bind, pgRepository] at hadd
    obtain ⟨hdec, hw2⟩ := iface_Encrypt_ok key json ct w w2 hk he
    rcases ha : postgres.DataRepository.AddData w2.table (w2.ids w2.inserts)
      (w2.faults w2.statements) u t ct m with ⟨⟨id, _ | e⟩, db1⟩
    · rw [ha] at hadd
      simp only [Run.done.injEq, Prod.mk.injEq, and_true] at hadd
      obtain ⟨hid, hw1⟩ := hadd
      obtain ⟨h1, h2, h3⟩ := AddData_ok _ _ _ _ _ _ _ _ _ ha
      subst hw1
      subst hw2
      subst hid
      subst h1
      exact ⟨ct, rfl, hdec, h2, h3, rfl, rfl⟩
    · rw [ha] at hadd
      simp at hadd
  · rw [he] at hadd
    simp [Run.bind] at hadd
  · rw [he] at hadd
    simp [Run.bind] at hadd

/-- What `GetByID` of the application's service returns for the key of a row
that `Add` inserted, whatever the bytes of the payload. -/
theorem appService_GetByID_added (key : Bytes) (w w1 : World) (u t m X : Bytes) (p : Any)
    (hk : validKeyLength key) (hw : w.reliable)
    (hadd : (appService key).Add u t p m w = .done ((X, none), w1)) :
    ∃ w2, (appService key).GetByID u X t w1 =
      (match ParseJsonData (jsonMarshal p).1 t with
        | (_, some err) => .done ((none, some err), w2)
        | (parsedData, none) =>
          .done ((some { Data := parsedData, Meta := m, Typ := t, ID := X }, none), w2)) := by
  obtain ⟨ct, _, hdec, hfresh, htab, hf, _⟩ := appService_Add_ok key w w1 u t m X p hk hadd
  have hnf : w1.faults w1.statements = none := by rw [hf]; exact hw _
  refine ⟨{ w1 with statements := w1.statements + 1 }, ?_⟩
  simp only [Service.GetByID, appService, NewService, pgRepository, hnf, htab,
    GetByUserID_inserted _ u t ct m X hfresh, Run.bind, Service.toResponse, Crypt.iface, hdec]
  all_goals (rcases ParseJsonData (jsonMarshal p).1 t with ⟨parsed, _ | e⟩ <;> rfl)

/-- C4, as amended: over the Postgres repository with a database that
executes its statements and the AES-GCM cipher with a key of valid length,
for every owner, type tag, meta string and payload of the tag's variant whose
string fields are valid UTF-8: if `Service.Add` returns the id `X`, then
`Service.GetByID` with the same owner, `X` and the tag succeeds and returns a
response whose Data is the payload, Meta the meta, Type the tag and ID
`X`. -/
theorem C4_add_then_get (key : Bytes) (w w1 : World) (u t m X : Bytes) (p : Any)
    (hk : validKeyLength key) (hw : w.reliable)
    (ht : p.variantTag = some t) (hu : p.stringsValidUTF8 = true)
    (hadd : (appService key).Add u t p m w = .done ((X, none), w1)) :
    ∃ w2, (appService key).GetByID u X t w1 =
      .done ((some { Data := p, Meta := m, Typ := t, ID := X }, none), w2) := by
  obtain ⟨w2, h⟩ := appService_GetByID_added key w w1 u t m X p hk hw hadd
  rw [(ParseJsonData_jsonMarshal_valid p t ht hu).2] at h
  exact ⟨w2, h⟩

/-- What `Add` of the application's service returns in a world whose entropy
source works, whose database generates a fresh id and executes the insert,
for a payload whose JSON is within the limit of GCM. -/
theorem appService_Add_eq (key : Bytes) (w : World) (f : Nat → Byte) (u t m : Bytes) (p : Any)
    (hk : validKeyLength key) (hm : (jsonMarshal p).2 = none)
    (hl : (jsonMarshal p).1.length ≤ gcmMaxPlaintext)
    (he : w.entropy w.reads = some f) (hf : w.faults w.statements = none)
    (hid : ∀ r ∈ w.table, r.id ≠ w.ids w.inserts) :
    (appService key).Add u t p m w =
      .done ((w.ids w.inserts, none),
        { w with
          table := w.table ++ [{ id := w.ids w.inserts, user_id := u, data_type := t,
                                 data := B64.std.encode (sealedBytes key f (jsonMarshal p).1),
                                 meta := m, is_deleted := false }]
          reads := w.reads + 1
          inserts := w.inserts + 1
          statements := w.statements + 1 }) := by
  have hany : ¬ ∃ x ∈ w.table, x.id = w.ids w.inserts := by
    rintro ⟨x, hx, h⟩
    exact hid x hx h
  rcases hjm : jsonMarshal p with ⟨json, e⟩
  rw [hjm] at hm hl
  simp only at hm hl
  subst hm
  simp [Service.Add, hjm, appService, NewService, Crypt.iface, he, Encrypt_eq key f json hk hl,
    Run.bind, pgRepository, postgres.DataRepository.AddData, hf, hany]

/-- C4 at the first end-to-end scenario of the specification. -/
theorem C4_add_then_get_witness :
    validKeyLength (ascii "a16byteslongkey!") ∧
    (World.initial (fun _ => 0) (fun _ => ascii "X")).reliable ∧
    Any.variantTag (.text ⟨ascii "hello"⟩) = some (ascii "text") ∧
    Any.stringsValidUTF8 (.text ⟨ascii "hello"⟩) = true ∧
    ∃ w1 w2,
      (appService (ascii "a16byteslongkey!")).Add (ascii "u1") (ascii "text")
          (.text ⟨ascii "hello"⟩) (ascii "note") (World.initial (fun _ => 0) (fun _ => ascii "X"))
        = .done ((ascii "X", none), w1) ∧
      (appService (ascii "a16byteslongkey!")).GetByID (ascii "u1") (ascii "X") (ascii "text") w1
        = .done ((some { Data := .text ⟨ascii "hello"⟩, Meta := ascii "note",
                         Typ := ascii "text", ID := ascii "X" }, none), w2) := by
  have hk : validKeyLength (ascii "a16byteslongkey!") := by decide
  have hw : (World.initial (fun _ => 0) (fun _ => ascii "X")).reliable := fun _ => rfl
  have hadd := appService_Add_eq (ascii "a16byteslongkey!")
    (World.initial (fun _ => 0) (fun _ => ascii "X")) (fun _ => 0) (ascii "u1") (ascii "text")
    (ascii "note") (.text ⟨ascii "hello"⟩) hk rfl (by decide) rfl rfl
    (by intro r hr; simp [World.initial] at hr)
  obtain ⟨w2, h2⟩ := C4_add_then_get (ascii "a16byteslongkey!") _ _ (ascii "u1") (ascii "text")
    (ascii "note") (ascii "X") (.text ⟨ascii "hello"⟩) hk hw (by decide) (by decide) hadd
  exact ⟨hk, hw, by decide, by decide, _, w2, hadd, h2⟩

/-- C4 as stated fails for a payload that holds a byte that is not UTF-8:
the text `\xff` is stored as the JSON escape of U+FFFD, and `GetByID` returns the
three bytes of U+FFFD. -/
theorem C4_invalid_utf8_not_returned :
    ((appService (List.replicate 16 0)).Add (ascii "u1") (ascii "text") (.text ⟨[0xFF]⟩)
        (ascii "note") (World.initial (fun _ => 0) (fun _ => ascii "X"))).value
      = some (ascii "X", none) ∧
    ((appService (List.replicate 16 0)).GetByID (ascii "u1") (ascii "X") (ascii "text")
        (((appService (List.replicate 16 0)).Add (ascii "u1") (ascii "text") (.text ⟨[0xFF]⟩)
          (ascii "note") (World.initial (fun _ => 0) (fun _ => ascii "X"))).world
          (World.initial (fun _ => 0) (fun _ => ascii "X")))).value
      = some (some { Data := .text ⟨[0xEF, 0xBF, 0xBD]⟩, Meta := ascii "note",
                     Typ := ascii "text", ID := ascii "X" }, none) := by
  refine ⟨by decide!, by decide!⟩

end GoKeeper


namespace GoKeeper

/-! ## C5 and C6: what the calls of the repository keep -/

/-- The rows after `DeleteByID`: each row as before, except that its flag may
have been set. -/
theorem DeleteByID_rows (db : Table) (drv : Option Error) (u i t : Bytes) :
    ∃ f : Row → Row, (postgres.DataRepository.DeleteByID db drv u i t).2 = db.map f ∧
      ∀ r, (f r).id = r.id ∧ (f r).user_id = r.user_id ∧ (f r).data_type = r.data_type ∧
        (r.is_deleted = true → (f r).is_deleted = true) := by
  unfold postgres.DataRepository.DeleteByID
  cases drv with
  | some e => exact ⟨id, by simp, fun r => ⟨rfl, rfl, rfl, fun h => h⟩⟩
  | none =>
    by_cases h : (db.filter (Row.matchesKey u i t)).length = 0
    · exact ⟨id, by simp [h], fun r => ⟨rfl, rfl, rfl, fun h => h⟩⟩
    · refine ⟨fun r => if Row.matchesKey u i t r then { r with is_deleted := true } else r,
        by simp [h], fun r => ?_⟩
      by_cases hm : Row.matchesKey u i t r = true <;> simp [hm]

/-- The rows after `UpdateData`: each row as before, except for its data and
meta. -/
theorem UpdateData_rows (db : Table) (drv : Option Error) (u i t d m : Bytes) :
    ∃ f : Row → Row, (postgres.DataRepository.UpdateData db drv u i t d m).2 = db.map f ∧
      ∀ r, (f r).id = r.id ∧ (f r).user_id = r.user_id ∧ (f r).data_type = r.data_type ∧
        (f r).is_deleted = r.is_deleted := by
  unfold postgres.DataRepository.UpdateData
  cases drv with
  | some e => exact ⟨id, by simp, fun r => ⟨rfl, rfl, rfl, rfl⟩⟩
  | none =>
    by_cases h : (db.filter (Row.matchesKey u i t)).length = 0
    · exact ⟨id, by simp [h], fun r => ⟨rfl, rfl, rfl, rfl⟩⟩
    · refine ⟨fun r => if Row.matchesKey u i t r then { r with data := d, meta := m } else r,
        by simp [h], fun r => ?_⟩
      by_cases hm : Row.matchesKey u i t r = true <;> simp [hm]

/-- The rows after `AddData`: the rows as before, and after them at most one
row, whose id no row had. -/
theorem AddData_rows (db : Table) (newID : Bytes) (drv : Option Error) (u t d m : Bytes) :
    (postgres.DataRepository.AddData db newID drv u t d m).2 = db ∨
    ((∀ r ∈ db, r.id ≠ newID) ∧
      (postgres.DataRepository.AddData db newID drv u t d m).2 =
        db ++ [{ id := newID, user_id := u, data_type := t, data := d, meta := m,
                 is_deleted := false }]) := by
  unfold postgres.DataRepository.AddData
  cases drv with
  | some e => left; rfl
  | none =>
    by_cases hany : db.any (fun r => r.id = newID) = true
    · left; simp [hany]
    · right
      refine ⟨?_, by simp [hany]⟩
      intro r hr hid
      apply hany
      simp only [List.any_eq_true, decide_eq_true_eq]
      exact ⟨r, hr, hid⟩

/-- A property of tables that says, for an id that some row has, that every
row with this id satisfies `P`, is kept by every call, when `P` only depends
on id, owner and type of a row and on its flag being set. -/
theorem runOps_keeps (X : Bytes) (P : Row → Prop)
    (hP : ∀ r r' : Row, r'.id = r.id → r'.user_id = r.user_id → r'.data_type = r.data_type →
      (r.is_deleted = true → r'.is_deleted = true) → P r → P r')
    (ops : List RepoOp) (db : Table)
    (h : (∃ r ∈ db, r.id = X) ∧ ∀ r ∈ db, r.id = X → P r) :
    (∃ r ∈ runOps db ops, r.id = X) ∧ ∀ r ∈ runOps db ops, r.id = X → P r := by
  induction ops generalizing db with
  | nil => exact h
  | cons op rest ih =>
    simp only [runOps, List.foldl_cons]
    apply ih
    obtain ⟨⟨r0, hr0, hr0id⟩, hall⟩ := h
    have hmap : ∀ f : Row → Row, (∀ r, (f r).id = r.id ∧ (f r).user_id = r.user_id ∧
        (f r).data_type = r.data_type ∧ (r.is_deleted = true → (f r).is_deleted = true)) →
        (∃ r ∈ db.map f, r.id = X) ∧ ∀ r ∈ db.map f, r.id = X → P r := by
      intro f hf
      refine ⟨⟨f r0, List.mem_map_of_mem f hr0, by rw [(hf r0).1]; exact hr0id⟩, ?_⟩
      intro r hr hid
      obtain ⟨r1, hr1, rfl⟩ := List.mem_map.mp hr
      obtain ⟨h1, h2, h3, h4⟩ := hf r1
      exact hP r1 (f r1) h1 h2 h3 h4 (hall r1 hr1 (by rw [← h1]; exact hid))
    cases op with
    | getAll drv u t => exact ⟨⟨r0, hr0, hr0id⟩, hall⟩
    | get drv u i t => exact ⟨⟨r0, hr0, hr0id⟩, hall⟩
    | delete drv u i t =>
      obtain ⟨f, hf1, hf2⟩ := DeleteByID_rows db drv u i t
      simp only [RepoOp.apply, hf1]
      exact hmap f hf2
    | update drv u i t d m =>
      obtain ⟨f, hf1, hf2⟩ := UpdateData_rows db drv u i t d m
      simp only [RepoOp.apply, hf1]
      exact hmap f (fun r => ⟨(hf2 r).1, (hf2 r).2.1, (hf2 r).2.2.1,
        fun h => by rw [(hf2 r).2.2.2]; exact h⟩)
    | add newID drv u t d m =>
      simp only [RepoOp.apply]
      rcases AddData_rows db newID drv u t d m with h1 | ⟨h1, h2⟩
      · rw [h1]; exact ⟨⟨r0, hr0, hr0id⟩, hall⟩
      · rw [h2]
        refine ⟨⟨r0, by simp [hr0], hr0id⟩, ?_⟩
        intro r hr hid
        simp only [List.mem_append, List.mem_singleton] at hr
        rcases hr with hr | hr
        · exact hall r hr hid
        · subst hr
          simp only at hid
          exact absurd (hid ▸ hr0id) (h1 r0 hr0)

/-- No row matches a key whose rows are all deleted. -/
theorem matchesKey_none (db : Table) (u i t : Bytes)
    (h : ∀ r ∈ db, r.id = i → r.user_id = u → r.data_type = t → r.is_deleted = true) :
    db.filter (Row.matchesKey u i t) = [] ∧ db.find? (Row.matchesKey u i t) = none := by
  have key : ∀ r ∈ db, ¬ (Row.matchesKey u i t r = true) := by
    intro r hr hm
    simp only [Row.matchesKey, Bool.and_eq_true, decide_eq_true_eq] at hm
    obtain ⟨⟨⟨h1, h2⟩, h3⟩, h4⟩ := hm
    have := h r hr h2 h1 h3
    rw [this] at h4
    exact Bool.noConfusion h4
  constructor
  · rw [List.filter_eq_nil_iff]; exact key
  · rw [List.find?_eq_none]; exact key

/-- No row matches a key with the id of rows that belong to another
owner. -/
theorem matchesKey_other_owner (db : Table) (A B X t : Bytes) (hAB : A ≠ B)
    (h : ∀ r ∈ db, r.id = X → r.user_id = A) :
    db.find? (Row.matchesKey B X t) = none := by
  rw [List.find?_eq_none]
  intro r hr hm
  simp only [Row.matchesKey, Bool.and_eq_true, decide_eq_true_eq] at hm
  obtain ⟨⟨⟨h1, h2⟩, _⟩, _⟩ := hm
  exact hAB ((h r hr h2).symm.trans h1)

/-- The response built from a record carries the id of the record. -/
theorem toResponse_ID {σ : Type} (s : Service σ) (data : Data) (w w1 : σ) (resp : DataResponse)
    (e : Option Error) (h : s.toResponse (some data) w = .done ((some resp, e), w1)) :
    resp.ID = data.ID := by
  simp only [Service.toResponse] at h
  rcases hd : s.crypt.Decrypt data.Data w with ⟨⟨⟨pt, _ | e1⟩, w2⟩⟩ | msg
  · rw [hd] at h
    simp only [Run.bind] at h
    rcases hp : ParseJsonData pt data.Typ with ⟨parsed, _ | e2⟩
    · rw [hp] at h
      simp only [Run.done.injEq, Prod.mk.injEq, Option.some.injEq] at h
      rw [← h.1.1]
    · rw [hp] at h
      simp at h
  · rw [hd] at h
    simp [Run.bind] at h
  · rw [hd] at h
    simp [Run.bind] at h

/-- Every response `GetAllData` collects carries the id of one of the
records or was collected before. -/
theorem getAllLoop_IDs {σ : Type} (s : Service σ) (recs : List (Option Data)) :
    ∀ (acc : List DataResponse) (w w1 : σ) (rs : List DataResponse) (e : Option Error),
      s.getAllLoop recs acc w = .done ((rs, e), w1) →
      ∀ r ∈ rs, r ∈ acc ∨ ∃ d, some d ∈ recs ∧ d.ID = r.ID := by
  induction recs with
  | nil =>
    intro acc w w1 rs e h r hr
    simp only [Service.getAllLoop, Run.done.injEq, Prod.mk.injEq] at h
    left
    rw [h.1.1]
    exact hr
  | cons d rest ih =>
    intro acc w w1 rs e h r hr
    simp only [Service.getAllLoop] at h
    rcases ht : s.toResponse d w with ⟨⟨⟨_ | resp, _ | e1⟩, w2⟩⟩ | msg
    · rw [ht] at h
      simp only [Run.bind, Run.done.injEq, Prod.mk.injEq] at h
      rw [← h.1.1] at hr
      simp at hr
    · rw [ht] at h
      simp only [Run.bind, Run.done.injEq, Prod.mk.injEq] at h
      rw [← h.1.1] at hr
      simp at hr
    · rw [ht] at h
      simp only [Run.bind] at h
      rcases ih _ _ _ _ _ h r hr with h1 | ⟨d', hd', hid⟩
      · simp only [List.mem_append, List.mem_singleton] at h1
        rcases h1 with h1 | h1
        · left; exact h1
        · right
          cases d with
          | none => simp [Service.toResponse] at ht
          | some dd =>
            refine ⟨dd, by simp, ?_⟩
            rw [h1]
            exact (toResponse_ID s dd w w2 resp none ht).symm
      · right
        exact ⟨d', by simp [hd'], hid⟩
    · rw [ht] at h
      simp only [Run.bind, Run.done.injEq, Prod.mk.injEq] at h
      rw [← h.1.1] at hr
      simp at hr
    · rw [ht] at h
      simp [Run.bind] at h

/-- After a record was added under owner `A` with id `X`, in every later
table every row with id `X` belongs to `A`. -/
theorem added_row_owner (db db1 : Table) (newID : Bytes) (drv : Option Error)
    (A t d m X : Bytes) (ops : List RepoOp)
    (hadd : postgres.DataRepository.AddData db newID drv A t d m = ((X, none), db1)) :
    ∀ r ∈ runOps db1 ops, r.id = X → r.user_id = A := by
  obtain ⟨h1, h2, h3⟩ := AddData_ok db newID drv A t d m X db1 hadd
  subst h1
  refine (runOps_keeps X (fun r => r.user_id = A) ?_ ops db1 ⟨?_, ?_⟩).2
  · intro r r' _ hu _ _ hP
    rw [hu]; exact hP
  · exact ⟨{ id := X, user_id := A, data_type := t, data := d, meta := m,
             is_deleted := false }, by rw [h3]; simp, rfl⟩
  · intro r hr hid
    rw [h3] at hr
    simp only [List.mem_append, List.mem_singleton] at hr
    rcases hr with hr | hr
    · exact absurd hid (h2 r hr)
    · rw [hr]

/-- Every record `GetAllDataByUserID` returns is scanned from a row the query
selects, whatever happens while the rows are read. -/
theorem GetAllDataByUserID_mem (db : Table) (drv : Option Error) (rows : RowsFault)
    (u t : Bytes) (r : Data)
    (h : r ∈ (postgres.DataRepository.GetAllDataByUserID db drv rows u t).1) :
    r ∈ (db.filter (Row.ofUserType u t)).map Row.scan := by
  unfold postgres.DataRepository.GetAllDataByUserID at h
  cases drv with
  | some e => simp at h
  | none =>
    cases rows with
    | complete => exact h
    | cut k => exact List.mem_of_mem_take h
    | scanFailed k err =>
      simp only at h
      by_cases hk : k < (db.filter (Row.ofUserType u t)).length
      · rw [if_pos hk] at h; simp at h
      · rw [if_neg hk] at h; exact h

/-- C5: for any two distinct owner ids `A` and `B` and any record added
under `A` with id `X`, after every sequence of later calls of the repository:
`GetAllDataByUserID` under `B` returns no record with id `X`, whatever
happens while the rows are read, and
`GetByUserID` under `B` with `X` fails with `ErrDataNotFound`, for every
type; so do `Service.GetAllData` and `Service.GetByID` of the application
when the database executes the query; and every record a read query returns
is scanned from a row whose `user_id` is the owner id of the caller. -/
theorem C5_owner_isolation (db db1 : Table) (newID : Bytes) (drv : Option Error)
    (A B t d m X : Bytes) (ops : List RepoOp) (hAB : A ≠ B)
    (hadd : postgres.DataRepository.AddData db newID drv A t d m = ((X, none), db1)) :
    (∀ t1 rows,
      ∀ r ∈ (postgres.DataRepository.GetAllDataByUserID (runOps db1 ops) none rows B t1).1,
        r.ID ≠ X) ∧
    (∀ t1, postgres.DataRepository.GetByUserID (runOps db1 ops) none B X t1
      = (none, some .ErrDataNotFound)) ∧
    (∀ (key : Bytes) (w : World) (t1 : Bytes), w.table = runOps db1 ops →
      w.faults w.statements = none →
      ((appService key).GetByID B X t1 w).value = some (none, some .ErrDataNotFound) ∧
      ∀ rs e w1, (appService key).GetAllData B t1 w = .done ((rs, e), w1) →
        ∀ r ∈ rs, r.ID ≠ X) ∧
    (∀ (db2 : Table) (u t1 : Bytes) (rows : RowsFault),
      ∀ r ∈ (postgres.DataRepository.GetAllDataByUserID db2 none rows u t1).1,
        ∃ row ∈ db2, row.user_id = u ∧ row.scan = r) ∧
    (∀ (db2 : Table) (u i t1 : Bytes) (r : Data),
      (postgres.DataRepository.GetByUserID db2 none u i t1).1 = some r →
        ∃ row ∈ db2, row.user_id = u ∧ row.scan = r) := by
  have hown := added_row_owner db db1 newID drv A t d m X ops hadd
  have hall : ∀ t1 rows, ∀ r ∈ (postgres.DataRepository.GetAllDataByUserID (runOps db1 ops)
      none rows B t1).1, r.ID ≠ X := by
    intro t1 rows r hr hid
    have hr := GetAllDataByUserID_mem _ _ _ _ _ _ hr
    simp only [List.mem_map, List.mem_filter] at hr
    obtain ⟨row, ⟨hrow, hm⟩, rfl⟩ := hr
    simp only [Row.ofUserType, Bool.and_eq_true, decide_eq_true_eq] at hm
    exact hAB ((hown row hrow hid).symm.trans hm.1.1)
  have hget : ∀ t1, postgres.DataRepository.GetByUserID (runOps db1 ops) none B X t1
      = (none, some .ErrDataNotFound) := by
    intro t1
    simp [postgres.DataRepository.GetByUserID, matchesKey_other_owner _ A B X t1 hAB hown]
  refine ⟨hall, hget, ?_, ?_, ?_⟩
  · intro key w t1 hw hf
    constructor
    · simp [Service.GetByID, appService, NewService, pgRepository, hf, hw, hget t1, Run.bind,
        Run.value]
    · intro rs e w1 h r hr hid
      simp only [Service.GetAllData, appService, NewService, pgRepository, hf, hw,
        Run.bind] at h
      rcases hg : postgres.DataRepository.GetAllDataByUserID (runOps db1 ops) none
        (w.rowFaults w.statements) B t1 with ⟨ds, _ | e0⟩
      · rw [hg] at h
        simp only at h
        rcases getAllLoop_IDs _ _ _ _ _ _ _ h r hr with h1 | ⟨d1, hd1, hd2⟩
        · simp at h1
        · simp only [List.mem_map, Option.some.injEq, exists_eq_right] at hd1
          have hd3 : d1 ∈ (postgres.DataRepository.GetAllDataByUserID (runOps db1 ops) none
              (w.rowFaults w.statements) B t1).1 := by rw [hg]; exact hd1
          exact hall t1 _ d1 hd3 (hd2.trans hid)
      · rw [hg] at h
        simp only [Run.done.injEq, Prod.mk.injEq] at h
        rw [← h.1.1] at hr
        simp at hr
  · intro db2 u t1 rows r hr
    have hr := GetAllDataByUserID_mem _ _ _ _ _ _ hr
    simp only [List.mem_map, List.mem_filter] at hr
    obtain ⟨row, ⟨hrow, hm⟩, rfl⟩ := hr
    simp only [Row.ofUserType, Bool.and_eq_true, decide_eq_true_eq] at hm
    exact ⟨row, hrow, hm.1.1, rfl⟩
  · intro db2 u i t1 r hr
    simp only [postgres.DataRepository.GetByUserID] at hr
    rcases hf : db2.find? (Row.matchesKey u i t1) with _ | row
    · rw [hf] at hr; simp at hr
    · rw [hf] at hr
      simp only [Option.some.injEq] at hr
      have hm := List.find?_some hf
      simp only [Row.matchesKey, Bool.and_eq_true, decide_eq_true_eq] at hm
      exact ⟨row, List.mem_of_find?_eq_some hf, hm.1.1.1, hr⟩

/-- C5 at owners `alice` and `bob`, with a later delete and update by
`bob` aimed at the id of the record of `alice`. -/
theorem C5_owner_isolation_witness :
    ascii "alice" ≠ ascii "bob" ∧
    postgres.DataRepository.AddData [] (ascii "X") none (ascii "alice") (ascii "text")
        (ascii "c1") (ascii "note")
      = ((ascii "X", none),
          [{ id := ascii "X", user_id := ascii "alice", data_type := ascii "text",
             data := ascii "c1", meta := ascii "note", is_deleted := false }]) ∧
    postgres.DataRepository.GetByUserID
        (runOps [{ id := ascii "X", user_id := ascii "alice", data_type := ascii "text",
                   data := ascii "c1", meta := ascii "note", is_deleted := false }]
          [.delete none (ascii "bob") (ascii "X") (ascii "text"),
           .update none (ascii "bob") (ascii "X") (ascii "text") (ascii "c2") (ascii "m")])
        none (ascii "bob") (ascii "X") (ascii "text")
      = (none, some .ErrDataNotFound) :=
  ⟨by decide, by decide,
    (C5_owner_isolation [] _ (ascii "X") none (ascii "alice") (ascii "bob") (ascii "text")
      (ascii "c1") (ascii "note") (ascii "X")
      [.delete none (ascii "bob") (ascii "X") (ascii "text"),
       .update none (ascii "bob") (ascii "X") (ascii "text") (ascii "c2") (ascii "m")]
      (by decide) (by decide)).2.1 (ascii "text")⟩

/-- After `DeleteByID` succeeded on a key, in every later table some row has
the id of the key and every row with the key is deleted. -/
theorem deleted_rows_stay (db db1 : Table) (drv : Option Error) (u i t : Bytes)
    (ops : List RepoOp)
    (hdel : postgres.DataRepository.DeleteByID db drv u i t = (none, db1)) :
    ∀ r ∈ runOps db1 ops, r.id = i → r.user_id = u → r.data_type = t → r.is_deleted = true := by
  unfold postgres.DataRepository.DeleteByID at hdel
  cases drv with
  | some e => simp at hdel
  | none =>
    by_cases hz : (db.filter (Row.matchesKey u i t)).length = 0
    · simp [hz] at hdel
    · simp only [hz, if_false, Prod.mk.injEq, true_and] at hdel
      subst hdel
      refine (runOps_keeps i (fun r => r.user_id = u → r.data_type = t → r.is_deleted = true)
        ?_ ops _ ⟨?_, ?_⟩).2
      · intro r r' _ hu ht hd hP h1 h2
        exact hd (hP (hu ▸ h1) (ht ▸ h2))
      · obtain ⟨r0, hr0⟩ := List.exists_mem_of_length_pos (Nat.pos_of_ne_zero hz)
        simp only [List.mem_filter] at hr0
        have hm := hr0.2
        simp only [Row.matchesKey, Bool.and_eq_true, decide_eq_true_eq] at hm
        refine ⟨_, List.mem_map_of_mem _ hr0.1, ?_⟩
        simp [hr0.2, hm.1.1.2]
      · intro r hr hid hu ht
        obtain ⟨r1, hr1, rfl⟩ := List.mem_map.mp hr
        by_cases hm : Row.matchesKey u i t r1 = true
        · simp [hm]
        · simp only [hm, Bool.false_eq_true, if_false] at hid hu ht ⊢
          cases hdl : r1.is_deleted with
          | true => rfl
          | false =>
            exfalso
            apply hm
            simp [Row.matchesKey, hid, hu, ht, hdl]

/-- Every call keeps the rows of the table in their places and leaves a
deleted row deleted. -/
theorem apply_keeps_deleted (op : RepoOp) (db : Table) (k : Nat) (r : Row)
    (hk : db[k]? = some r) (hd : r.is_deleted = true) :
    ∃ r1, (op.apply db)[k]? = some r1 ∧ r1.id = r.id ∧ r1.is_deleted = true := by
  have hmap : ∀ f : Row → Row, (∀ x, (f x).id = x.id ∧
      (x.is_deleted = true → (f x).is_deleted = true)) →
      ∃ r1, (db.map f)[k]? = some r1 ∧ r1.id = r.id ∧ r1.is_deleted = true := by
    intro f hf
    exact ⟨f r, by simp [hk], (hf r).1, (hf r).2 hd⟩
  cases op with
  | getAll drv u t => exact ⟨r, hk, rfl, hd⟩
  | get drv u i t => exact ⟨r, hk, rfl, hd⟩
  | delete drv u i t =>
    obtain ⟨f, hf1, hf2⟩ := DeleteByID_rows db drv u i t
    simp only [RepoOp.apply, hf1]
    exact hmap f (fun x => ⟨(hf2 x).1, (hf2 x).2.2.2⟩)
  | update drv u i t d m =>
    obtain ⟨f, hf1, hf2⟩ := UpdateData_rows db drv u i t d m
    simp only [RepoOp.apply, hf1]
    exact hmap f (fun x => ⟨(hf2 x).1, fun h => by rw [(hf2 x).2.2.2]; exact h⟩)
  | add newID drv u t d m =>
    simp only [RepoOp.apply]
    rcases AddData_rows db newID drv u t d m with h1 | ⟨_, h2⟩
    · rw [h1]; exact ⟨r, hk, rfl, hd⟩
    · rw [h2]
      have hlt : k < db.length := by
        rcases Nat.lt_or_ge k db.length with h | h
        · exact h
        · rw [List.getElem?_eq_none h] at hk; simp at hk
      exact ⟨r, by rw [List.getElem?_append_left hlt]; exact hk, rfl, hd⟩

/-- C6: once `DeleteByID` on a key (owner, id, type) has succeeded, after
every sequence of later calls of the repository `DeleteByID`, `GetByUserID`
and `UpdateData` on the same key fail with `ErrDataNotFound` and leave the
table unchanged, and `GetAllDataByUserID` for the owner and type returns no
record with the id; no call resets the deleted flag of a row. -/
theorem C6_tombstone (db db1 : Table) (drv : Option Error) (u i t : Bytes) (ops : List RepoOp)
    (hdel : postgres.DataRepository.DeleteByID db drv u i t = (none, db1)) :
    postgres.DataRepository.DeleteByID (runOps db1 ops) none u i t
      = (some .ErrDataNotFound, runOps db1 ops) ∧
    postgres.DataRepository.GetByUserID (runOps db1 ops) none u i t
      = (none, some .ErrDataNotFound) ∧
    (∀ d m, postgres.DataRepository.UpdateData (runOps db1 ops) none u i t d m
      = (some .ErrDataNotFound, runOps db1 ops)) ∧
    (∀ rows, ∀ r ∈ (postgres.DataRepository.GetAllDataByUserID (runOps db1 ops) none rows u t).1,
      r.ID ≠ i) ∧
    (∀ (op : RepoOp) (db2 : Table) (k : Nat) (r : Row), db2[k]? = some r →
      r.is_deleted = true →
      ∃ r1, (op.apply db2)[k]? = some r1 ∧ r1.id = r.id ∧ r1.is_deleted = true) := by
  have hinv := deleted_rows_stay db db1 drv u i t ops hdel
  obtain ⟨hf, hfind⟩ := matchesKey_none (runOps db1 ops) u i t hinv
  refine ⟨?_, ?_, ?_, ?_, apply_keeps_deleted⟩
  · simp [postgres.DataRepository.DeleteByID, hf]
  · simp [postgres.DataRepository.GetByUserID, hfind]
  · intro d m
    simp [postgres.DataRepository.UpdateData, hf]
  · intro rows r hr hid
    have hr := GetAllDataByUserID_mem _ _ _ _ _ _ hr
    simp only [List.mem_map, List.mem_filter] at hr
    obtain ⟨row, ⟨hrow, hm⟩, rfl⟩ := hr
    simp only [Row.ofUserType, Bool.and_eq_true, decide_eq_true_eq] at hm
    have := hinv row hrow hid hm.1.1 hm.1.2
    rw [this] at hm
    exact Bool.noConfusion hm.2

/-- C6 at a table with one record, deleted and then aimed at by an update
and an insert that reuses its id. -/
theorem C6_tombstone_witness :
    postgres.DataRepository.DeleteByID
        [{ id := ascii "X", user_id := ascii "u1", data_type := ascii "text",
           data := ascii "c1", meta := ascii "note", is_deleted := false }]
        none (ascii "u1") (ascii "X") (ascii "text")
      = (none, [{ id := ascii "X", user_id := ascii "u1", data_type := ascii "text",
                  data := ascii "c1", meta := ascii "note", is_deleted := true }]) ∧
    postgres.DataRepository.DeleteByID
        (runOps [{ id := ascii "X", user_id := ascii "u1", data_type := ascii "text",
                   data := ascii "c1", meta := ascii "note", is_deleted := true }]
          [.update none (ascii "u1") (ascii "X") (ascii "text") (ascii "c2") (ascii "m"),
           .add (ascii "X") none (ascii "u1") (ascii "text") (ascii "c3") (ascii "m")])
        none (ascii "u1") (ascii "X") (ascii "text")
      = (some .ErrDataNotFound,
          runOps [{ id := ascii "X", user_id := ascii "u1", data_type := ascii "text",
                    data := ascii "c1", meta := ascii "note", is_deleted := true }]
            [.update none (ascii "u1") (ascii "X") (ascii "text") (ascii "c2") (ascii "m"),
             .add (ascii "X") none (ascii "u1") (ascii "text") (ascii "c3") (ascii "m")]) :=
  ⟨by decide,
    (C6_tombstone
      [{ id := ascii "X", user_id := ascii "u1", data_type := ascii "text",
         data := ascii "c1", meta := ascii "note", is_deleted := false }]
      _ none (ascii "u1") (ascii "X") (ascii "text")
      [.update none (ascii "u1") (ascii "X") (ascii "text") (ascii "c2") (ascii "m"),
       .add (ascii "X") none (ascii "u1") (ascii "text") (ascii "c3") (ascii "m")]
      (by decide)).1⟩

end GoKeeper


namespace GoKeeper

/-! ## The Add endpoint on requests it refuses -/

/-- A type tag outside the registry is refused with `ErrInvalidDataBody`,
whatever the body. -/
theorem parseDataRequest_unregistered (body dataType : Bytes)
    (h : dataType ∉ [LogPassDataType, CardDataType, TextDataType, FileDataType]) :
    parseDataRequest body dataType = (none, some .ErrInvalidDataBody) := by
  simp only [List.mem_cons, List.mem_singleton, List.not_mem_nil, or_false, not_or] at h
  unfold parseDataRequest
  rw [if_neg h.1, if_neg h.2.1, if_neg h.2.2.1, if_neg h.2.2.2]

/-- C7, with the answer to a body that cannot be read: an Add request whose
type tag is not one of the four registered tags, or whose body
`parseDataRequest` does not decode into the schema of the tag, or whose
decoded payload fails `Valid`, is answered with status 400 and nothing else
when its body was read without an error, and with status 500 and nothing
else when reading its body failed, which the handler finds out before it
looks at the tag. The answer is the same for every implementation of the
cipher and of the repository behind the handler, and the world is left as it
was: no method of either is called. -/
theorem C7_invalid_add_is_bad_request {σ : Type} (h : DataHandler σ) (r : Request) (w : σ)
    (hbad :
      r.URLParam (ascii "type") ∉ [LogPassDataType, CardDataType, TextDataType, FileDataType] ∨
      (parseDataRequest r.Body.1 (r.URLParam (ascii "type"))).2 ≠ none ∨
      ∃ d, parseDataRequest r.Body.1 (r.URLParam (ascii "type")) = (some d, none) ∧
        d.Valid = false) :
    (r.Body.2 = none → h.Add r w = .done (Response.status 400, w)) ∧
    (r.Body.2 ≠ none → h.Add r w = .done (Response.status 500, w)) := by
  rcases hb : r.Body with ⟨body, e⟩
  rw [hb] at hbad
  simp only at hbad
  constructor
  · intro he
    simp only at he
    subst he
    unfold DataHandler.Add
    simp only [hb]
    rcases hbad with h1 | h2 | ⟨d, h3, h4⟩
    · rw [parseDataRequest_unregistered body _ h1]
    · rcases hp : parseDataRequest body (r.URLParam (ascii "type")) with ⟨d, e⟩
      rw [hp] at h2
      cases e with
      | none => exact absurd rfl h2
      | some e => cases d <;> rfl
    · rw [h3]; simp [h4]
  · intro he
    simp only at he
    cases e with
    | none => exact absurd rfl he
    | some err =>
      unfold DataHandler.Add
      simp only [hb]

/-- The second scenario of the specification: `Add` of type `card` with an
empty number, on the vault over the Postgres repository and the cipher. -/
theorem C7_invalid_add_is_bad_request_witness :
    (NewDataHandler (appService (ascii "a16byteslongkey!"))).Add
        { ctx := context.SetUserID [] (ascii "u1"),
          URLParams := [(ascii "type", ascii "card")],
          Body := (ascii ("\x7b\"data\":\x7b\"number\":\"\",\"expired_at\":\"12/30\"," ++
            "\"cvv\":\"123\"\x7d,\"meta\":\"m\"\x7d"), none),
          Cookies := [] }
        (World.initial (fun _ => 0) (fun _ => ascii "X")) =
      .done (Response.status 400, World.initial (fun _ => 0) (fun _ => ascii "X")) :=
  (C7_invalid_add_is_bad_request _ _ _
    (Or.inr (Or.inr ⟨.card ⟨⟨[], ascii "12/30", ascii "123"⟩, ascii "m"⟩, by decide!, by decide⟩))).1
    rfl

/-- C7 as stated fails: an Add request with the type tag `unknown`, which is
not registered, whose body cannot be read to its end, is answered with
status 500, not 400; the mocks record no call. -/
theorem C7_unreadable_body_is_500 :
    ascii "unknown" ∉ [LogPassDataType, CardDataType, TextDataType, FileDataType] ∧
    (NewDataHandler (NewService
        (MockDataRepository
          { Encrypt := (ascii "encrypted data", none), Decrypt := ([], none),
            AddData := (ascii "data-id", none), GetAllDataByUserID := ([], none),
            GetByUserID := (none, none), DeleteByID := none, UpdateData := none })
        (MockCrypt
          { Encrypt := (ascii "encrypted data", none), Decrypt := ([], none),
            AddData := (ascii "data-id", none), GetAllDataByUserID := ([], none),
            GetByUserID := (none, none), DeleteByID := none, UpdateData := none }))).Add
      { ctx := context.SetUserID [] (ascii "u1"),
        URLParams := [(ascii "type", ascii "unknown")],
        Body := (ascii "\x7b\"data\":", some (.other "unexpected EOF")),
        Cookies := [] } [] = .done (Response.status 500, []) ∧
    Response.status 500 ≠ Response.status 400 := by
  refine ⟨by decide, by decide, by decide⟩

end GoKeeper


namespace GoKeeper

/-! ## strings.Split and base64 segments -/

theorem stringsSplit_ne_nil (sep : Byte) (s : Bytes) : stringsSplit sep s ≠ [] := by
  induction s with
  | nil => simp [stringsSplit]
  | cons c rest ih =>
    unfold stringsSplit
    split_ifs
    · simp
    · rcases h : stringsSplit sep rest with _ | ⟨p, ps⟩
      · exact absurd h ih
      · simp

theorem stringsSplit_no_sep (sep : Byte) (s : Bytes) (h : sep ∉ s) : stringsSplit sep s = [s] := by
  induction s with
  | nil => simp [stringsSplit]
  | cons c rest ih =>
    simp only [List.mem_cons, not_or] at h
    have hc : ¬ c = sep := fun e => h.1 e.symm
    unfold stringsSplit
    rw [if_neg hc, ih h.2]

theorem stringsSplit_append (sep : Byte) (a rest : Bytes) (h : sep ∉ a) :
    stringsSplit sep (a ++ sep :: rest) = a :: stringsSplit sep rest := by
  induction a with
  | nil => simp [stringsSplit]
  | cons c a ih =>
    simp only [List.mem_cons, not_or] at h
    have hc : ¬ c = sep := fun e => h.1 e.symm
    rw [List.cons_append]
    conv_lhs => unfold stringsSplit
    rw [if_neg hc, ih h.2]

theorem stringsSplit_three (sep : Byte) (a b c : Bytes) (ha : sep ∉ a) (hb : sep ∉ b)
    (hc : sep ∉ c) : stringsSplit sep (a ++ [sep] ++ b ++ [sep] ++ c) = [a, b, c] := by
  have e : a ++ [sep] ++ b ++ [sep] ++ c = a ++ sep :: (b ++ sep :: c) := by simp
  rw [e, stringsSplit_append _ _ _ ha, stringsSplit_append _ _ _ hb, stringsSplit_no_sep _ _ hc]

theorem encChar_ne_dot (e : B64) (i : Nat) : e.encChar i ≠ 0x2E := by
  unfold B64.encChar
  intro h
  have hv := congrArg Fin.val h
  split_ifs at hv with h1 h2 h3 h4
  · simp [byte] at hv; omega
  · simp [byte] at hv; omega
  · simp [byte] at hv; omega
  · cases e <;> exact absurd hv (by decide)
  · cases e <;> exact absurd hv (by decide)

theorem encode_no_dot (bs : Bytes) : (0x2E : Byte) ∉ B64.rawURL.encode bs := by
  induction bs using B64.encode.induct B64.rawURL with
  | case1 => simp [B64.encode]
  | case2 a =>
    simp only [B64.encode, B64.padded, List.mem_cons, List.mem_append, not_or]
    simp
    exact ⟨(encChar_ne_dot _ _).symm, (encChar_ne_dot _ _).symm⟩
  | case3 a b =>
    simp only [B64.encode, B64.padded]
    simp
    exact ⟨(encChar_ne_dot _ _).symm, (encChar_ne_dot _ _).symm, (encChar_ne_dot _ _).symm⟩
  | case4 a b c rest ih =>
    simp only [B64.encode, List.mem_cons, not_or]
    exact ⟨(encChar_ne_dot _ _).symm, (encChar_ne_dot _ _).symm, (encChar_ne_dot _ _).symm,
      (encChar_ne_dot _ _).symm, ih⟩

/-! ## strconv: decimal numbers written and read -/

theorem decimalDigits_acc : ∀ (fuel n : Nat) (acc : Bytes),
    decimalDigits fuel n acc = decimalDigits fuel n [] ++ acc := by
  intro fuel
  induction fuel with
  | zero => intro n acc; simp [decimalDigits]
  | succ f ih =>
    intro n acc
    unfold decimalDigits
    split_ifs
    · simp
    · rw [ih (n / 10) (_ :: acc), ih (n / 10) [_]]
      simp

theorem decimalDigits_succ (f n : Nat) :
    decimalDigits (f + 1) n [] =
      if n < 10 then [byte (48 + n)] else decimalDigits f (n / 10) [] ++ [byte (48 + n % 10)] := by
  conv_lhs => unfold decimalDigits
  split_ifs
  · rfl
  · rw [decimalDigits_acc]

theorem isDigit_byte (d : Nat) (h : d < 10) : isDigit (byte (48 + d)) = true := by
  have : (48 + d) % 256 = 48 + d := Nat.mod_eq_of_lt (by omega)
  simp [isDigit, byte, this]
  omega

/-- The digits `decimalDigits` writes: digits only, at least one, no leading
zero except for zero itself, and of the value written. -/
theorem decimalDigits_spec : ∀ (fuel n : Nat), n < fuel →
    (decimalDigits fuel n []).all isDigit = true ∧
    (∃ d ds, decimalDigits fuel n [] = d :: ds ∧ (d.val = 0x30 → ds = [])) ∧
    (decimalDigits fuel n []).foldl (fun acc d => acc * 10 + (d.val - 48)) 0 = n ∧
    (n ≠ 0 → ∃ d ds, decimalDigits fuel n [] = d :: ds ∧ d.val ≠ 0x30) := by
  intro fuel
  induction fuel with
  | zero => intro n h; omega
  | succ f ih =>
    intro n h
    rw [decimalDigits_succ]
    by_cases h10 : n < 10
    · rw [if_pos h10]
      have hm : (48 + n) % 256 = 48 + n := Nat.mod_eq_of_lt (by omega)
      refine ⟨by simp [isDigit_byte n h10], ⟨_, [], rfl, fun _ => rfl⟩, ?_, ?_⟩
      · simp [byte, hm]
      · intro hn
        refine ⟨_, [], rfl, ?_⟩
        simp [byte, hm]; omega
    · rw [if_neg h10]
      have hlt : n / 10 < f := by omega
      obtain ⟨h1, _, h3, h4⟩ := ih (n / 10) hlt
      obtain ⟨d, ds, hd, hd0⟩ := h4 (by omega)
      have hm : (48 + n % 10) % 256 = 48 + n % 10 := Nat.mod_eq_of_lt (by omega)
      refine ⟨?_, ⟨d, ds ++ [byte (48 + n % 10)], by rw [hd]; rfl, fun e => absurd e hd0⟩, ?_,
        fun _ => ⟨d, ds ++ [byte (48 + n % 10)], by rw [hd]; rfl, hd0⟩⟩
      · rw [List.all_append, h1]
        simp [isDigit_byte (n % 10) (Nat.mod_lt _ (by decide))]
      · rw [List.foldl_append, h3]
        simp [byte, hm]; omega

theorem spanDigits_digits : ∀ (ds : Bytes) (c : Byte) (more : Bytes), ds.all isDigit = true →
    isDigit c = false → spanDigits (ds ++ c :: more) = (ds, c :: more) := by
  intro ds
  induction ds with
  | nil => intro c more _ hc; simp [spanDigits, hc]
  | cons d ds ih =>
    intro c more h hc
    simp only [List.all_cons, Bool.and_eq_true] at h
    rw [List.cons_append]
    unfold spanDigits
    rw [if_pos h.1, ih c more h.2 hc]

theorem FormatInt_nat (n : Nat) : FormatInt (n : Int) = decimalDigits (n + 1) n [] := by
  unfold FormatInt
  rw [if_neg (by omega)]
  simp

theorem decimalValue_FormatInt (n : Nat) : decimalValue (FormatInt (n : Int)) = some n := by
  rw [FormatInt_nat]
  obtain ⟨h1, ⟨d, ds, hd, _⟩, h3, _⟩ := decimalDigits_spec (n + 1) n (by omega)
  unfold decimalValue
  rw [if_pos ⟨by rw [hd]; simp, h1⟩, h3]

theorem parseNumber_FormatInt (n : Nat) (c : Byte) (more : Bytes)
    (hc : c.val = 0x2C ∨ c.val = 0x7D) :
    parseNumber (FormatInt (n : Int) ++ c :: more) = some (FormatInt (n : Int), c :: more) := by
  rw [FormatInt_nat]
  obtain ⟨h1, ⟨d, ds, hd, hz⟩, _, _⟩ := decimalDigits_spec (n + 1) n (by omega)
  rw [hd] at h1 ⊢
  simp only [List.all_cons, Bool.and_eq_true] at h1
  have hd1 : 48 ≤ d.val ∧ d.val ≤ 57 := by simpa [isDigit] using h1.1
  have hcd : isDigit c = false := by
    rcases hc with h | h <;> simp [isDigit, h]
  have hm : ¬ d.val = 0x2D := by omega
  have c1 : ¬ c.val = 0x2E := by rcases hc with h | h <;> omega
  have c2 : ¬ (c.val = 0x65 ∨ c.val = 0x45) := by rcases hc with h | h <;> omega
  by_cases h0 : d.val = 0x30
  · have := hz h0
    subst this
    simp [parseNumber, hm, parseInt, h0, parseFrac, c1, parseExp, c2]
  · simp [parseNumber, hm, parseInt, h0, h1.1, spanDigits_digits ds c more h1.2 hcd, parseFrac, c1,
      parseExp, c2]

theorem parseValue_FormatInt (k depth n : Nat) (c : Byte) (more : Bytes)
    (hc : c.val = 0x2C ∨ c.val = 0x7D) :
    parseValue (k + 1) depth (FormatInt (n : Int) ++ c :: more) =
      some (.num (FormatInt (n : Int)), c :: more) := by
  have hp := parseNumber_FormatInt n c more hc
  rw [FormatInt_nat] at hp ⊢
  obtain ⟨h1, ⟨d, ds, hd, hz⟩, _, _⟩ := decimalDigits_spec (n + 1) n (by omega)
  rw [hd] at h1 hp ⊢
  simp only [List.all_cons, Bool.and_eq_true] at h1
  have hd1 : 48 ≤ d.val ∧ d.val ≤ 57 := by simpa [isDigit] using h1.1
  have hs : isSpace d = false := by
    simp [isSpace]; omega
  have e1 : ¬ d.val = 0x7B := by omega
  have e2 : ¬ d.val = 0x5B := by omega
  have e3 : ¬ d.val = 0x22 := by omega
  have e4 : ¬ d = 0x74 := fun e => by rw [e] at hd1; revert hd1; decide
  have e5 : ¬ d = 0x66 := fun e => by rw [e] at hd1; revert hd1; decide
  have e6 : ¬ d = 0x6E := fun e => by rw [e] at hd1; revert hd1; decide
  rw [List.cons_append] at hp ⊢
  simp only [parseValue, skipWS_cons d _ hs, e1, e2, e3, if_false]
  simp [e4, e5, e6, hp]

/-! ## Tokens made by BuildJWTString, read by GetUserID -/

/-- The claims `BuildJWTString` signs. -/
theorem builtClaims_marshal (sec : Nat) (u : Bytes) :
    jwt.Claims.marshal
      { jwt.Claims.zero with
        RegisteredClaims :=
          { jwt.Claims.zero.RegisteredClaims with ExpiresAt := some (sec : Int) },
        UserID := u } =
    0x7B :: (quote (ascii "exp") ++ 0x3A :: (FormatInt (sec : Int) ++ 0x2C ::
      (quote (ascii "UserID") ++ 0x3A :: (quote u ++ 0x7D :: [])))) := by
  have a1 : ascii "\"exp\":" = quote (ascii "exp") ++ [0x3A] := by decide
  have a2 : ascii "\"UserID\":" = quote (ascii "UserID") ++ [0x3A] := by decide
  simp [jwt.Claims.marshal, jwt.Claims.zero, a1, a2]

theorem jsonParse_builtClaims (sec : Nat) (u : Bytes) :
    jsonParse (jwt.Claims.marshal
      { jwt.Claims.zero with
        RegisteredClaims :=
          { jwt.Claims.zero.RegisteredClaims with ExpiresAt := some (sec : Int) },
        UserID := u }) =
    some (.obj [(ascii "exp", .num (FormatInt (sec : Int))),
      (ascii "UserID", .str (toValidUTF8 u))]) := by
  have k1 : toValidUTF8 (ascii "exp") = ascii "exp" := by decide
  have k2 : toValidUTF8 (ascii "UserID") = ascii "UserID" := by decide
  rw [builtClaims_marshal]
  obtain ⟨m, hm⟩ : ∃ m, (0x7B :: (quote (ascii "exp") ++ 0x3A :: (FormatInt (sec : Int) ++ 0x2C ::
      (quote (ascii "UserID") ++ 0x3A :: (quote u ++ 0x7D :: []))))).length = m + 3 := by
    refine ⟨(0x7B :: (quote (ascii "exp") ++ 0x3A :: (FormatInt (sec : Int) ++ 0x2C ::
      (quote (ascii "UserID") ++ 0x3A :: (quote u ++ 0x7D :: []))))).length - 3, ?_⟩
    simp only [List.length_cons, List.length_append]
    have := quote_length (ascii "exp")
    omega
  apply jsonParse_of_parseValue _ _ _ hm
  rw [parseValue_obj _ _ _ _ (by decide),
    parseMembers_more _ _ _ _ _ _ (parseValue_FormatInt _ _ _ _ _ (Or.inl (by decide))),
    parseMembers_last _ _ _ _ _ _ (parseValue_quote _ _ _ _), k1, k2]
  rfl

theorem builtClaims_eq (sec : Int) (u : Bytes) :
    ({ jwt.Claims.zero with
        RegisteredClaims := { jwt.Claims.zero.RegisteredClaims with ExpiresAt := some sec },
        UserID := u } : jwt.Claims) = ⟨⟨[], [], [], some sec, none, none, []⟩, u⟩ := rfl

theorem numericSeconds_FormatInt (F : Float64) (sec : Nat) (hb : sec < 2 ^ 53) :
    numericSeconds F (FormatInt (sec : Int)) = some (sec : Int) := by
  unfold numericSeconds
  rw [decimalValue_FormatInt]
  simp only
  rw [if_pos hb]

theorem decode_builtClaims (F : Float64) (sec : Nat) (u : Bytes) (hb : sec < 2 ^ 53) :
    jsonUnmarshal (jwt.Claims.decode F)
      (jwt.Claims.marshal ⟨⟨[], [], [], some (sec : Int), none, none, []⟩, u⟩)
      jwt.Claims.zero =
    (⟨⟨[], [], [], some (sec : Int), none, none, []⟩, toValidUTF8 u⟩, none) := by
  have f1 : findField jwt.Claims.fieldNames (ascii "exp") = some 3 := by decide
  have f2 : findField jwt.Claims.fieldNames (ascii "UserID") = some 7 := by decide
  have hn := numericSeconds_FormatInt F sec hb
  have hp := jsonParse_builtClaims sec u
  rw [builtClaims_eq] at hp
  unfold jsonUnmarshal
  rw [hp]
  simp only [jwt.Claims.decode, jwt.Claims.decodeMembers, f1, f2, jwt.Claims.setField,
    decodeNumericDateField, decodeNumericDate, hn, decodeString, saveError, jwt.Claims.zero,
    Option.isSome]
  rfl


theorem headerJSON_HS256 :
    ascii "\x7b\"alg\":" ++ quote (SigningMethod.HS256).Alg ++ ascii ",\"typ\":\"JWT\"\x7d" =
      ascii "\x7b\"alg\":\"HS256\",\"typ\":\"JWT\"\x7d" := by decide!

theorem decodeHeader_HS256 (F : Float64) :
    decodeHeader F (ascii "\x7b\"alg\":\"HS256\",\"typ\":\"JWT\"\x7d") =
    (some [(ascii "alg", .str (ascii "HS256")), (ascii "typ", .str (ascii "JWT"))], none) := by
  have e : ascii "\x7b\"alg\":\"HS256\",\"typ\":\"JWT\"\x7d" =
      0x7B :: (quote (ascii "alg") ++ 0x3A :: (quote (ascii "HS256") ++ 0x2C ::
        (quote (ascii "typ") ++ 0x3A :: (quote (ascii "JWT") ++ 0x7D :: [])))) := by decide!
  have k1 : toValidUTF8 (ascii "alg") = ascii "alg" := by decide
  have k2 : toValidUTF8 (ascii "typ") = ascii "typ" := by decide
  have k3 : toValidUTF8 (ascii "HS256") = ascii "HS256" := by decide
  have k4 : toValidUTF8 (ascii "JWT") = ascii "JWT" := by decide
  have hl : (ascii "\x7b\"alg\":\"HS256\",\"typ\":\"JWT\"\x7d").length = 24 + 3 := by decide
  have h : jsonParse (ascii "\x7b\"alg\":\"HS256\",\"typ\":\"JWT\"\x7d") =
      some (.obj [(ascii "alg", .str (ascii "HS256")), (ascii "typ", .str (ascii "JWT"))]) := by
    apply jsonParse_of_parseValue _ _ _ hl
    rw [e, parseValue_obj _ _ _ _ (by decide),
      parseMembers_more _ _ _ _ _ _ (parseValue_quote _ _ _ _),
      parseMembers_last _ _ _ _ _ _ (parseValue_quote _ _ _ _), k1, k2, k3, k4]
    rfl
  unfold decodeHeader
  rw [h]
  simp only [numbersOfMembers, JSON.numbers, List.append_nil, List.all_nil, if_true]

theorem BuildJWTString_eq (key : Bytes) (t0 : Nat) (u : Bytes) :
    jwt.BuildJWTString key t0 u =
      (B64.rawURL.encode (ascii "\x7b\"alg\":\"HS256\",\"typ\":\"JWT\"\x7d") ++ [0x2E] ++
        B64.rawURL.encode (jwt.Claims.marshal
          ⟨⟨[], [], [], some (((t0 + jwt.TokenExp) / 10 ^ 9 : Nat) : Int), none, none, []⟩, u⟩) ++
        [0x2E] ++
        B64.rawURL.encode (hmacSum sha256 key
          (B64.rawURL.encode (ascii "\x7b\"alg\":\"HS256\",\"typ\":\"JWT\"\x7d") ++ [0x2E] ++
            B64.rawURL.encode (jwt.Claims.marshal
              ⟨⟨[], [], [], some (((t0 + jwt.TokenExp) / 10 ^ 9 : Nat) : Int), none, none, []⟩,
                u⟩))), none) := by
  unfold jwt.BuildJWTString SignedString
  rw [headerJSON_HS256, builtClaims_eq]
  rfl


theorem Validate_built (now sec : Nat) (u : Bytes) :
    Validate now ⟨⟨[], [], [], some (sec : Int), none, none, []⟩, u⟩ =
      if now < sec * 10 ^ 9 then none else some .jwtExpired := by
  unfold Validate
  by_cases h : now < sec * 10 ^ 9
  · have h2 : (now : Int) < (sec : Int) * 10 ^ 9 := by exact_mod_cast h
    simp only [h, h2, if_true]
  · have h2 : ¬ (now : Int) < (sec : Int) * 10 ^ 9 := by
      intro h3; apply h; exact_mod_cast h3
    simp only [h, h2, if_false]

/-- What `ParseWithClaims` makes of a token signed with HS256 under the key
for claims that hold an expiry second below `2 ^ 53` and an owner id. -/
theorem ParseWithClaims_signed (F : Float64) (key : Bytes) (now sec : Nat) (u : Bytes)
    (hb : sec < 2 ^ 53) (H C : Bytes)
    (hH : H = ascii "\x7b\"alg\":\"HS256\",\"typ\":\"JWT\"\x7d")
    (hC : C = jwt.Claims.marshal ⟨⟨[], [], [], some (sec : Int), none, none, []⟩, u⟩) :
    ParseWithClaims F now
      (B64.rawURL.encode H ++ [0x2E] ++ B64.rawURL.encode C ++ [0x2E] ++
        B64.rawURL.encode (hmacSum sha256 key
          (B64.rawURL.encode H ++ [0x2E] ++ B64.rawURL.encode C)))
      jwt.Claims.zero key =
    if now < sec * 10 ^ 9 then
      (⟨⟨[], [], [], some (sec : Int), none, none, []⟩, toValidUTF8 u⟩, true, none)
    else (⟨⟨[], [], [], some (sec : Int), none, none, []⟩, toValidUTF8 u⟩, false,
      some .jwtExpired) := by
  have hal : (headerAlg (some [(ascii "alg", JSON.str (ascii "HS256")),
      (ascii "typ", JSON.str (ascii "JWT"))])).bind GetSigningMethod = some .HS256 := by
    have a1 : headerAlg (some [(ascii "alg", JSON.str (ascii "HS256")),
        (ascii "typ", JSON.str (ascii "JWT"))]) = some (ascii "HS256") := by
      have n1 : ¬ ascii "typ" = ascii "alg" := by decide
      simp [headerAlg, n1, JSON.str?]
    rw [a1]
    decide
  have hd := decode_builtClaims F sec u hb
  have hh := decodeHeader_HS256 F
  rw [← hH] at hh
  rw [← hC] at hd
  unfold ParseWithClaims
  rw [stringsSplit_three _ _ _ _ (encode_no_dot _) (encode_no_dot _) (encode_no_dot _)]
  simp only [b64_decode_encode, hh, hd, hal, SigningMethod.Verify, SigningMethod.hash, if_true,
    Validate_built]
  by_cases h : now < sec * 10 ^ 9
  · simp only [h, if_true]
  · simp only [h, if_false]

theorem GetUserID_of_valid (F : Float64) (key : Bytes) (now : Nat) (tok : Bytes)
    (c : jwt.Claims) (h : ParseWithClaims F now tok jwt.Claims.zero key = (c, true, none)) :
    jwt.GetUserID F key now tok = (c.UserID, none) := by
  unfold jwt.GetUserID
  rw [h]
  rfl

theorem GetUserID_of_error (F : Float64) (key : Bytes) (now : Nat) (tok : Bytes)
    (c : jwt.Claims) (v : Bool) (e : Error)
    (h : ParseWithClaims F now tok jwt.Claims.zero key = (c, v, some e)) :
    jwt.GetUserID F key now tok = ([], some e) := by
  unfold jwt.GetUserID
  rw [h]

/-- What `GetUserID` returns for a token `BuildJWTString` made under the same
secret: the owner id as JSON carries it, until the second of the expiry. -/
theorem GetUserID_BuildJWTString (F : Float64) (key : Bytes) (t0 now : Nat) (u : Bytes)
    (hb : (t0 + jwt.TokenExp) / 10 ^ 9 < 2 ^ 53) :
    jwt.GetUserID F key now (jwt.BuildJWTString key t0 u).1 =
      if now < (t0 + jwt.TokenExp) / 10 ^ 9 * 10 ^ 9 then (toValidUTF8 u, none)
      else ([], some .jwtExpired) := by
  rw [BuildJWTString_eq]
  generalize (t0 + jwt.TokenExp) / 10 ^ 9 = sec at hb ⊢
  have hp := ParseWithClaims_signed F key now sec u hb
    (ascii "\x7b\"alg\":\"HS256\",\"typ\":\"JWT\"\x7d")
    (jwt.Claims.marshal ⟨⟨[], [], [], some (sec : Int), none, none, []⟩, u⟩)
    rfl rfl
  by_cases h : now < sec * 10 ^ 9
  · rw [if_pos h] at hp ⊢
    exact GetUserID_of_valid F key now _ _ hp
  · rw [if_neg h] at hp ⊢
    exact GetUserID_of_error F key now _ _ _ _ hp

end GoKeeper


namespace GoKeeper

/-! ## Token strings GetUserID refuses -/

theorem Verify_none (m : SigningMethod) (s sig key : Bytes) (h : m.Verify s sig key = none) :
    sig = hmacSum sha256 key s ∨ sig = hmacSum sha384 key s ∨ sig = hmacSum sha512 key s := by
  cases m <;> simp [SigningMethod.Verify, SigningMethod.hash] at h
  · exact Or.inl h
  · exact Or.inr (Or.inl h)
  · exact Or.inr (Or.inr h)

theorem decodeHeader_ok (F : Float64) (data : Bytes) (hd : Option (List (Bytes × JSON)))
    (h : decodeHeader F data = (hd, none)) : jsonObjectText data = true := by
  unfold decodeHeader at h
  unfold jsonObjectText
  rcases hp : jsonParse data with _ | j
  · rw [hp] at h; simp at h
  · rw [hp] at h
    cases j <;> simp at h <;> rfl

theorem decodeClaims_ok (F : Float64) (data : Bytes) (c c1 : jwt.Claims)
    (h : jsonUnmarshal (jwt.Claims.decode F) data c = (c1, none)) :
    jsonObjectText data = true := by
  unfold jsonUnmarshal at h
  unfold jsonObjectText
  rcases hp : jsonParse data with _ | j
  · rw [hp] at h; simp at h
  · rw [hp] at h
    cases j <;> simp [jwt.Claims.decode] at h <;> rfl

/-- A token string `GetUserID` accepts is well formed and its signature
verifies under the secret. -/
theorem GetUserID_accepts (F : Float64) (key : Bytes) (now : Nat) (tok : Bytes)
    (h : (jwt.GetUserID F key now tok).2 = none) :
    jwt.wellFormed tok = true ∧ jwt.signatureVerifies key tok = true := by
  unfold jwt.GetUserID ParseWithClaims at h
  rcases hs : stringsSplit 0x2E tok with _ | ⟨p0, _ | ⟨p1, _ | ⟨p2, _ | ⟨p3, ps⟩⟩⟩⟩
  · rw [hs] at h; simp at h
  · rw [hs] at h; simp at h
  · rw [hs] at h; simp at h
  · rw [hs] at h
    simp only at h
    rcases h0 : B64.rawURL.decode p0 with ⟨hb, _ | e0⟩
    swap
    · rw [h0] at h; simp at h
    rw [h0] at h
    simp only at h
    rcases h1 : decodeHeader F hb with ⟨hdr, _ | e1⟩
    swap
    · rw [h1] at h; simp at h
    rw [h1] at h
    simp only at h
    rcases h2 : B64.rawURL.decode p1 with ⟨cb, _ | e2⟩
    swap
    · rw [h2] at h; simp at h
    rw [h2] at h
    simp only at h
    rcases h3 : jsonUnmarshal (jwt.Claims.decode F) cb jwt.Claims.zero with ⟨c1, _ | e3⟩
    swap
    · rw [h3] at h; simp at h
    rw [h3] at h
    simp only at h
    rcases h4 : (headerAlg hdr).bind GetSigningMethod with _ | m
    · rw [h4] at h; simp at h
    rw [h4] at h
    simp only at h
    rcases h5 : B64.rawURL.decode p2 with ⟨sig, _ | e5⟩
    swap
    · rw [h5] at h; simp at h
    rw [h5] at h
    simp only at h
    rcases h6 : m.Verify (p0 ++ [0x2E] ++ p1) sig key with _ | e6
    swap
    · rw [h6] at h; simp at h
    have hv := Verify_none m _ _ _ h6
    have j1 := decodeHeader_ok F hb hdr h1
    have j2 := decodeClaims_ok F cb _ _ h3
    constructor
    · simp [jwt.wellFormed, jwt.segments, hs, h0, h2, h5, j1, j2]
    · simp only [jwt.signatureVerifies, jwt.segments, hs, h5]
      rcases hv with hv | hv | hv <;> simp [hv]
  · rw [hs] at h; simp at h

theorem GetUserID_error_value (F : Float64) (key : Bytes) (now : Nat) (tok : Bytes)
    (h : (jwt.GetUserID F key now tok).2 ≠ none) :
    ∃ e, jwt.GetUserID F key now tok = ([], some e) := by
  unfold jwt.GetUserID at h ⊢
  rcases hp : ParseWithClaims F now tok jwt.Claims.zero key with ⟨c, v, _ | e⟩
  · rw [hp] at h
    simp only at h ⊢
    cases v
    · exact ⟨_, rfl⟩
    · simp at h
  · exact ⟨e, rfl⟩

/-! ## The middleware -/

theorem Cookie_jwt (r : Request) :
    r.Cookie CookieName =
      match r.firstJwtCookie with
      | some c => (some c, none)
      | none => (none, some .httpNoCookie) := by
  have h : ¬ CookieName = [] := by decide
  unfold Request.Cookie Request.firstJwtCookie
  rw [if_neg h]
  all_goals (rcases r.Cookies.find? (fun c => c.Name = CookieName) with _ | c <;> rfl)

theorem Auth_accepted {σ : Type} (F : Float64) (key : Bytes) (now : Nat) (r : Request)
    (c : Cookie) (hc : r.firstJwtCookie = some c)
    (hu : (jwt.GetUserID F key now c.Value).2 = none) (next : Handler σ) (w : σ) :
    Auth F key now next r w =
      next (r.WithContext (context.SetUserID r.ctx (jwt.GetUserID F key now c.Value).1)) w := by
  unfold Auth
  rw [Cookie_jwt, hc]
  simp only
  rcases hg : jwt.GetUserID F key now c.Value with ⟨u, _ | e⟩
  · rfl
  · rw [hg] at hu
    exact absurd hu (by simp)

theorem Auth_rejected {σ : Type} (F : Float64) (key : Bytes) (now : Nat) (r : Request)
    (h : ∀ c, r.firstJwtCookie = some c → (jwt.GetUserID F key now c.Value).2 ≠ none)
    (next : Handler σ) (w : σ) :
    Auth F key now next r w = .done (Response.status 401, w) := by
  unfold Auth
  rw [Cookie_jwt]
  rcases hc : r.firstJwtCookie with _ | c
  · rfl
  · have := h c hc
    simp only
    rcases hg : jwt.GetUserID F key now c.Value with ⟨u, _ | e⟩
    · rw [hg] at this; exact absurd rfl this
    · rfl

theorem context_GetUserID_SetUserID (ctx : Context) (u : Bytes) :
    context.GetUserID (context.SetUserID ctx u) = u := by
  simp [context.GetUserID, context.SetUserID, List.lookup]

end GoKeeper


namespace GoKeeper

/-! ## The lifetime of a token -/

/-- C8, with the expiry at the whole second: for every owner id, every
secret and every issue time `t0` whose expiry second is below `2 ^ 53`,
`BuildJWTString` at `t0` returns a token without an error; `GetUserID` accepts
it at every check time before the whole second that `t0` + 3 hours falls in
and refuses it with the error that the token is expired at every check time
from that second on, so at every check time at or after `t0` + 3 hours. -/
theorem C8_token_lifetime (F : Float64) (key : Bytes) (t0 now : Nat) (u : Bytes)
    (hb : (t0 + jwt.TokenExp) / 10 ^ 9 < 2 ^ 53) :
    (jwt.BuildJWTString key t0 u).2 = none ∧
    (now < (t0 + jwt.TokenExp) / 10 ^ 9 * 10 ^ 9 →
      (jwt.GetUserID F key now (jwt.BuildJWTString key t0 u).1).2 = none) ∧
    ((t0 + jwt.TokenExp) / 10 ^ 9 * 10 ^ 9 ≤ now →
      jwt.GetUserID F key now (jwt.BuildJWTString key t0 u).1 = ([], some .jwtExpired)) ∧
    (t0 + jwt.TokenExp ≤ now →
      jwt.GetUserID F key now (jwt.BuildJWTString key t0 u).1 = ([], some .jwtExpired)) := by
  have hg := GetUserID_BuildJWTString F key t0 now u hb
  have hfl : (t0 + jwt.TokenExp) / 10 ^ 9 * 10 ^ 9 ≤ t0 + jwt.TokenExp :=
    Nat.div_mul_le_self _ _
  refine ⟨by rw [BuildJWTString_eq], ?_, ?_, ?_⟩
  · intro h
    rw [hg, if_pos h]
  · intro h
    rw [hg, if_neg (by omega)]
  · intro h
    rw [hg, if_neg (by omega)]

/-- C8 at a token issued half a second after 1700000000 and checked one
hour later. -/
theorem C8_token_lifetime_witness :
    (1700000000500000000 + jwt.TokenExp) / 10 ^ 9 < 2 ^ 53 ∧
    (jwt.GetUserID (fun _ => none) (ascii "somevalue") 1700003600000000000
      (jwt.BuildJWTString (ascii "somevalue") 1700000000500000000 (ascii "u1")).1).2 = none :=
  ⟨by decide, (C8_token_lifetime (fun _ => none) (ascii "somevalue") 1700000000500000000
    1700003600000000000 (ascii "u1") (by decide)).2.1 (by decide)⟩

/-- C8 as stated fails between the whole second of the expiry and the
expiry: a token issued at 1700000000.5 s expires at 1700010800.5 s, and
`GetUserID` refuses it at 1700010800.0 s, which is before `t0` + 3 hours. -/
theorem C8_refused_before_three_hours :
    1700010800000000000 < 1700000000500000000 + jwt.TokenExp ∧
    jwt.GetUserID (fun _ => none) (ascii "somevalue") 1700010800000000000
      (jwt.BuildJWTString (ascii "somevalue") 1700000000500000000 (ascii "u1")).1 =
      ([], some .jwtExpired) := by
  constructor
  · decide
  · decide!

/-! ## The owner id of a token -/

/-- C9, for owner ids that are valid UTF-8: with the same secret and before
the second of the expiry, `GetUserID` of the token `BuildJWTString` made for
`u` succeeds and returns exactly `u`; and at every time `GetUserID` returns an
error and the empty string for every token string that is not well formed or
whose signature does not verify under the secret. -/
theorem C9_owner_id_round_trip (F : Float64) (key : Bytes) (t0 now : Nat) (u : Bytes)
    (hu : validUTF8 u = true) (hb : (t0 + jwt.TokenExp) / 10 ^ 9 < 2 ^ 53)
    (hnow : now < (t0 + jwt.TokenExp) / 10 ^ 9 * 10 ^ 9) :
    jwt.GetUserID F key now (jwt.BuildJWTString key t0 u).1 = (u, none) ∧
    ∀ (t : Nat) (tokenString : Bytes),
      jwt.wellFormed tokenString = false ∨ jwt.signatureVerifies key tokenString = false →
      ∃ e, jwt.GetUserID F key t tokenString = ([], some e) := by
  constructor
  · rw [GetUserID_BuildJWTString F key t0 now u hb, if_pos hnow, toValidUTF8_eq u hu]
  · intro t tok h
    apply GetUserID_error_value
    intro hn
    have := GetUserID_accepts F key t tok hn
    rcases h with h | h
    · rw [this.1] at h; exact Bool.noConfusion h
    · rw [this.2] at h; exact Bool.noConfusion h

/-- C9 at the owner id `u1`, and at the token string `a.b`, which has two
segments. -/
theorem C9_owner_id_round_trip_witness :
    validUTF8 (ascii "u1") = true ∧
    (1700000000500000000 + jwt.TokenExp) / 10 ^ 9 < 2 ^ 53 ∧
    1700003600000000000 < (1700000000500000000 + jwt.TokenExp) / 10 ^ 9 * 10 ^ 9 ∧
    jwt.GetUserID (fun _ => none) (ascii "somevalue") 1700003600000000000
      (jwt.BuildJWTString (ascii "somevalue") 1700000000500000000 (ascii "u1")).1 =
      (ascii "u1", none) ∧
    jwt.wellFormed (ascii "a.b") = false ∧
    ∃ e, jwt.GetUserID (fun _ => none) (ascii "somevalue") 0 (ascii "a.b") = ([], some e) :=
  ⟨by decide, by decide, by decide,
    (C9_owner_id_round_trip (fun _ => none) (ascii "somevalue") 1700000000500000000
      1700003600000000000 (ascii "u1") (by decide) (by decide) (by decide)).1,
    by decide,
    (C9_owner_id_round_trip (fun _ => none) (ascii "somevalue") 1700000000500000000
      1700003600000000000 (ascii "u1") (by decide) (by decide) (by decide)).2 0 (ascii "a.b")
      (Or.inl (by decide))⟩

/-- C9 as stated fails for an owner id that is not valid UTF-8: the token
made for the one byte `\xff` carries the JSON escape of U+FFFD, and
`GetUserID` returns the three bytes of U+FFFD. -/
theorem C9_invalid_utf8_owner_id_not_returned :
    jwt.GetUserID (fun _ => none) (ascii "somevalue") 1700000000000000000
      (jwt.BuildJWTString (ascii "somevalue") 1700000000000000000 [0xFF]).1 =
      ([0xEF, 0xBF, 0xBD], none) ∧
    ([0xEF, 0xBF, 0xBD] : Bytes) ≠ [0xFF] := by
  constructor
  · decide!
  · decide

/-! ## The Auth middleware -/

/-- C10, with the cookie `Request.Cookie` returns: for every request, `Auth`
calls the next handler if and only if the first cookie of the request named
`jwt` has a value that `GetUserID` accepts; then the next handler receives the
request with a context from which `context.GetUserID` reads the id that
`GetUserID` returned, and what it does is what `Auth` does; otherwise the
response is the status 401 alone and the world is left as it was, whatever
the next handler is. -/
theorem C10_auth_first_cookie (F : Float64) (key : Bytes) (now : Nat) (r : Request) :
    (Auth.callsNext F key now r = true ↔
      ∃ c, r.firstJwtCookie = some c ∧ (jwt.GetUserID F key now c.Value).2 = none) ∧
    (∀ c, r.firstJwtCookie = some c → (jwt.GetUserID F key now c.Value).2 = none →
      ∀ (σ : Type) (next : Handler σ) (w : σ),
        Auth F key now next r w =
          next (r.WithContext
            (context.SetUserID r.ctx (jwt.GetUserID F key now c.Value).1)) w ∧
        context.GetUserID
          (r.WithContext (context.SetUserID r.ctx (jwt.GetUserID F key now c.Value).1)).ctx =
          (jwt.GetUserID F key now c.Value).1) ∧
    ((¬ ∃ c, r.firstJwtCookie = some c ∧ (jwt.GetUserID F key now c.Value).2 = none) →
      ∀ (σ : Type) (next : Handler σ) (w : σ),
        Auth F key now next r w = .done (Response.status 401, w)) := by
  have hrej : (¬ ∃ c, r.firstJwtCookie = some c ∧ (jwt.GetUserID F key now c.Value).2 = none) →
      ∀ (σ : Type) (next : Handler σ) (w : σ),
        Auth F key now next r w = .done (Response.status 401, w) := by
    intro h σ next w
    exact Auth_rejected F key now r (fun c hc hn => h ⟨c, hc, hn⟩) next w
  refine ⟨⟨?_, ?_⟩, ?_, hrej⟩
  · intro h
    by_contra hne
    unfold Auth.callsNext at h
    rw [hrej hne] at h
    exact Bool.noConfusion h
  · rintro ⟨c, hc, hu⟩
    unfold Auth.callsNext
    rw [Auth_accepted F key now r c hc hu]
  · intro c hc hu σ next w
    exact ⟨Auth_accepted F key now r c hc hu next w, context_GetUserID_SetUserID _ _⟩

/-- C10 at a request whose only cookie is a token for `u1`: `Auth` calls the
next handler. -/
theorem C10_auth_first_cookie_witness :
    Auth.callsNext (fun _ => none) (ascii "somevalue") 1700003600000000000
      { ctx := [], URLParams := [], Body := ([], none),
        Cookies := [⟨ascii "jwt",
          (jwt.BuildJWTString (ascii "somevalue") 1700000000500000000 (ascii "u1")).1⟩] } =
      true :=
  (C10_auth_first_cookie (fun _ => none) (ascii "somevalue") 1700003600000000000 _).1.2
    ⟨_, rfl, by decide!⟩

/-- C10 as stated fails for a request with two cookies named `jwt`: the
second holds a token `GetUserID` accepts, `Auth` reads the first, answers 401
and does not call the next handler. -/
theorem C10_second_cookie_not_read :
    (∃ c ∈ [(⟨ascii "jwt", ascii "x"⟩ : Cookie), ⟨ascii "jwt",
        (jwt.BuildJWTString (ascii "somevalue") 1700000000500000000 (ascii "u1")).1⟩],
      c.Name = CookieName ∧
      (jwt.GetUserID (fun _ => none) (ascii "somevalue") 1700003600000000000 c.Value).2 = none) ∧
    Auth (fun _ => none) (ascii "somevalue") 1700003600000000000
      (fun _ _ => .done (Response.status 200, true))
      { ctx := [], URLParams := [], Body := ([], none),
        Cookies := [⟨ascii "jwt", ascii "x"⟩, ⟨ascii "jwt",
          (jwt.BuildJWTString (ascii "somevalue") 1700000000500000000 (ascii "u1")).1⟩] }
      false = .done (Response.status 401, false) := by
  constructor
  · decide!
  · decide!

end GoKeeper


namespace GoKeeper

/-! ## Registration and login -/

theorem CreateUser_existing {σ : Type} (H : PasswordHashing σ) (s : user.Service σ)
    (u existing : User) (e : Option Error) (w w1 : σ)
    (hget : s.userRepo.GetUserByLogin u.Login w = .done ((some existing, e), w1))
    (he : isOtherError e .ErrUserNotFound = false) :
    s.CreateUser H (some u) w = .done (((none, some .ErrLoginAlreadyExist), u), w1) := by
  simp [user.Service.CreateUser, hget, Run.bind, he]

theorem CreateUser_lookup_failed {σ : Type} (H : PasswordHashing σ) (s : user.Service σ)
    (u : User) (found : Option User) (e : Option Error) (w w1 : σ)
    (hget : s.userRepo.GetUserByLogin u.Login w = .done ((found, e), w1))
    (he : isOtherError e .ErrUserNotFound = true) :
    s.CreateUser H (some u) w = .done (((none, e), u), w1) := by
  simp [user.Service.CreateUser, hget, Run.bind, he]

theorem CreateUser_hashed {σ : Type} (H : PasswordHashing σ) (s : user.Service σ)
    (u : User) (e : Option Error) (w w1 w2 : σ) (h : Bytes)
    (hget : s.userRepo.GetUserByLogin u.Login w = .done ((none, e), w1))
    (he : isOtherError e .ErrUserNotFound = false)
    (hhash : H.HashPassword u.Password w1 = .done ((h, none), w2)) :
    s.CreateUser H (some u) w =
      (s.userRepo.Create { u with Password := h } w2).bind fun r =>
        .done ((r.1, { u with Password := h }), r.2) := by
  simp [user.Service.CreateUser, hget, Run.bind, he, hhash]

theorem CreateUser_hash_failed {σ : Type} (H : PasswordHashing σ) (s : user.Service σ)
    (u : User) (e : Option Error) (w w1 w2 : σ) (h : Bytes) (err : Error)
    (hget : s.userRepo.GetUserByLogin u.Login w = .done ((none, e), w1))
    (he : isOtherError e .ErrUserNotFound = false)
    (hhash : H.HashPassword u.Password w1 = .done ((h, some err), w2)) :
    s.CreateUser H (some u) w = .done (((none, some err), { u with Password := h }), w2) := by
  simp [user.Service.CreateUser, hget, Run.bind, he, hhash]

theorem Register_of_CreateUser_error {σ : Type} (names : UserJSON) (H : PasswordHashing σ)
    (key : Bytes) (now : Nat) (h : UserHandler σ) (r : Request) (w w1 : σ) (usr : Option User)
    (u1 : User) (id : Option Bytes) (err : Error)
    (hdec : decodeUser names r.Body = (usr, none))
    (hc : h.userService.CreateUser H usr w = .done (((id, some err), u1), w1)) :
    h.Register names H key now r w =
      .done (Response.status (if err.Is .ErrLoginAlreadyExist then 409 else 500), w1) := by
  unfold UserHandler.Register
  rw [hdec]
  simp only [hc, Run.bind]
  split_ifs <;> rfl

theorem Authorize_not_found {σ : Type} (names : UserJSON) (H : PasswordHashing σ)
    (key : Bytes) (now : Nat) (h : UserHandler σ) (r : Request) (w w1 : σ) (u : User)
    (e : Option Error)
    (hdec : decodeUser names r.Body = (some u, none))
    (hget : h.userService.userRepo.GetUserByLogin u.Login w = .done ((none, e), w1))
    (he : isOtherError e .ErrUserNotFound = false) :
    h.Authorize names H key now r w = .done (Response.status 404, w1) := by
  unfold UserHandler.Authorize
  rw [hdec]
  simp [user.Service.GetUser, hget, Run.bind, he]

theorem Authorize_wrong_password {σ : Type} (names : UserJSON) (H : PasswordHashing σ)
    (key : Bytes) (now : Nat) (h : UserHandler σ) (r : Request) (w w1 : σ) (u ex : User)
    (e : Option Error)
    (hdec : decodeUser names r.Body = (some u, none))
    (hget : h.userService.userRepo.GetUserByLogin u.Login w = .done ((some ex, e), w1))
    (he : isOtherError e .ErrUserNotFound = false)
    (hv : H.VerifyPassword u.Password ex.Password = false) :
    h.Authorize names H key now r w = .done (Response.status 401, w1) := by
  unfold UserHandler.Authorize
  rw [hdec]
  simp [user.Service.GetUser, hget, Run.bind, he, user.Service.CorrectCredentials, hv]

theorem CorrectCredentials_eq {σ : Type} (H : PasswordHashing σ) (u existing : User) :
    user.Service.CorrectCredentials H (some u) (some existing) =
      .done (H.VerifyPassword u.Password existing.Password) := rfl

/-- C11, with the status codes the handler writes: for every login request
whose body holds a user, `Authorize` answers 404 when the lookup finds no user
and 401 when it finds one against whose password the given one does not
verify; in both cases the response is the status code alone, without a cookie
and without a body, and the world is as the lookup left it. -/
theorem C11_authorize_failures {σ : Type} (names : UserJSON) (H : PasswordHashing σ)
    (key : Bytes) (now : Nat) (h : UserHandler σ) (r : Request) (w : σ) (u : User)
    (hdec : decodeUser names r.Body = (some u, none)) :
    (∀ (e : Option Error) (w1 : σ),
      h.userService.userRepo.GetUserByLogin u.Login w = .done ((none, e), w1) →
      isOtherError e .ErrUserNotFound = false →
      h.Authorize names H key now r w = .done (Response.status 404, w1)) ∧
    (∀ (existing : User) (e : Option Error) (w1 : σ),
      h.userService.userRepo.GetUserByLogin u.Login w = .done ((some existing, e), w1) →
      isOtherError e .ErrUserNotFound = false →
      H.VerifyPassword u.Password existing.Password = false →
      h.Authorize names H key now r w = .done (Response.status 401, w1)) :=
  ⟨fun e w1 hget he => Authorize_not_found names H key now h r w w1 u e hdec hget he,
   fun existing e w1 hget he hv =>
     Authorize_wrong_password names H key now h r w w1 u existing e hdec hget he hv⟩

/-- C11 at the login `alice` with the password `wrong`, on an empty table. -/
theorem C11_authorize_failures_witness :
    decodeUser ⟨some (ascii "id"), some (ascii "login"), some (ascii "password")⟩
      (ascii "\x7b\"login\":\"alice\",\"password\":\"wrong\"\x7d", none) =
      (some ⟨[], ascii "alice", ascii "wrong"⟩, none) ∧
    (NewUserHandler (user.NewService (pgUserRepository (fun _ => ascii "1")))).Authorize
      ⟨some (ascii "id"), some (ascii "login"), some (ascii "password")⟩
      (exampleHashing _) (ascii "somevalue") 1700000000000000000
      { ctx := [], URLParams := [], Cookies := [],
        Body := (ascii "\x7b\"login\":\"alice\",\"password\":\"wrong\"\x7d", none) }
      [] = .done (Response.status 404, []) :=
  ⟨by decide!,
   (C11_authorize_failures ⟨some (ascii "id"), some (ascii "login"), some (ascii "password")⟩
      (exampleHashing _) (ascii "somevalue") 1700000000000000000
      (NewUserHandler (user.NewService (pgUserRepository (fun _ => ascii "1"))))
      { ctx := [], URLParams := [], Cookies := [],
        Body := (ascii "\x7b\"login\":\"alice\",\"password\":\"wrong\"\x7d", none) }
      [] ⟨[], ascii "alice", ascii "wrong"⟩ (by decide!)).1 (some .ErrUserNotFound) [] rfl rfl⟩

/-- C11 as stated fails: the same login request is answered with 404 when
the table holds no user `alice`, and with 401 when it holds `alice` with
another password. -/
theorem C11_not_found_differs_from_wrong_password :
    (NewUserHandler (user.NewService (pgUserRepository (fun _ => ascii "1")))).Authorize
      ⟨some (ascii "id"), some (ascii "login"), some (ascii "password")⟩
      (exampleHashing _) (ascii "somevalue") 1700000000000000000
      { ctx := [], URLParams := [], Cookies := [],
        Body := (ascii "\x7b\"login\":\"alice\",\"password\":\"wrong\"\x7d", none) }
      [] = .done (Response.status 404, []) ∧
    (NewUserHandler (user.NewService (pgUserRepository (fun _ => ascii "1")))).Authorize
      ⟨some (ascii "id"), some (ascii "login"), some (ascii "password")⟩
      (exampleHashing _) (ascii "somevalue") 1700000000000000000
      { ctx := [], URLParams := [], Cookies := [],
        Body := (ascii "\x7b\"login\":\"alice\",\"password\":\"wrong\"\x7d", none) }
      [⟨ascii "1", ascii "alice", ascii "hash:secret"⟩] =
      .done (Response.status 401, [⟨ascii "1", ascii "alice", ascii "hash:secret"⟩]) ∧
    Response.status 404 ≠ Response.status 401 := by
  refine ⟨by decide!, by decide!, by decide⟩

/-- C12: for every user whose login the repository holds, that is when
`GetUserByLogin` returns a user that is not nil (with no error other than
`ErrUserNotFound`), `CreateUser` returns a nil id and `ErrLoginAlreadyExist`,
the supplied user is as it was, its password not hashed, and the world is as
the lookup left it, whatever `Create` and `HashPassword` are: neither is
called. -/
theorem C12_existing_login_rejected {σ : Type} (H : PasswordHashing σ) (s : user.Service σ)
    (u existing : User) (e : Option Error) (w w1 : σ)
    (hget : s.userRepo.GetUserByLogin u.Login w = .done ((some existing, e), w1))
    (he : isOtherError e .ErrUserNotFound = false) :
    s.CreateUser H (some u) w = .done (((none, some .ErrLoginAlreadyExist), u), w1) :=
  CreateUser_existing H s u existing e w w1 hget he

/-- C12 at the user `alice`, whom the table holds. -/
theorem C12_existing_login_rejected_witness :
    (user.NewService (pgUserRepository (fun _ => ascii "2"))).CreateUser (exampleHashing _)
      (some ⟨[], ascii "alice", ascii "secret"⟩)
      [⟨ascii "1", ascii "alice", ascii "hash:other"⟩] =
    .done (((none, some .ErrLoginAlreadyExist), ⟨[], ascii "alice", ascii "secret"⟩),
      [⟨ascii "1", ascii "alice", ascii "hash:other"⟩]) :=
  C12_existing_login_rejected (exampleHashing _)
    (user.NewService (pgUserRepository (fun _ => ascii "2")))
    ⟨[], ascii "alice", ascii "secret"⟩ ⟨ascii "1", ascii "alice", ascii "hash:other"⟩ none
    [⟨ascii "1", ascii "alice", ascii "hash:other"⟩] _ rfl rfl

/-- C13, what the code does: when the login reaches the table between the
lookup and the insert, the insert of `postgres.UserRepository.Create` fails
with the error of the driver, which is not `ErrLoginAlreadyExist`;
`CreateUser` returns that error as it is, and `Register` answers 500. -/
theorem C13_insert_conflict_answers_500 :
    (postgres.UserRepository.Create [⟨ascii "1", ascii "alice", ascii "hash:pw1"⟩] (ascii "2")
      none ⟨[], ascii "alice", ascii "hash:pw2"⟩).1 = (none, some pgUniqueViolation) ∧
    pgUniqueViolation.Is .ErrLoginAlreadyExist = false ∧
    (user.NewService (pgUserRepositoryRaced (fun _ => ascii "1")
        ⟨[], ascii "alice", ascii "hash:pw1"⟩)).CreateUser (exampleHashing _)
      (some ⟨[], ascii "alice", ascii "pw2"⟩) [] =
      .done (((none, some pgUniqueViolation), ⟨[], ascii "alice", ascii "hash:pw2"⟩),
        [⟨ascii "1", ascii "alice", ascii "hash:pw1"⟩]) ∧
    (NewUserHandler (user.NewService (pgUserRepositoryRaced (fun _ => ascii "1")
        ⟨[], ascii "alice", ascii "hash:pw1"⟩))).Register
      ⟨some (ascii "id"), some (ascii "login"), some (ascii "password")⟩
      (exampleHashing _) (ascii "somevalue") 1700000000000000000
      { ctx := [], URLParams := [], Cookies := [],
        Body := (ascii "\x7b\"login\":\"alice\",\"password\":\"pw2\"\x7d", none) }
      [] = .done (Response.status 500, [⟨ascii "1", ascii "alice", ascii "hash:pw1"⟩]) := by
  refine ⟨by decide, by decide, by decide!, by decide!⟩

/-- The stand-in hashing of the examples meets the contract of the spec: its
hash is longer than the password. -/
theorem exampleHashing_neverPlain (σ : Type) : (exampleHashing σ).neverPlain := by
  intro p h w w1 hh e
  simp only [exampleHashing, Run.done.injEq, Prod.mk.injEq, and_true] at hh
  rw [e] at hh
  have hl := congrArg List.length hh.1
  rw [List.length_append] at hl
  have h5 : (ascii "hash:").length = 5 := by decide
  omega

/-- C14: for every user with login `l` and password `p` whose login the
lookup does not find, `CreateUser` calls `HashPassword` on `p`; when that
returns the hash `h`, it calls `Create` once, on the world `HashPassword`
left, with the user whose login is `l` and whose password is `h`, and returns
what `Create` returned, id and error; when `HashPassword` fails, `Create` is
not called and the error is returned. The password handed to `Create` is
what `HashPassword` returned and nothing else; it is therefore not `p`
itself for every `HashPassword` that meets the contract the spec gives for
it, that a hash is never the original password. -/
theorem C14_create_hashes_password {σ : Type} (H : PasswordHashing σ) (s : user.Service σ)
    (u : User) (e : Option Error) (w w1 : σ)
    (hget : s.userRepo.GetUserByLogin u.Login w = .done ((none, e), w1))
    (he : isOtherError e .ErrUserNotFound = false) :
    (∀ (h : Bytes) (w2 : σ), H.HashPassword u.Password w1 = .done ((h, none), w2) →
      s.CreateUser H (some u) w =
        ((s.userRepo.Create { ID := u.ID, Login := u.Login, Password := h } w2).bind fun r =>
          .done ((r.1, { ID := u.ID, Login := u.Login, Password := h }), r.2)) ∧
      (H.neverPlain →
        ({ ID := u.ID, Login := u.Login, Password := h } : User).Password ≠ u.Password)) ∧
    (∀ (h : Bytes) (err : Error) (w2 : σ),
      H.HashPassword u.Password w1 = .done ((h, some err), w2) →
      s.CreateUser H (some u) w =
        .done (((none, some err), { ID := u.ID, Login := u.Login, Password := h }), w2)) :=
  ⟨fun h w2 hh => ⟨CreateUser_hashed H s u e w w1 w2 h hget he hh,
     fun hspec => hspec u.Password h w1 w2 hh⟩,
   fun h err w2 hh => CreateUser_hash_failed H s u e w w1 w2 h err hget he hh⟩

/-- C14 at the user `alice` on an empty table: the row inserted holds the
hash, which is not the password, and the id is the one the database
generated. -/
theorem C14_create_hashes_password_witness :
    (user.NewService (pgUserRepository (fun _ => ascii "7"))).CreateUser (exampleHashing _)
      (some ⟨[], ascii "alice", ascii "secret"⟩) [] =
    .done (((some (ascii "7"), none), ⟨[], ascii "alice", ascii "hash:secret"⟩),
      [⟨ascii "7", ascii "alice", ascii "hash:secret"⟩]) ∧
    ascii "hash:secret" ≠ ascii "secret" :=
  ⟨(((C14_create_hashes_password (exampleHashing _)
      (user.NewService (pgUserRepository (fun _ => ascii "7")))
      ⟨[], ascii "alice", ascii "secret"⟩ (some .ErrUserNotFound) [] [] rfl rfl).1
        (ascii "hash:secret") [] (by decide)).1).trans (by decide),
   ((C14_create_hashes_password (exampleHashing (List UserRow))
      (user.NewService (pgUserRepository (fun _ => ascii "7")))
      ⟨[], ascii "alice", ascii "secret"⟩ (some .ErrUserNotFound) [] [] rfl rfl).1
        (ascii "hash:secret") [] (by decide)).2 (exampleHashing_neverPlain _)⟩

end GoKeeper


namespace GoKeeper

/-! ## The errors of the JSON decoder -/

theorem decodeLoop_error (e : B64) : ∀ (s : Bytes) (acc : List Nat) (err : Error),
    (e.decodeLoop acc s).2 = some err → err = .base64Corrupt := by
  intro s
  induction s with
  | nil =>
    intro acc err h
    unfold B64.decodeLoop at h
    split_ifs at h <;> simp at h
    exact h.symm
  | cons c rest ih =>
    intro acc err h
    unfold B64.decodeLoop at h
    by_cases hn : isNewline c = true
    · rw [if_pos hn] at h
      exact ih _ _ h
    · rw [if_neg hn] at h
      rcases hd : e.decChar c with _ | v
      · rw [hd] at h
        simp only at h
        by_cases h1 : c.val = 61 ∧ e.padded = true
        · rw [if_pos h1] at h
          by_cases h2 : acc.length < 2
          · rw [if_pos h2] at h
            simp at h; exact h.symm
          · rw [if_neg h2] at h
            by_cases h3 : acc.length = 2
            · rw [if_pos h3] at h
              rcases hs : skipNewlines rest with _ | ⟨c2, rest2⟩
              · rw [hs] at h; simp at h; exact h.symm
              · rw [hs] at h
                simp only at h
                split_ifs at h <;> simp at h <;> exact h.symm
            · rw [if_neg h3] at h
              split_ifs at h <;> simp at h <;> exact h.symm
        · rw [if_neg h1] at h
          simp at h; exact h.symm
      · rw [hd] at h
        simp only at h
        by_cases h3 : acc.length = 3
        · rw [if_pos h3] at h
          exact ih _ _ h
        · rw [if_neg h3] at h
          exact ih _ _ h

theorem decodeString_error (cur : Bytes) (v : JSON) (e : Error)
    (h : (decodeString cur v).2 = some e) : (e = Error.jsonUnmarshalType ∨ e = Error.base64Corrupt) := by
  cases v <;> simp [decodeString] at h <;> exact Or.inl h.symm

theorem saveError_field (a b : Option Error) (ha : ∀ e, a = some e → (e = Error.jsonUnmarshalType ∨ e = Error.base64Corrupt))
    (hb : ∀ e, b = some e → (e = Error.jsonUnmarshalType ∨ e = Error.base64Corrupt)) : ∀ e, saveError a b = some e → (e = Error.jsonUnmarshalType ∨ e = Error.base64Corrupt) := by
  intro e h
  cases a with
  | none => exact hb e h
  | some x => exact ha e h

theorem decodeUint8_error (v : JSON) (e : Error) (h : (decodeUint8 v).2 = some e) :
    (e = Error.jsonUnmarshalType ∨ e = Error.base64Corrupt) := by
  cases v with
  | num lit =>
    simp only [decodeUint8] at h
    rcases hp : parseUint8 lit with _ | b
    · rw [hp] at h; simp at h; exact Or.inl h.symm
    · rw [hp] at h; simp at h
  | null => simp [decodeUint8] at h
  | bool b => simp [decodeUint8] at h; exact Or.inl h.symm
  | str s => simp [decodeUint8] at h; exact Or.inl h.symm
  | arr es => simp [decodeUint8] at h; exact Or.inl h.symm
  | obj ms => simp [decodeUint8] at h; exact Or.inl h.symm

theorem foldl_saveError_field (f : JSON → Option Error)
    (hf : ∀ v e, f v = some e → (e = Error.jsonUnmarshalType ∨ e = Error.base64Corrupt)) : ∀ (es : List JSON) (a : Option Error),
    (∀ e, a = some e → (e = Error.jsonUnmarshalType ∨ e = Error.base64Corrupt)) →
    ∀ e, es.foldl (fun acc x => saveError acc (f x)) a = some e → (e = Error.jsonUnmarshalType ∨ e = Error.base64Corrupt) := by
  intro es
  induction es with
  | nil => intro a ha e h; exact ha e h
  | cons x xs ih =>
    intro a ha e h
    exact ih _ (saveError_field a (f x) ha (hf x)) e h

theorem decodeBytes_error (cur : Option Bytes) (v : JSON) (e : Error)
    (h : (decodeBytes cur v).2 = some e) : (e = Error.jsonUnmarshalType ∨ e = Error.base64Corrupt) := by
  cases v with
  | str s =>
    simp only [decodeBytes] at h
    rcases hd : B64.std.decode s with ⟨b, _ | err⟩
    · rw [hd] at h; simp at h
    · rw [hd] at h
      simp only [Option.some.injEq] at h
      subst h
      exact Or.inr (decodeLoop_error _ _ _ _ (by rw [B64.decode] at hd; rw [hd]))
  | arr es =>
    simp only [decodeBytes] at h
    exact foldl_saveError_field (fun x => (decodeUint8 x).2) decodeUint8_error es none
      (by simp) e h
  | null => simp [decodeBytes] at h
  | bool b => simp [decodeBytes] at h; exact Or.inl h.symm
  | num l => simp [decodeBytes] at h; exact Or.inl h.symm
  | obj ms => simp [decodeBytes] at h; exact Or.inl h.symm

theorem decodeStruct_error {α : Type} (names : List Bytes)
    (setField : α → Nat → JSON → α × Option Error)
    (hset : ∀ a i v e, (setField a i v).2 = some e → (e = Error.jsonUnmarshalType ∨ e = Error.base64Corrupt)) (cur : α) (j : JSON)
    (e : Error) (h : (decodeStruct names setField cur j).2 = some e) : (e = Error.jsonUnmarshalType ∨ e = Error.base64Corrupt) := by
  cases j with
  | obj ms =>
    simp only [decodeStruct] at h
    have key : ∀ (ms : List (Bytes × JSON)) (acc : α × Option Error),
        (∀ e, acc.2 = some e → (e = Error.jsonUnmarshalType ∨ e = Error.base64Corrupt)) →
        ∀ e, (ms.foldl
          (fun acc kv =>
            match findField names kv.1 with
            | some i => ((setField acc.1 i kv.2).1, saveError acc.2 (setField acc.1 i kv.2).2)
            | none => acc) acc).2 = some e → (e = Error.jsonUnmarshalType ∨ e = Error.base64Corrupt) := by
      intro ms
      induction ms with
      | nil => intro acc ha e h; exact ha e h
      | cons kv rest ih =>
        intro acc ha e h
        rw [List.foldl_cons] at h
        refine ih _ ?_ e h
        rcases findField names kv.1 with _ | i
        · exact ha
        · exact saveError_field _ _ ha (hset _ _ _)
    exact key ms (cur, none) (by simp) e h
  | null => simp [decodeStruct] at h
  | bool b => simp [decodeStruct] at h; exact Or.inl h.symm
  | num l => simp [decodeStruct] at h; exact Or.inl h.symm
  | str s => simp [decodeStruct] at h; exact Or.inl h.symm
  | arr es => simp [decodeStruct] at h; exact Or.inl h.symm


theorem jsonUnmarshal_error {α : Type} (names : List Bytes)
    (setField : α → Nat → JSON → α × Option Error)
    (hset : ∀ a i v e, (setField a i v).2 = some e →
      (e = Error.jsonUnmarshalType ∨ e = Error.base64Corrupt))
    (d : Bytes) (z : α) (e : Error)
    (h : (jsonUnmarshal (decodeStruct names setField) d z).2 = some e) :
    e ≠ .ErrTypeNotFound := by
  unfold jsonUnmarshal at h
  rcases hp : jsonParse d with _ | j
  · rw [hp] at h
    simp at h
    rw [← h]
    decide
  · rw [hp] at h
    rcases decodeStruct_error names setField hset z j e h with h1 | h1 <;> rw [h1] <;> decide

theorem LogPassData_setField_error (a : LogPassData) (i : Nat) (v : JSON) (e : Error)
    (h : (a.setField i v).2 = some e) :
    (e = Error.jsonUnmarshalType ∨ e = Error.base64Corrupt) := by
  rcases i with _ | _ | i
  · exact decodeString_error _ _ _ h
  · exact decodeString_error _ _ _ h
  · simp [LogPassData.setField] at h

theorem CardData_setField_error (a : CardData) (i : Nat) (v : JSON) (e : Error)
    (h : (a.setField i v).2 = some e) :
    (e = Error.jsonUnmarshalType ∨ e = Error.base64Corrupt) := by
  rcases i with _ | _ | _ | i
  · exact decodeString_error _ _ _ h
  · exact decodeString_error _ _ _ h
  · exact decodeString_error _ _ _ h
  · simp [CardData.setField] at h

theorem TextData_setField_error (a : TextData) (i : Nat) (v : JSON) (e : Error)
    (h : (a.setField i v).2 = some e) :
    (e = Error.jsonUnmarshalType ∨ e = Error.base64Corrupt) := by
  rcases i with _ | i
  · exact decodeString_error _ _ _ h
  · simp [TextData.setField] at h

theorem FileData_setField_error (a : FileData) (i : Nat) (v : JSON) (e : Error)
    (h : (a.setField i v).2 = some e) :
    (e = Error.jsonUnmarshalType ∨ e = Error.base64Corrupt) := by
  rcases i with _ | _ | i
  · exact decodeBytes_error _ _ _ h
  · exact decodeString_error _ _ _ h
  · simp [FileData.setField] at h

/-- An error `ParseJsonData` returns for a registered tag is not
`ErrTypeNotFound`, and the payload is nil then. -/
theorem ParseJsonData_registered (d t : Bytes) (ht : t ∈ registeredTags) :
    (∀ e, (ParseJsonData d t).2 = some e → e ≠ .ErrTypeNotFound) ∧
    ((ParseJsonData d t).2 ≠ none → (ParseJsonData d t).1 = .nil) := by
  have n1 : ¬ CardDataType = LogPassDataType := by decide
  have n2 : ¬ TextDataType = LogPassDataType := by decide
  have n3 : ¬ TextDataType = CardDataType := by decide
  have n4 : ¬ FileDataType = LogPassDataType := by decide
  have n5 : ¬ FileDataType = CardDataType := by decide
  have n6 : ¬ FileDataType = TextDataType := by decide
  simp only [registeredTags, List.mem_cons, List.mem_singleton, List.not_mem_nil, or_false] at ht
  rcases ht with rfl | rfl | rfl | rfl
  · unfold ParseJsonData
    rw [if_pos rfl]
    rcases hu : jsonUnmarshal LogPassData.decode d { Login := [], Password := [] } with ⟨p, _ | e⟩
    · simp
    · have := jsonUnmarshal_error _ _ LogPassData_setField_error d _ e
        (by rw [LogPassData.decode] at hu; rw [hu])
      simpa using this
  · unfold ParseJsonData
    rw [if_neg n1, if_pos rfl]
    rcases hu : jsonUnmarshal CardData.decode d { Number := [], ExpiredAt := [], CVV := [] }
      with ⟨p, _ | e⟩
    · simp
    · have := jsonUnmarshal_error _ _ CardData_setField_error d _ e
        (by rw [CardData.decode] at hu; rw [hu])
      simpa using this
  · unfold ParseJsonData
    rw [if_neg n2, if_neg n3, if_pos rfl]
    rcases hu : jsonUnmarshal TextData.decode d { Text := [] } with ⟨p, _ | e⟩
    · simp
    · have := jsonUnmarshal_error _ _ TextData_setField_error d _ e
        (by rw [TextData.decode] at hu; rw [hu])
      simpa using this
  · unfold ParseJsonData
    rw [if_neg n4, if_neg n5, if_neg n6, if_pos rfl]
    rcases hu : jsonUnmarshal FileData.decode d { Content := none, Name := [] } with ⟨p, _ | e⟩
    · simp
    · have := jsonUnmarshal_error _ _ FileData_setField_error d _ e
        (by rw [FileData.decode] at hu; rw [hu])
      simpa using this

theorem ParseJsonData_unregistered (d t : Bytes) (ht : t ∉ registeredTags) :
    ParseJsonData d t = (.nil, some .ErrTypeNotFound) := by
  simp only [registeredTags, List.mem_cons, List.mem_singleton, List.not_mem_nil, or_false,
    not_or] at ht
  unfold ParseJsonData
  rw [if_neg ht.1, if_neg ht.2.1, if_neg ht.2.2.1, if_neg ht.2.2.2]

/-- C16: for every byte string `d` and every type tag `t`, `ParseJsonData`
returns `ErrTypeNotFound` if and only if `t` is not one of the four
registered tags; for a tag that is not registered the result is the nil
payload with `ErrTypeNotFound`, whatever `d` is. -/
theorem C16_type_not_found (d t : Bytes) :
    ((ParseJsonData d t).2 = some .ErrTypeNotFound ↔ t ∉ registeredTags) ∧
    (t ∉ registeredTags → ParseJsonData d t = (.nil, some .ErrTypeNotFound)) := by
  refine ⟨⟨fun h ht => (ParseJsonData_registered d t ht).1 _ h rfl, fun ht => ?_⟩,
    ParseJsonData_unregistered d t⟩
  rw [ParseJsonData_unregistered d t ht]


/-! ## Payload texts of the wrong type -/

theorem decodeStruct_error_kept {α : Type} (names : List Bytes)
    (setField : α → Nat → JSON → α × Option Error) :
    ∀ (ms : List (Bytes × JSON)) (acc : α × Option Error), acc.2 ≠ none →
      (ms.foldl
        (fun acc kv =>
          match findField names kv.1 with
          | some i => ((setField acc.1 i kv.2).1, saveError acc.2 (setField acc.1 i kv.2).2)
          | none => acc) acc).2 ≠ none := by
  intro ms
  induction ms with
  | nil => intro acc h; exact h
  | cons kv rest ih =>
    intro acc h
    rw [List.foldl_cons]
    apply ih
    rcases findField names kv.1 with _ | i
    · exact h
    · rcases h2 : acc.2 with _ | e
      · exact absurd h2 h
      · simp [saveError, h2]

theorem decodeStruct_member_error {α : Type} (names : List Bytes)
    (setField : α → Nat → JSON → α × Option Error) (bad : Bytes × JSON → Bool)
    (hbad : ∀ kv, bad kv = true →
      ∃ i, findField names kv.1 = some i ∧ ∀ a, (setField a i kv.2).2 ≠ none) :
    ∀ (ms : List (Bytes × JSON)) (acc : α × Option Error), ms.any bad = true →
      (ms.foldl
        (fun acc kv =>
          match findField names kv.1 with
          | some i => ((setField acc.1 i kv.2).1, saveError acc.2 (setField acc.1 i kv.2).2)
          | none => acc) acc).2 ≠ none := by
  intro ms
  induction ms with
  | nil => intro acc h; simp at h
  | cons kv rest ih =>
    intro acc h
    rw [List.foldl_cons]
    rw [List.any_cons, Bool.or_eq_true] at h
    rcases h with h | h
    · obtain ⟨i, hi, he⟩ := hbad kv h
      apply decodeStruct_error_kept
      rw [hi]
      simp only
      rcases h2 : acc.2 with _ | e
      · simpa [saveError] using he acc.1
      · simp [saveError]
    · exact ih _ h

theorem decodeString_wrong (cur : Bytes) (v : JSON) (h : v.wrongForString = true) :
    (decodeString cur v).2 ≠ none := by
  cases v <;> simp [JSON.wrongForString] at h <;> simp [decodeString]

theorem decodeBytes_wrong (cur : Option Bytes) (v : JSON) (h : v.wrongForBytes = true) :
    (decodeBytes cur v).2 ≠ none := by
  cases v <;> simp [JSON.wrongForBytes] at h <;> simp [decodeBytes]

theorem jsonUnmarshal_wrong {α : Type} (names : List Bytes)
    (setField : α → Nat → JSON → α × Option Error) (t d : Bytes) (z : α)
    (hbad : ∀ kv, wrongTypeMember t kv = true →
      ∃ i, findField names kv.1 = some i ∧ ∀ a, (setField a i kv.2).2 ≠ none)
    (h : jsonParse d = none ∨ givesWrongType d t = true) :
    (jsonUnmarshal (decodeStruct names setField) d z).2 ≠ none := by
  unfold jsonUnmarshal
  rcases hp : jsonParse d with _ | j
  · simp
  · rcases h with h | h
    · rw [hp] at h; exact absurd h (by simp)
    · unfold givesWrongType at h
      rw [hp] at h
      cases j with
      | obj ms =>
        simp only at h ⊢
        exact decodeStruct_member_error names setField _ hbad ms _ h
      | null => simp at h
      | bool b => simp at h
      | num l => simp at h
      | str s => simp at h
      | arr es => simp at h


theorem wrongTypeMember_logpass (kv : Bytes × JSON) (h : wrongTypeMember LogPassDataType kv = true) :
    ∃ i, findField [ascii "login", ascii "password"] kv.1 = some i ∧
      ∀ a, (LogPassData.setField a i kv.2).2 ≠ none := by
  have pf : payloadFields LogPassDataType = [(ascii "login", false), (ascii "password", false)] := by decide
  unfold wrongTypeMember at h
  rw [pf] at h
  simp only [List.map] at h
  rcases hf : findField [ascii "login", ascii "password"] kv.1 with _ | i
  · rw [hf] at h; simp at h
  · rw [hf] at h
    simp only at h
    rcases i with _ | _ | i
    · exact ⟨_, rfl, fun a => decodeString_wrong _ _ (by simpa [] using h)⟩
    · exact ⟨_, rfl, fun a => decodeString_wrong _ _ (by simpa [] using h)⟩
    · simp [] at h

theorem wrongTypeMember_card (kv : Bytes × JSON) (h : wrongTypeMember CardDataType kv = true) :
    ∃ i, findField [ascii "number", ascii "expired_at", ascii "cvv"] kv.1 = some i ∧
      ∀ a, (CardData.setField a i kv.2).2 ≠ none := by
  have pf : payloadFields CardDataType = [(ascii "number", false), (ascii "expired_at", false), (ascii "cvv", false)] := by decide
  unfold wrongTypeMember at h
  rw [pf] at h
  simp only [List.map] at h
  rcases hf : findField [ascii "number", ascii "expired_at", ascii "cvv"] kv.1 with _ | i
  · rw [hf] at h; simp at h
  · rw [hf] at h
    simp only at h
    rcases i with _ | _ | _ | i
    · exact ⟨_, rfl, fun a => decodeString_wrong _ _ (by simpa [] using h)⟩
    · exact ⟨_, rfl, fun a => decodeString_wrong _ _ (by simpa [] using h)⟩
    · exact ⟨_, rfl, fun a => decodeString_wrong _ _ (by simpa [] using h)⟩
    · simp [] at h

theorem wrongTypeMember_text (kv : Bytes × JSON) (h : wrongTypeMember TextDataType kv = true) :
    ∃ i, findField [ascii "text"] kv.1 = some i ∧
      ∀ a, (TextData.setField a i kv.2).2 ≠ none := by
  have pf : payloadFields TextDataType = [(ascii "text", false)] := by decide
  unfold wrongTypeMember at h
  rw [pf] at h
  simp only [List.map] at h
  rcases hf : findField [ascii "text"] kv.1 with _ | i
  · rw [hf] at h; simp at h
  · rw [hf] at h
    simp only at h
    rcases i with _ | i
    · exact ⟨_, rfl, fun a => decodeString_wrong _ _ (by simpa [] using h)⟩
    · simp [] at h

theorem wrongTypeMember_file (kv : Bytes × JSON) (h : wrongTypeMember FileDataType kv = true) :
    ∃ i, findField [ascii "content", ascii "name"] kv.1 = some i ∧
      ∀ a, (FileData.setField a i kv.2).2 ≠ none := by
  have pf : payloadFields FileDataType = [(ascii "content", true), (ascii "name", false)] := by decide
  unfold wrongTypeMember at h
  rw [pf] at h
  simp only [List.map] at h
  rcases hf : findField [ascii "content", ascii "name"] kv.1 with _ | i
  · rw [hf] at h; simp at h
  · rw [hf] at h
    simp only at h
    rcases i with _ | _ | i
    · exact ⟨_, rfl, fun a => decodeBytes_wrong _ _ (by simpa [] using h)⟩
    · exact ⟨_, rfl, fun a => decodeString_wrong _ _ (by simpa [] using h)⟩
    · simp [] at h

/-- C17: for every registered type tag `t` and every byte string `d` that is
not valid JSON, or that is a JSON object giving a field of the variant of `t`
a value of the wrong type (for a string field a number, a boolean, an array
or an object; for the content of a file a number, a boolean or an object),
`ParseJsonData` returns the nil payload and an error that is not
`ErrTypeNotFound`. -/
theorem C17_malformed_payload (d t : Bytes) (ht : t ∈ registeredTags)
    (hd : jsonParse d = none ∨ givesWrongType d t = true) :
    (ParseJsonData d t).1 = .nil ∧
    ∃ e, (ParseJsonData d t).2 = some e ∧ e ≠ .ErrTypeNotFound := by
  have n1 : ¬ CardDataType = LogPassDataType := by decide
  have n2 : ¬ TextDataType = LogPassDataType := by decide
  have n3 : ¬ TextDataType = CardDataType := by decide
  have n4 : ¬ FileDataType = LogPassDataType := by decide
  have n5 : ¬ FileDataType = CardDataType := by decide
  have n6 : ¬ FileDataType = TextDataType := by decide
  have herr : (ParseJsonData d t).2 ≠ none := by
    have ht2 := ht
    simp only [registeredTags, List.mem_cons, List.mem_singleton, List.not_mem_nil,
      or_false] at ht2
    rcases ht2 with rfl | rfl | rfl | rfl
    · have := jsonUnmarshal_wrong _ LogPassData.setField _ d { Login := [], Password := [] }
        wrongTypeMember_logpass hd
      unfold ParseJsonData
      rw [if_pos rfl]
      rcases hu : jsonUnmarshal LogPassData.decode d { Login := [], Password := [] }
        with ⟨p, _ | e⟩
      · rw [LogPassData.decode] at hu; rw [hu] at this; exact absurd rfl this
      · simp
    · have := jsonUnmarshal_wrong _ CardData.setField _ d
        { Number := [], ExpiredAt := [], CVV := [] } wrongTypeMember_card hd
      unfold ParseJsonData
      rw [if_neg n1, if_pos rfl]
      rcases hu : jsonUnmarshal CardData.decode d { Number := [], ExpiredAt := [], CVV := [] }
        with ⟨p, _ | e⟩
      · rw [CardData.decode] at hu; rw [hu] at this; exact absurd rfl this
      · simp
    · have := jsonUnmarshal_wrong _ TextData.setField _ d { Text := [] }
        wrongTypeMember_text hd
      unfold ParseJsonData
      rw [if_neg n2, if_neg n3, if_pos rfl]
      rcases hu : jsonUnmarshal TextData.decode d { Text := [] } with ⟨p, _ | e⟩
      · rw [TextData.decode] at hu; rw [hu] at this; exact absurd rfl this
      · simp
    · have := jsonUnmarshal_wrong _ FileData.setField _ d { Content := none, Name := [] }
        wrongTypeMember_file hd
      unfold ParseJsonData
      rw [if_neg n4, if_neg n5, if_neg n6, if_pos rfl]
      rcases hu : jsonUnmarshal FileData.decode d { Content := none, Name := [] }
        with ⟨p, _ | e⟩
      · rw [FileData.decode] at hu; rw [hu] at this; exact absurd rfl this
      · simp
  have hr := ParseJsonData_registered d t ht
  refine ⟨hr.2 herr, ?_⟩
  rcases he : (ParseJsonData d t).2 with _ | e
  · exact absurd he herr
  · exact ⟨e, rfl, hr.1 e he⟩

/-- C17 at the text of the test, which is not JSON, and at an object that
gives the login a number. -/
theorem C17_malformed_payload_witness :
    ((ParseJsonData (ascii "\x7binvalid json\x7d") LogPassDataType).1 = .nil ∧
      ∃ e, (ParseJsonData (ascii "\x7binvalid json\x7d") LogPassDataType).2 = some e ∧
        e ≠ .ErrTypeNotFound) ∧
    ((ParseJsonData (ascii "\x7b\"login\":5,\"password\":\"x\"\x7d") LogPassDataType).1 = .nil ∧
      ∃ e, (ParseJsonData (ascii "\x7b\"login\":5,\"password\":\"x\"\x7d")
        LogPassDataType).2 = some e ∧ e ≠ .ErrTypeNotFound) :=
  ⟨C17_malformed_payload _ _ (by decide)
      (Or.inl (Option.isNone_iff_eq_none.mp (by decide!))),
   C17_malformed_payload _ _ (by decide) (Or.inr (by decide!))⟩

end GoKeeper


namespace GoKeeper

/-! ## The validity predicates of the schemas -/

/-- C18: for each of the four request schemas, `Valid` returns true if and
only if every field of the payload is not empty: login and password for
`LogPassSchema`; number, expiry and cvv for `CardSchema`; text for
`TextSchema`; name and content, of a length above zero, for `FileSchema`; and
`Meta` does not influence the result. -/
theorem C18_valid_iff_fields_nonempty :
    (∀ s : LogPassSchema, s.Valid = true ↔ s.Data.Login ≠ [] ∧ s.Data.Password ≠ []) ∧
    (∀ s : CardSchema,
      s.Valid = true ↔ s.Data.Number ≠ [] ∧ s.Data.ExpiredAt ≠ [] ∧ s.Data.CVV ≠ []) ∧
    (∀ s : TextSchema, s.Valid = true ↔ s.Data.Text ≠ []) ∧
    (∀ s : FileSchema, s.Valid = true ↔ s.Data.Name ≠ [] ∧ 0 < sliceLen s.Data.Content) ∧
    (∀ (d : LogPassData) (m1 m2 : Bytes),
      LogPassSchema.Valid { Data := d, Meta := m1 } = LogPassSchema.Valid { Data := d, Meta := m2 }) ∧
    (∀ (d : CardData) (m1 m2 : Bytes),
      CardSchema.Valid { Data := d, Meta := m1 } = CardSchema.Valid { Data := d, Meta := m2 }) ∧
    (∀ (d : TextData) (m1 m2 : Bytes),
      TextSchema.Valid { Data := d, Meta := m1 } = TextSchema.Valid { Data := d, Meta := m2 }) ∧
    (∀ (d : FileData) (m1 m2 : Bytes),
      FileSchema.Valid { Data := d, Meta := m1 } = FileSchema.Valid { Data := d, Meta := m2 }) := by
  refine ⟨?_, ?_, ?_, ?_, fun _ _ _ => rfl, fun _ _ _ => rfl, fun _ _ _ => rfl,
    fun _ _ _ => rfl⟩
  · intro s
    unfold LogPassSchema.Valid
    by_cases h : s.Data.Login = [] ∨ s.Data.Password = []
    · rw [if_pos h]
      simp only [Bool.false_eq_true, false_iff, not_and_or, not_not]
      exact h
    · rw [if_neg h]
      simp only [true_iff]
      exact not_or.mp h
  · intro s
    unfold CardSchema.Valid
    by_cases h : s.Data.Number = [] ∨ s.Data.ExpiredAt = [] ∨ s.Data.CVV = []
    · rw [if_pos h]
      simp only [Bool.false_eq_true, false_iff]
      rintro ⟨h1, h2, h3⟩
      rcases h with h | h | h
      · exact h1 h
      · exact h2 h
      · exact h3 h
    · rw [if_neg h]
      simp only [true_iff]
      exact ⟨fun e => h (Or.inl e), fun e => h (Or.inr (Or.inl e)), fun e => h (Or.inr (Or.inr e))⟩
  · intro s
    unfold TextSchema.Valid
    by_cases h : s.Data.Text = []
    · rw [if_pos h]; simp [h]
    · rw [if_neg h]; simp [h]
  · intro s
    unfold FileSchema.Valid
    by_cases h : sliceLen s.Data.Content = 0 ∨ s.Data.Name = []
    · rw [if_pos h]
      simp only [Bool.false_eq_true, false_iff]
      rintro ⟨h1, h2⟩
      rcases h with h | h
      · omega
      · exact h1 h
    · rw [if_neg h]
      simp only [true_iff]
      exact ⟨fun e => h (Or.inr e), by
        rcases Nat.eq_zero_or_pos (sliceLen s.Data.Content) with h0 | h0
        · exact absurd (Or.inl h0) h
        · exact h0⟩


/-! ## Add and Update of the vault service, step by step -/

theorem encode_length_ge (e : B64) (bs : Bytes) : bs.length ≤ (e.encode bs).length := by
  induction bs using B64.encode.induct e with
  | case1 => simp [B64.encode]
  | case2 a => simp [B64.encode]
  | case3 a b => simp [B64.encode]
  | case4 a b c rest ih => simp only [B64.encode, List.length_cons]; omega

/-- The text `Encrypt` returns is longer than the plaintext. -/
theorem Encrypt_longer (c : Crypt) (rnd : Entropy) (p out : Bytes)
    (h : c.Encrypt rnd p = .done (out, none)) : p.length < out.length := by
  unfold Crypt.Encrypt at h
  rcases h1 : aesNewCipher c.SecretKey with err | block
  · rw [h1] at h; simp at h
  · rw [h1] at h
    simp only at h
    rcases h2 : cipherNewGCM block with err | gcm
    · rw [h2] at h; simp at h
    · rw [h2] at h
      simp only at h
      rcases h3 : randRead rnd gcm.nonceSize with ⟨nonce, _ | err⟩
      · rw [h3] at h
        simp only at h
        unfold GCM.Seal at h
        split_ifs at h with g1 g2
        · simp [Run.bind] at h
        · simp [Run.bind] at h
        · simp only [Run.bind, Run.done.injEq, Prod.mk.injEq, and_true] at h
          rw [← h]
          have := encode_length_ge B64.std
            (nonce ++ xorBytes p (keystream gcm.block (nonce ++ [0, 0, 0, 1]) p.length) ++
              gcm.tag nonce (xorBytes p (keystream gcm.block (nonce ++ [0, 0, 0, 1]) p.length)))
          simp only [List.length_append, xorBytes_length, tag_length] at this
          omega
      · rw [h3] at h; simp at h

theorem Add_marshal_failed {σ : Type} (s : Service σ) (u t m : Bytes) (body : Any) (j : Bytes)
    (err : Error) (w : σ) (hm : jsonMarshal body = (j, some err)) :
    s.Add u t body m w = .done (([], some err), w) := by
  simp [Service.Add, hm]

theorem Add_encrypt_failed {σ : Type} (s : Service σ) (u t m : Bytes) (body : Any)
    (j ct : Bytes) (err : Error) (w w1 : σ) (hm : jsonMarshal body = (j, none))
    (he : s.crypt.Encrypt j w = .done ((ct, some err), w1)) :
    s.Add u t body m w = .done (([], some err), w1) := by
  simp [Service.Add, hm, he, Run.bind]

theorem Add_encrypted {σ : Type} (s : Service σ) (u t m : Bytes) (body : Any)
    (j ct : Bytes) (w w1 : σ) (hm : jsonMarshal body = (j, none))
    (he : s.crypt.Encrypt j w = .done ((ct, none), w1)) :
    s.Add u t body m w =
      (s.dataRepo.AddData u t ct m w1).bind fun r =>
        .done ((if r.1.2.isSome then [] else r.1.1, r.1.2), r.2) := by
  simp only [Service.Add, hm, he, Run.bind]
  rcases s.dataRepo.AddData u t ct m w1 with ⟨⟨id, _ | e⟩, w2⟩ | msg <;> rfl

theorem Update_marshal_failed {σ : Type} (s : Service σ) (u i t m : Bytes) (body : Any)
    (j : Bytes) (err : Error) (w : σ) (hm : jsonMarshal body = (j, some err)) :
    s.Update u i t body m w = .done (some err, w) := by
  simp [Service.Update, hm]

theorem Update_encrypt_failed {σ : Type} (s : Service σ) (u i t m : Bytes) (body : Any)
    (j ct : Bytes) (err : Error) (w w1 : σ) (hm : jsonMarshal body = (j, none))
    (he : s.crypt.Encrypt j w = .done ((ct, some err), w1)) :
    s.Update u i t body m w = .done (some err, w1) := by
  simp [Service.Update, hm, he, Run.bind]

theorem Update_encrypted {σ : Type} (s : Service σ) (u i t m : Bytes) (body : Any)
    (j ct : Bytes) (w w1 : σ) (hm : jsonMarshal body = (j, none))
    (he : s.crypt.Encrypt j w = .done ((ct, none), w1)) :
    s.Update u i t body m w = s.dataRepo.UpdateData u i t ct m w1 := by
  simp only [Service.Update, hm, he, Run.bind]
  rcases s.dataRepo.UpdateData u i t ct m w1 with ⟨_ | e, w2⟩ | msg <;> rfl


/-- What `Encrypt` of the cipher of the application returns in a world whose
entropy source delivers the stream `f`. -/
theorem appService_Encrypt_eq (key : Bytes) (W : World) (f : Nat → Byte) (json : Bytes)
    (hk : validKeyLength key) (hl : json.length ≤ gcmMaxPlaintext)
    (he : W.entropy W.reads = some f) :
    (appService key).crypt.Encrypt json W =
      .done ((B64.std.encode (sealedBytes key f json), none), { W with reads := W.reads + 1 }) := by
  simp only [appService, NewService, Crypt.iface, he, Encrypt_eq key f json hk hl, Run.bind]

/-- C19: for every owner id, type tag, body that `json.Marshal` serialises
and meta, when `Encrypt` succeeds on the JSON, `Service.Add` is one call of
`AddData`, on the world `Encrypt` left, with the same owner id, type tag and
meta and with the text `Encrypt` returned as data; it returns what that call
returned, so exactly the id of `AddData` when it succeeds. The text the cipher
of the program returns is never the plaintext: it is longer. With the cipher
and the repository of the application, under a key of valid length, when the
entropy source delivers the stream `f` and the database inserts the row: the
row stored has as data the base64 text of the nonce drawn from `f`, the JSON
xored with the AES counter keystream under that nonce, and the GCM tag; that
text is not the JSON, and `Decrypt` under the key returns the JSON from
it. -/
theorem C19_add_stores_ciphertext {σ : Type} (s : Service σ) (u t m : Bytes) (body : Any)
    (json ct : Bytes) (w w1 : σ) (hm : jsonMarshal body = (json, none))
    (he : s.crypt.Encrypt json w = .done ((ct, none), w1)) :
    (s.Add u t body m w =
      (s.dataRepo.AddData u t ct m w1).bind fun r =>
        .done ((if r.1.2.isSome then [] else r.1.1, r.1.2), r.2)) ∧
    (∀ (id : Bytes) (w2 : σ), s.dataRepo.AddData u t ct m w1 = .done ((id, none), w2) →
      s.Add u t body m w = .done ((id, none), w2)) ∧
    (∀ (c : Crypt) (rnd : Entropy) (out : Bytes), c.Encrypt rnd json = .done (out, none) →
      json.length < out.length ∧ out ≠ json) ∧
    (∀ (key : Bytes) (f : Nat → Byte) (W : World), validKeyLength key →
      json.length ≤ gcmMaxPlaintext → W.entropy W.reads = some f →
      W.faults W.statements = none → (∀ r ∈ W.table, r.id ≠ W.ids W.inserts) →
      (appService key).Add u t body m W =
        .done ((W.ids W.inserts, none),
          { W with
            table := W.table ++
              [{ id := W.ids W.inserts, user_id := u, data_type := t,
                 data := B64.std.encode
                   (drawnNonce f ++
                    xorBytes json
                      (keystream (aesGCM key).block (drawnNonce f ++ [0, 0, 0, 1]) json.length) ++
                    (aesGCM key).tag (drawnNonce f)
                      (xorBytes json
                        (keystream (aesGCM key).block (drawnNonce f ++ [0, 0, 0, 1])
                          json.length))),
                 meta := m, is_deleted := false }]
            reads := W.reads + 1
            inserts := W.inserts + 1
            statements := W.statements + 1 }) ∧
      B64.std.encode (sealedBytes key f json) ≠ json ∧
      (NewCrypter key).Decrypt (B64.std.encode (sealedBytes key f json)) =
        .done (json, none)) := by
  have h1 := Add_encrypted s u t m body json ct w w1 hm he
  have hlong : ∀ (c : Crypt) (rnd : Entropy) (out : Bytes),
      c.Encrypt rnd json = .done (out, none) → json.length < out.length ∧ out ≠ json := by
    intro c rnd out ho
    have := Encrypt_longer c rnd json out ho
    refine ⟨this, ?_⟩
    intro e
    rw [e] at this
    exact Nat.lt_irrefl _ this
  refine ⟨h1, ?_, hlong, ?_⟩
  · intro id w2 ha
    rw [h1, ha]
    rfl
  · intro key f W hk hl hent hf hid
    have hj1 : (jsonMarshal body).1 = json := by rw [hm]
    have hj2 : (jsonMarshal body).2 = none := by rw [hm]
    have hadd := appService_Add_eq key W f u t m body hk hj2 (by rw [hj1]; exact hl) hent hf hid
    rw [hj1] at hadd
    exact ⟨hadd, (hlong (NewCrypter key) (some f) _ (Encrypt_eq key f json hk hl)).2,
      Decrypt_sealed key f json hk hl⟩

/-- C19 with the cipher and the repository of the application, at the
request of the test `TestService_Add/Success`, under the key of the cipher
tests and with the nonce 1, 2, ..., 12: the data of the row stored is the
AES-GCM ciphertext in base64, from which `Decrypt` returns the JSON. -/
theorem C19_add_stores_ciphertext_witness :
    (appService (ascii "a16byteslongkey!")).Add (ascii "user123") LogPassDataType
        (.logpass ⟨ascii "user", ascii "password"⟩) (ascii "some meta")
        (World.initial (fun i => byte (i + 1)) (fun _ => ascii "data-id")) =
      .done ((ascii "data-id", none),
        { World.initial (fun i => byte (i + 1)) (fun _ => ascii "data-id") with
          table :=
            [{ id := ascii "data-id", user_id := ascii "user123", data_type := LogPassDataType,
               data := ascii ("AQIDBAUGBwgJCgsMrop8lj0Hl+Di1D55gONSacCJipmTqcPTpuwXX2NdO67q9+u/" ++
                 "0oUpGNmph9SRTWdCKDqCypv3"),
               meta := ascii "some meta", is_deleted := false }]
          reads := 1
          inserts := 1
          statements := 1 }) ∧
    (NewCrypter (ascii "a16byteslongkey!")).Decrypt
        (ascii ("AQIDBAUGBwgJCgsMrop8lj0Hl+Di1D55gONSacCJipmTqcPTpuwXX2NdO67q9+u/" ++
          "0oUpGNmph9SRTWdCKDqCypv3")) =
      .done (ascii "\x7b\"login\":\"user\",\"password\":\"password\"\x7d", none) := by
  have hj : jsonMarshal (.logpass ⟨ascii "user", ascii "password"⟩) =
      (ascii "\x7b\"login\":\"user\",\"password\":\"password\"\x7d", none) := by decide
  have he : B64.std.encode
      (drawnNonce (fun i => byte (i + 1)) ++
        xorBytes (ascii "\x7b\"login\":\"user\",\"password\":\"password\"\x7d")
          (keystream (aesGCM (ascii "a16byteslongkey!")).block
            (drawnNonce (fun i => byte (i + 1)) ++ [0, 0, 0, 1])
            (ascii "\x7b\"login\":\"user\",\"password\":\"password\"\x7d").length) ++
        (aesGCM (ascii "a16byteslongkey!")).tag (drawnNonce (fun i => byte (i + 1)))
          (xorBytes (ascii "\x7b\"login\":\"user\",\"password\":\"password\"\x7d")
            (keystream (aesGCM (ascii "a16byteslongkey!")).block
              (drawnNonce (fun i => byte (i + 1)) ++ [0, 0, 0, 1])
              (ascii "\x7b\"login\":\"user\",\"password\":\"password\"\x7d").length))) =
      ascii ("AQIDBAUGBwgJCgsMrop8lj0Hl+Di1D55gONSacCJipmTqcPTpuwXX2NdO67q9+u/" ++
        "0oUpGNmph9SRTWdCKDqCypv3") := by decide!
  have h := (C19_add_stores_ciphertext (appService (ascii "a16byteslongkey!")) (ascii "user123")
    LogPassDataType (ascii "some meta") (.logpass ⟨ascii "user", ascii "password"⟩)
    (ascii "\x7b\"login\":\"user\",\"password\":\"password\"\x7d")
    (B64.std.encode (sealedBytes (ascii "a16byteslongkey!") (fun i => byte (i + 1))
      (ascii "\x7b\"login\":\"user\",\"password\":\"password\"\x7d")))
    (World.initial (fun i => byte (i + 1)) (fun _ => ascii "data-id"))
    { World.initial (fun i => byte (i + 1)) (fun _ => ascii "data-id") with reads := 1 }
    hj
    (appService_Encrypt_eq (ascii "a16byteslongkey!") _ (fun i => byte (i + 1)) _ (by decide)
      (by decide) rfl)).2.2.2
    (ascii "a16byteslongkey!") (fun i => byte (i + 1))
    (World.initial (fun i => byte (i + 1)) (fun _ => ascii "data-id"))
    (by decide) (by decide) rfl rfl (by intro r hr; simp [World.initial] at hr)
  rw [he] at h
  exact ⟨h.1, by decide!⟩

/-- `Add` at the mocks of the test `TestService_Add/Success`: the calls
recorded are one `Encrypt` of the JSON and one `AddData` with the encrypted
data, and the id is the one `AddData` returned. -/
theorem Add_at_test_mocks :
    (NewService (MockDataRepository
          { Encrypt := (ascii "encrypted data", none), Decrypt := ([], none),
            AddData := (ascii "data-id", none), GetAllDataByUserID := ([], none),
            GetByUserID := (none, none), DeleteByID := none, UpdateData := none })
        (MockCrypt
          { Encrypt := (ascii "encrypted data", none), Decrypt := ([], none),
            AddData := (ascii "data-id", none), GetAllDataByUserID := ([], none),
            GetByUserID := (none, none), DeleteByID := none, UpdateData := none })).Add
      (ascii "user123") LogPassDataType (.logpass ⟨ascii "user", ascii "password"⟩)
      (ascii "some meta") [] =
    .done ((ascii "data-id", none),
      [.Encrypt (jsonMarshal (.logpass ⟨ascii "user", ascii "password"⟩)).1,
       .AddData (ascii "user123") LogPassDataType (ascii "encrypted data")
         (ascii "some meta")]) := by
  decide

/-- C20: `Service.Add` and `Service.Update` return the error of the first
step that fails as it is and go no further. When `json.Marshal` fails, the
world is as it was: neither `Encrypt` nor the repository is called. When
`Encrypt` fails, the world is as `Encrypt` left it: the repository is not
called. When the repository fails, its error and the world it left are
returned. `Add` returns the empty id in each of these cases. -/
theorem C20_first_error_returned {σ : Type} (s : Service σ) (u i t m : Bytes) (body : Any)
    (w : σ) :
    (∀ (j : Bytes) (err : Error), jsonMarshal body = (j, some err) →
      s.Add u t body m w = .done (([], some err), w) ∧
      s.Update u i t body m w = .done (some err, w)) ∧
    (∀ (j ct : Bytes) (err : Error) (w1 : σ), jsonMarshal body = (j, none) →
      s.crypt.Encrypt j w = .done ((ct, some err), w1) →
      s.Add u t body m w = .done (([], some err), w1) ∧
      s.Update u i t body m w = .done (some err, w1)) ∧
    (∀ (j ct id : Bytes) (err : Error) (w1 w2 : σ), jsonMarshal body = (j, none) →
      s.crypt.Encrypt j w = .done ((ct, none), w1) →
      s.dataRepo.AddData u t ct m w1 = .done ((id, some err), w2) →
      s.Add u t body m w = .done (([], some err), w2)) ∧
    (∀ (j ct : Bytes) (err : Error) (w1 w2 : σ), jsonMarshal body = (j, none) →
      s.crypt.Encrypt j w = .done ((ct, none), w1) →
      s.dataRepo.UpdateData u i t ct m w1 = .done (some err, w2) →
      s.Update u i t body m w = .done (some err, w2)) := by
  refine ⟨?_, ?_, ?_, ?_⟩
  · intro j err hm
    exact ⟨Add_marshal_failed s u t m body j err w hm,
      Update_marshal_failed s u i t m body j err w hm⟩
  · intro j ct err w1 hm he
    exact ⟨Add_encrypt_failed s u t m body j ct err w w1 hm he,
      Update_encrypt_failed s u i t m body j ct err w w1 hm he⟩
  · intro j ct id err w1 w2 hm he ha
    rw [Add_encrypted s u t m body j ct w w1 hm he, ha]
    rfl
  · intro j ct err w1 w2 hm he hu
    rw [Update_encrypted s u i t m body j ct w w1 hm he, hu]

/-- C20 at the mocks of the test `TestService_Add/Error in Marshal`, with a
body that `json.Marshal` does not support: no call is recorded. -/
theorem C20_first_error_returned_witness :
    (NewService (MockDataRepository
          { Encrypt := (ascii "encrypted data", none), Decrypt := ([], none),
            AddData := (ascii "data-id", none), GetAllDataByUserID := ([], none),
            GetByUserID := (none, none), DeleteByID := none, UpdateData := none })
        (MockCrypt
          { Encrypt := (ascii "encrypted data", none), Decrypt := ([], none),
            AddData := (ascii "data-id", none), GetAllDataByUserID := ([], none),
            GetByUserID := (none, none), DeleteByID := none, UpdateData := none })).Add
      (ascii "user123") LogPassDataType
      (.other ([], some (.jsonMarshal "json: unsupported type: chan int")))
      (ascii "some meta") [] =
    .done (([], some (.jsonMarshal "json: unsupported type: chan int")), []) :=
  ((C20_first_error_returned _ (ascii "user123") [] LogPassDataType (ascii "some meta")
    (.other ([], some (.jsonMarshal "json: unsupported type: chan int"))) []).1
    [] (.jsonMarshal "json: unsupported type: chan int") rfl).1

end GoKeeper


namespace GoKeeper

/-! ## C21 and C22: the loop of `GetAllData` -/

/-- The response of a record whose data decrypts and parses. -/
theorem toResponse_ok {σ : Type} (s : Service σ) (d : Data) (plain : Bytes) (w w1 : σ)
    (hdec : s.crypt.Decrypt d.Data w = .done ((plain, none), w1))
    (hparse : (ParseJsonData plain d.Typ).2 = none) :
    s.toResponse (some d) w = .done ((some (d.response plain), none), w1) := by
  rcases hp : ParseJsonData plain d.Typ with ⟨parsed, e⟩
  rw [hp] at hparse
  simp only at hparse
  subst hparse
  simp [Service.toResponse, hdec, Run.bind, hp, Data.response]

/-- The response of a record whose data does not decrypt. -/
theorem toResponse_decrypt_failed {σ : Type} (s : Service σ) (d : Data) (plain : Bytes)
    (e : Error) (w w1 : σ)
    (hdec : s.crypt.Decrypt d.Data w = .done ((plain, some e), w1)) :
    s.toResponse (some d) w = .done ((none, some e), w1) := by
  simp [Service.toResponse, hdec, Run.bind]

/-- The response of a record whose data decrypts to a text that does not
parse. -/
theorem toResponse_parse_failed {σ : Type} (s : Service σ) (d : Data) (plain : Bytes)
    (e : Error) (w w1 : σ)
    (hdec : s.crypt.Decrypt d.Data w = .done ((plain, none), w1))
    (hparse : (ParseJsonData plain d.Typ).2 = some e) :
    s.toResponse (some d) w = .done ((none, some e), w1) := by
  rcases hp : ParseJsonData plain d.Typ with ⟨parsed, e2⟩
  rw [hp] at hparse
  simp only at hparse
  subst hparse
  simp [Service.toResponse, hdec, Run.bind, hp]

/-- The loop over records that all decrypt and parse appends their responses
in order. -/
theorem getAllLoop_ok {σ : Type} (s : Service σ) (dec : Bytes → Bytes) :
    ∀ (ds : List Data) (acc : List DataResponse) (w : σ),
      (∀ d ∈ ds, ∀ w2, ∃ w3, s.crypt.Decrypt d.Data w2 = .done ((dec d.Data, none), w3)) →
      (∀ d ∈ ds, (ParseJsonData (dec d.Data) d.Typ).2 = none) →
      ∃ w4, s.getAllLoop (ds.map some) acc w =
        .done ((acc ++ ds.map (fun d => d.response (dec d.Data)), none), w4) := by
  intro ds
  induction ds with
  | nil => intro acc w _ _; exact ⟨w, by simp [Service.getAllLoop]⟩
  | cons d rest ih =>
    intro acc w hdec hparse
    obtain ⟨w3, h3⟩ := hdec d (List.mem_cons_self _ _) w
    obtain ⟨w4, h4⟩ := ih (acc ++ [d.response (dec d.Data)]) w3
      (fun x hx => hdec x (List.mem_cons_of_mem _ hx))
      (fun x hx => hparse x (List.mem_cons_of_mem _ hx))
    refine ⟨w4, ?_⟩
    simp only [List.map_cons, Service.getAllLoop,
      toResponse_ok s d (dec d.Data) w w3 h3 (hparse d (List.mem_cons_self _ _)), Run.bind]
    rw [h4]
    simp

/-- The loop stops at the first record that fails, with its error and
without the responses collected so far. -/
theorem getAllLoop_failed {σ : Type} (s : Service σ) (dec : Bytes → Bytes) (bad : Data)
    (post : List Data) (e : Error)
    (hbad : ∀ w2, ∃ w3, s.toResponse (some bad) w2 = .done ((none, some e), w3)) :
    ∀ (pre : List Data) (acc : List DataResponse) (w : σ),
      (∀ d ∈ pre, ∀ w2, ∃ w3, s.crypt.Decrypt d.Data w2 = .done ((dec d.Data, none), w3)) →
      (∀ d ∈ pre, (ParseJsonData (dec d.Data) d.Typ).2 = none) →
      ∃ w4, s.getAllLoop ((pre ++ bad :: post).map some) acc w = .done (([], some e), w4) := by
  intro pre
  induction pre with
  | nil =>
    intro acc w _ _
    obtain ⟨w3, h3⟩ := hbad w
    exact ⟨w3, by simp [Service.getAllLoop, h3, Run.bind]⟩
  | cons d rest ih =>
    intro acc w hdec hparse
    obtain ⟨w3, h3⟩ := hdec d (List.mem_cons_self _ _) w
    obtain ⟨w4, h4⟩ := ih (acc ++ [d.response (dec d.Data)]) w3
      (fun x hx => hdec x (List.mem_cons_of_mem _ hx))
      (fun x hx => hparse x (List.mem_cons_of_mem _ hx))
    refine ⟨w4, ?_⟩
    simp only [List.cons_append, List.map_cons, Service.getAllLoop,
      toResponse_ok s d (dec d.Data) w w3 h3 (hparse d (List.mem_cons_self _ _)), Run.bind]
    exact h4

/-- C21: for every list of records the repository returns for an owner and a
type, when each record decrypts (to `dec` of its data, whatever the cipher
does to the world) and the text parses under the type of the record,
`GetAllData` returns without an error the list that holds, in the order of
the records, for each record the response with the ID, the Meta and the Type
of the record and with the payload `ParseJsonData` reads from the decrypted
text; so it has the length of the list of records. -/
theorem C21_get_all_in_order {σ : Type} (s : Service σ) (u t : Bytes) (w w1 : σ)
    (ds : List Data) (dec : Bytes → Bytes)
    (hget : s.dataRepo.GetAllDataByUserID u t w = .done ((ds.map some, none), w1))
    (hdec : ∀ d ∈ ds, ∀ w2, ∃ w3, s.crypt.Decrypt d.Data w2 = .done ((dec d.Data, none), w3))
    (hparse : ∀ d ∈ ds, (ParseJsonData (dec d.Data) d.Typ).2 = none) :
    ∃ w4, s.GetAllData u t w =
      .done ((ds.map (fun d =>
        { Data := (ParseJsonData (dec d.Data) d.Typ).1, Meta := d.Meta, Typ := d.Typ,
          ID := d.ID }), none), w4) := by
  obtain ⟨w4, h4⟩ := getAllLoop_ok s dec ds [] w1 hdec hparse
  refine ⟨w4, ?_⟩
  simp only [Service.GetAllData, hget, Run.bind]
  rw [h4]
  rfl

/-- C22: for every list of records the repository returns, if the records
before some record decrypt and parse, and on that record `Decrypt` returns an
error, or returns a text on which `ParseJsonData` returns an error, then
`GetAllData` returns the nil list and this error, whatever the records after
it are: the responses collected before are not returned. -/
theorem C22_get_all_first_error {σ : Type} (s : Service σ) (u t : Bytes) (w w1 : σ)
    (pre post : List Data) (bad : Data) (dec : Bytes → Bytes) (plain : Bytes)
    (pe : Option Error) (e : Error)
    (hget : s.dataRepo.GetAllDataByUserID u t w =
      .done (((pre ++ bad :: post).map some, none), w1))
    (hdec : ∀ d ∈ pre, ∀ w2, ∃ w3, s.crypt.Decrypt d.Data w2 = .done ((dec d.Data, none), w3))
    (hparse : ∀ d ∈ pre, (ParseJsonData (dec d.Data) d.Typ).2 = none)
    (hbad : ∀ w2, ∃ w3, s.crypt.Decrypt bad.Data w2 = .done ((plain, pe), w3))
    (he : pe = some e ∨ (pe = none ∧ (ParseJsonData plain bad.Typ).2 = some e)) :
    ∃ w4, s.GetAllData u t w = .done (([], some e), w4) := by
  have hb : ∀ w2, ∃ w3, s.toResponse (some bad) w2 = .done ((none, some e), w3) := by
    intro w2
    obtain ⟨w3, h3⟩ := hbad w2
    refine ⟨w3, ?_⟩
    rcases he with rfl | ⟨rfl, hp⟩
    · exact toResponse_decrypt_failed s bad plain e w2 w3 h3
    · exact toResponse_parse_failed s bad plain e w2 w3 h3 hp
  obtain ⟨w4, h4⟩ := getAllLoop_failed s dec bad post e hb pre [] w1 hdec hparse
  refine ⟨w4, ?_⟩
  simp only [Service.GetAllData, hget, Run.bind]
  exact h4


/-- C21 at the mocks of the test `TestService_GetAllData/Success`: two
records, each with its own plaintext. -/
theorem C21_get_all_in_order_witness :
    ∃ w4,
      (NewService
          (MockDataRepository
            { Encrypt := ([], none), Decrypt := ([], none), AddData := ([], none),
              GetAllDataByUserID :=
                ([some { Data := ascii "encrypted data 1", Meta := ascii "meta1",
                         Typ := LogPassDataType, ID := ascii "1" },
                  some { Data := ascii "encrypted data 2", Meta := ascii "meta2",
                         Typ := LogPassDataType, ID := ascii "2" }], none),
              GetByUserID := (none, none), DeleteByID := none, UpdateData := none })
          (MockCryptOn (fun _ => none) (fun data =>
            if data = ascii "encrypted data 1" then
              some (ascii "\x7b\"login\": \"user1\", \"password\": \"pass1\"\x7d", none)
            else if data = ascii "encrypted data 2" then
              some (ascii "\x7b\"login\": \"user2\", \"password\": \"pass2\"\x7d", none)
            else none))).GetAllData (ascii "user123") LogPassDataType [] =
      .done (([{ Data := .logpass ⟨ascii "user1", ascii "pass1"⟩, Meta := ascii "meta1",
                 Typ := LogPassDataType, ID := ascii "1" },
               { Data := .logpass ⟨ascii "user2", ascii "pass2"⟩, Meta := ascii "meta2",
                 Typ := LogPassDataType, ID := ascii "2" }], none), w4) := by
  obtain ⟨w4, h⟩ := C21_get_all_in_order
    (NewService
      (MockDataRepository
        { Encrypt := ([], none), Decrypt := ([], none), AddData := ([], none),
          GetAllDataByUserID :=
            ([some { Data := ascii "encrypted data 1", Meta := ascii "meta1",
                     Typ := LogPassDataType, ID := ascii "1" },
              some { Data := ascii "encrypted data 2", Meta := ascii "meta2",
                     Typ := LogPassDataType, ID := ascii "2" }], none),
          GetByUserID := (none, none), DeleteByID := none, UpdateData := none })
      (MockCryptOn (fun _ => none) (fun data =>
        if data = ascii "encrypted data 1" then
          some (ascii "\x7b\"login\": \"user1\", \"password\": \"pass1\"\x7d", none)
        else if data = ascii "encrypted data 2" then
          some (ascii "\x7b\"login\": \"user2\", \"password\": \"pass2\"\x7d", none)
        else none)))
    (ascii "user123") LogPassDataType []
    [MockCall.GetAllDataByUserID (ascii "user123") LogPassDataType]
    [{ Data := ascii "encrypted data 1", Meta := ascii "meta1", Typ := LogPassDataType,
       ID := ascii "1" },
     { Data := ascii "encrypted data 2", Meta := ascii "meta2", Typ := LogPassDataType,
       ID := ascii "2" }]
    (fun data =>
      if data = ascii "encrypted data 1" then
        ascii "\x7b\"login\": \"user1\", \"password\": \"pass1\"\x7d"
      else ascii "\x7b\"login\": \"user2\", \"password\": \"pass2\"\x7d")
    (by rfl)
    (by
      intro d hd w2
      simp only [List.mem_cons, List.mem_singleton, List.not_mem_nil, or_false] at hd
      rcases hd with rfl | rfl
      · exact ⟨_, by rfl⟩
      · exact ⟨_, by rfl⟩)
    (by
      intro d hd
      simp only [List.mem_cons, List.mem_singleton, List.not_mem_nil, or_false] at hd
      rcases hd with rfl | rfl
      · decide!
      · decide!)
  exact ⟨w4, h.trans (congrArg (fun l => Run.done ((l, none), w4)) (by decide!))⟩

/-- C22 at two records of which the second does not decrypt: the response of
the first is not returned. -/
theorem C22_get_all_first_error_witness :
    ∃ w4,
      (NewService
          (MockDataRepository
            { Encrypt := ([], none), Decrypt := ([], none), AddData := ([], none),
              GetAllDataByUserID :=
                ([some { Data := ascii "encrypted data 1", Meta := ascii "meta1",
                         Typ := LogPassDataType, ID := ascii "1" },
                  some { Data := ascii "encrypted data 2", Meta := ascii "meta2",
                         Typ := LogPassDataType, ID := ascii "2" }], none),
              GetByUserID := (none, none), DeleteByID := none, UpdateData := none })
          (MockCryptOn (fun _ => none) (fun data =>
            if data = ascii "encrypted data 1" then
              some (ascii "\x7b\"login\": \"user1\", \"password\": \"pass1\"\x7d", none)
            else if data = ascii "encrypted data 2" then some ([], some .gcmOpen)
            else none))).GetAllData (ascii "user123") LogPassDataType [] =
      .done (([], some .gcmOpen), w4) :=
  C22_get_all_first_error
    (NewService
      (MockDataRepository
        { Encrypt := ([], none), Decrypt := ([], none), AddData := ([], none),
          GetAllDataByUserID :=
            ([some { Data := ascii "encrypted data 1", Meta := ascii "meta1",
                     Typ := LogPassDataType, ID := ascii "1" },
              some { Data := ascii "encrypted data 2", Meta := ascii "meta2",
                     Typ := LogPassDataType, ID := ascii "2" }], none),
          GetByUserID := (none, none), DeleteByID := none, UpdateData := none })
      (MockCryptOn (fun _ => none) (fun data =>
        if data = ascii "encrypted data 1" then
          some (ascii "\x7b\"login\": \"user1\", \"password\": \"pass1\"\x7d", none)
        else if data = ascii "encrypted data 2" then some ([], some .gcmOpen)
        else none)))
    (ascii "user123") LogPassDataType []
    [MockCall.GetAllDataByUserID (ascii "user123") LogPassDataType]
    [{ Data := ascii "encrypted data 1", Meta := ascii "meta1", Typ := LogPassDataType,
       ID := ascii "1" }]
    []
    { Data := ascii "encrypted data 2", Meta := ascii "meta2", Typ := LogPassDataType,
      ID := ascii "2" }
    (fun _ => ascii "\x7b\"login\": \"user1\", \"password\": \"pass1\"\x7d")
    [] (some .gcmOpen) .gcmOpen
    (by rfl)
    (by
      intro d hd w2
      simp only [List.mem_singleton] at hd
      subst hd
      exact ⟨_, by rfl⟩)
    (by
      intro d hd
      simp only [List.mem_singleton] at hd
      subst hd
      decide!)
    (fun w2 => ⟨_, by rfl⟩)
    (Or.inl rfl)

end GoKeeper


namespace GoKeeper

/-! ## C23 and C24: reading and updating a record under a key -/

/-- The condition of the statements of the repository is that the row is a
live record under the key. -/
theorem matchesKey_iff (u i t : Bytes) (r : Row) :
    Row.matchesKey u i t r = true ↔ r.isLive u i t := by
  simp [Row.matchesKey, Row.isLive, and_assoc]

/-- In a table without a live record under the key the lookup finds no
row. -/
theorem find_none_of_no_live (db : Table) (u i t : Bytes)
    (hno : ∀ r ∈ db, ¬ r.isLive u i t) :
    db.find? (Row.matchesKey u i t) = none := by
  rw [List.find?_eq_none]
  intro r hr hm
  exact hno r hr ((matchesKey_iff u i t r).mp hm)

/-- In a table without a live record under the key the statements of the
repository select no row. -/
theorem filter_nil_of_no_live (db : Table) (u i t : Bytes)
    (hno : ∀ r ∈ db, ¬ r.isLive u i t) :
    db.filter (Row.matchesKey u i t) = [] := by
  rw [List.filter_eq_nil_iff]
  intro r hr hm
  exact hno r hr ((matchesKey_iff u i t r).mp hm)

/-- In a table whose ids are distinct, at most one row has a given id among
the rows a condition selects that fixes the id. -/
theorem filter_length_le_one (db : Table) (i : Bytes) (p : Row → Bool)
    (hp : ∀ r, p r = true → r.id = i) (hnd : (db.map Row.id).Nodup) :
    (db.filter p).length ≤ 1 := by
  induction db with
  | nil => simp
  | cons r rest ih =>
    rw [List.map_cons, List.nodup_cons] at hnd
    by_cases hr : p r = true
    · have hrest : rest.filter p = [] := by
        rw [List.filter_eq_nil_iff]
        intro x hx hpx
        apply hnd.1
        rw [hp r hr, ← hp x hpx]
        exact List.mem_map_of_mem Row.id hx
      simp [List.filter_cons, hr, hrest]
    · simp only [List.filter_cons, hr]
      exact ih hnd.2

/-- C23: for every key (owner, id, type), in a table that holds no live
record under all three, whatever it holds under another owner, another type
or another id, `GetByID` of the service over the Postgres repository returns
the nil response and `ErrDataNotFound`, when the database executes the
query. The world is as the query left it, whatever the cipher is: it is not
invoked. -/
theorem C23_get_by_id_not_found (c : CryptInterface World) (u i t : Bytes) (w : World)
    (hdrv : w.faults w.statements = none)
    (hno : ∀ r ∈ w.table,
      ¬ (r.user_id = u ∧ r.id = i ∧ r.data_type = t ∧ r.is_deleted = false)) :
    (NewService pgRepository c).GetByID u i t w =
      .done ((none, some .ErrDataNotFound), { w with statements := w.statements + 1 }) := by
  have hf := find_none_of_no_live w.table u i t hno
  simp [Service.GetByID, NewService, pgRepository, postgres.DataRepository.GetByUserID, hdrv, hf,
    Run.bind]

/-- C23 at a table that holds the id under another owner, and the key under
a deleted record: the answer is the one for the empty table. -/
theorem C23_get_by_id_not_found_witness :
    (appService (ascii "a16byteslongkey!")).GetByID (ascii "bob") (ascii "X") (ascii "text")
      { World.initial (fun _ => 0) (fun _ => ascii "Y") with
        table := [⟨ascii "X", ascii "alice", ascii "text", ascii "c1", ascii "m1", false⟩,
                  ⟨ascii "X", ascii "bob", ascii "card", ascii "c2", ascii "m2", false⟩,
                  ⟨ascii "X", ascii "bob", ascii "text", ascii "c3", ascii "m3", true⟩] } =
    .done ((none, some .ErrDataNotFound),
      { World.initial (fun _ => 0) (fun _ => ascii "Y") with
        table := [⟨ascii "X", ascii "alice", ascii "text", ascii "c1", ascii "m1", false⟩,
                  ⟨ascii "X", ascii "bob", ascii "card", ascii "c2", ascii "m2", false⟩,
                  ⟨ascii "X", ascii "bob", ascii "text", ascii "c3", ascii "m3", true⟩],
        statements := 1 }) :=
  C23_get_by_id_not_found (NewCrypter (ascii "a16byteslongkey!")).iface (ascii "bob")
    (ascii "X") (ascii "text")
    { World.initial (fun _ => 0) (fun _ => ascii "Y") with
      table := [⟨ascii "X", ascii "alice", ascii "text", ascii "c1", ascii "m1", false⟩,
                ⟨ascii "X", ascii "bob", ascii "card", ascii "c2", ascii "m2", false⟩,
                ⟨ascii "X", ascii "bob", ascii "text", ascii "c3", ascii "m3", true⟩] }
    rfl (by decide)

/-- What `Update` of the application's service returns in a world whose
entropy source works and whose database executes the statement, for a
payload whose JSON is within the limit of GCM. -/
theorem appService_Update_eq (key : Bytes) (w : World) (f : Nat → Byte) (u i t m : Bytes)
    (p : Any) (hk : validKeyLength key) (hm : (jsonMarshal p).2 = none)
    (hl : (jsonMarshal p).1.length ≤ gcmMaxPlaintext)
    (he : w.entropy w.reads = some f) (hf : w.faults w.statements = none) :
    (appService key).Update u i t p m w =
      .done ((postgres.DataRepository.UpdateData w.table none u i t
          (B64.std.encode (sealedBytes key f (jsonMarshal p).1)) m).1,
        { w with
          table := (postgres.DataRepository.UpdateData w.table none u i t
            (B64.std.encode (sealedBytes key f (jsonMarshal p).1)) m).2
          reads := w.reads + 1
          statements := w.statements + 1 }) := by
  rcases hjm : jsonMarshal p with ⟨json, e⟩
  rw [hjm] at hm hl
  simp only at hm hl
  subst hm
  simp only [Service.Update, hjm, appService, NewService, Crypt.iface, he,
    Encrypt_eq key f json hk hl, Run.bind, pgRepository, hf]
  all_goals
    rcases postgres.DataRepository.UpdateData w.table none u i t
      (B64.std.encode (sealedBytes key f json)) m with ⟨_ | e, db⟩ <;> rfl


/-- `UpdateData` on a table that holds a live record under the key. -/
theorem UpdateData_live (db : Table) (u i t d m : Bytes) (hlive : ∃ r ∈ db, r.isLive u i t) :
    postgres.DataRepository.UpdateData db none u i t d m =
      (none, db.map (fun r => if r.isLive u i t then { r with data := d, meta := m } else r)) := by
  obtain ⟨r, hr, hl⟩ := hlive
  have hne : ¬ (db.filter (Row.matchesKey u i t)).length = 0 := by
    intro h0
    have hnil := List.length_eq_zero.mp h0
    rw [List.filter_eq_nil_iff] at hnil
    exact hnil r hr ((matchesKey_iff u i t r).mpr hl)
  unfold postgres.DataRepository.UpdateData
  simp only [if_neg hne]
  congr 1
  apply List.map_congr_left
  intro x _
  by_cases hx : x.isLive u i t
  · rw [if_pos hx, if_pos ((matchesKey_iff u i t x).mpr hx)]
  · rw [if_neg hx, if_neg (fun h => hx ((matchesKey_iff u i t x).mp h))]

/-- `UpdateData` on a table that holds no live record under the key. -/
theorem UpdateData_no_live (db : Table) (u i t d m : Bytes) (hno : ∀ r ∈ db, ¬ r.isLive u i t) :
    postgres.DataRepository.UpdateData db none u i t d m = (some .ErrDataNotFound, db) := by
  unfold postgres.DataRepository.UpdateData
  simp [filter_nil_of_no_live db u i t hno]

/-- C24: for every `Update(owner, id, type, payload, meta)` of the
application's service, in a world whose entropy source and database work,
under a key of valid length and for a payload that serialises within the
limit of GCM. When the table holds a live record under (owner, id, type),
`Update` succeeds, and the table after it is the table before it in which
each live record under the key has the new ciphertext, the encrypted JSON of
the payload, as data and the new meta, its id, owner, type and deleted flag
being as before, and every other row is as before; when the ids of the table
are distinct, that is exactly one record. When the table holds no live
record under the key, `Update` returns `ErrDataNotFound` and the table is as
before. -/
theorem C24_update_frame (key : Bytes) (w : World) (f : Nat → Byte) (u i t m : Bytes) (p : Any)
    (hk : validKeyLength key) (hm : (jsonMarshal p).2 = none)
    (hl : (jsonMarshal p).1.length ≤ gcmMaxPlaintext)
    (he : w.entropy w.reads = some f) (hf : w.faults w.statements = none) :
    ((∃ r ∈ w.table, r.isLive u i t) →
      ∃ w1, (appService key).Update u i t p m w = .done (none, w1) ∧
        w1.table = w.table.map (fun r =>
          if r.isLive u i t then
            { id := r.id, user_id := r.user_id, data_type := r.data_type,
              data := B64.std.encode (sealedBytes key f (jsonMarshal p).1), meta := m,
              is_deleted := r.is_deleted }
          else r) ∧
        ((w.table.map Row.id).Nodup →
          (w.table.filter (fun r => decide (r.isLive u i t))).length = 1)) ∧
    ((∀ r ∈ w.table, ¬ r.isLive u i t) →
      ∃ w1, (appService key).Update u i t p m w = .done (some .ErrDataNotFound, w1) ∧
        w1.table = w.table) := by
  have hupd := appService_Update_eq key w f u i t m p hk hm hl he hf
  constructor
  · intro hlive
    rw [UpdateData_live w.table u i t _ m hlive] at hupd
    refine ⟨_, hupd, rfl, ?_⟩
    intro hnd
    have hle := filter_length_le_one w.table i (fun r => decide (r.isLive u i t))
      (fun r hr => (of_decide_eq_true hr).2.1) hnd
    obtain ⟨r, hr, hlv⟩ := hlive
    have hpos : 0 < (w.table.filter (fun r => decide (r.isLive u i t))).length :=
      List.length_pos_of_mem (List.mem_filter.mpr ⟨hr, decide_eq_true hlv⟩)
    omega
  · intro hno
    rw [UpdateData_no_live w.table u i t _ m hno] at hupd
    exact ⟨_, hupd, rfl⟩


/-- C24 at a table of two records of `alice` and one of `bob` with the same
type: the update of the record `X` of `alice` replaces its data and meta and
nothing else. -/
theorem C24_update_frame_witness :
    ∃ w1,
      (appService (ascii "a16byteslongkey!")).Update (ascii "alice") (ascii "X") (ascii "text")
        (.text ⟨ascii "hello"⟩) (ascii "note2")
        { World.initial (fun _ => 0) (fun _ => ascii "Z") with
          table := [⟨ascii "X", ascii "alice", ascii "text", ascii "c1", ascii "m1", false⟩,
                    ⟨ascii "Y", ascii "alice", ascii "text", ascii "c2", ascii "m2", false⟩,
                    ⟨ascii "W", ascii "bob", ascii "text", ascii "c3", ascii "m3", false⟩] } =
        .done (none, w1) ∧
      w1.table =
        [⟨ascii "X", ascii "alice", ascii "text",
          B64.std.encode (sealedBytes (ascii "a16byteslongkey!") (fun _ => 0)
            (jsonMarshal (.text ⟨ascii "hello"⟩)).1), ascii "note2", false⟩,
         ⟨ascii "Y", ascii "alice", ascii "text", ascii "c2", ascii "m2", false⟩,
         ⟨ascii "W", ascii "bob", ascii "text", ascii "c3", ascii "m3", false⟩] := by
  obtain ⟨w1, h1, h2, _⟩ := (C24_update_frame (ascii "a16byteslongkey!")
    { World.initial (fun _ => 0) (fun _ => ascii "Z") with
      table := [⟨ascii "X", ascii "alice", ascii "text", ascii "c1", ascii "m1", false⟩,
                ⟨ascii "Y", ascii "alice", ascii "text", ascii "c2", ascii "m2", false⟩,
                ⟨ascii "W", ascii "bob", ascii "text", ascii "c3", ascii "m3", false⟩] }
    (fun _ => 0) (ascii "alice") (ascii "X") (ascii "text") (ascii "note2")
    (.text ⟨ascii "hello"⟩) (by decide) rfl (by decide) rfl rfl).1
    ⟨⟨ascii "X", ascii "alice", ascii "text", ascii "c1", ascii "m1", false⟩,
      List.mem_cons_self _ _, by decide⟩
  exact ⟨w1, h1, h2.trans (by rfl)⟩

end GoKeeper


namespace GoKeeper

/-! ## C25 to C28: inputs and keys the cipher does not accept -/

/-- `Decrypt` under a key of valid length, on an input that decodes to fewer
bytes than a nonce has: the slice expressions panic. -/
theorem Decrypt_short_panics (key input decoded : Bytes) (hk : validKeyLength key)
    (hd : B64.std.decode input = (decoded, none)) (hlen : decoded.length < 12) :
    (NewCrypter key).Decrypt input = .panic "runtime error: slice bounds out of range" := by
  have hk2 : key.length = 16 ∨ key.length = 24 ∨ key.length = 32 := hk
  simp [Crypt.Decrypt, NewCrypter, hd, aesNewCipher, hk2, cipherNewGCM, hlen]

/-- `Decrypt` under a key of valid length, on an input that decodes to a
nonce and fewer bytes than a tag has: the error of `Open`. -/
theorem Decrypt_no_tag (key input decoded : Bytes) (hk : validKeyLength key)
    (hd : B64.std.decode input = (decoded, none)) (h12 : 12 ≤ decoded.length)
    (h28 : decoded.length < 28) :
    (NewCrypter key).Decrypt input = .done ([], some .gcmOpen) := by
  have hk2 : key.length = 16 ∨ key.length = 24 ∨ key.length = 32 := hk
  have hnot : ¬ decoded.length < 12 := by omega
  have hn : ¬ ¬ min 12 decoded.length = 12 := by omega
  have ht : decoded.length - 12 < 16 := by omega
  simp [Crypt.Decrypt, NewCrypter, hd, aesNewCipher, hk2, cipherNewGCM, hnot, GCM.Open, ht,
    Run.bind, h12]

/-- C25, what the code does: under a key of valid length `Decrypt` panics on
the empty input, and on an input that decodes to eight bytes, at the slice
expressions that split the decoded bytes into nonce and ciphertext; on an
input that decodes to twelve bytes, a nonce without a tag, it returns the
error of `Open` and the empty string. -/
theorem C25_short_input_panics :
    (NewCrypter (ascii "a16byteslongkey!")).Decrypt [] =
      .panic "runtime error: slice bounds out of range" ∧
    B64.std.decode (ascii "AAAAAAAAAAA=") = (List.replicate 8 0, none) ∧
    (NewCrypter (ascii "a16byteslongkey!")).Decrypt (ascii "AAAAAAAAAAA=") =
      .panic "runtime error: slice bounds out of range" ∧
    B64.std.decode (ascii "AAAAAAAAAAAAAAAA") = (List.replicate 12 0, none) ∧
    (NewCrypter (ascii "a16byteslongkey!")).Decrypt (ascii "AAAAAAAAAAAAAAAA") =
      .done ([], some .gcmOpen) := by
  refine ⟨by decide, by decide, by decide, by decide, by decide⟩

/-- A byte that is not a line end stays in the input when the leading line
ends are skipped. -/
theorem skipNewlines_mem (b : Byte) (hb : isNewline b = false) :
    ∀ s : Bytes, b ∈ s → b ∈ skipNewlines s := by
  intro s
  induction s with
  | nil => intro h; exact h
  | cons c rest ih =>
    intro h
    unfold skipNewlines
    by_cases hc : isNewline c = true
    · rw [if_pos hc]
      rcases List.mem_cons.mp h with rfl | h2
      · rw [hb] at hc; exact absurd hc (by decide)
      · exact ih h2
    · rw [if_neg hc]
      exact h

/-- The decoder of the standard encoding rejects an input that holds a byte
that is neither of the alphabet nor the padding character nor a line end. -/
theorem decodeLoop_foreign_byte (b : Byte) (hn : isNewline b = false)
    (hd : B64.std.decChar b = none) (hp : b.val ≠ 61) :
    ∀ (s : Bytes) (acc : List Nat), b ∈ s → (B64.std.decodeLoop acc s).2 ≠ none := by
  intro s
  induction s with
  | nil => intro acc h; exact absurd h (List.not_mem_nil _)
  | cons c rest ih =>
    intro acc h
    unfold B64.decodeLoop
    by_cases hc : isNewline c = true
    · rw [if_pos hc]
      rcases List.mem_cons.mp h with rfl | h2
      · rw [hn] at hc; exact absurd hc (by decide)
      · exact ih acc h2
    · rw [if_neg hc]
      rcases hdc : B64.std.decChar c with _ | v
      · simp only
        by_cases h61 : c.val = 61 ∧ B64.std.padded = true
        · have hbc : b ≠ c := fun e => hp (e ▸ h61.1)
          have hrest : b ∈ rest := by
            rcases List.mem_cons.mp h with e | h2
            · exact absurd e hbc
            · exact h2
          have hsk := skipNewlines_mem b hn rest hrest
          rw [if_pos h61]
          by_cases h2 : acc.length < 2
          · rw [if_pos h2]; simp
          · rw [if_neg h2]
            by_cases h3 : acc.length = 2
            · rw [if_pos h3]
              rcases hs : skipNewlines rest with _ | ⟨c2, rest2⟩
              · simp
              · simp only
                by_cases hc2 : c2.val ≠ 61
                · rw [if_pos hc2]; simp
                · rw [if_neg hc2]
                  rw [hs] at hsk
                  have hb2 : b ∈ rest2 := by
                    rcases List.mem_cons.mp hsk with e | h4
                    · exact absurd (e ▸ (not_not.mp hc2)) hp
                    · exact h4
                  have hsk2 := skipNewlines_mem b hn rest2 hb2
                  have hne : ¬ skipNewlines rest2 = [] := by
                    intro e
                    rw [e] at hsk2
                    exact absurd hsk2 (List.not_mem_nil _)
                  rw [if_neg hne]; simp
            · rw [if_neg h3]
              have hne : ¬ skipNewlines rest = [] := by
                intro e
                rw [e] at hsk
                exact absurd hsk (List.not_mem_nil _)
              rw [if_neg hne]; simp
        · rw [if_neg h61]; simp
      · simp only
        have hrest : b ∈ rest := by
          rcases List.mem_cons.mp h with e | h2
          · rw [e, hdc] at hd; exact absurd hd (by simp)
          · exact h2
        by_cases h3 : acc.length = 3
        · rw [if_pos h3]
          exact ih [] hrest
        · rw [if_neg h3]
          exact ih _ hrest

/-- `Decrypt` returns the error of the decoder, for any key. -/
theorem Decrypt_decode_failed (c : Crypt) (input : Bytes) (e : Error)
    (h : (B64.std.decode input).2 = some e) : c.Decrypt input = .done ([], some e) := by
  rcases hd : B64.std.decode input with ⟨d, e2⟩
  rw [hd] at h
  simp only at h
  subst h
  simp [Crypt.Decrypt, hd]

/-- C26: for every byte input that is not valid standard base64, that is
which `StdEncoding.DecodeString` rejects, as it does every input that holds
a byte that is neither of the alphabet nor `=` nor a line end, `Decrypt`
returns an error, the one of the decoder, and the empty string, for any
key. -/
theorem C26_invalid_base64_rejected (c : Crypt) (input : Bytes)
    (h : (B64.std.decode input).2 ≠ none ∨
      ∃ b ∈ input, isNewline b = false ∧ B64.std.decChar b = none ∧ b.val ≠ 61) :
    ∃ e, (B64.std.decode input).2 = some e ∧ c.Decrypt input = .done ([], some e) := by
  have hne : (B64.std.decode input).2 ≠ none := by
    rcases h with h | ⟨b, hb, hn, hd, hp⟩
    · exact h
    · exact decodeLoop_foreign_byte b hn hd hp input [] hb
  rcases he : (B64.std.decode input).2 with _ | e
  · exact absurd he hne
  · exact ⟨e, rfl, Decrypt_decode_failed c input e he⟩

/-- C26 at the input of the test `TestDecryptWithInvalidData`, which holds
spaces. -/
theorem C26_invalid_base64_rejected_witness :
    ∃ e, (B64.std.decode (ascii "invalid base64 data")).2 = some e ∧
      (NewCrypter (ascii "a16byteslongkey!")).Decrypt (ascii "invalid base64 data") =
        .done ([], some e) :=
  C26_invalid_base64_rejected (NewCrypter (ascii "a16byteslongkey!"))
    (ascii "invalid base64 data") (Or.inr ⟨32, by decide, by decide, by decide, by decide⟩)

/-- `Encrypt` under a key of a length AES does not accept. -/
theorem Encrypt_invalid_key (key : Bytes) (hk : ¬ validKeyLength key) (rnd : Entropy)
    (p : Bytes) : (NewCrypter key).Encrypt rnd p = .done ([], some (.aesKeySize key.length)) := by
  have hk2 : ¬ (key.length = 16 ∨ key.length = 24 ∨ key.length = 32) := hk
  simp only [Crypt.Encrypt, NewCrypter, aesNewCipher, if_neg hk2]

/-- `Decrypt` under a key of a length AES does not accept, on an input the
decoder accepts. -/
theorem Decrypt_invalid_key (key : Bytes) (hk : ¬ validKeyLength key) (input : Bytes)
    (hd : (B64.std.decode input).2 = none) :
    (NewCrypter key).Decrypt input = .done ([], some (.aesKeySize key.length)) := by
  have hk2 : ¬ (key.length = 16 ∨ key.length = 24 ∨ key.length = 32) := hk
  rcases hdd : B64.std.decode input with ⟨d, e2⟩
  rw [hdd] at hd
  simp only at hd
  subst hd
  simp only [Crypt.Decrypt, NewCrypter, hdd, aesNewCipher, if_neg hk2]

/-- C27: for every secret key whose length in bytes is not 16, 24 or 32 and
every plaintext, whatever the entropy source delivers, `Encrypt` returns the
empty byte slice and an error, the `KeySizeError` of `aes.NewCipher`; and
`Decrypt` of every input that is valid base64 returns the empty string and
the same error. -/
theorem C27_invalid_key_rejected (key : Bytes) (hk : ¬ validKeyLength key) :
    (∀ (rnd : Entropy) (p : Bytes),
      (NewCrypter key).Encrypt rnd p = .done ([], some (.aesKeySize key.length))) ∧
    (∀ input : Bytes, (B64.std.decode input).2 = none →
      (NewCrypter key).Decrypt input = .done ([], some (.aesKeySize key.length))) :=
  ⟨fun rnd p => Encrypt_invalid_key key hk rnd p,
   fun input hd => Decrypt_invalid_key key hk input hd⟩

/-- C27 at the key and the plaintext of the test
`TestEncryptWithInvalidKey`. -/
theorem C27_invalid_key_rejected_witness :
    ¬ validKeyLength (ascii "shortkey") ∧
    (NewCrypter (ascii "shortkey")).Encrypt (some (fun _ => 0))
      (ascii "This is a secret message.") = .done ([], some (.aesKeySize 8)) :=
  ⟨by decide,
   (C27_invalid_key_rejected (ascii "shortkey") (by decide)).1 (some (fun _ => 0))
     (ascii "This is a secret message.")⟩

/-- C28, what the code does: for every secret key whose length is not 16, 24
or 32 bytes, `NewCrypter` returns a cipher that holds the key, and `NewApp`
with a database returns the application without an error; the length
surfaces at use: every call of `Encrypt` returns an error, and so does every
call of `Decrypt`. -/
theorem C28_key_length_checked_at_use (key : Bytes) (hk : ¬ validKeyLength key) :
    (NewCrypter key).SecretKey = key ∧
    (∀ dsn : Bytes, dsn ≠ [] →
      (NewApp { DatabaseDSN := dsn, SecretHash := key } none).2 = none ∧
      (NewApp { DatabaseDSN := dsn, SecretHash := key } none).1.isSome = true) ∧
    (∀ (rnd : Entropy) (p : Bytes),
      (NewCrypter key).Encrypt rnd p = .done ([], some (.aesKeySize key.length))) ∧
    (∀ input : Bytes, ∃ e, (NewCrypter key).Decrypt input = .done ([], some e)) := by
  refine ⟨rfl, ?_, fun rnd p => Encrypt_invalid_key key hk rnd p, ?_⟩
  · intro dsn hdsn
    simp [NewApp, hdsn]
  · intro input
    rcases hd : (B64.std.decode input).2 with _ | e
    · exact ⟨_, Decrypt_invalid_key key hk input hd⟩
    · exact ⟨e, Decrypt_decode_failed _ input e hd⟩

/-- C28 at the key `shortkey`. -/
theorem C28_key_length_checked_at_use_witness :
    ¬ validKeyLength (ascii "shortkey") ∧
    (NewCrypter (ascii "shortkey")).Encrypt (some (fun _ => 0)) (ascii "test data") =
      .done ([], some (.aesKeySize 8)) :=
  ⟨by decide,
   (C28_key_length_checked_at_use (ascii "shortkey") (by decide)).2.2.1 (some (fun _ => 0))
     (ascii "test data")⟩

/-- C28 as stated fails: with the secret `shortkey`, of eight bytes,
`NewApp` returns an application and no error, its vault service is built, and
the first `Add` through that service is where the error of the key length
appears. -/
theorem C28_construction_accepts_short_key :
    (NewApp { DatabaseDSN := ascii "postgres://keeper", SecretHash := ascii "shortkey" } none).2 =
      none ∧
    ((NewApp { DatabaseDSN := ascii "postgres://keeper", SecretHash := ascii "shortkey" }
      none).1.bind (fun app => app.dataService)).isSome = true ∧
    ((appService (ascii "shortkey")).Add (ascii "u1") (ascii "text") (.text ⟨ascii "hello"⟩)
      (ascii "note") (World.initial (fun _ => 0) (fun _ => ascii "X"))).value =
      some ([], some (.aesKeySize 8)) := by
  refine ⟨by decide, by decide, by decide⟩

end GoKeeper


namespace GoKeeper

/-! ## C29: the body `null` -/

/-- The body `null` decodes without an error and leaves the user nil. -/
theorem decodeUser_null (names : UserJSON) : decodeUser names (ascii "null", none) = (none, none) := by
  have h : decodeFirstValue (ascii "null", none) = (some .null, none) := by
    have hp : parseValue ((ascii "null").length + 1) 0 (ascii "null") = some (.null, []) := by
      have hl := parseValue_null_lit ((ascii "null").length) 0 []
      simpa using hl
    simp only [decodeFirstValue, hp]
  simp only [decodeUser, h, User.decodePtr]


/-- C29, what the code does: the body `null` decodes into the user pointer
without an error and leaves it nil, whatever the JSON names of the fields of
a user are; `Register` hands the nil user to `CreateUser` and `Authorize`
hands it to `GetUser`, which panic when they read its login: the handlers
write no status code. -/
theorem C29_null_body_panics {σ : Type} (names : UserJSON) (H : PasswordHashing σ)
    (key : Bytes) (now : Nat) (h : UserHandler σ) (ctx : Context)
    (params : List (Bytes × Bytes)) (cookies : List Cookie) (w : σ) :
    decodeUser names (ascii "null", none) = (none, none) ∧
    h.Register names H key now
      { ctx := ctx, URLParams := params, Body := (ascii "null", none), Cookies := cookies } w =
      .panic "invalid memory address or nil pointer dereference" ∧
    h.Authorize names H key now
      { ctx := ctx, URLParams := params, Body := (ascii "null", none), Cookies := cookies } w =
      .panic "invalid memory address or nil pointer dereference" := by
  refine ⟨decodeUser_null names, ?_, ?_⟩
  · simp only [UserHandler.Register, decodeUser_null names, user.Service.CreateUser, Run.bind]
  · simp only [UserHandler.Authorize, decodeUser_null names, user.Service.GetUser, Run.bind]

/-! ## C30: the status codes for a missing record -/

/-- With the sentinel as the first argument, `errors.Is` holds exactly for
the sentinel itself. -/
theorem errorsIs_sentinel_first (e : Option Error) :
    errorsIs (some .ErrDataNotFound) e = true ↔ e = some .ErrDataNotFound := by
  rcases e with _ | e
  · simp [errorsIs]
  · simp only [errorsIs, Error.Is, beq_iff_eq, Option.some.injEq]
    exact eq_comm

/-- What the `Update` handler answers after the call of the service, for a
request with a valid id and a body that holds a valid payload: 404 exactly
when the service returned the sentinel `ErrDataNotFound` itself, 500 for
every other error. -/
theorem Update_status {σ : Type} (h : DataHandler σ) (r : Request) (w w1 : σ) (body : Bytes)
    (dataBody : handlers.Data) (e : Option Error)
    (hid : IsValidUUID (r.URLParam (ascii "dataID")) = true)
    (hbody : r.Body = (body, none))
    (hparse : parseDataRequest body (r.URLParam (ascii "type")) = (some dataBody, none))
    (hvalid : dataBody.Valid = true)
    (hupd : h.dataService.Update (context.GetUserID r.ctx) (r.URLParam (ascii "dataID"))
      (r.URLParam (ascii "type")) dataBody.GetData dataBody.GetMeta w = .done (e, w1)) :
    (e = some .ErrDataNotFound → h.Update r w = .done (Response.status 404, w1)) ∧
    (∀ err, e = some err → err ≠ .ErrDataNotFound →
      h.Update r w = .done (Response.status 500, w1)) := by
  constructor
  · intro he
    subst he
    simp [DataHandler.Update, hid, hbody, hparse, hvalid, hupd, Run.bind, errorsIs, Error.Is]
  · intro err he hne
    subst he
    have h1 : errorsIs (some .ErrDataNotFound) (some err) = false := by
      rw [Bool.eq_false_iff]
      intro h2
      have := (errorsIs_sentinel_first (some err)).mp h2
      exact hne (Option.some.inj this)
    simp [DataHandler.Update, hid, hbody, hparse, hvalid, hupd, Run.bind, h1]

/-- What the `DeleteByID` handler answers after the call of the service, for
a request with a valid id: 404 exactly when `errors.Is(err,
ErrDataNotFound)` holds. -/
theorem DeleteByID_status {σ : Type} (h : DataHandler σ) (r : Request) (w w1 : σ)
    (e : Option Error)
    (hid : IsValidUUID (r.URLParam (ascii "dataID")) = true)
    (hdel : h.dataService.DeleteByID (context.GetUserID r.ctx) (r.URLParam (ascii "dataID"))
      (r.URLParam (ascii "type")) w = .done (e, w1)) :
    (errorsIs e (some .ErrDataNotFound) = true →
      h.DeleteByID r w = .done (Response.status 404, w1)) ∧
    (errorsIs e (some .ErrDataNotFound) = false → (h.DeleteByID r w).value ≠ some (Response.status 404)) := by
  constructor
  · intro he
    simp [DataHandler.DeleteByID, hid, hdel, Run.bind, he]
  · intro he
    rcases e with _ | err
    · simp [DataHandler.DeleteByID, hid, hdel, Run.bind, he, Run.value, Response.status]
    · simp [DataHandler.DeleteByID, hid, hdel, Run.bind, he, Run.value, Response.status]


/-- What the `GeByID` handler answers after the call of the service, for a
request with a valid id: 404 exactly when `errors.Is(err, ErrDataNotFound)`
holds. -/
theorem GeByID_status {σ : Type} (h : DataHandler σ) (r : Request) (w w1 : σ)
    (resp : Option DataResponse) (e : Option Error)
    (hid : IsValidUUID (r.URLParam (ascii "dataID")) = true)
    (hget : h.dataService.GetByID (context.GetUserID r.ctx) (r.URLParam (ascii "dataID"))
      (r.URLParam (ascii "type")) w = .done ((resp, e), w1)) :
    (errorsIs e (some .ErrDataNotFound) = true →
      h.GeByID r w = .done (Response.status 404, w1)) ∧
    (errorsIs e (some .ErrDataNotFound) = false →
      (h.GeByID r w).value ≠ some (Response.status 404)) := by
  constructor
  · intro he
    simp [DataHandler.GeByID, hid, hget, Run.bind, he]
  · intro he
    rcases e with _ | err
    · rcases resp with _ | d
      · simp [DataHandler.GeByID, hid, hget, Run.bind, he, Run.value, Response.status]
      · simp only [DataHandler.GeByID, hid, hget, Run.bind, he, Bool.not_true,
          Bool.false_eq_true, if_false, Option.isSome_none]
        rcases d.marshal with ⟨out, _ | e2⟩
        all_goals simp [Run.value, Response.status]
    · simp [DataHandler.GeByID, hid, hget, Run.bind, he, Run.value, Response.status]

/-- The payload of a request body serialises: it is one of the four payload
structs. -/
theorem jsonMarshal_GetData (d : handlers.Data) : (jsonMarshal d.GetData).2 = none := by
  cases d <;> rfl

/-- The errors of `Encrypt` are not the sentinel of the repository. -/
theorem Encrypt_error_not_sentinel (c : Crypt) (rnd : Entropy) (p out : Bytes) (err : Error)
    (h : c.Encrypt rnd p = .done (out, some err)) : err.Is .ErrDataNotFound = false := by
  unfold Crypt.Encrypt at h
  rcases h1 : aesNewCipher c.SecretKey with e1 | block
  · rw [h1] at h
    simp only [Run.done.injEq, Prod.mk.injEq, Option.some.injEq] at h
    unfold aesNewCipher at h1
    split_ifs at h1
    simp only [Except.error.injEq] at h1
    rw [← h.2, ← h1]
    rfl
  · rw [h1] at h
    simp only at h
    rcases h2 : cipherNewGCM block with e2 | gcm
    · rw [h2] at h
      simp only [Run.done.injEq, Prod.mk.injEq, Option.some.injEq] at h
      unfold cipherNewGCM at h2
      split_ifs at h2
      simp only [Except.error.injEq] at h2
      rw [← h.2, ← h2]
      rfl
    · rw [h2] at h
      simp only at h
      rcases h3 : randRead rnd gcm.nonceSize with ⟨nonce, _ | e3⟩
      · rw [h3] at h
        simp only at h
        rcases hs : gcm.Seal nonce nonce p with sealed | msg
        · rw [hs] at h; simp [Run.bind] at h
        · rw [hs] at h; simp [Run.bind] at h
      · rw [h3] at h
        simp only [Run.done.injEq, Prod.mk.injEq, Option.some.injEq] at h
        unfold randRead at h3
        cases rnd with
        | none =>
          simp only [Prod.mk.injEq, Option.some.injEq] at h3
          rw [← h.2, ← h3.2]
          rfl
        | some f => simp at h3

/-- The errors `Update` of the application's service returns for the payload
of a request, when the errors of the database driver are not the sentinel of
the repository: none, the sentinel `ErrDataNotFound` itself, or an error for
which `errors.Is(err, ErrDataNotFound)` does not hold. -/
theorem appService_Update_errors (key u i t m : Bytes) (d : handlers.Data) (w w1 : World)
    (e : Option Error)
    (hdrv : ∀ err, w.faults w.statements = some err → err.Is .ErrDataNotFound = false)
    (hupd : (appService key).Update u i t d.GetData m w = .done (e, w1)) :
    e = none ∨ e = some .ErrDataNotFound ∨
      ∃ err, e = some err ∧ err ≠ .ErrDataNotFound ∧ err.Is .ErrDataNotFound = false := by
  have hj := jsonMarshal_GetData d
  rcases hm : jsonMarshal d.GetData with ⟨json, e0⟩
  rw [hm] at hj
  simp only at hj
  subst hj
  simp only [Service.Update, hm, appService, NewService, Crypt.iface] at hupd
  rcases henc : (NewCrypter key).Encrypt (w.entropy w.reads) json with ⟨ct, _ | e1⟩ | msg
  · rw [henc] at hupd
    simp only [Run.bind, pgRepository] at hupd
    unfold postgres.DataRepository.UpdateData at hupd
    rcases hf : w.faults w.statements with _ | e2
    · rw [hf] at hupd
      simp only at hupd
      split_ifs at hupd
      all_goals simp only [Run.done.injEq, Prod.mk.injEq] at hupd
      · right; left; exact hupd.1.symm
      · left; exact hupd.1.symm
    · rw [hf] at hupd
      simp only [Run.done.injEq, Prod.mk.injEq] at hupd
      right; right
      refine ⟨_, hupd.1.symm, by simp, ?_⟩
      simp [Error.Is, hdrv e2 hf]
  · rw [henc] at hupd
    simp only [Run.bind, Run.done.injEq, Prod.mk.injEq] at hupd
    right; right
    have hns := Encrypt_error_not_sentinel _ _ _ _ _ henc
    refine ⟨e1, hupd.1.symm, ?_, hns⟩
    intro h
    rw [h] at hns
    exact absurd hns (by decide)
  · rw [henc] at hupd
    simp [Run.bind] at hupd

/-- What the `Update` handler answers when the service returns no error, for
a request with a valid id and a body that holds a valid payload: 200. -/
theorem Update_status_ok {σ : Type} (h : DataHandler σ) (r : Request) (w w1 : σ) (body : Bytes)
    (dataBody : handlers.Data)
    (hid : IsValidUUID (r.URLParam (ascii "dataID")) = true)
    (hbody : r.Body = (body, none))
    (hparse : parseDataRequest body (r.URLParam (ascii "type")) = (some dataBody, none))
    (hvalid : dataBody.Valid = true)
    (hupd : h.dataService.Update (context.GetUserID r.ctx) (r.URLParam (ascii "dataID"))
      (r.URLParam (ascii "type")) dataBody.GetData dataBody.GetMeta w = .done (none, w1)) :
    ∃ resp, h.Update r w = .done (resp, w1) ∧ resp.Code = 200 := by
  simp only [DataHandler.Update, hid, hbody, hparse, hvalid, hupd, Run.bind, errorsIs]
  simp only [Bool.not_true, Bool.false_eq_true, if_false, Option.isSome_none]
  rcases (DataResponse.marshal _) with ⟨out, _ | e⟩
  all_goals exact ⟨_, rfl, rfl⟩

/-- C30: for every error value `e` that `Update` of the vault service of the
application (the Postgres repository and the AES-GCM cipher, whose driver
errors are not the sentinel of the repository) returns for a request with a
valid id and a valid payload, the `Update` handler answers 404 when
`errors.Is(e, ErrDataNotFound)` holds, 500 when `e` is another error, and 200
when `e` is nil: 404 exactly under the rule by which the `DeleteByID` and
`GeByID` handlers, as the last two parts say, answer 404 to what their
service calls return. No error
this service returns wraps `ErrDataNotFound`: it returns the sentinel
itself. -/
theorem C30_update_not_found_rule (key : Bytes) (r : Request) (w w1 : World) (body : Bytes)
    (dataBody : handlers.Data) (e : Option Error)
    (hid : IsValidUUID (r.URLParam (ascii "dataID")) = true)
    (hbody : r.Body = (body, none))
    (hparse : parseDataRequest body (r.URLParam (ascii "type")) = (some dataBody, none))
    (hvalid : dataBody.Valid = true)
    (hdrv : ∀ err, w.faults w.statements = some err → err.Is .ErrDataNotFound = false)
    (hupd : (appService key).Update (context.GetUserID r.ctx) (r.URLParam (ascii "dataID"))
      (r.URLParam (ascii "type")) dataBody.GetData dataBody.GetMeta w = .done (e, w1)) :
    (errorsIs e (some .ErrDataNotFound) = true →
      e = some .ErrDataNotFound ∧
      (NewDataHandler (appService key)).Update r w = .done (Response.status 404, w1)) ∧
    (errorsIs e (some .ErrDataNotFound) = false → e ≠ none →
      (NewDataHandler (appService key)).Update r w = .done (Response.status 500, w1)) ∧
    (e = none →
      ∃ resp, (NewDataHandler (appService key)).Update r w = .done (resp, w1) ∧
        resp.Code = 200) ∧
    (∀ (e2 : Option Error) (w2 : World),
      (appService key).DeleteByID (context.GetUserID r.ctx) (r.URLParam (ascii "dataID"))
        (r.URLParam (ascii "type")) w = .done (e2, w2) →
      (errorsIs e2 (some .ErrDataNotFound) = true →
        (NewDataHandler (appService key)).DeleteByID r w = .done (Response.status 404, w2)) ∧
      (errorsIs e2 (some .ErrDataNotFound) = false →
        ((NewDataHandler (appService key)).DeleteByID r w).value ≠
          some (Response.status 404))) ∧
    (∀ (resp : Option DataResponse) (e2 : Option Error) (w2 : World),
      (appService key).GetByID (context.GetUserID r.ctx) (r.URLParam (ascii "dataID"))
        (r.URLParam (ascii "type")) w = .done ((resp, e2), w2) →
      (errorsIs e2 (some .ErrDataNotFound) = true →
        (NewDataHandler (appService key)).GeByID r w = .done (Response.status 404, w2)) ∧
      (errorsIs e2 (some .ErrDataNotFound) = false →
        ((NewDataHandler (appService key)).GeByID r w).value ≠
          some (Response.status 404))) := by
  have hst := Update_status (NewDataHandler (appService key)) r w w1 body dataBody e hid hbody
    hparse hvalid hupd
  have hcls := appService_Update_errors key _ _ _ _ dataBody w w1 e hdrv hupd
  refine ⟨?_, ?_, ?_, ?_, ?_⟩
  · intro his
    rcases hcls with h0 | h1 | ⟨err, h2, _, h3⟩
    · subst h0; simp [errorsIs] at his
    · exact ⟨h1, hst.1 h1⟩
    · subst h2
      simp only [errorsIs] at his
      rw [h3] at his
      exact absurd his (by decide)
  · intro his hne
    rcases hcls with h0 | h1 | ⟨err, h2, h3, _⟩
    · exact absurd h0 hne
    · subst h1; simp [errorsIs, Error.Is] at his
    · exact hst.2 err h2 h3
  · intro h0
    subst h0
    exact Update_status_ok (NewDataHandler (appService key)) r w w1 body dataBody hid hbody
      hparse hvalid hupd
  · intro e2 w2 hdel
    exact DeleteByID_status (NewDataHandler (appService key)) r w w2 e2 hid hdel
  · intro resp e2 w2 hget
    exact GeByID_status (NewDataHandler (appService key)) r w w2 resp e2 hid hget

/-- C30 at a PUT request for a record the table does not hold: the service
returns the sentinel and the handler answers 404. -/
theorem C30_update_not_found_rule_witness :
    (NewDataHandler (appService (ascii "a16byteslongkey!"))).Update
      { ctx := context.SetUserID [] (ascii "user123"),
        URLParams := [(ascii "type", ascii "logpass"),
                      (ascii "dataID", ascii "123e4567-e89b-12d3-a456-426614174000")],
        Body := (ascii ("\x7b\"data\":\x7b\"login\":\"user\",\"password\":\"pw\"\x7d," ++
          "\"meta\":\"m\"\x7d"), none),
        Cookies := [] }
      (World.initial (fun _ => 0) (fun _ => ascii "X")) =
    .done (Response.status 404,
      { World.initial (fun _ => 0) (fun _ => ascii "X") with reads := 1, statements := 1 }) :=
  ((C30_update_not_found_rule (ascii "a16byteslongkey!")
    { ctx := context.SetUserID [] (ascii "user123"),
      URLParams := [(ascii "type", ascii "logpass"),
                    (ascii "dataID", ascii "123e4567-e89b-12d3-a456-426614174000")],
      Body := (ascii ("\x7b\"data\":\x7b\"login\":\"user\",\"password\":\"pw\"\x7d," ++
        "\"meta\":\"m\"\x7d"), none),
      Cookies := [] }
    (World.initial (fun _ => 0) (fun _ => ascii "X"))
    { World.initial (fun _ => 0) (fun _ => ascii "X") with reads := 1, statements := 1 }
    (ascii ("\x7b\"data\":\x7b\"login\":\"user\",\"password\":\"pw\"\x7d," ++ "\"meta\":\"m\"\x7d"))
    (.logpass ⟨⟨ascii "user", ascii "pw"⟩, ascii "m"⟩) (some .ErrDataNotFound)
    (by decide!) rfl (by decide!) (by decide)
    (by intro err h; exact absurd h (by simp [World.initial]))
    (by
      rw [appService_Update_eq (ascii "a16byteslongkey!") _ (fun _ => 0) _ _ _ _ _ (by decide)
        (by decide) (by decide) rfl rfl]
      rfl)).1 (by decide)).2


/-- Behind a repository that is not the one of the program and returns an
error that wraps `ErrDataNotFound`, for which `errors.Is(e,
ErrDataNotFound)` holds, the `DeleteByID` and `GeByID` handlers answer 404
and the `Update` handler answers 500; on the sentinel itself all three
answer 404. -/
theorem Update_wrapped_sentinel_is_500 :
    errorsIs (some (.wrap "update data" .ErrDataNotFound)) (some .ErrDataNotFound) = true ∧
    errorsIs (some .ErrDataNotFound) (some (.wrap "update data" .ErrDataNotFound)) = false ∧
    ((NewDataHandler (NewService
        (MockDataRepository
          { Encrypt := (ascii "encrypted data", none), Decrypt := ([], none),
            AddData := ([], none), GetAllDataByUserID := ([], none),
            GetByUserID := (none, some (.wrap "update data" .ErrDataNotFound)),
            DeleteByID := some (.wrap "update data" .ErrDataNotFound),
            UpdateData := some (.wrap "update data" .ErrDataNotFound) })
        (MockCrypt
          { Encrypt := (ascii "encrypted data", none), Decrypt := ([], none),
            AddData := ([], none), GetAllDataByUserID := ([], none),
            GetByUserID := (none, none), DeleteByID := none, UpdateData := none }))).Update
      { ctx := context.SetUserID [] (ascii "user123"),
        URLParams := [(ascii "type", ascii "logpass"),
                      (ascii "dataID", ascii "123e4567-e89b-12d3-a456-426614174000")],
        Body := (ascii ("\x7b\"data\":\x7b\"login\":\"user\",\"password\":\"pw\"\x7d," ++
          "\"meta\":\"m\"\x7d"), none),
        Cookies := [] } []).value = some (Response.status 500) ∧
    ((NewDataHandler (NewService
        (MockDataRepository
          { Encrypt := (ascii "encrypted data", none), Decrypt := ([], none),
            AddData := ([], none), GetAllDataByUserID := ([], none),
            GetByUserID := (none, some (.wrap "update data" .ErrDataNotFound)),
            DeleteByID := some (.wrap "update data" .ErrDataNotFound),
            UpdateData := some (.wrap "update data" .ErrDataNotFound) })
        (MockCrypt
          { Encrypt := (ascii "encrypted data", none), Decrypt := ([], none),
            AddData := ([], none), GetAllDataByUserID := ([], none),
            GetByUserID := (none, none), DeleteByID := none, UpdateData := none }))).DeleteByID
      { ctx := context.SetUserID [] (ascii "user123"),
        URLParams := [(ascii "type", ascii "logpass"),
                      (ascii "dataID", ascii "123e4567-e89b-12d3-a456-426614174000")],
        Body := ([], none), Cookies := [] } []).value = some (Response.status 404) ∧
    ((NewDataHandler (NewService
        (MockDataRepository
          { Encrypt := (ascii "encrypted data", none), Decrypt := ([], none),
            AddData := ([], none), GetAllDataByUserID := ([], none),
            GetByUserID := (none, some (.wrap "update data" .ErrDataNotFound)),
            DeleteByID := some (.wrap "update data" .ErrDataNotFound),
            UpdateData := some (.wrap "update data" .ErrDataNotFound) })
        (MockCrypt
          { Encrypt := (ascii "encrypted data", none), Decrypt := ([], none),
            AddData := ([], none), GetAllDataByUserID := ([], none),
            GetByUserID := (none, none), DeleteByID := none, UpdateData := none }))).GeByID
      { ctx := context.SetUserID [] (ascii "user123"),
        URLParams := [(ascii "type", ascii "logpass"),
                      (ascii "dataID", ascii "123e4567-e89b-12d3-a456-426614174000")],
        Body := ([], none), Cookies := [] } []).value = some (Response.status 404) ∧
    ((NewDataHandler (NewService
        (MockDataRepository
          { Encrypt := (ascii "encrypted data", none), Decrypt := ([], none),
            AddData := ([], none), GetAllDataByUserID := ([], none),
            GetByUserID := (none, some .ErrDataNotFound),
            DeleteByID := some .ErrDataNotFound,
            UpdateData := some .ErrDataNotFound })
        (MockCrypt
          { Encrypt := (ascii "encrypted data", none), Decrypt := ([], none),
            AddData := ([], none), GetAllDataByUserID := ([], none),
            GetByUserID := (none, none), DeleteByID := none, UpdateData := none }))).Update
      { ctx := context.SetUserID [] (ascii "user123"),
        URLParams := [(ascii "type", ascii "logpass"),
                      (ascii "dataID", ascii "123e4567-e89b-12d3-a456-426614174000")],
        Body := (ascii ("\x7b\"data\":\x7b\"login\":\"user\",\"password\":\"pw\"\x7d," ++
          "\"meta\":\"m\"\x7d"), none),
        Cookies := [] } []).value = some (Response.status 404) := by
  refine ⟨by decide, by decide, by decide!, by decide!, by decide!, by decide!⟩


end GoKeeper
